import Mathlib

/-!
# StdUtils: real OS version detection

A shallow embedding of the version/build detection code of the StdUtils plug-in
(`Contrib/StdUtils/src/DetectOsVersion.cpp`, `Contrib/StdUtils/src/Mutex.h`,
`Contrib/StdUtils/DetectOsVersion.cpp`, `Contrib/StdUtils/StdUtils.cpp`) and of the string
helpers it is shipped with (`Contrib/StdUtils/ParameterParser.cpp`,
`Contrib/StdUtils/UnicodeSupport.cpp`).

Conventions of the embedding:

* machine integers are natural numbers; `DWORD x` and `WORD x` reduce a value to the
  32-bit and 16-bit range wherever the C code stores into a variable of that type;
* the operating system is an `Env`: the answer of the info query and the two probe
  functions;
* a `for` loop is a function recursing on a fuel argument, one unit of fuel per
  evaluation of the loop condition; `none` means the fuel ran out;
* every call to the operating system and to the critical section is recorded in a
  list of `Event`s, oldest first;
* a run that has not ended (or never ends) is taken by the events it has issued after at
  most `fuel` iterations of each loop (`Src.major_loop_prefix`, ..., `call_events`);
* racing threads are interleaved at their atomic steps by a schedule, and the run of each
  thread gets its own answers from the operating system (`run_schedule`);
* `TCHAR`, `char` and `wchar_t` are `Char`; a function that writes into a character array
  (`strtrim`) works on the array as a list that contains the terminating `NUL`, a function
  that only reads strings (`parse_commandline`) on the characters in front of it.
-/

namespace StdUtils

/-! ## Machine integers and constants -/

/-- Value of an expression stored into a 32-bit unsigned variable (`DWORD`, `unsigned int`). -/
def DWORD (x : Nat) : Nat := x % 2 ^ 32

/-- Value of an expression stored into a 16-bit unsigned variable (`WORD`). -/
def WORD (x : Nat) : Nat := x % 2 ^ 16

/-- Value of an expression stored into an 8-bit unsigned variable (`BYTE`). -/
def BYTE (x : Nat) : Nat := x % 2 ^ 8

/-- The constant `INT_MAX` of `include/common/msvc_utils.h`. -/
def INT_MAX : Nat := 2147483647

/-- Modelled from the spec: the identifier of the "expected native family" of the
platform (`VER_PLATFORM_WIN32_NT`, declared in the Windows headers, which are not part
of the sources). Only equality with it is ever tested. -/
def VER_PLATFORM_WIN32_NT : Nat := 2

/-- Modelled from the spec: product type "workstation" (`VER_NT_WORKSTATION` of the
Windows headers, which are not part of the sources). -/
def VER_NT_WORKSTATION : Nat := 1

/-- Modelled from the spec: product type "domain-controller"
(`VER_NT_DOMAIN_CONTROLLER` of the Windows headers, which are not part of the sources). -/
def VER_NT_DOMAIN_CONTROLLER : Nat := 2

/-- Modelled from the spec: product type "server" (`VER_NT_SERVER` of the Windows
headers, which are not part of the sources). -/
def VER_NT_SERVER : Nat := 3

/-! ## The operating system as seen by the detection code -/

/-- The fields of `OSVERSIONINFOEXW` that the code reads. -/
structure OSVERSIONINFOEXW where
  dwMajorVersion : Nat
  dwMinorVersion : Nat
  dwBuildNumber : Nat
  dwPlatformId : Nat
  wServicePackMajor : Nat
  wProductType : Nat
  deriving DecidableEq, Repr

/-- The environment of one process: the verbose flag, the result of the info query
`get_os_info` (`none` when the query fails) and the answers of the two probe
primitives `verify_os_version` and `verify_os_buildNo`. The three functions wrap calls of
the operating system (`RtlGetVersion`, `GetVersionExW`, `RtlVerifyVersionInfo`,
`VerifyVersionInfoW`); a probe returns `false` on every failure, and the notice it may show
in verbose mode is not recorded. -/
structure Env where
  g_bStdUtilsVerbose : Bool
  get_os_info : Option OSVERSIONINFOEXW
  verify_os_version : Nat → Nat → Nat → Bool
  verify_os_buildNo : Nat → Bool

/-- Calls that leave the process, in the order they are made. -/
inductive Event where
  | EnterCriticalSection
  | LeaveCriticalSection
  | get_os_info
  | verify_os_version (major minor spack : Nat)
  | verify_os_buildNo (buildNo : Nat)
  | MessageBox
  deriving DecidableEq, Repr

/-- The fatal fault raised by the guard:
`RaiseException(ERROR_POSSIBLE_DEADLOCK, EXCEPTION_NONCONTINUABLE, 0, NULL)`. -/
inductive Fault where
  | ERROR_POSSIBLE_DEADLOCK
  deriving DecidableEq, Repr

/-- How a call ends: it returns, it raises the non-continuable fault, or the fuel of
the model ran out before it ended. -/
inductive Outcome (α : Type) where
  | returned (a : α)
  | raised (f : Fault)
  | outOfFuel
  deriving DecidableEq, Repr

/-- What the caller of `get_real_os_version` sees: the returned flag and the four
out-parameters. -/
structure VersionOut where
  ret : Bool
  major : Nat
  minor : Nat
  spack : Nat
  pbOverride : Bool
  deriving DecidableEq, Repr

namespace Src

/-! ## `src/Mutex.h` -/

/-- The guard object of `src/Mutex.h`: its `m_locked` flag (the critical section it
points to is the single process-wide one). -/
structure MutexLocker where
  m_locked : Bool
  deriving DecidableEq, Repr

/-- Constructor `MutexLocker(mutex)`: enters the critical section, sets `m_locked`. -/
def MutexLocker.ctor (tr : List Event) : MutexLocker × List Event :=
  ({ m_locked := true }, tr ++ [Event.EnterCriticalSection])

/-- Destructor `~MutexLocker()`: leaves the critical section if `m_locked`. -/
def MutexLocker.dtor (l : MutexLocker) (tr : List Event) : List Event :=
  if l.m_locked then tr ++ [Event.LeaveCriticalSection] else tr

/-- Method `unlock()`: raises the fault when not locked, otherwise leaves the critical
section and clears `m_locked`. -/
def MutexLocker.unlock (l : MutexLocker) (tr : List Event) :
    Except Fault (MutexLocker × List Event) :=
  if !l.m_locked then Except.error Fault.ERROR_POSSIBLE_DEADLOCK
  else Except.ok ({ m_locked := false }, tr ++ [Event.LeaveCriticalSection])

/-- Method `relock()`: raises the fault when locked, otherwise enters the critical
section and sets `m_locked`. -/
def MutexLocker.relock (l : MutexLocker) (tr : List Event) :
    Except Fault (MutexLocker × List Event) :=
  if l.m_locked then Except.error Fault.ERROR_POSSIBLE_DEADLOCK
  else Except.ok ({ m_locked := true }, tr ++ [Event.EnterCriticalSection])

/-! ## `src/DetectOsVersion.cpp` -/

/-- The constant `MAX_VALUE` of `get_real_os_version`. -/
def MAX_VALUE : Nat := 0xFFFF

/-- The lazy-initialisation variables `g_os_version_*`. -/
structure Cache where
  g_os_version_major : Nat
  g_os_version_minor : Nat
  g_os_version_spack : Nat
  g_os_version_build : Nat
  g_os_version_bOverride : Bool
  deriving DecidableEq, Repr

/-- The cache as the module loader leaves it: all zero, flag false. -/
def Cache.zero : Cache :=
  { g_os_version_major := 0, g_os_version_minor := 0, g_os_version_spack := 0,
    g_os_version_build := 0, g_os_version_bOverride := false }

/-- The out-parameters `*major`, `*minor`, `*spack`, `*pbOverride` of
`get_real_os_version` during a run, with the events of the run so far. -/
structure VerState where
  major : Nat
  minor : Nat
  spack : Nat
  bOverride : Bool
  trace : List Event
  deriving DecidableEq, Repr

/-- The diagnostic of a failed step: a message box, shown only in verbose mode. -/
def verbose_box (env : Env) (tr : List Event) : List Event :=
  if env.g_bStdUtilsVerbose then tr ++ [Event.MessageBox] else tr

/-- The loop of lines 110-120: `for(DWORD nextMajor = (*major) + 1; nextMajor <= MAX_VALUE;
nextMajor++)`, entered with the current value of `nextMajor`. -/
def major_loop (env : Env) : Nat → Nat → VerState → Option VerState
  | 0, _, _ => none
  | fuel + 1, nextMajor, v =>
    if nextMajor ≤ MAX_VALUE then
      let v1 := { v with trace := v.trace ++ [Event.verify_os_version nextMajor 0 0] }
      if env.verify_os_version nextMajor 0 0 then
        major_loop env fuel (DWORD (nextMajor + 1))
          { v1 with major := nextMajor, minor := 0, spack := 0, bOverride := true }
      else some v1
    else some v

/-- The loop of lines 123-133: `for(DWORD nextMinor = (*minor) + 1; nextMinor <= MAX_VALUE;
nextMinor++)`, entered with the current value of `nextMinor`. -/
def minor_loop (env : Env) : Nat → Nat → VerState → Option VerState
  | 0, _, _ => none
  | fuel + 1, nextMinor, v =>
    if nextMinor ≤ MAX_VALUE then
      let v1 := { v with trace := v.trace ++ [Event.verify_os_version v.major nextMinor 0] }
      if env.verify_os_version v.major nextMinor 0 then
        minor_loop env fuel (DWORD (nextMinor + 1))
          { v1 with minor := nextMinor, spack := 0, bOverride := true }
      else some v1
    else some v

/-- The loop of lines 136-145: `for(WORD nextSpack = (*spack) + 1; nextSpack <= MAX_VALUE;
nextSpack++)`, entered with the current value of `nextSpack`. The counter is a `WORD`:
its increment wraps at 16 bits. -/
def spack_loop (env : Env) : Nat → Nat → VerState → Option VerState
  | 0, _, _ => none
  | fuel + 1, nextSpack, v =>
    if nextSpack ≤ MAX_VALUE then
      let v1 := { v with trace := v.trace ++ [Event.verify_os_version v.major v.minor nextSpack] }
      if env.verify_os_version v.major v.minor nextSpack then
        spack_loop env fuel (WORD (nextSpack + 1))
          { v1 with spack := nextSpack, bOverride := true }
      else some v1
    else some v

/-- Lines 74-151 of `get_real_os_version`, the part that runs with the guard released:
info query, platform check, the three climbs and the overflow check. The result is
`none` when the fuel runs out, otherwise whether the run goes on to the commit step
(`true`) or returns `false`, together with the out-parameters. -/
def get_real_os_version_detect (env : Env) (fuel : Nat) (tr : List Event) :
    Option (Bool × VerState) :=
  let tr1 := tr ++ [Event.get_os_info]
  match env.get_os_info with
  | none =>
    some (false, { major := 0, minor := 0, spack := 0, bOverride := false,
                   trace := verbose_box env tr1 })
  | some osvi =>
    let start : Bool × VerState :=
      if osvi.dwPlatformId = VER_PLATFORM_WIN32_NT then
        (true, { major := DWORD osvi.dwMajorVersion, minor := DWORD osvi.dwMinorVersion,
                 spack := WORD osvi.wServicePackMajor, bOverride := false, trace := tr1 })
      else if env.verify_os_version 4 0 0 then
        (true, { major := 4, minor := 0, spack := 0, bOverride := true,
                 trace := tr1 ++ [Event.verify_os_version 4 0 0] })
      else
        (false, { major := 0, minor := 0, spack := 0, bOverride := false,
                  trace := tr1 ++ [Event.verify_os_version 4 0 0] })
    if start.1 then
      match major_loop env fuel (DWORD (start.2.major + 1)) start.2 with
      | none => none
      | some v1 =>
        match minor_loop env fuel (DWORD (v1.minor + 1)) v1 with
        | none => none
        | some v2 =>
          match spack_loop env fuel (WORD (DWORD (v2.spack + 1))) v2 with
          | none => none
          | some v3 =>
            if v3.major ≥ MAX_VALUE ∨ v3.minor ≥ MAX_VALUE ∨ v3.spack ≥ MAX_VALUE then
              some (false, v3)
            else some (true, v3)
    else some start

/-- Lines 156-173 of `get_real_os_version`, run with the guard held again: store the
result if the cached tuple is still all zero, otherwise return the cached values. -/
def get_real_os_version_commit (v : VerState) (g : Cache) : VersionOut × Cache :=
  if g.g_os_version_major = 0 ∧ g.g_os_version_minor = 0 ∧ g.g_os_version_spack = 0 then
    ({ ret := true, major := v.major, minor := v.minor, spack := v.spack,
       pbOverride := v.bOverride },
     { g with g_os_version_major := v.major, g_os_version_minor := v.minor,
              g_os_version_spack := v.spack,
              g_os_version_bOverride := g.g_os_version_bOverride || v.bOverride })
  else
    ({ ret := true, major := g.g_os_version_major, minor := g.g_os_version_minor,
       spack := g.g_os_version_spack, pbOverride := g.g_os_version_bOverride }, g)

/-- The function `get_real_os_version` where other callers may have written the cache
while the guard was released: `g` is the cache at the cache check, `gLater` the cache
found when the unlocked part ends. The result is what the caller sees, the cache the
call leaves, and the events of the call. -/
def get_real_os_version_at (env : Env) (fuel : Nat) (g gLater : Cache) :
    Outcome (VersionOut × Cache × List Event) :=
  let (lock, tr) := MutexLocker.ctor []
  if g.g_os_version_major ≠ 0 ∨ g.g_os_version_minor ≠ 0 ∨ g.g_os_version_spack ≠ 0 then
    Outcome.returned
      ({ ret := true, major := g.g_os_version_major, minor := g.g_os_version_minor,
         spack := g.g_os_version_spack, pbOverride := g.g_os_version_bOverride },
       g, lock.dtor tr)
  else
    match lock.unlock tr with
    | Except.error f => Outcome.raised f
    | Except.ok (lock1, tr1) =>
      match get_real_os_version_detect env fuel tr1 with
      | none => Outcome.outOfFuel
      | some (false, v) =>
        Outcome.returned
          ({ ret := false, major := v.major, minor := v.minor, spack := v.spack,
             pbOverride := v.bOverride }, gLater, lock1.dtor v.trace)
      | some (true, v) =>
        match lock1.relock v.trace with
        | Except.error f => Outcome.raised f
        | Except.ok (lock2, tr2) =>
          let r := get_real_os_version_commit v gLater
          Outcome.returned (r.1, r.2, lock2.dtor tr2)

/-- The function `get_real_os_version` of `src/DetectOsVersion.cpp` called with cache `g`
and nobody else writing the cache during the call. -/
def get_real_os_version (env : Env) (fuel : Nat) (g : Cache) :
    Outcome (VersionOut × Cache × List Event) :=
  get_real_os_version_at env fuel g g

/-- The out-parameters `*buildNo`, `*pbOverride` of `get_real_os_buildNo` during a run,
with the events of the run so far. -/
structure BuildState where
  buildNo : Nat
  bOverride : Bool
  trace : List Event
  deriving DecidableEq, Repr

/-- What the caller of `get_real_os_buildNo` sees: the returned flag and the two
out-parameters. -/
structure BuildOut where
  ret : Bool
  buildNo : Nat
  pbOverride : Bool
  deriving DecidableEq, Repr

/-- The loop of lines 235-249: `for(DWORD nextBuildNo = (*buildNo); nextBuildNo < INT_MAX;
nextBuildNo = (*buildNo) + stepSize)`, entered with the current values of `stepSize`
and `nextBuildNo`. -/
def build_loop (env : Env) : Nat → Nat → Nat → BuildState → Option BuildState
  | 0, _, _, _ => none
  | fuel + 1, stepSize, nextBuildNo, b =>
    if nextBuildNo < INT_MAX then
      let b1 := { b with trace := b.trace ++ [Event.verify_os_buildNo nextBuildNo] }
      if env.verify_os_buildNo nextBuildNo then
        build_loop env fuel stepSize (DWORD (nextBuildNo + stepSize))
          { b1 with buildNo := nextBuildNo, bOverride := true }
      else if stepSize > 1 then
        build_loop env fuel (stepSize / 2) (DWORD (b1.buildNo + stepSize / 2)) b1
      else some b1
    else some b

/-- Lines 198-249 of `get_real_os_buildNo`, the part that runs with the guard released,
with the initial value of `stepSize` (4096 in the source) as the parameter `stepSize0`.
The result is `none` when the fuel runs out, otherwise whether the run goes on to the
commit step (`true`) or returns `false`, together with the out-parameters. -/
def get_real_os_buildNo_detect (stepSize0 : Nat) (env : Env) (fuel : Nat) (tr : List Event) :
    Option (Bool × BuildState) :=
  let tr1 := tr ++ [Event.get_os_info]
  match env.get_os_info with
  | none => some (false, { buildNo := 0, bOverride := false, trace := verbose_box env tr1 })
  | some osvi =>
    let start : Bool × BuildState :=
      if osvi.dwPlatformId = VER_PLATFORM_WIN32_NT then
        (true, { buildNo := DWORD osvi.dwBuildNumber, bOverride := false, trace := tr1 })
      else if env.verify_os_version 4 0 0 then
        (true, { buildNo := 1381, bOverride := true,
                 trace := tr1 ++ [Event.verify_os_version 4 0 0] })
      else
        (false, { buildNo := 0, bOverride := false,
                  trace := tr1 ++ [Event.verify_os_version 4 0 0] })
    if start.1 then
      match build_loop env fuel (DWORD stepSize0) start.2.buildNo start.2 with
      | none => none
      | some b => some (true, b)
    else some start

/-- Lines 254-267 of `get_real_os_buildNo`, run with the guard held again: store the
result if the cached build number is still zero, otherwise return the cached values. -/
def get_real_os_buildNo_commit (b : BuildState) (g : Cache) : BuildOut × Cache :=
  if g.g_os_version_build = 0 then
    ({ ret := true, buildNo := b.buildNo, pbOverride := b.bOverride },
     { g with g_os_version_build := b.buildNo,
              g_os_version_bOverride := g.g_os_version_bOverride || b.bOverride })
  else
    ({ ret := true, buildNo := g.g_os_version_build, pbOverride := g.g_os_version_bOverride }, g)

/-- The function `get_real_os_buildNo` with the initial step size as a parameter and
where other callers may have written the cache while the guard was released: `g` is the
cache at the cache check, `gLater` the cache found when the unlocked part ends. -/
def get_real_os_buildNo_at (stepSize0 : Nat) (env : Env) (fuel : Nat) (g gLater : Cache) :
    Outcome (BuildOut × Cache × List Event) :=
  let (lock, tr) := MutexLocker.ctor []
  if g.g_os_version_build ≠ 0 then
    Outcome.returned
      ({ ret := true, buildNo := g.g_os_version_build, pbOverride := g.g_os_version_bOverride },
       g, lock.dtor tr)
  else
    match lock.unlock tr with
    | Except.error f => Outcome.raised f
    | Except.ok (lock1, tr1) =>
      match get_real_os_buildNo_detect stepSize0 env fuel tr1 with
      | none => Outcome.outOfFuel
      | some (false, b) =>
        Outcome.returned
          ({ ret := false, buildNo := b.buildNo, pbOverride := b.bOverride },
           gLater, lock1.dtor b.trace)
      | some (true, b) =>
        match lock1.relock b.trace with
        | Except.error f => Outcome.raised f
        | Except.ok (lock2, tr2) =>
          let r := get_real_os_buildNo_commit b gLater
          Outcome.returned (r.1, r.2, lock2.dtor tr2)

/-- The function `get_real_os_buildNo` of `src/DetectOsVersion.cpp` (initial step 4096)
called with cache `g` and nobody else writing the cache during the call. -/
def get_real_os_buildNo (env : Env) (fuel : Nat) (g : Cache) :
    Outcome (BuildOut × Cache × List Event) :=
  get_real_os_buildNo_at 4096 env fuel g g

/-- The table `s_names` of `get_os_friendly_name`: major, minor, name. -/
def s_names : List (Nat × Nat × String) :=
  [ (4, 0, "Windows NT 4.0"),
    (5, 0, "Windows 2000"),
    (5, 1, "Windows XP"),
    (5, 2, "Windows XP (x64)"),
    (6, 0, "Windows Vista"),
    (6, 1, "Windows 7"),
    (6, 2, "Windows 8"),
    (6, 3, "Windows 8.1"),
    (10, 0, "Windows 10") ]

/-- The constant `NAME_COUNT` of `get_os_friendly_name`. -/
def NAME_COUNT : Nat := 9

/-- The loop of lines 296-302: `for(size_t i = 0; i < NAME_COUNT; i++)`, entered with the
current value of `i`; `todo` counts the indices still to visit. It returns the name of
the first entry from index `i` on whose key is `(major, minor)`. -/
def name_loop (major minor : Nat) : Nat → Nat → Option String
  | 0, _ => none
  | todo + 1, i =>
    match s_names.get? i with
    | some (emajor, eminor, name) =>
      if emajor = major ∧ eminor = minor then some name
      else name_loop major minor todo (i + 1)
    | none => none

/-- The function `get_os_friendly_name` of `src/DetectOsVersion.cpp`: the name returned and
the events of the call (the warning box of verbose mode on a miss). -/
def get_os_friendly_name (env : Env) (major minor : Nat) : String × List Event :=
  match name_loop major minor NAME_COUNT 0 with
  | some name => (name, [])
  | none => ("unknown", verbose_box env [])

/-- The variables of `get_os_server_edition`: the caller's variable bound to the reference
parameter `bIsServer`, and the local `success`. -/
structure ServerVars where
  bIsServer : Bool
  success : Bool
  deriving DecidableEq, Repr

/-- The function `get_os_server_edition` of `src/DetectOsVersion.cpp`. The reference parameter
`bIsServer` is given with the value the caller's variable holds before the call; the result
is the returned flag `success`, the value of the caller's variable after the call, and the
events of the call. -/
def get_os_server_edition (env : Env) (bIsServer : Bool) : Bool × Bool × List Event :=
  let entry : ServerVars := { bIsServer := bIsServer, success := false }
  let s0 : ServerVars := { entry with bIsServer := false }
  let s1 : ServerVars :=
    match env.get_os_info with
    | some osvi =>
      if BYTE osvi.wProductType = VER_NT_SERVER
          ∨ BYTE osvi.wProductType = VER_NT_DOMAIN_CONTROLLER then
        { s0 with success := true, bIsServer := true }
      else if BYTE osvi.wProductType = VER_NT_WORKSTATION then
        { s0 with success := true, bIsServer := false }
      else s0
    | none => s0
  (s1.success, s1.bIsServer, [Event.get_os_info])

end Src

/-! ## `DetectOsVersion.cpp` (the version next to `StdUtils.cpp`, without cache) -/

/-- The constant `MAX_VALUE` of `get_real_os_version` in `DetectOsVersion.cpp`. -/
def MAX_VALUE : Nat := 1024

/-- The out-parameters `*major`, `*minor`, `*spack`, `*pbOverride` of
`get_real_os_version` during a run. -/
structure VerParams where
  major : Nat
  minor : Nat
  spack : Nat
  bOverride : Bool
  deriving DecidableEq, Repr

/-- The loop of lines 79-89 of `DetectOsVersion.cpp`: `for(DWORD nextMajor = (*major) + 1;
nextMajor <= MAX_VALUE; nextMajor++)`, entered with the current value of `nextMajor`. -/
def major_loop (env : Env) : Nat → Nat → VerParams → Option VerParams
  | 0, _, _ => none
  | fuel + 1, nextMajor, v =>
    if nextMajor ≤ MAX_VALUE then
      if env.verify_os_version nextMajor 0 0 then
        major_loop env fuel (DWORD (nextMajor + 1))
          { v with major := nextMajor, minor := 0, spack := 0, bOverride := true }
      else some v
    else some v

/-- The loop of lines 92-102 of `DetectOsVersion.cpp`: `for(DWORD nextMinor = (*minor) + 1;
nextMinor <= MAX_VALUE; nextMinor++)`, entered with the current value of `nextMinor`. -/
def minor_loop (env : Env) : Nat → Nat → VerParams → Option VerParams
  | 0, _, _ => none
  | fuel + 1, nextMinor, v =>
    if nextMinor ≤ MAX_VALUE then
      if env.verify_os_version v.major nextMinor 0 then
        minor_loop env fuel (DWORD (nextMinor + 1))
          { v with minor := nextMinor, spack := 0, bOverride := true }
      else some v
    else some v

/-- The loop of lines 105-114 of `DetectOsVersion.cpp`: `for(DWORD nextSpack = (*spack) + 1;
nextSpack <= MAX_VALUE; nextSpack++)`, entered with the current value of `nextSpack`. -/
def spack_loop (env : Env) : Nat → Nat → VerParams → Option VerParams
  | 0, _, _ => none
  | fuel + 1, nextSpack, v =>
    if nextSpack ≤ MAX_VALUE then
      if env.verify_os_version v.major v.minor nextSpack then
        spack_loop env fuel (DWORD (nextSpack + 1)) { v with spack := nextSpack, bOverride := true }
      else some v
    else some v

/-- The function `get_real_os_version` of `DetectOsVersion.cpp`; the info query is
`GetVersionExW`, whose answer is `env.get_os_info`. The result is `none` when the fuel
runs out. -/
def get_real_os_version (env : Env) (fuel : Nat) : Option VersionOut :=
  match env.get_os_info with
  | none => some { ret := false, major := 0, minor := 0, spack := 0, pbOverride := false }
  | some osvi =>
    let start : Bool × VerParams :=
      if osvi.dwPlatformId = VER_PLATFORM_WIN32_NT then
        (true, { major := DWORD osvi.dwMajorVersion, minor := DWORD osvi.dwMinorVersion,
                 spack := WORD osvi.wServicePackMajor, bOverride := false })
      else if env.verify_os_version 4 0 0 then
        (true, { major := 4, minor := 0, spack := 0, bOverride := true })
      else
        (false, { major := 0, minor := 0, spack := 0, bOverride := false })
    if start.1 then
      match major_loop env fuel (DWORD (start.2.major + 1)) start.2 with
      | none => none
      | some v1 =>
        match minor_loop env fuel (DWORD (v1.minor + 1)) v1 with
        | none => none
        | some v2 =>
          match spack_loop env fuel (DWORD (v2.spack + 1)) v2 with
          | none => none
          | some v3 =>
            some { ret := !(decide (v3.major ≥ MAX_VALUE ∨ v3.minor ≥ MAX_VALUE
                                    ∨ v3.spack ≥ MAX_VALUE)),
                   major := v3.major, minor := v3.minor, spack := v3.spack,
                   pbOverride := v3.bOverride }
    else some { ret := false, major := 0, minor := 0, spack := 0, pbOverride := false }

/-! ## `StdUtils.cpp` -/

/-- Modelled from the spec: one entry of the installer host's argument stack, already
marshalled as an integer or a string (the host binding `pluginapi` is not part of the
sources). -/
inductive StackItem where
  | int (v : Int)
  | str (s : String)
  deriving DecidableEq, Repr

/-- Modelled from the spec: `popint` of the host binding (not part of the sources): pops
the top entry as an integer; a string entry or an empty stack reads as 0. -/
def popint : List StackItem → Int × List StackItem
  | StackItem.int v :: rest => (v, rest)
  | StackItem.str _ :: rest => (0, rest)
  | [] => (0, [])

/-- Modelled from the spec: `pushstring` of the host binding (not part of the sources):
the value pushed last is read first. -/
def pushstring (s : String) (stack : List StackItem) : List StackItem :=
  StackItem.str s :: stack

/-- The C library function `abs` on `int` (declared in `include/common/msvc_utils.h`). -/
def abs (x : Int) : Int := if x < 0 then -x else x

/-- Conversion of an `int` value to `unsigned int`. -/
def UINT (x : Int) : Nat := (x % 2 ^ 32).toNat

/-- The loop of lines 817-829 of `StdUtils.cpp`: `for(size_t i = 0; i < 3; i++)`, entered
with the current value of `i`; `todo` counts the indices still to visit. It returns the
string pushed by the iteration that returns, or `none` when the loop runs to its end. -/
def version_loop (detectedVersion expectedVersion : List Nat) : Nat → Nat → Option String
  | 0, _ => none
  | todo + 1, i =>
    if detectedVersion.getD i 0 > expectedVersion.getD i 0 then some "newer"
    else if detectedVersion.getD i 0 < expectedVersion.getD i 0 then some "older"
    else version_loop detectedVersion expectedVersion todo (i + 1)

/-- The plug-in function `VerifyRealOsVersion` of `StdUtils.cpp` as a function on the host
stack. The `get_real_os_version` it calls is the one of `DetectOsVersion.cpp` in the same
directory: `StdUtils.cpp` defines `g_mutex` and `g_bVerbose`, not the `g_pStdUtilsMutex` and
`g_bStdUtilsVerbose` that `src/DetectOsVersion.cpp` needs. The macros `EXDLL_INIT` and
`REGSITER_CALLBACK` set up the host binding and do not touch the stack contents. The
result is `none` when the fuel runs out. -/
def VerifyRealOsVersion (env : Env) (fuel : Nat) (stack : List StackItem) :
    Option (List StackItem) :=
  let p2 := popint stack
  let p1 := popint p2.2
  let p0 := popint p1.2
  let expectedVersion := [UINT (abs p0.1), UINT (abs p1.1), UINT (abs p2.1)]
  match get_real_os_version env fuel with
  | none => none
  | some out =>
    if !out.ret then some (pushstring "error" p0.2)
    else
      match version_loop [out.major, out.minor, out.spack] expectedVersion 3 0 with
      | some s => some (pushstring s p0.2)
      | none => some (pushstring "ok" p0.2)

/-! ## Orders on version tuples, used to state the properties -/

/-- Lexicographic "strictly smaller" on (major, minor, servicepack), major first. -/
def lexLt (a b : Nat × Nat × Nat) : Prop :=
  a.1 < b.1 ∨ (a.1 = b.1 ∧ (a.2.1 < b.2.1 ∨ (a.2.1 = b.2.1 ∧ a.2.2 < b.2.2)))

/-- Lexicographic "smaller or equal" on (major, minor, servicepack), major first. -/
def lexLe (a b : Nat × Nat × Nat) : Prop :=
  a.1 < b.1 ∨ (a.1 = b.1 ∧ (a.2.1 < b.2.1 ∨ (a.2.1 = b.2.1 ∧ a.2.2 ≤ b.2.2)))

instance (a b : Nat × Nat × Nat) : Decidable (lexLt a b) := by
  unfold lexLt; infer_instance

instance (a b : Nat × Nat × Nat) : Decidable (lexLe a b) := by
  unfold lexLe; infer_instance

/-! ## Stub environments of the testable properties -/

/-- A report of the native platform family with the given version tuple and build number
(product type workstation). -/
def nt_report (r : Nat × Nat × Nat) (build : Nat) : OSVERSIONINFOEXW :=
  { dwMajorVersion := r.1, dwMinorVersion := r.2.1, dwBuildNumber := build,
    dwPlatformId := VER_PLATFORM_WIN32_NT, wServicePackMajor := r.2.2,
    wProductType := VER_NT_WORKSTATION }

/-- A report of a platform family other than the native one (platform identifier 1, the
family of Windows 95/98) with the given version tuple. -/
def legacy_report (r : Nat × Nat × Nat) : OSVERSIONINFOEXW :=
  { dwMajorVersion := r.1, dwMinorVersion := r.2.1, dwBuildNumber := 0,
    dwPlatformId := 1, wServicePackMajor := r.2.2,
    wProductType := VER_NT_WORKSTATION }

/-- The stub environment with thresholds: the info query answers `info`, the version
probe is true exactly for the tuples lexicographically smaller than or equal to `T`, the
build probe exactly for the build numbers up to `Tb`. -/
def stub_env (info : Option OSVERSIONINFOEXW) (T : Nat × Nat × Nat) (Tb : Nat) : Env :=
  { g_bStdUtilsVerbose := false, get_os_info := info,
    verify_os_version := fun a b c => decide (lexLe (a, b, c) T),
    verify_os_buildNo := fun b => decide (b ≤ Tb) }

/-- The stub environment whose probes answer true for every argument. -/
def always_true_env (info : Option OSVERSIONINFOEXW) : Env :=
  { g_bStdUtilsVerbose := false, get_os_info := info,
    verify_os_version := fun _ _ _ => true,
    verify_os_buildNo := fun _ => true }

/-! ## Sequences of calls -/

/-- The results, in order, of `n` calls of `get_real_os_version` made one after the other in
one process, the first one finding the cache `g`, together with the cache after the last
call; `none` if one of the calls does not return. -/
def call_sequence (env : Env) (fuel : Nat) : Nat → Src.Cache → Option (List VersionOut × Src.Cache)
  | 0, g => some ([], g)
  | n + 1, g =>
    match Src.get_real_os_version env fuel g with
    | Outcome.returned (out, g1, _) =>
      match call_sequence env fuel n g1 with
      | some (outs, g2) => some (out :: outs, g2)
      | none => none
    | _ => none

/-! ## Counting probes -/

/-- Whether an event is a call of the build probe `verify_os_buildNo`. -/
def Event.is_build_probe : Event → Bool
  | Event.verify_os_buildNo _ => true
  | _ => false

/-- Number of calls of the build probe among the events. -/
def build_probes (tr : List Event) : Nat := tr.countP Event.is_build_probe

/-- Number of probes the halving phase needs against a threshold probe, when it starts
with step `2 ^ k` at a build number `d` below the threshold, `d < 2 ^ (k + 1)`: at every
step size one failing probe, preceded by one successful probe when the step still fits. -/
def tail_probes : Nat → Nat → Nat
  | 0, d => if 1 ≤ d then 2 else 1
  | k + 1, d =>
    if 2 ^ (k + 1) ≤ d then 2 + tail_probes k (d - 2 ^ (k + 1)) else 1 + tail_probes k d

/-! ## Calls made one after the other -/

/-- One call of the detection subsystem, with the environment it runs in and its fuel. -/
inductive Call where
  | version (env : Env) (fuel : Nat)
  | buildNo (env : Env) (fuel : Nat)

/-- The cache a call leaves when it is made on the cache `g` (nobody else writing);
`none` if the call does not return. -/
def run_call : Call → Src.Cache → Option Src.Cache
  | Call.version env fuel, g =>
    match Src.get_real_os_version env fuel g with
    | Outcome.returned (_, g1, _) => some g1
    | _ => none
  | Call.buildNo env fuel, g =>
    match Src.get_real_os_buildNo env fuel g with
    | Outcome.returned (_, g1, _) => some g1
    | _ => none

/-- The cache after a list of calls made one after the other, starting with the cache `g`;
`none` if one of the calls does not return. -/
def run_calls : List Call → Src.Cache → Option Src.Cache
  | [], g => some g
  | c :: rest, g =>
    match run_call c g with
    | some g1 => run_calls rest g1
    | none => none

/-! ## Probes of a climb -/

/-- The probes `(next, 0, 0)`, `(next + 1, 0, 0)`, ... of a major climb: `k` of them, majors
in consecutive steps of 1. -/
def major_probes : Nat → Nat → List Event
  | _, 0 => []
  | next, k + 1 => Event.verify_os_version next 0 0 :: major_probes (next + 1) k

/-! ## Concurrent callers -/

/-- Where a thread that calls `get_real_os_version` stands: before the cache check, in the
unlocked part between the cache check and the commit step, or returned with its result. -/
inductive Thread where
  | start
  | climbing
  | finished (out : VersionOut)
  deriving DecidableEq, Repr

/-- The cache and the threads (numbered by natural numbers) of one process. -/
structure System where
  cache : Src.Cache
  threads : Nat → Thread

/-- The process at the start of the race: empty cache, no thread has called yet. -/
def System.init : System :=
  { cache := Src.Cache.zero, threads := fun _ => Thread.start }

/-- The loop of lines 235-249 of `src/DetectOsVersion.cpp` once more (`Src.build_loop`),
returning with the out-parameters the values that the locals `stepSize` and `nextBuildNo`
hold when the loop is left. -/
def Src.build_loop_exit (env : Env) :
    Nat → Nat → Nat → Src.BuildState → Option (Nat × Nat × Src.BuildState)
  | 0, _, _, _ => none
  | fuel + 1, stepSize, nextBuildNo, b =>
    if nextBuildNo < INT_MAX then
      let b1 := { b with trace := b.trace ++ [Event.verify_os_buildNo nextBuildNo] }
      if env.verify_os_buildNo nextBuildNo then
        Src.build_loop_exit env fuel stepSize (DWORD (nextBuildNo + stepSize))
          { b1 with buildNo := nextBuildNo, bOverride := true }
      else if stepSize > 1 then
        Src.build_loop_exit env fuel (stepSize / 2) (DWORD (b1.buildNo + stepSize / 2)) b1
      else some (stepSize, nextBuildNo, b1)
    else some (stepSize, nextBuildNo, b)

/-! ## The guard along the events of a call -/

/-- Whether an event is a call of the critical section (enter or leave). -/
def Event.is_guard : Event → Bool
  | Event.EnterCriticalSection => true
  | Event.LeaveCriticalSection => true
  | _ => false

/-- Replays the events from the state `held` of the critical section and checks that every
event other than enter and leave (info query, probe, message box) happens while the critical
section is not held. -/
def calls_unlocked : Bool → List Event → Bool
  | _, [] => true
  | _, Event.EnterCriticalSection :: rest => calls_unlocked true rest
  | _, Event.LeaveCriticalSection :: rest => calls_unlocked false rest
  | held, _ :: rest => !held && calls_unlocked held rest

/-- Replays the events from the state `held` of the critical section and checks that it is
entered only while not held, left only while held, and not held at the end. -/
def guard_balanced : Bool → List Event → Bool
  | held, [] => !held
  | held, Event.EnterCriticalSection :: rest => !held && guard_balanced true rest
  | held, Event.LeaveCriticalSection :: rest => held && guard_balanced false rest
  | held, _ :: rest => guard_balanced held rest

/-- How a call of the detection subsystem ends and, when it returns, its events: `g` is the
cache at the cache check, `gLater` the cache found when the unlocked part ends. -/
def call_outcome : Call → Src.Cache → Src.Cache → Outcome (List Event)
  | Call.version env fuel, g, gLater =>
    match Src.get_real_os_version_at env fuel g gLater with
    | Outcome.returned (_, _, tr) => Outcome.returned tr
    | Outcome.raised f => Outcome.raised f
    | Outcome.outOfFuel => Outcome.outOfFuel
  | Call.buildNo env fuel, g, gLater =>
    match Src.get_real_os_buildNo_at 4096 env fuel g gLater with
    | Outcome.returned (_, _, tr) => Outcome.returned tr
    | Outcome.raised f => Outcome.raised f
    | Outcome.outOfFuel => Outcome.outOfFuel

/-! ## Version calls with build-number calls in between -/

/-- One call of a caller: `get_real_os_version` or `get_real_os_buildNo`. -/
inductive Op where
  | version
  | buildNo
  deriving DecidableEq, Repr

/-- Whether a call is a call of `get_real_os_version`. -/
def Op.is_version : Op → Bool
  | Op.version => true
  | Op.buildNo => false

/-- The results of the `get_real_os_version` calls, in order, when the calls of the list are
made one after the other in one process with environment `env`, the first one finding the
cache `g` (`fuel` for a version call, `fuelB` for a build-number call); `none` if one of the
calls does not return. -/
def version_results (env : Env) (fuel fuelB : Nat) : List Op → Src.Cache → Option (List VersionOut)
  | [], _ => some []
  | Op.version :: rest, g =>
    match Src.get_real_os_version env fuel g with
    | Outcome.returned (out, g1, _) =>
      match version_results env fuel fuelB rest g1 with
      | some outs => some (out :: outs)
      | none => none
    | _ => none
  | Op.buildNo :: rest, g =>
    match Src.get_real_os_buildNo env fuelB g with
    | Outcome.returned (_, g1, _) => version_results env fuel fuelB rest g1
    | _ => none

/-- Two results of `get_real_os_version` with the same returned flag and tuple, where the
override flag of the first is set whenever the override flag of the second is. -/
def same_version (a b : VersionOut) : Prop :=
  a.ret = b.ret ∧ a.major = b.major ∧ a.minor = b.minor ∧ a.spack = b.spack ∧
    (b.pbOverride = true → a.pbOverride = true)

/-- Two caches with the same version tuple, where the shared override flag of the first is set
whenever the flag of the second is. -/
def same_tuple (g h : Src.Cache) : Prop :=
  g.g_os_version_major = h.g_os_version_major ∧ g.g_os_version_minor = h.g_os_version_minor ∧
    g.g_os_version_spack = h.g_os_version_spack ∧
    (h.g_os_version_bOverride = true → g.g_os_version_bOverride = true)

/-! ## `StdUtils.cpp`: string scanning -/

/-- Modelled from the spec: `pushint` of the host binding (not part of the sources): pushes an
integer result; the value pushed last is read first. -/
def pushint (v : Int) (stack : List StackItem) : List StackItem :=
  StackItem.int v :: stack

/-- Modelled from the spec: `popstringn` of the host binding (not part of the sources): pops
the top entry as a string; an integer entry or an empty stack reads as the empty string. -/
def popstringn : List StackItem → String × List StackItem
  | StackItem.str s :: rest => (s, rest)
  | StackItem.int _ :: rest => ("", rest)
  | [] => ("", [])

/-- What one call of the C library function behind `SSCANF` (`sscanf`, `swscanf`) does: the
count it returns (`-1` is `EOF`) and the values it converted, in order. -/
structure Scanned where
  result : Int
  values : List Int
  deriving DecidableEq, Repr

/-- The value of the `i`-th output argument (counted from 0) of the call after the call,
when the variable held `before`: the `i`-th converted value if there is one, otherwise the
variable is left as it was. -/
def Scanned.store (s : Scanned) (i : Nat) (before : Int) : Int :=
  match s.values.get? i with
  | some v => v
  | none => before

/-- The plug-in function `ScanStr2` of `StdUtils.cpp` as a function on the host stack, with
the library function `SSCANF` as a parameter (arguments: input string, format string). -/
def ScanStr2 (SSCANF : String → String → Scanned) (stack : List StackItem) : List StackItem :=
  let d2 := popint stack
  let d1 := popint d2.2
  let inp := popstringn d1.2
  let fmt := popstringn inp.2
  let def2 := d2.1
  let def1 := d1.1
  let scanned := SSCANF inp.1 fmt.1
  let out1 := scanned.store 0 0
  let out2 := scanned.store 1 0
  let result := scanned.result
  let outs : Int × Int :=
    if result ≠ 2 then
      ((if result ≠ 1 then def1 else out1), def2)
    else (out1, out2)
  pushint outs.1 (pushint outs.2 fmt.2)

/-- The plug-in function `ScanStr3` of `StdUtils.cpp` as a function on the host stack, with
the library function `SSCANF` as a parameter (arguments: input string, format string). -/
def ScanStr3 (SSCANF : String → String → Scanned) (stack : List StackItem) : List StackItem :=
  let d3 := popint stack
  let d2 := popint d3.2
  let d1 := popint d2.2
  let inp := popstringn d1.2
  let fmt := popstringn inp.2
  let def3 := d3.1
  let def2 := d2.1
  let def1 := d1.1
  let scanned := SSCANF inp.1 fmt.1
  let out1 := scanned.store 0 0
  let out2 := scanned.store 1 0
  let out3 := scanned.store 2 0
  let result := scanned.result
  let outs : Int × Int × Int :=
    if result ≠ 3 then
      let o12 : Int × Int :=
        if result = 0 then (def1, def2)
        else if result = 1 then (out1, def2)
        else (out1, out2)
      (o12.1, o12.2, def3)
    else (out1, out2, out3)
  pushint outs.1 (pushint outs.2.1 (pushint outs.2.2 fmt.2))

/-- A call of `SSCANF` that returns the count `c` after converting the first `max c 0` of the
values `parsed`. -/
def scan_count (c : Int) (parsed : List Int) : Scanned :=
  { result := c, values := parsed.take c.toNat }

/-! ## `StdUtils.cpp`: random numbers -/

/-- Value of an expression stored into a variable of type `int` (32 bits, two's complement). -/
def INT (x : Int) : Int := (x + 2 ^ 31) % 2 ^ 32 - 2 ^ 31

/-- The plug-in function `RandMinMax` of `StdUtils.cpp` as a function on the host stack, with
the 32-bit word that `next_rand()` returns as the parameter `rnd`. The result is the stack
after the call and the events of the call (the message box for bad arguments). -/
def RandMinMax (rnd : Nat) (stack : List StackItem) : List StackItem × List Event :=
  let pmax := popint stack
  let pmin := popint pmax.2
  let max := INT pmax.1
  let min := INT pmin.1
  let s0 : List StackItem × List Event :=
    if min > max then (pushint 0 pmin.2, [Event.MessageBox]) else (pmin.2, [])
  let diff := INT (INT (abs (INT (max - min))) + 1)
  let r := DWORD rnd % UINT diff
  (pushint (INT (r + min)) s0.1, s0.2)

/-! ## `UnicodeSupport.cpp`: trimming -/

/-- The terminating character of a C string. -/
def NUL : Char := Char.ofNat 0

/-- The function `is_whitespace` of `UnicodeSupport.cpp` (the same for `char` and `wchar_t`). -/
def is_whitespace (c : Char) : Bool :=
  c = ' ' || c = '\t' || c = '\n' || c = '\r'

/-- The C library function `strlen` (`wcslen`) on a character array: the number of
characters in front of the first `NUL`. -/
def strlen (input : List Char) : Nat :=
  (input.takeWhile (fun c => c != NUL)).length

/-- The C string that starts at the index `offset` of a character array: the characters from
there up to the first `NUL`. -/
def c_str (buffer : List Char) (offset : Nat) : List Char :=
  (buffer.drop offset).takeWhile (fun c => c != NUL)

/-- The loop of line 69 of `UnicodeSupport.cpp`:
`while((right > 0) && is_whitespace(input[right])) input[right--] = 0;`, entered with the
current value of `right`. The result is the array and the value of `right` after the loop. -/
def trim_right_loop (input : List Char) : Nat → List Char × Nat
  | 0 => (input, 0)
  | right + 1 =>
    if is_whitespace (input.getD (right + 1) NUL) then
      trim_right_loop (input.set (right + 1) NUL) right
    else (input, right + 1)

/-- The loop of line 74 of `UnicodeSupport.cpp`: `while(is_whitespace(input[left])) left++;`,
entered with the current value of `left` and the characters of the array from that index on.
The result is the value of `left` after the loop (the loop ends at the terminating `NUL`
at the latest, which is no whitespace). -/
def trim_left_loop : List Char → Nat → Nat
  | [], left => left
  | c :: rest, left => if is_whitespace c then trim_left_loop rest (left + 1) else left

/-- The function `strtrim` of `UnicodeSupport.cpp` on the character array `input`. The result
is the array after the call and the index `left`: the function returns `&input[left]`. -/
def strtrim (input : List Char) (trim_left trim_right : Bool) : List Char × Nat :=
  let left := 0
  let input1 :=
    if trim_right && (input.getD 0 NUL != NUL) then
      let r := trim_right_loop input (strlen input - 1)
      if is_whitespace (r.1.getD r.2 NUL) then r.1.set r.2 NUL else r.1
    else input
  let left1 :=
    if trim_left && (input1.getD 0 NUL != NUL) then trim_left_loop (input1.drop left) left
    else left
  (input1, left1)

/-- The function `wcstrim` of `UnicodeSupport.cpp` on the wide-character array `input`. The
result is the array after the call and the index `left`: the function returns
`&input[left]`. -/
def wcstrim (input : List Char) (trim_left trim_right : Bool) : List Char × Nat :=
  let left := 0
  let input1 :=
    if trim_right && (input.getD 0 NUL != NUL) then
      let r := trim_right_loop input (strlen input - 1)
      if is_whitespace (r.1.getD r.2 NUL) then r.1.set r.2 NUL else r.1
    else input
  let left1 :=
    if trim_left && (input1.getD 0 NUL != NUL) then trim_left_loop (input1.drop left) left
    else left
  (input1, left1)

/-- The string a call of `strtrim` returns, for the string `s` stored in an array with
arbitrary characters `junk` behind the terminating `NUL`. -/
def strtrim_result (s junk : List Char) (trim_left trim_right : Bool) : List Char :=
  c_str (strtrim (s ++ NUL :: junk) trim_left trim_right).1
    (strtrim (s ++ NUL :: junk) trim_left trim_right).2

/-! ## `ParameterParser.cpp`

A C string is given by the list of its characters in front of the terminating `NUL`. -/

/-- The double-quote character. -/
def QUOTE : Char := Char.ofNat 34

/-- The C library function `tolower` in the "C" locale: the letters `A` to `Z` are mapped to
`a` to `z`, every other character to itself. -/
def tolower (c : Char) : Char :=
  if 65 ≤ c.toNat ∧ c.toNat ≤ 90 then Char.ofNat (c.toNat + 32) else c

/-- The C library function behind `STRICMP` (`_stricmp`, `_wcsicmp`) as far as the code uses
it: the result is 0 exactly when the two strings are equal after lower-casing (any other
result is given as 1). -/
def STRICMP (a b : List Char) : Int :=
  if a.map tolower = b.map tolower then 0 else 1

/-- The C library function behind `STRCHR` (`strchr`, `wcschr`): the index of the first
occurrence of `c` in the string, `none` for the null pointer. -/
def STRCHR (s : List Char) (c : Char) : Option Nat :=
  if c ∈ s then some (s.indexOf c) else none

/-- The variables that `parse_parameter` changes through its pointer arguments: `*first` and
the string in `dest_buff`. -/
structure ParamVars where
  first : Bool
  dest_buff : List Char
  deriving DecidableEq, Repr

/-- The function `parse_parameter` of `ParameterParser.cpp`. The argument `str` is the command
line from the start of the token on (the token is not terminated), `len` the length of the
token. The result is the returned flag and the variables behind the pointer arguments.
`buffer` holds the `len - 1` characters behind the first one; the destination receives at
most `dest_size - 1` characters of the value (`STRNCPY` and the terminator written at
`dest_size - 1`; `dest_size` is the host's string size, never 0). -/
def parse_parameter (str : List Char) (len : Nat) (arg_name : List Char) (vars : ParamVars)
    (dest_size : Nat) : Bool × ParamVars :=
  if vars.first then (false, { vars with first := false })
  else
    if len > 1 ∧ str.getD 0 NUL = '/' then
      let buffer := (str.drop 1).take (len - 1)
      match STRCHR buffer '=' with
      | some offset =>
        if STRICMP (buffer.take offset) arg_name = 0 then
          (true, { vars with dest_buff := (buffer.drop (offset + 1)).take (dest_size - 1) })
        else (false, vars)
      | none =>
        if STRICMP buffer arg_name = 0 then (true, { vars with dest_buff := [] })
        else (false, vars)
    else (false, vars)

/-- The local variables of `parse_commandline` (`tok_pos` as an index into `cmd`, `none` for
`NULL`) and the string in `dest_buff`. -/
structure CmdVars where
  bSuccess : Bool
  first : Bool
  tok_len : Nat
  tok_pos : Option Nat
  flag : Bool
  dest_buff : List Char
  deriving DecidableEq, Repr

/-- The statement `if(tok_pos != NULL) { if(parse_parameter(tok_pos, tok_len, arg_name, &first,
dest_buff, dest_size)) { bSuccess = true; } }`, which `parse_commandline` contains three
times. -/
def parse_token (cmd arg_name : List Char) (dest_size : Nat) (v : CmdVars) : CmdVars :=
  match v.tok_pos with
  | some pos =>
    let r := parse_parameter (cmd.drop pos) v.tok_len arg_name
      { first := v.first, dest_buff := v.dest_buff } dest_size
    { v with bSuccess := if r.1 then true else v.bSuccess, first := r.2.first,
             dest_buff := r.2.dest_buff }
  | none => v

/-- The loop of lines 79-113 of `ParameterParser.cpp`: `for(size_t i = 0; i < cmd_len; i++)`,
entered with the current value of `i`; `todo` counts the indices still to visit. -/
def commandline_loop (cmd arg_name : List Char) (dest_size : Nat) : Nat → Nat → CmdVars → CmdVars
  | 0, _, v => v
  | todo + 1, i, v =>
    if cmd.getD i NUL = QUOTE then
      let v1 := parse_token cmd arg_name dest_size v
      commandline_loop cmd arg_name dest_size todo (i + 1)
        { v1 with tok_len := 0, tok_pos := none, flag := !v1.flag }
    else if cmd.getD i NUL = ' ' ∧ v.flag = false then
      let v1 := parse_token cmd arg_name dest_size v
      commandline_loop cmd arg_name dest_size todo (i + 1)
        { v1 with tok_len := 0, tok_pos := none }
    else
      let v1 := if v.tok_pos = none then { v with tok_pos := some i } else v
      commandline_loop cmd arg_name dest_size todo (i + 1) { v1 with tok_len := v1.tok_len + 1 }

/-- The function `parse_commandline` of `ParameterParser.cpp`, with the string that
`GetCommandLine()` returns as the parameter `cmd` (`none` for `NULL`) and the string the
destination buffer holds before the call as `dest_buff`. The result is the returned flag and
the string in the destination buffer after the call. -/
def parse_commandline (cmd : Option (List Char)) (arg_name dest_buff : List Char)
    (dest_size : Nat) : Bool × List Char :=
  match cmd with
  | some cmd =>
    let v0 : CmdVars :=
      { bSuccess := false, first := true, tok_len := 0, tok_pos := none, flag := false,
        dest_buff := dest_buff }
    let v1 := commandline_loop cmd arg_name dest_size cmd.length 0 v0
    let v2 := parse_token cmd arg_name dest_size v1
    (v2.bSuccess, v2.dest_buff)
  | none => (false, dest_buff)

/-- The plug-in function `GetParameter` of `StdUtils.cpp` as a function on the host stack,
with the command line and the host's string size `g_stringsize` as parameters: the default
value is on top of the stack, the parameter name below it. -/
def GetParameter (cmd : Option (List Char)) (g_stringsize : Nat) (stack : List StackItem) :
    List StackItem :=
  let aval := popstringn stack
  let name := popstringn aval.2
  let r := parse_commandline cmd name.1.toList aval.1.toList g_stringsize
  pushstring (String.mk r.2) name.2

/-! ## Command-line parameters in the words of the specification -/

/-- Splitting a line into tokens at spaces outside quotes and at every double-quote
character: `quoted` tells whether a quote is open, `cur` is the token collected so far; empty
tokens are dropped. -/
def split_tokens : Bool → List Char → List Char → List (List Char)
  | _, cur, [] => if cur = [] then [] else [cur]
  | quoted, cur, c :: rest =>
    if c = QUOTE then (if cur = [] then [] else [cur]) ++ split_tokens (!quoted) [] rest
    else if c = ' ' ∧ quoted = false then
      (if cur = [] then [] else [cur]) ++ split_tokens quoted [] rest
    else split_tokens quoted (cur ++ [c]) rest

/-- The tokens of a command line; the first one is the program name. -/
def tokens (cmd : List Char) : List (List Char) := split_tokens false [] cmd

/-- The token `tok` is `/NAME` (then `value` is empty) or `/NAME=value`, with `NAME` equal to
`arg_name` ignoring case. -/
def is_parameter (arg_name tok value : List Char) : Prop :=
  ∃ name, name.map tolower = arg_name.map tolower ∧
    ((tok = '/' :: name ∧ value = []) ∨ tok = '/' :: (name ++ '=' :: value))

/-- The value a token carries for the parameter `arg_name`, if any: the token must be `/`
followed by at least one character; what stands in front of the first `=` (or all of it) is
compared with `arg_name` ignoring case, what stands behind the first `=` is the value. -/
def token_value (arg_name : List Char) : List Char → Option (List Char)
  | [] => none
  | c :: body =>
    if c = '/' ∧ body ≠ [] then
      if (body.takeWhile (fun x => x != '=')).map tolower = arg_name.map tolower then
        some (body.drop ((body.takeWhile (fun x => x != '=')).length + 1))
      else none
    else none

/-- The result of a lookup over a list of tokens, in order: the flag and the destination
string so far are replaced by every token that carries a value for `arg_name`. -/
def lookup (arg_name : List Char) (dest_size : Nat) :
    List (List Char) → Bool × List Char → Bool × List Char
  | [], r => r
  | tok :: rest, r =>
    match token_value arg_name tok with
    | some value => lookup arg_name dest_size rest (true, value.take (dest_size - 1))
    | none => lookup arg_name dest_size rest r

/-! ## Runs that have not ended -/

/-- The loop of lines 110-120 (`Src.major_loop`) run for at most `fuel` iterations: whether
the loop has been left, and the out-parameters with the events issued so far. -/
def Src.major_loop_prefix (env : Env) : Nat → Nat → Src.VerState → Bool × Src.VerState
  | 0, _, v => (false, v)
  | fuel + 1, nextMajor, v =>
    if nextMajor ≤ Src.MAX_VALUE then
      let v1 := { v with trace := v.trace ++ [Event.verify_os_version nextMajor 0 0] }
      if env.verify_os_version nextMajor 0 0 then
        Src.major_loop_prefix env fuel (DWORD (nextMajor + 1))
          { v1 with major := nextMajor, minor := 0, spack := 0, bOverride := true }
      else (true, v1)
    else (true, v)

/-- The loop of lines 123-133 (`Src.minor_loop`) run for at most `fuel` iterations: whether
the loop has been left, and the out-parameters with the events issued so far. -/
def Src.minor_loop_prefix (env : Env) : Nat → Nat → Src.VerState → Bool × Src.VerState
  | 0, _, v => (false, v)
  | fuel + 1, nextMinor, v =>
    if nextMinor ≤ Src.MAX_VALUE then
      let v1 := { v with trace := v.trace ++ [Event.verify_os_version v.major nextMinor 0] }
      if env.verify_os_version v.major nextMinor 0 then
        Src.minor_loop_prefix env fuel (DWORD (nextMinor + 1))
          { v1 with minor := nextMinor, spack := 0, bOverride := true }
      else (true, v1)
    else (true, v)

/-- The loop of lines 136-145 (`Src.spack_loop`) run for at most `fuel` iterations: whether
the loop has been left, and the out-parameters with the events issued so far. -/
def Src.spack_loop_prefix (env : Env) : Nat → Nat → Src.VerState → Bool × Src.VerState
  | 0, _, v => (false, v)
  | fuel + 1, nextSpack, v =>
    if nextSpack ≤ Src.MAX_VALUE then
      let v1 := { v with trace := v.trace ++ [Event.verify_os_version v.major v.minor nextSpack] }
      if env.verify_os_version v.major v.minor nextSpack then
        Src.spack_loop_prefix env fuel (WORD (nextSpack + 1))
          { v1 with spack := nextSpack, bOverride := true }
      else (true, v1)
    else (true, v)

/-- Lines 109-151 of `get_real_os_version`, the three loops and the overflow check, with
every loop run for at most `fuel` iterations. The first component is `none` while a loop has
not been left, otherwise whether the run goes on to the commit step (`true`) or returns
`false`; the second holds the out-parameters and the events issued so far. -/
def Src.climb_prefix (env : Env) (fuel : Nat) (v : Src.VerState) : Option Bool × Src.VerState :=
  match Src.major_loop_prefix env fuel (DWORD (v.major + 1)) v with
  | (false, v1) => (none, v1)
  | (true, v1) =>
    match Src.minor_loop_prefix env fuel (DWORD (v1.minor + 1)) v1 with
    | (false, v2) => (none, v2)
    | (true, v2) =>
      match Src.spack_loop_prefix env fuel (WORD (DWORD (v2.spack + 1))) v2 with
      | (false, v3) => (none, v3)
      | (true, v3) =>
        if v3.major ≥ Src.MAX_VALUE ∨ v3.minor ≥ Src.MAX_VALUE ∨ v3.spack ≥ Src.MAX_VALUE then
          (some false, v3)
        else (some true, v3)

/-- Lines 74-151 of `get_real_os_version` (`Src.get_real_os_version_detect`) with every loop
run for at most `fuel` iterations. The first component is `none` while the unlocked part has
not ended (a loop has used up its iterations), otherwise whether the run goes on to the
commit step (`true`) or returns `false`; the second holds the out-parameters and the events
issued so far. -/
def Src.get_real_os_version_detect_prefix (env : Env) (fuel : Nat) (tr : List Event) :
    Option Bool × Src.VerState :=
  let tr1 := tr ++ [Event.get_os_info]
  match env.get_os_info with
  | none =>
    (some false, { major := 0, minor := 0, spack := 0, bOverride := false,
                   trace := Src.verbose_box env tr1 })
  | some osvi =>
    let start : Bool × Src.VerState :=
      if osvi.dwPlatformId = VER_PLATFORM_WIN32_NT then
        (true, { major := DWORD osvi.dwMajorVersion, minor := DWORD osvi.dwMinorVersion,
                 spack := WORD osvi.wServicePackMajor, bOverride := false, trace := tr1 })
      else if env.verify_os_version 4 0 0 then
        (true, { major := 4, minor := 0, spack := 0, bOverride := true,
                 trace := tr1 ++ [Event.verify_os_version 4 0 0] })
      else
        (false, { major := 0, minor := 0, spack := 0, bOverride := false,
                  trace := tr1 ++ [Event.verify_os_version 4 0 0] })
    if start.1 then Src.climb_prefix env fuel start.2 else (some false, start.2)

/-- The events that a call of `get_real_os_version` on the cache `g` has issued when every
loop has run for at most `fuel` iterations: all events of the call if it has returned by
then, otherwise the events up to the point where a loop has used up its iterations. (The
commit step issues no event, so the cache it finds does not matter.) -/
def Src.get_real_os_version_events (env : Env) (fuel : Nat) (g : Src.Cache) : List Event :=
  let (lock, tr) := Src.MutexLocker.ctor []
  if g.g_os_version_major ≠ 0 ∨ g.g_os_version_minor ≠ 0 ∨ g.g_os_version_spack ≠ 0 then
    lock.dtor tr
  else
    match lock.unlock tr with
    | Except.error _ => tr
    | Except.ok (lock1, tr1) =>
      match Src.get_real_os_version_detect_prefix env fuel tr1 with
      | (none, v) => v.trace
      | (some false, v) => lock1.dtor v.trace
      | (some true, v) =>
        match lock1.relock v.trace with
        | Except.error _ => v.trace
        | Except.ok (lock2, tr2) => lock2.dtor tr2

/-- The loop of lines 235-249 (`Src.build_loop`) run for at most `fuel` iterations: whether
the loop has been left, and the out-parameters with the events issued so far. -/
def Src.build_loop_prefix (env : Env) : Nat → Nat → Nat → Src.BuildState → Bool × Src.BuildState
  | 0, _, _, b => (false, b)
  | fuel + 1, stepSize, nextBuildNo, b =>
    if nextBuildNo < INT_MAX then
      let b1 := { b with trace := b.trace ++ [Event.verify_os_buildNo nextBuildNo] }
      if env.verify_os_buildNo nextBuildNo then
        Src.build_loop_prefix env fuel stepSize (DWORD (nextBuildNo + stepSize))
          { b1 with buildNo := nextBuildNo, bOverride := true }
      else if stepSize > 1 then
        Src.build_loop_prefix env fuel (stepSize / 2) (DWORD (b1.buildNo + stepSize / 2)) b1
      else (true, b1)
    else (true, b)

/-- Lines 198-249 of `get_real_os_buildNo` (`Src.get_real_os_buildNo_detect`) with the loop
run for at most `fuel` iterations. The first component is `none` while the unlocked part has
not ended, otherwise whether the run goes on to the commit step (`true`) or returns `false`;
the second holds the out-parameters and the events issued so far. -/
def Src.get_real_os_buildNo_detect_prefix (stepSize0 : Nat) (env : Env) (fuel : Nat)
    (tr : List Event) : Option Bool × Src.BuildState :=
  let tr1 := tr ++ [Event.get_os_info]
  match env.get_os_info with
  | none => (some false, { buildNo := 0, bOverride := false, trace := Src.verbose_box env tr1 })
  | some osvi =>
    let start : Bool × Src.BuildState :=
      if osvi.dwPlatformId = VER_PLATFORM_WIN32_NT then
        (true, { buildNo := DWORD osvi.dwBuildNumber, bOverride := false, trace := tr1 })
      else if env.verify_os_version 4 0 0 then
        (true, { buildNo := 1381, bOverride := true,
                 trace := tr1 ++ [Event.verify_os_version 4 0 0] })
      else
        (false, { buildNo := 0, bOverride := false,
                  trace := tr1 ++ [Event.verify_os_version 4 0 0] })
    if start.1 then
      match Src.build_loop_prefix env fuel (DWORD stepSize0) start.2.buildNo start.2 with
      | (false, b) => (none, b)
      | (true, b) => (some true, b)
    else (some false, start.2)

/-- The events that a call of `get_real_os_buildNo` (initial step `stepSize0`) on the cache
`g` has issued when the loop has run for at most `fuel` iterations: all events of the call if
it has returned by then, otherwise the events up to the point where the loop has used up its
iterations. -/
def Src.get_real_os_buildNo_events (stepSize0 : Nat) (env : Env) (fuel : Nat) (g : Src.Cache) :
    List Event :=
  let (lock, tr) := Src.MutexLocker.ctor []
  if g.g_os_version_build ≠ 0 then
    lock.dtor tr
  else
    match lock.unlock tr with
    | Except.error _ => tr
    | Except.ok (lock1, tr1) =>
      match Src.get_real_os_buildNo_detect_prefix stepSize0 env fuel tr1 with
      | (none, b) => b.trace
      | (some false, b) => lock1.dtor b.trace
      | (some true, b) =>
        match lock1.relock b.trace with
        | Except.error _ => b.trace
        | Except.ok (lock2, tr2) => lock2.dtor tr2

/-- The iterations that the model grants each loop of a call. -/
def Call.fuel : Call → Nat
  | Call.version _ fuel => fuel
  | Call.buildNo _ fuel => fuel

/-- The same call with each loop granted `n` iterations. -/
def Call.with_fuel : Call → Nat → Call
  | Call.version env _, n => Call.version env n
  | Call.buildNo env _, n => Call.buildNo env n

/-- The events that a call on the cache `g` has issued when every loop has run for at most
as many iterations as the call is granted: all its events if it has returned by then,
otherwise the events of the run so far. -/
def call_events : Call → Src.Cache → List Event
  | Call.version env fuel, g => Src.get_real_os_version_events env fuel g
  | Call.buildNo env fuel, g => Src.get_real_os_buildNo_events 4096 env fuel g

/-! ## Arithmetic helpers -/

theorem DWORD_of_lt {x : Nat} (h : x < 2 ^ 32) : DWORD x = x := Nat.mod_eq_of_lt h

theorem WORD_of_lt {x : Nat} (h : x < 2 ^ 16) : WORD x = x := Nat.mod_eq_of_lt h

theorem lexLe_major_probe (T : Nat × Nat × Nat) (n : Nat) : lexLe (n, 0, 0) T ↔ n ≤ T.1 := by
  unfold lexLe
  constructor
  · intro h
    rcases h with h | h
    · exact Nat.le_of_lt h
    · exact Nat.le_of_eq h.1
  · intro h
    rcases Nat.lt_or_eq_of_le h with h1 | h1
    · exact Or.inl h1
    · refine Or.inr ⟨h1, ?_⟩
      rcases Nat.eq_zero_or_pos T.2.1 with h2 | h2
      · exact Or.inr ⟨h2.symm, Nat.zero_le _⟩
      · exact Or.inl h2

theorem lexLe_minor_probe (T : Nat × Nat × Nat) (n : Nat) : lexLe (T.1, n, 0) T ↔ n ≤ T.2.1 := by
  unfold lexLe
  simp
  omega

theorem lexLe_spack_probe (T : Nat × Nat × Nat) (n : Nat) :
    lexLe (T.1, T.2.1, n) T ↔ n ≤ T.2.2 := by
  unfold lexLe
  simp

theorem major_loop_threshold (env : Env) (T : Nat × Nat × Nat)
    (hprobe : ∀ a b c, env.verify_os_version a b c = decide (lexLe (a, b, c) T))
    (hT : T.1 < 0xFFFF) :
    ∀ (fuel : Nat) (v : Src.VerState), lexLe (v.major, v.minor, v.spack) T →
      T.1 - v.major < fuel →
      ∃ w, Src.major_loop env fuel (v.major + 1) v = some w ∧ w.major = T.1 ∧
        lexLe (w.major, w.minor, w.spack) T := by
  intro fuel
  induction fuel with
  | zero => intro v _ h; omega
  | succ n ih =>
    intro v hv hf
    have hle : v.major ≤ T.1 := by
      unfold lexLe at hv
      simp only at hv
      omega
    by_cases hp : v.major + 1 ≤ T.1
    · have hpr : env.verify_os_version (v.major + 1) 0 0 = true := by
        rw [hprobe]; exact decide_eq_true ((lexLe_major_probe T _).2 hp)
      have hmax : v.major + 1 ≤ Src.MAX_VALUE := by unfold Src.MAX_VALUE; omega
      have hw : DWORD (v.major + 1 + 1) = v.major + 1 + 1 := DWORD_of_lt (by omega)
      obtain ⟨w, hw1, hw2, hw3⟩ := ih
        { major := v.major + 1, minor := 0, spack := 0, bOverride := true,
          trace := v.trace ++ [Event.verify_os_version (v.major + 1) 0 0] }
        ((lexLe_major_probe T _).2 hp) (by simp only; omega)
      refine ⟨w, ?_, hw2, hw3⟩
      rw [Src.major_loop]
      simp only [hmax, hpr, hw, if_true]
      exact hw1
    · have hpr : env.verify_os_version (v.major + 1) 0 0 = false := by
        rw [hprobe]; exact decide_eq_false (fun h => hp ((lexLe_major_probe T _).1 h))
      have hmax : v.major + 1 ≤ Src.MAX_VALUE := by unfold Src.MAX_VALUE; omega
      refine ⟨{ v with trace := v.trace ++ [Event.verify_os_version (v.major + 1) 0 0] }, ?_, ?_, hv⟩
      · rw [Src.major_loop]
        simp [hmax, hpr]
      · simp only; omega

theorem minor_loop_threshold (env : Env) (T : Nat × Nat × Nat)
    (hprobe : ∀ a b c, env.verify_os_version a b c = decide (lexLe (a, b, c) T))
    (hT : T.2.1 < 0xFFFF) :
    ∀ (fuel : Nat) (v : Src.VerState), v.major = T.1 → lexLe (v.major, v.minor, v.spack) T →
      T.2.1 - v.minor < fuel →
      ∃ w, Src.minor_loop env fuel (v.minor + 1) v = some w ∧ w.major = T.1 ∧
        w.minor = T.2.1 ∧ lexLe (w.major, w.minor, w.spack) T := by
  intro fuel
  induction fuel with
  | zero => intro v _ _ h; omega
  | succ n ih =>
    intro v hmaj hv hf
    have hle : v.minor ≤ T.2.1 := by
      unfold lexLe at hv
      simp only at hv
      omega
    have hmax : v.minor + 1 ≤ Src.MAX_VALUE := by unfold Src.MAX_VALUE; omega
    by_cases hp : v.minor + 1 ≤ T.2.1
    · have hpr : env.verify_os_version v.major (v.minor + 1) 0 = true := by
        rw [hprobe, hmaj]; exact decide_eq_true ((lexLe_minor_probe T _).2 hp)
      have hw : DWORD (v.minor + 1 + 1) = v.minor + 1 + 1 := DWORD_of_lt (by omega)
      obtain ⟨w, hw1, hw2, hw3, hw4⟩ := ih
        { major := v.major, minor := v.minor + 1, spack := 0, bOverride := true,
          trace := v.trace ++ [Event.verify_os_version v.major (v.minor + 1) 0] }
        hmaj (by simp only; rw [hmaj]; exact (lexLe_minor_probe T _).2 hp) (by simp only; omega)
      refine ⟨w, ?_, hw2, hw3, hw4⟩
      rw [Src.minor_loop]
      simp only [hmax, hpr, hw, if_true]
      exact hw1
    · have hpr : env.verify_os_version v.major (v.minor + 1) 0 = false := by
        rw [hprobe, hmaj]; exact decide_eq_false (fun h => hp ((lexLe_minor_probe T _).1 h))
      refine ⟨{ v with trace := v.trace ++ [Event.verify_os_version v.major (v.minor + 1) 0] },
        ?_, hmaj, ?_, hv⟩
      · rw [Src.minor_loop]
        simp [hmax, hpr]
      · simp only; omega

theorem spack_loop_threshold (env : Env) (T : Nat × Nat × Nat)
    (hprobe : ∀ a b c, env.verify_os_version a b c = decide (lexLe (a, b, c) T))
    (hT : T.2.2 < 0xFFFF) :
    ∀ (fuel : Nat) (v : Src.VerState), v.major = T.1 → v.minor = T.2.1 → v.spack ≤ T.2.2 →
      T.2.2 - v.spack < fuel →
      ∃ w, Src.spack_loop env fuel (v.spack + 1) v = some w ∧ w.major = T.1 ∧
        w.minor = T.2.1 ∧ w.spack = T.2.2 := by
  intro fuel
  induction fuel with
  | zero => intro v _ _ _ h; omega
  | succ n ih =>
    intro v hmaj hmin hle hf
    have hmax : v.spack + 1 ≤ Src.MAX_VALUE := by unfold Src.MAX_VALUE; omega
    by_cases hp : v.spack + 1 ≤ T.2.2
    · have hpr : env.verify_os_version v.major v.minor (v.spack + 1) = true := by
        rw [hprobe, hmaj, hmin]; exact decide_eq_true ((lexLe_spack_probe T _).2 hp)
      have hw : WORD (v.spack + 1 + 1) = v.spack + 1 + 1 := WORD_of_lt (by omega)
      obtain ⟨w, hw1, hw2, hw3, hw4⟩ := ih
        { major := v.major, minor := v.minor, spack := v.spack + 1, bOverride := true,
          trace := v.trace ++ [Event.verify_os_version v.major v.minor (v.spack + 1)] }
        hmaj hmin hp (by simp only; omega)
      refine ⟨w, ?_, hw2, hw3, hw4⟩
      rw [Src.spack_loop]
      simp only [hmax, hpr, hw, if_true]
      exact hw1
    · have hpr : env.verify_os_version v.major v.minor (v.spack + 1) = false := by
        rw [hprobe, hmaj, hmin]; exact decide_eq_false (fun h => hp ((lexLe_spack_probe T _).1 h))
      refine ⟨{ v with trace := v.trace ++ [Event.verify_os_version v.major v.minor (v.spack + 1)] },
        ?_, hmaj, hmin, ?_⟩
      · rw [Src.spack_loop]
        simp [hmax, hpr]
      · simp only; omega

theorem detect_threshold (env : Env) (osvi : OSVERSIONINFOEXW) (T : Nat × Nat × Nat)
    (fuel : Nat) (tr : List Event)
    (hinfo : env.get_os_info = some osvi)
    (hnt : osvi.dwPlatformId = VER_PLATFORM_WIN32_NT)
    (hprobe : ∀ a b c, env.verify_os_version a b c = decide (lexLe (a, b, c) T))
    (hT : T.1 < 0xFFFF ∧ T.2.1 < 0xFFFF ∧ T.2.2 < 0xFFFF)
    (hr : lexLe (osvi.dwMajorVersion, osvi.dwMinorVersion, osvi.wServicePackMajor) T)
    (hfuel : 0xFFFF ≤ fuel) :
    ∃ w, Src.get_real_os_version_detect env fuel tr = some (true, w) ∧
      w.major = T.1 ∧ w.minor = T.2.1 ∧ w.spack = T.2.2 := by
  obtain ⟨hT1, hT2, hT3⟩ := hT
  have h0 : lexLe (DWORD osvi.dwMajorVersion, DWORD osvi.dwMinorVersion,
      WORD osvi.wServicePackMajor) T := by
    unfold lexLe at hr ⊢
    simp only at hr ⊢
    unfold DWORD WORD
    omega
  obtain ⟨w1, e1, m1, l1⟩ := major_loop_threshold env T hprobe hT1 fuel
    { major := DWORD osvi.dwMajorVersion, minor := DWORD osvi.dwMinorVersion,
      spack := WORD osvi.wServicePackMajor, bOverride := false,
      trace := tr ++ [Event.get_os_info] } h0 (by omega)
  obtain ⟨w2, e2, m2, n2, l2⟩ := minor_loop_threshold env T hprobe hT2 fuel w1 m1 l1 (by omega)
  have hs2 : w2.spack ≤ T.2.2 := by
    unfold lexLe at l2
    simp only at l2
    omega
  obtain ⟨w3, e3, m3, n3, s3⟩ := spack_loop_threshold env T hprobe hT3 fuel w2 m2 n2 hs2 (by omega)
  have hd1 : DWORD (DWORD osvi.dwMajorVersion + 1) = DWORD osvi.dwMajorVersion + 1 := by
    have : DWORD osvi.dwMajorVersion ≤ T.1 := by
      unfold lexLe at h0; simp only at h0; omega
    exact DWORD_of_lt (by omega)
  have hd2 : DWORD (w1.minor + 1) = w1.minor + 1 := by
    have : w1.minor ≤ T.2.1 := by
      unfold lexLe at l1; simp only at l1; omega
    exact DWORD_of_lt (by omega)
  have hd3 : WORD (DWORD (w2.spack + 1)) = w2.spack + 1 := by
    rw [DWORD_of_lt (by omega)]
    exact WORD_of_lt (by omega)
  refine ⟨w3, ?_, m3, n3, s3⟩
  unfold Src.get_real_os_version_detect
  simp only [hinfo, hnt, if_true]
  rw [hd1, e1]
  simp only
  rw [hd2, e2]
  simp only
  rw [hd3, e3]
  simp only [Src.MAX_VALUE, m3, n3, s3]
  rw [if_neg (by omega)]

/-! ## Unfolding `get_real_os_version` -/

theorem get_real_os_version_at_hit (env : Env) (fuel : Nat) (g gLater : Src.Cache)
    (h : g.g_os_version_major ≠ 0 ∨ g.g_os_version_minor ≠ 0 ∨ g.g_os_version_spack ≠ 0) :
    Src.get_real_os_version_at env fuel g gLater =
      Outcome.returned
        ({ ret := true, major := g.g_os_version_major, minor := g.g_os_version_minor,
           spack := g.g_os_version_spack, pbOverride := g.g_os_version_bOverride },
         g, [Event.EnterCriticalSection, Event.LeaveCriticalSection]) := by
  unfold Src.get_real_os_version_at
  simp only [Src.MutexLocker.ctor, Src.MutexLocker.dtor]
  rw [if_pos h]
  rfl

theorem get_real_os_version_at_miss (env : Env) (fuel : Nat) (g gLater : Src.Cache)
    (h : g.g_os_version_major = 0 ∧ g.g_os_version_minor = 0 ∧ g.g_os_version_spack = 0) :
    Src.get_real_os_version_at env fuel g gLater =
      match Src.get_real_os_version_detect env fuel
          [Event.EnterCriticalSection, Event.LeaveCriticalSection] with
      | none => Outcome.outOfFuel
      | some (false, v) =>
        Outcome.returned
          ({ ret := false, major := v.major, minor := v.minor, spack := v.spack,
             pbOverride := v.bOverride }, gLater, v.trace)
      | some (true, v) =>
        Outcome.returned
          ((Src.get_real_os_version_commit v gLater).1,
           (Src.get_real_os_version_commit v gLater).2,
           v.trace ++ [Event.EnterCriticalSection, Event.LeaveCriticalSection]) := by
  unfold Src.get_real_os_version_at
  simp only [Src.MutexLocker.ctor, Src.MutexLocker.dtor, Src.MutexLocker.unlock,
    Src.MutexLocker.relock]
  rw [if_neg (by omega)]
  simp only [List.nil_append, Bool.not_true, Bool.false_eq_true, if_false, List.singleton_append]
  rcases hd : Src.get_real_os_version_detect env fuel
      [Event.EnterCriticalSection, Event.LeaveCriticalSection] with _ | ⟨b, v⟩
  · rfl
  · cases b <;> simp

/-! ## C1: monotonic climb correctness -/

/-- C1: on an empty cache, with a native-family report `r` and a stub probe that answers true
exactly for the tuples lexicographically below or equal to `T`, where all components of `T`
are below 0xFFFF and `r` is lexicographically below or equal to `T`, `get_real_os_version`
returns (with any fuel of at least 0xFFFF) success with exactly the tuple `T`. -/
theorem C1_monotonic_climb (env : Env) (osvi : OSVERSIONINFOEXW) (T : Nat × Nat × Nat)
    (fuel : Nat)
    (hinfo : env.get_os_info = some osvi)
    (hnt : osvi.dwPlatformId = VER_PLATFORM_WIN32_NT)
    (hprobe : ∀ a b c, env.verify_os_version a b c = decide (lexLe (a, b, c) T))
    (hT : T.1 < 0xFFFF ∧ T.2.1 < 0xFFFF ∧ T.2.2 < 0xFFFF)
    (hr : lexLe (osvi.dwMajorVersion, osvi.dwMinorVersion, osvi.wServicePackMajor) T)
    (hfuel : 0xFFFF ≤ fuel) :
    ∃ ov g tr, Src.get_real_os_version env fuel Src.Cache.zero =
      Outcome.returned
        ({ ret := true, major := T.1, minor := T.2.1, spack := T.2.2, pbOverride := ov },
         g, tr) := by
  obtain ⟨w, hw, h1, h2, h3⟩ := detect_threshold env osvi T fuel
    [Event.EnterCriticalSection, Event.LeaveCriticalSection] hinfo hnt hprobe hT hr hfuel
  refine ⟨w.bOverride, (Src.get_real_os_version_commit w Src.Cache.zero).2,
    w.trace ++ [Event.EnterCriticalSection, Event.LeaveCriticalSection], ?_⟩
  unfold Src.get_real_os_version
  rw [get_real_os_version_at_miss env fuel _ _ ⟨rfl, rfl, rfl⟩, hw]
  simp only [Src.get_real_os_version_commit, Src.Cache.zero, and_self, if_true, h1, h2, h3]

/-- C1 at the inputs of the specification: reported (5,1,3), probe threshold (6,1,0). -/
theorem C1_monotonic_climb_witness :
    ∃ ov g tr, Src.get_real_os_version (stub_env (some (nt_report (5, 1, 3) 2600)) (6, 1, 0) 0)
        65535 Src.Cache.zero =
      Outcome.returned
        ({ ret := true, major := 6, minor := 1, spack := 0, pbOverride := ov }, g, tr) :=
  C1_monotonic_climb (stub_env (some (nt_report (5, 1, 3) 2600)) (6, 1, 0) 0)
    (nt_report (5, 1, 3) 2600) (6, 1, 0) 65535 rfl rfl (fun _ _ _ => rfl)
    (by decide) (by decide) (by decide)

/-! ## Termination of the major and minor climbs, divergence of the service-pack climb -/

theorem major_loop_terminates (env : Env) :
    ∀ (fuel next : Nat) (v : Src.VerState), Src.MAX_VALUE + 1 - next < fuel →
      ∃ w, Src.major_loop env fuel next v = some w := by
  intro fuel
  induction fuel with
  | zero => intro next v h; omega
  | succ n ih =>
    intro next v h
    rw [Src.major_loop]
    by_cases hc : next ≤ Src.MAX_VALUE
    · rw [if_pos hc]
      by_cases hp : env.verify_os_version next 0 0 = true
      · simp only [hp, if_true]
        have hw : DWORD (next + 1) = next + 1 :=
          DWORD_of_lt (by unfold Src.MAX_VALUE at hc; omega)
        rw [hw]
        exact ih _ _ (by omega)
      · simp only [hp]
        exact ⟨_, rfl⟩
    · rw [if_neg hc]
      exact ⟨_, rfl⟩

theorem minor_loop_terminates (env : Env) :
    ∀ (fuel next : Nat) (v : Src.VerState), Src.MAX_VALUE + 1 - next < fuel →
      ∃ w, Src.minor_loop env fuel next v = some w := by
  intro fuel
  induction fuel with
  | zero => intro next v h; omega
  | succ n ih =>
    intro next v h
    rw [Src.minor_loop]
    by_cases hc : next ≤ Src.MAX_VALUE
    · rw [if_pos hc]
      by_cases hp : env.verify_os_version v.major next 0 = true
      · simp only [hp, if_true]
        have hw : DWORD (next + 1) = next + 1 :=
          DWORD_of_lt (by unfold Src.MAX_VALUE at hc; omega)
        rw [hw]
        exact ih _ _ (by omega)
      · simp only [hp]
        exact ⟨_, rfl⟩
    · rw [if_neg hc]
      exact ⟨_, rfl⟩

theorem WORD_le_MAX_VALUE (x : Nat) : WORD x ≤ Src.MAX_VALUE := by
  unfold WORD Src.MAX_VALUE
  omega

theorem spack_loop_always_true (env : Env) (hprobe : ∀ a b c, env.verify_os_version a b c = true) :
    ∀ (fuel next : Nat) (v : Src.VerState), next ≤ Src.MAX_VALUE →
      Src.spack_loop env fuel next v = none := by
  intro fuel
  induction fuel with
  | zero => intro next v _; rfl
  | succ n ih =>
    intro next v h
    rw [Src.spack_loop]
    simp only [h, hprobe, if_true]
    exact ih _ _ (WORD_le_MAX_VALUE _)

theorem detect_always_true (env : Env) (osvi : OSVERSIONINFOEXW)
    (hinfo : env.get_os_info = some osvi)
    (hprobe : ∀ a b c, env.verify_os_version a b c = true) (fuel : Nat) (tr : List Event) :
    Src.get_real_os_version_detect env fuel tr = none := by
  unfold Src.get_real_os_version_detect
  simp only [hinfo, hprobe, if_true]
  by_cases hnt : osvi.dwPlatformId = VER_PLATFORM_WIN32_NT
  · simp only [hnt, if_true]
    rcases Src.major_loop env fuel _ _ with _ | v1
    · rfl
    · simp only
      rcases Src.minor_loop env fuel _ v1 with _ | v2
      · rfl
      · simp only
        rw [spack_loop_always_true env hprobe fuel _ v2 (WORD_le_MAX_VALUE _)]
  · simp only [hnt, if_false, if_true]
    rcases Src.major_loop env fuel _ _ with _ | v1
    · rfl
    · simp only
      rcases Src.minor_loop env fuel _ v1 with _ | v2
      · rfl
      · simp only
        rw [spack_loop_always_true env hprobe fuel _ v2 (WORD_le_MAX_VALUE _)]

/-! ## C2: ceiling handling -/

/-- C2 (what the code does): with a probe that answers true for every tuple and any successful
info query, `get_real_os_version` on an empty cache does not return for any amount of fuel.
The major and minor climbs end (fuel 0x10001 suffices for them, whatever the probe answers),
but the service-pack climb, whose 16-bit counter never exceeds the ceiling 0xFFFF, runs out
of every fuel. -/
theorem C2_always_true_probe_never_returns (env : Env) (osvi : OSVERSIONINFOEXW)
    (hinfo : env.get_os_info = some osvi)
    (hprobe : ∀ a b c, env.verify_os_version a b c = true) :
    (∀ fuel, Src.get_real_os_version env fuel Src.Cache.zero = Outcome.outOfFuel) ∧
    (∀ fuel next v, 0x10001 ≤ fuel → ∃ w, Src.major_loop env fuel next v = some w) ∧
    (∀ fuel next v, 0x10001 ≤ fuel → ∃ w, Src.minor_loop env fuel next v = some w) ∧
    (∀ fuel x v, Src.spack_loop env fuel (WORD x) v = none) := by
  refine ⟨?_, ?_, ?_, ?_⟩
  · intro fuel
    unfold Src.get_real_os_version
    rw [get_real_os_version_at_miss env fuel _ _ ⟨rfl, rfl, rfl⟩,
      detect_always_true env osvi hinfo hprobe]
  · intro fuel next v h
    exact major_loop_terminates env fuel next v (by unfold Src.MAX_VALUE; omega)
  · intro fuel next v h
    exact minor_loop_terminates env fuel next v (by unfold Src.MAX_VALUE; omega)
  · intro fuel x v
    exact spack_loop_always_true env hprobe fuel _ v (WORD_le_MAX_VALUE x)

/-- C2 at a concrete input: reported (6,1,0) of the native family, probe always true. -/
theorem C2_always_true_probe_never_returns_witness :
    (∀ fuel, Src.get_real_os_version (always_true_env (some (nt_report (6, 1, 0) 7601))) fuel
        Src.Cache.zero = Outcome.outOfFuel) ∧
    (∀ fuel next v, 0x10001 ≤ fuel →
      ∃ w, Src.major_loop (always_true_env (some (nt_report (6, 1, 0) 7601))) fuel next v =
        some w) ∧
    (∀ fuel next v, 0x10001 ≤ fuel →
      ∃ w, Src.minor_loop (always_true_env (some (nt_report (6, 1, 0) 7601))) fuel next v =
        some w) ∧
    (∀ fuel x v,
      Src.spack_loop (always_true_env (some (nt_report (6, 1, 0) 7601))) fuel (WORD x) v =
        none) :=
  C2_always_true_probe_never_returns (always_true_env (some (nt_report (6, 1, 0) 7601)))
    (nt_report (6, 1, 0) 7601) rfl (fun _ _ _ => rfl)

/-! ## The build climb against a threshold probe -/

theorem build_loop_threshold (env : Env) (T : Nat)
    (hprobe : ∀ b, env.verify_os_buildNo b = decide (b ≤ T)) :
    ∀ (fuel step : Nat) (b : Src.BuildState), b.buildNo ≤ T → 1 ≤ step →
      T + step < INT_MAX → T - b.buildNo + step < fuel →
      ∃ w, Src.build_loop env fuel step (b.buildNo + step) b = some w ∧ w.buildNo = T := by
  intro fuel
  induction fuel with
  | zero => intro step b _ _ _ h; omega
  | succ n ih =>
    intro step b hb hs hT hf
    have hlt : b.buildNo + step < INT_MAX := by omega
    rw [Src.build_loop, if_pos hlt]
    by_cases hp : b.buildNo + step ≤ T
    · have hpr : env.verify_os_buildNo (b.buildNo + step) = true := by
        rw [hprobe]; exact decide_eq_true hp
      have hw : DWORD (b.buildNo + step + step) = b.buildNo + step + step :=
        DWORD_of_lt (by unfold INT_MAX at hT; omega)
      simp only [hpr, if_true, hw]
      exact ih step
        { buildNo := b.buildNo + step, bOverride := true,
          trace := b.trace ++ [Event.verify_os_buildNo (b.buildNo + step)] }
        hp hs hT (by simp only; omega)
    · have hpr : env.verify_os_buildNo (b.buildNo + step) = false := by
        rw [hprobe]; exact decide_eq_false hp
      simp only [hpr, Bool.false_eq_true, if_false]
      by_cases h1 : step > 1
      · rw [if_pos h1]
        have hw : DWORD (b.buildNo + step / 2) = b.buildNo + step / 2 :=
          DWORD_of_lt (by unfold INT_MAX at hT; omega)
        rw [hw]
        exact ih (step / 2)
          { b with trace := b.trace ++ [Event.verify_os_buildNo (b.buildNo + step)] }
          hb (by omega) (by omega) (by simp only; omega)
      · rw [if_neg h1]
        exact ⟨_, rfl, by simp only; omega⟩

theorem build_detect_threshold (env : Env) (osvi : OSVERSIONINFOEXW) (T s fuel : Nat)
    (tr : List Event)
    (hinfo : env.get_os_info = some osvi)
    (hnt : osvi.dwPlatformId = VER_PLATFORM_WIN32_NT)
    (hprobe : ∀ b, env.verify_os_buildNo b = decide (b ≤ T))
    (hs : 1 ≤ s) (hT : T + s < INT_MAX) (hr : osvi.dwBuildNumber ≤ T)
    (hfuel : T + s + 2 ≤ fuel) :
    ∃ w, Src.get_real_os_buildNo_detect s env fuel tr = some (true, w) ∧ w.buildNo = T := by
  have hd : DWORD osvi.dwBuildNumber = osvi.dwBuildNumber :=
    DWORD_of_lt (by unfold INT_MAX at hT; omega)
  have hds : DWORD s = s := DWORD_of_lt (by unfold INT_MAX at hT; omega)
  obtain ⟨n, rfl⟩ : ∃ n, fuel = n + 1 := ⟨fuel - 1, by omega⟩
  have hpr : env.verify_os_buildNo osvi.dwBuildNumber = true := by
    rw [hprobe]; exact decide_eq_true hr
  have hw : DWORD (osvi.dwBuildNumber + s) = osvi.dwBuildNumber + s :=
    DWORD_of_lt (by unfold INT_MAX at hT; omega)
  obtain ⟨w, e, hwT⟩ := build_loop_threshold env T hprobe n s
    { buildNo := osvi.dwBuildNumber, bOverride := true,
      trace := tr ++ [Event.get_os_info] ++ [Event.verify_os_buildNo osvi.dwBuildNumber] }
    hr hs hT (by simp only; omega)
  refine ⟨w, ?_, hwT⟩
  unfold Src.get_real_os_buildNo_detect
  simp only [hinfo, hnt, if_true, hd, hds]
  rw [Src.build_loop, if_pos (by omega)]
  simp only [hpr, if_true, hw]
  simp only at e
  rw [e]

/-! ## Unfolding `get_real_os_buildNo` -/

theorem get_real_os_buildNo_at_miss (s : Nat) (env : Env) (fuel : Nat) (g gLater : Src.Cache)
    (h : g.g_os_version_build = 0) :
    Src.get_real_os_buildNo_at s env fuel g gLater =
      match Src.get_real_os_buildNo_detect s env fuel
          [Event.EnterCriticalSection, Event.LeaveCriticalSection] with
      | none => Outcome.outOfFuel
      | some (false, b) =>
        Outcome.returned
          ({ ret := false, buildNo := b.buildNo, pbOverride := b.bOverride }, gLater, b.trace)
      | some (true, b) =>
        Outcome.returned
          ((Src.get_real_os_buildNo_commit b gLater).1,
           (Src.get_real_os_buildNo_commit b gLater).2,
           b.trace ++ [Event.EnterCriticalSection, Event.LeaveCriticalSection]) := by
  unfold Src.get_real_os_buildNo_at
  simp only [Src.MutexLocker.ctor, Src.MutexLocker.dtor, Src.MutexLocker.unlock,
    Src.MutexLocker.relock]
  rw [if_neg (by omega)]
  simp only [List.nil_append, Bool.not_true, Bool.false_eq_true, if_false, List.singleton_append]
  rcases hd : Src.get_real_os_buildNo_detect s env fuel
      [Event.EnterCriticalSection, Event.LeaveCriticalSection] with _ | ⟨b, v⟩
  · rfl
  · cases b <;> simp

/-! ## C3: build climber convergence -/

/-- C3: on an empty cache, with a native-family reported build `r` and a stub probe that is
true exactly for the build numbers up to `T`, for every initial step `s` of at least 1 with
`T + s < INT_MAX` and every `r` not above `T`, `get_real_os_buildNo` started with step `s`
returns (with any fuel of at least `T + s + 2`) success with build number exactly `T`; with
`s = 4096` this is the function of the source. -/
theorem C3_build_convergence (env : Env) (osvi : OSVERSIONINFOEXW) (T s fuel : Nat)
    (hinfo : env.get_os_info = some osvi)
    (hnt : osvi.dwPlatformId = VER_PLATFORM_WIN32_NT)
    (hprobe : ∀ b, env.verify_os_buildNo b = decide (b ≤ T))
    (hs : 1 ≤ s) (hT : T + s < INT_MAX) (hr : osvi.dwBuildNumber ≤ T)
    (hfuel : T + s + 2 ≤ fuel) :
    (∃ ov g tr, Src.get_real_os_buildNo_at s env fuel Src.Cache.zero Src.Cache.zero =
      Outcome.returned ({ ret := true, buildNo := T, pbOverride := ov }, g, tr)) ∧
    (s = 4096 → ∃ ov g tr, Src.get_real_os_buildNo env fuel Src.Cache.zero =
      Outcome.returned ({ ret := true, buildNo := T, pbOverride := ov }, g, tr)) := by
  obtain ⟨w, hw, hwT⟩ := build_detect_threshold env osvi T s fuel
    [Event.EnterCriticalSection, Event.LeaveCriticalSection] hinfo hnt hprobe hs hT hr hfuel
  have key : Src.get_real_os_buildNo_at s env fuel Src.Cache.zero Src.Cache.zero =
      Outcome.returned ({ ret := true, buildNo := T, pbOverride := w.bOverride },
        (Src.get_real_os_buildNo_commit w Src.Cache.zero).2,
        w.trace ++ [Event.EnterCriticalSection, Event.LeaveCriticalSection]) := by
    rw [get_real_os_buildNo_at_miss s env fuel _ _ rfl, hw]
    simp only [Src.get_real_os_buildNo_commit, Src.Cache.zero, if_true, hwT]
  refine ⟨⟨_, _, _, key⟩, ?_⟩
  intro h4096
  subst h4096
  exact ⟨_, _, _, key⟩

/-- C3 at the inputs of the specification: reported build 2600, threshold 7601, step 4096. -/
theorem C3_build_convergence_witness :
    (∃ ov g tr, Src.get_real_os_buildNo_at 4096
        (stub_env (some (nt_report (5, 1, 3) 2600)) (6, 1, 0) 7601) 11699
        Src.Cache.zero Src.Cache.zero =
      Outcome.returned ({ ret := true, buildNo := 7601, pbOverride := ov }, g, tr)) ∧
    ((4096 : Nat) = 4096 → ∃ ov g tr, Src.get_real_os_buildNo
        (stub_env (some (nt_report (5, 1, 3) 2600)) (6, 1, 0) 7601) 11699 Src.Cache.zero =
      Outcome.returned ({ ret := true, buildNo := 7601, pbOverride := ov }, g, tr)) :=
  C3_build_convergence (stub_env (some (nt_report (5, 1, 3) 2600)) (6, 1, 0) 7601)
    (nt_report (5, 1, 3) 2600) 7601 4096 11699 rfl rfl (fun _ => rfl)
    (by decide) (by decide) (by decide) (by decide)

/-! ## Probe count of the build climb -/

theorem build_probes_append_probe (tr : List Event) (n : Nat) :
    build_probes (tr ++ [Event.verify_os_buildNo n]) = build_probes tr + 1 := by
  simp [build_probes, List.countP_append, Event.is_build_probe]

theorem tail_probes_le (k : Nat) : ∀ d, tail_probes k d ≤ 2 * (k + 1) := by
  induction k with
  | zero => intro d; unfold tail_probes; split <;> omega
  | succ k ih =>
    intro d
    rw [tail_probes]
    split
    · have := ih (d - 2 ^ (k + 1)); omega
    · have := ih d; omega

theorem build_loop_tail (env : Env) (T : Nat)
    (hprobe : ∀ b, env.verify_os_buildNo b = decide (b ≤ T)) :
    ∀ (k fuel : Nat) (b : Src.BuildState), b.buildNo ≤ T → T < b.buildNo + 2 ^ (k + 1) →
      T + 2 ^ k < INT_MAX → 2 * (k + 1) < fuel →
      ∃ w, Src.build_loop env fuel (2 ^ k) (b.buildNo + 2 ^ k) b = some w ∧ w.buildNo = T ∧
        build_probes w.trace = build_probes b.trace + tail_probes k (T - b.buildNo) := by
  intro k
  induction k with
  | zero =>
    intro fuel b hb hT hmax hf
    obtain ⟨n, rfl⟩ : ∃ n, fuel = n + 2 := ⟨fuel - 2, by omega⟩
    simp only [pow_zero, zero_add, pow_one] at hT hmax ⊢
    rw [Src.build_loop, if_pos (by omega)]
    by_cases hp : b.buildNo + 1 ≤ T
    · have hpr : env.verify_os_buildNo (b.buildNo + 1) = true := by
        rw [hprobe]; exact decide_eq_true hp
      have hpr2 : env.verify_os_buildNo (b.buildNo + 1 + 1) = false := by
        rw [hprobe]; exact decide_eq_false (by omega)
      have hw : DWORD (b.buildNo + 1 + 1) = b.buildNo + 1 + 1 :=
        DWORD_of_lt (by unfold INT_MAX at hmax; omega)
      simp only [hpr, if_true, hw]
      rw [Src.build_loop, if_pos (by omega)]
      simp only [hpr2, Bool.false_eq_true, if_false, gt_iff_lt, lt_self_iff_false]
      refine ⟨_, rfl, by simp only; omega, ?_⟩
      simp only [build_probes_append_probe, tail_probes]
      rw [if_pos (by omega)]
    · have hpr : env.verify_os_buildNo (b.buildNo + 1) = false := by
        rw [hprobe]; exact decide_eq_false hp
      simp only [hpr, Bool.false_eq_true, if_false, gt_iff_lt, lt_self_iff_false]
      refine ⟨_, rfl, by simp only; omega, ?_⟩
      simp only [build_probes_append_probe, tail_probes]
      rw [if_neg (by omega)]
  | succ k ih =>
    intro fuel b hb hT hmax hf
    obtain ⟨n, rfl⟩ : ∃ n, fuel = n + 2 := ⟨fuel - 2, by omega⟩
    have h2 : 2 ^ (k + 1) = 2 * 2 ^ k := by rw [pow_succ]; omega
    have h3 : 2 ^ (k + 1 + 1) = 2 * 2 ^ (k + 1) := by rw [pow_succ]; omega
    have hp1 : 1 ≤ 2 ^ k := Nat.one_le_two_pow
    have hhalf : 2 ^ (k + 1) / 2 = 2 ^ k := by omega
    have hgt : 2 ^ (k + 1) > 1 := by omega
    rw [Src.build_loop, if_pos (by omega)]
    by_cases hp : b.buildNo + 2 ^ (k + 1) ≤ T
    · have hpr : env.verify_os_buildNo (b.buildNo + 2 ^ (k + 1)) = true := by
        rw [hprobe]; exact decide_eq_true hp
      have hpr2 : env.verify_os_buildNo (b.buildNo + 2 ^ (k + 1) + 2 ^ (k + 1)) = false := by
        rw [hprobe]; exact decide_eq_false (by omega)
      have hw : DWORD (b.buildNo + 2 ^ (k + 1) + 2 ^ (k + 1)) =
          b.buildNo + 2 ^ (k + 1) + 2 ^ (k + 1) :=
        DWORD_of_lt (by unfold INT_MAX at hmax; omega)
      have hw2 : DWORD (b.buildNo + 2 ^ (k + 1) + 2 ^ k) = b.buildNo + 2 ^ (k + 1) + 2 ^ k :=
        DWORD_of_lt (by unfold INT_MAX at hmax; omega)
      simp only [hpr, if_true, hw]
      rw [Src.build_loop, if_pos (by omega)]
      simp only [hpr2, Bool.false_eq_true, if_false, hgt, if_true, hhalf, hw2]
      obtain ⟨w, e, hwT, hc⟩ := ih n
        { buildNo := b.buildNo + 2 ^ (k + 1), bOverride := true,
          trace := b.trace ++ [Event.verify_os_buildNo (b.buildNo + 2 ^ (k + 1))] ++
            [Event.verify_os_buildNo (b.buildNo + 2 ^ (k + 1) + 2 ^ (k + 1))] }
        hp (by simp only; omega) (by omega) (by omega)
      refine ⟨w, e, hwT, ?_⟩
      rw [hc]
      simp only [build_probes_append_probe]
      rw [tail_probes, if_pos (by omega)]
      have : T - (b.buildNo + 2 ^ (k + 1)) = T - b.buildNo - 2 ^ (k + 1) := by omega
      rw [this]
      omega
    · have hpr : env.verify_os_buildNo (b.buildNo + 2 ^ (k + 1)) = false := by
        rw [hprobe]; exact decide_eq_false hp
      have hw2 : DWORD (b.buildNo + 2 ^ k) = b.buildNo + 2 ^ k :=
        DWORD_of_lt (by unfold INT_MAX at hmax; omega)
      simp only [hpr, Bool.false_eq_true, if_false, hgt, if_true, hhalf, hw2]
      obtain ⟨w, e, hwT, hc⟩ := ih (n + 1)
        { b with trace := b.trace ++ [Event.verify_os_buildNo (b.buildNo + 2 ^ (k + 1))] }
        hb (by simp only; omega) (by omega) (by omega)
      refine ⟨w, e, hwT, ?_⟩
      rw [hc]
      simp only [build_probes_append_probe]
      rw [tail_probes, if_neg (by omega)]
      omega

theorem build_loop_tail_2048 (env : Env) (T : Nat)
    (hprobe : ∀ b, env.verify_os_buildNo b = decide (b ≤ T))
    (fuel : Nat) (b : Src.BuildState) (hb : b.buildNo ≤ T) (hT : T < b.buildNo + 4096)
    (hmax : T + 2048 < INT_MAX) (hf : 24 < fuel) :
    ∃ w, Src.build_loop env fuel 2048 (b.buildNo + 2048) b = some w ∧ w.buildNo = T ∧
      build_probes w.trace = build_probes b.trace + tail_probes 11 (T - b.buildNo) := by
  have h := build_loop_tail env T hprobe 11 fuel b hb (by norm_num; exact hT)
    (by norm_num; exact hmax) (by omega)
  norm_num at h
  exact h

theorem build_loop_4096 (env : Env) (T : Nat)
    (hprobe : ∀ b, env.verify_os_buildNo b = decide (b ≤ T)) (hmax : T + 4096 < INT_MAX) :
    ∀ (n fuel : Nat) (b : Src.BuildState), b.buildNo ≤ T → (T - b.buildNo) / 4096 = n →
      n + 25 < fuel →
      ∃ w, Src.build_loop env fuel 4096 (b.buildNo + 4096) b = some w ∧ w.buildNo = T ∧
        build_probes w.trace =
          build_probes b.trace + n + 1 + tail_probes 11 ((T - b.buildNo) % 4096) := by
  intro n
  induction n with
  | zero =>
    intro fuel b hb hn hf
    obtain ⟨m, rfl⟩ : ∃ m, fuel = m + 1 := ⟨fuel - 1, by omega⟩
    have hlt : T < b.buildNo + 4096 := by omega
    have hpr : env.verify_os_buildNo (b.buildNo + 4096) = false := by
      rw [hprobe]; exact decide_eq_false (by omega)
    have hw : DWORD (b.buildNo + 2048) = b.buildNo + 2048 :=
      DWORD_of_lt (by unfold INT_MAX at hmax; omega)
    rw [Src.build_loop, if_pos (by omega)]
    simp only [hpr, Bool.false_eq_true, if_false]
    rw [if_pos (by decide)]
    simp only [show (4096 : Nat) / 2 = 2048 from rfl, hw]
    obtain ⟨w, e, hwT, hc⟩ := build_loop_tail_2048 env T hprobe m
      { b with trace := b.trace ++ [Event.verify_os_buildNo (b.buildNo + 4096)] }
      hb hlt (by omega) (by omega)
    refine ⟨w, e, hwT, ?_⟩
    rw [hc]
    simp only [build_probes_append_probe]
    have : (T - b.buildNo) % 4096 = T - b.buildNo := by omega
    rw [this]
  | succ n ih =>
    intro fuel b hb hn hf
    obtain ⟨m, rfl⟩ : ∃ m, fuel = m + 1 := ⟨fuel - 1, by omega⟩
    have hp : b.buildNo + 4096 ≤ T := by omega
    have hpr : env.verify_os_buildNo (b.buildNo + 4096) = true := by
      rw [hprobe]; exact decide_eq_true hp
    have hw : DWORD (b.buildNo + 4096 + 4096) = b.buildNo + 4096 + 4096 :=
      DWORD_of_lt (by unfold INT_MAX at hmax; omega)
    rw [Src.build_loop, if_pos (by omega)]
    simp only [hpr, if_true, hw]
    obtain ⟨w, e, hwT, hc⟩ := ih m
      { buildNo := b.buildNo + 4096, bOverride := true,
        trace := b.trace ++ [Event.verify_os_buildNo (b.buildNo + 4096)] }
      hp (by simp only; omega) (by omega)
    refine ⟨w, e, hwT, ?_⟩
    rw [hc]
    simp only [build_probes_append_probe]
    have : (T - (b.buildNo + 4096)) % 4096 = (T - b.buildNo) % 4096 := by omega
    rw [this]
    omega

theorem build_detect_count (env : Env) (osvi : OSVERSIONINFOEXW) (T fuel : Nat)
    (tr : List Event)
    (hinfo : env.get_os_info = some osvi)
    (hnt : osvi.dwPlatformId = VER_PLATFORM_WIN32_NT)
    (hprobe : ∀ b, env.verify_os_buildNo b = decide (b ≤ T))
    (hT : T + 4096 < INT_MAX) (hr : osvi.dwBuildNumber ≤ T)
    (hfuel : (T - osvi.dwBuildNumber) / 4096 + 27 ≤ fuel) :
    ∃ w, Src.get_real_os_buildNo_detect 4096 env fuel tr = some (true, w) ∧ w.buildNo = T ∧
      build_probes w.trace = build_probes tr + 2 + (T - osvi.dwBuildNumber) / 4096 +
        tail_probes 11 ((T - osvi.dwBuildNumber) % 4096) := by
  have hd : DWORD osvi.dwBuildNumber = osvi.dwBuildNumber :=
    DWORD_of_lt (by unfold INT_MAX at hT; omega)
  have hds : DWORD 4096 = 4096 := rfl
  obtain ⟨n, rfl⟩ : ∃ n, fuel = n + 1 := ⟨fuel - 1, by omega⟩
  have hpr : env.verify_os_buildNo osvi.dwBuildNumber = true := by
    rw [hprobe]; exact decide_eq_true hr
  have hw : DWORD (osvi.dwBuildNumber + 4096) = osvi.dwBuildNumber + 4096 :=
    DWORD_of_lt (by unfold INT_MAX at hT; omega)
  obtain ⟨w, e, hwT, hc⟩ := build_loop_4096 env T hprobe hT _ n
    { buildNo := osvi.dwBuildNumber, bOverride := true,
      trace := tr ++ [Event.get_os_info] ++ [Event.verify_os_buildNo osvi.dwBuildNumber] }
    hr rfl (by simp only; omega)
  refine ⟨w, ?_, hwT, ?_⟩
  · unfold Src.get_real_os_buildNo_detect
    simp only [hinfo, hnt, if_true, hd, hds]
    rw [Src.build_loop, if_pos (by omega)]
    simp only [hpr, if_true, hw]
    simp only at e
    rw [e]
  · rw [hc]
    simp only [build_probes_append_probe]
    have : build_probes (tr ++ [Event.get_os_info]) = build_probes tr := by
      simp [build_probes, List.countP_append, Event.is_build_probe]
    rw [this]
    omega

theorem tail_probes_small : ∀ d, d < 25 → (tail_probes 11 d < d ↔ 16 ≤ d) := by
  decide

/-! ## C4: probe count of the build climber -/

/-- C4 (as the code behaves): with the stub build probe true exactly up to 7601 and a
native-family reported build `r` of at most 7601, `get_real_os_buildNo` (initial step 4096, any
fuel of at least 40) returns, and the number of build probes it made is strictly smaller than
the `7601 - r + 2` probes of a linear scan exactly when `r` is at most 7585; for the sixteen
reported builds 7586 to 7601 the halving loop needs at least as many probes as the scan. -/
theorem C4_probe_count (env : Env) (osvi : OSVERSIONINFOEXW) (fuel : Nat)
    (hinfo : env.get_os_info = some osvi)
    (hnt : osvi.dwPlatformId = VER_PLATFORM_WIN32_NT)
    (hprobe : ∀ b, env.verify_os_buildNo b = decide (b ≤ 7601))
    (hr : osvi.dwBuildNumber ≤ 7601) (hfuel : 40 ≤ fuel) :
    ∃ out g tr, Src.get_real_os_buildNo env fuel Src.Cache.zero =
        Outcome.returned (out, g, tr) ∧
      (build_probes tr < 7601 - osvi.dwBuildNumber + 2 ↔ osvi.dwBuildNumber ≤ 7585) := by
  obtain ⟨w, hw, _, hc⟩ := build_detect_count env osvi 7601 fuel
    [Event.EnterCriticalSection, Event.LeaveCriticalSection] hinfo hnt hprobe
    (by decide) hr (by omega)
  refine ⟨(Src.get_real_os_buildNo_commit w Src.Cache.zero).1,
    (Src.get_real_os_buildNo_commit w Src.Cache.zero).2,
    w.trace ++ [Event.EnterCriticalSection, Event.LeaveCriticalSection], ?_, ?_⟩
  · unfold Src.get_real_os_buildNo
    rw [get_real_os_buildNo_at_miss 4096 env fuel _ _ rfl, hw]
  · have hcount : build_probes
        (w.trace ++ [Event.EnterCriticalSection, Event.LeaveCriticalSection]) =
        2 + (7601 - osvi.dwBuildNumber) / 4096 +
          tail_probes 11 ((7601 - osvi.dwBuildNumber) % 4096) := by
      have h1 : build_probes
          (w.trace ++ [Event.EnterCriticalSection, Event.LeaveCriticalSection]) =
          build_probes w.trace := by
        simp [build_probes, List.countP_append, Event.is_build_probe]
      have h2 : build_probes [Event.EnterCriticalSection, Event.LeaveCriticalSection] = 0 := by
        decide
      rw [h1, hc, h2]
    rw [hcount]
    have hle := tail_probes_le 11 ((7601 - osvi.dwBuildNumber) % 4096)
    by_cases hd : 7601 - osvi.dwBuildNumber < 25
    · have hs := tail_probes_small (7601 - osvi.dwBuildNumber) hd
      have hmod : (7601 - osvi.dwBuildNumber) % 4096 = 7601 - osvi.dwBuildNumber := by omega
      have hdiv : (7601 - osvi.dwBuildNumber) / 4096 = 0 := by omega
      rw [hmod, hdiv]
      omega
    · omega

/-- C4 at a concrete input: reported build 2600. -/
theorem C4_probe_count_witness :
    ∃ out g tr, Src.get_real_os_buildNo
        (stub_env (some (nt_report (5, 1, 3) 2600)) (6, 1, 0) 7601) 40 Src.Cache.zero =
        Outcome.returned (out, g, tr) ∧
      (build_probes tr < 7601 - (nt_report (5, 1, 3) 2600).dwBuildNumber + 2 ↔
        (nt_report (5, 1, 3) 2600).dwBuildNumber ≤ 7585) :=
  C4_probe_count (stub_env (some (nt_report (5, 1, 3) 2600)) (6, 1, 0) 7601)
    (nt_report (5, 1, 3) 2600) 40 rfl rfl (fun _ => rfl) (by decide) (by decide)

/-- C4 as stated fails at reported build 7601: the halving loop makes 14 probes (7601, then
7601 + 4096, 7601 + 2048, ..., 7601 + 1), the linear scan only the 2 probes 7601 and 7602. -/
theorem C4_counterexample :
    ∃ out g tr, Src.get_real_os_buildNo
        (stub_env (some (nt_report (6, 1, 0) 7601)) (6, 1, 0) 7601) 40 Src.Cache.zero =
        Outcome.returned (out, g, tr) ∧ build_probes tr = 14 ∧
      ¬ (build_probes tr < 7601 - 7601 + 2) :=
  ⟨_, _, _, rfl, by decide, by decide⟩

/-! ## C5: idempotence -/

theorem get_real_os_version_fixed (env : Env) (fuel : Nat) (out : VersionOut)
    (g1 : Src.Cache) (tr : List Event)
    (h : Src.get_real_os_version env fuel Src.Cache.zero = Outcome.returned (out, g1, tr)) :
    ∃ tr1, Src.get_real_os_version env fuel g1 = Outcome.returned (out, g1, tr1) := by
  unfold Src.get_real_os_version at h ⊢
  rw [get_real_os_version_at_miss env fuel _ _ ⟨rfl, rfl, rfl⟩] at h
  rcases hd : Src.get_real_os_version_detect env fuel
      [Event.EnterCriticalSection, Event.LeaveCriticalSection] with _ | ⟨b, v⟩
  · rw [hd] at h
    cases h
  · rw [hd] at h
    cases b
    · simp only [Outcome.returned.injEq, Prod.mk.injEq] at h
      obtain ⟨h1, h2, h3⟩ := h
      subst h1 h2 h3
      refine ⟨v.trace, ?_⟩
      rw [get_real_os_version_at_miss env fuel _ _ ⟨rfl, rfl, rfl⟩, hd]
    · simp only [Outcome.returned.injEq, Prod.mk.injEq] at h
      obtain ⟨h1, h2, h3⟩ := h
      subst h1 h2 h3
      by_cases hz : v.major = 0 ∧ v.minor = 0 ∧ v.spack = 0
      · refine ⟨v.trace ++ [Event.EnterCriticalSection, Event.LeaveCriticalSection], ?_⟩
        rw [get_real_os_version_at_miss env fuel _ _
          (by simp [Src.get_real_os_version_commit, Src.Cache.zero, hz]), hd]
        simp [Src.get_real_os_version_commit, Src.Cache.zero, hz]
      · refine ⟨[Event.EnterCriticalSection, Event.LeaveCriticalSection], ?_⟩
        rw [get_real_os_version_at_hit env fuel _ _
          (by simp [Src.get_real_os_version_commit, Src.Cache.zero]; omega)]
        simp [Src.get_real_os_version_commit, Src.Cache.zero]

theorem call_sequence_fixed (env : Env) (fuel : Nat) (out : VersionOut) (g1 : Src.Cache)
    (h : ∃ tr1, Src.get_real_os_version env fuel g1 = Outcome.returned (out, g1, tr1)) :
    ∀ n, call_sequence env fuel n g1 = some (List.replicate n out, g1) := by
  intro n
  induction n with
  | zero => rfl
  | succ n ih =>
    obtain ⟨tr1, h1⟩ := h
    rw [call_sequence, h1]
    simp only [ih, List.replicate_succ]

/-- C5: for every environment and fuel, if the first call of `get_real_os_version` on the
zero-initialised cache returns `out` (success flag, tuple, override flag), then any number `n`
of further calls in sequence all return, and each of them returns exactly `out`. -/
theorem C5_idempotence (env : Env) (fuel n : Nat) (out : VersionOut) (g1 : Src.Cache)
    (tr : List Event)
    (h : Src.get_real_os_version env fuel Src.Cache.zero = Outcome.returned (out, g1, tr)) :
    call_sequence env fuel (n + 1) Src.Cache.zero = some (List.replicate (n + 1) out, g1) := by
  rw [call_sequence, h]
  simp only [call_sequence_fixed env fuel out g1 (get_real_os_version_fixed env fuel out g1 tr h) n,
    List.replicate_succ]

/-- C5 at a concrete input: reported (5,1,3), probe threshold (6,1,0), three calls. -/
theorem C5_idempotence_witness :
    call_sequence (stub_env (some (nt_report (5, 1, 3) 2600)) (6, 1, 0) 7601) 20 3
        Src.Cache.zero =
      some (List.replicate 3
          { ret := true, major := 6, minor := 1, spack := 0, pbOverride := true },
        { g_os_version_major := 6, g_os_version_minor := 1, g_os_version_spack := 0,
          g_os_version_build := 0, g_os_version_bOverride := true }) :=
  C5_idempotence (stub_env (some (nt_report (5, 1, 3) 2600)) (6, 1, 0) 7601) 20 2 _ _ _ rfl

/-! ## Termination of `get_real_os_version` of `DetectOsVersion.cpp` -/

theorem legacy_major_loop_terminates (env : Env) :
    ∀ (fuel next : Nat) (v : VerParams), MAX_VALUE + 1 - next < fuel →
      ∃ w, major_loop env fuel next v = some w := by
  intro fuel
  induction fuel with
  | zero => intro next v h; omega
  | succ n ih =>
    intro next v h
    rw [major_loop]
    by_cases hc : next ≤ MAX_VALUE
    · rw [if_pos hc]
      by_cases hp : env.verify_os_version next 0 0 = true
      · simp only [hp, if_true]
        have hw : DWORD (next + 1) = next + 1 :=
          DWORD_of_lt (by unfold MAX_VALUE at hc; omega)
        rw [hw]
        exact ih _ _ (by omega)
      · simp only [hp]
        exact ⟨_, rfl⟩
    · rw [if_neg hc]
      exact ⟨_, rfl⟩

theorem legacy_minor_loop_terminates (env : Env) :
    ∀ (fuel next : Nat) (v : VerParams), MAX_VALUE + 1 - next < fuel →
      ∃ w, minor_loop env fuel next v = some w := by
  intro fuel
  induction fuel with
  | zero => intro next v h; omega
  | succ n ih =>
    intro next v h
    rw [minor_loop]
    by_cases hc : next ≤ MAX_VALUE
    · rw [if_pos hc]
      by_cases hp : env.verify_os_version v.major next 0 = true
      · simp only [hp, if_true]
        have hw : DWORD (next + 1) = next + 1 :=
          DWORD_of_lt (by unfold MAX_VALUE at hc; omega)
        rw [hw]
        exact ih _ _ (by omega)
      · simp only [hp]
        exact ⟨_, rfl⟩
    · rw [if_neg hc]
      exact ⟨_, rfl⟩

theorem legacy_spack_loop_terminates (env : Env) :
    ∀ (fuel next : Nat) (v : VerParams), MAX_VALUE + 1 - next < fuel →
      ∃ w, spack_loop env fuel next v = some w := by
  intro fuel
  induction fuel with
  | zero => intro next v h; omega
  | succ n ih =>
    intro next v h
    rw [spack_loop]
    by_cases hc : next ≤ MAX_VALUE
    · rw [if_pos hc]
      by_cases hp : env.verify_os_version v.major v.minor next = true
      · simp only [hp, if_true]
        have hw : DWORD (next + 1) = next + 1 :=
          DWORD_of_lt (by unfold MAX_VALUE at hc; omega)
        rw [hw]
        exact ih _ _ (by omega)
      · simp only [hp]
        exact ⟨_, rfl⟩
    · rw [if_neg hc]
      exact ⟨_, rfl⟩

theorem legacy_get_real_os_version_terminates (env : Env) (fuel : Nat) (hfuel : 1026 ≤ fuel) :
    ∃ out, get_real_os_version env fuel = some out := by
  have hf : ∀ next, MAX_VALUE + 1 - next < fuel := by
    intro next; unfold MAX_VALUE; omega
  have loops : ∀ v0 : VerParams, ∃ out,
      (match major_loop env fuel (DWORD (v0.major + 1)) v0 with
        | none => none
        | some v1 =>
          match minor_loop env fuel (DWORD (v1.minor + 1)) v1 with
          | none => none
          | some v2 =>
            match spack_loop env fuel (DWORD (v2.spack + 1)) v2 with
            | none => none
            | some v3 =>
              some
                ({ ret := !(decide (v3.major ≥ MAX_VALUE ∨ v3.minor ≥ MAX_VALUE
                                    ∨ v3.spack ≥ MAX_VALUE)),
                   major := v3.major, minor := v3.minor, spack := v3.spack,
                   pbOverride := v3.bOverride } : VersionOut)) = some out := by
    intro v0
    obtain ⟨w1, e1⟩ := legacy_major_loop_terminates env fuel (DWORD (v0.major + 1)) v0 (hf _)
    obtain ⟨w2, e2⟩ := legacy_minor_loop_terminates env fuel (DWORD (w1.minor + 1)) w1 (hf _)
    obtain ⟨w3, e3⟩ := legacy_spack_loop_terminates env fuel (DWORD (w2.spack + 1)) w2 (hf _)
    rw [e1]
    simp only
    rw [e2]
    simp only
    rw [e3]
    exact ⟨_, rfl⟩
  unfold get_real_os_version
  rcases env.get_os_info with _ | osvi
  · exact ⟨_, rfl⟩
  · simp only
    by_cases hnt : osvi.dwPlatformId = VER_PLATFORM_WIN32_NT
    · simp only [hnt, if_true]
      exact loops { major := DWORD osvi.dwMajorVersion, minor := DWORD osvi.dwMinorVersion,
                    spack := WORD osvi.wServicePackMajor, bOverride := false }
    · by_cases h4 : env.verify_os_version 4 0 0 = true
      · simp only [hnt, h4, if_false, if_true]
        exact loops { major := 4, minor := 0, spack := 0, bOverride := true }
      · simp only [hnt, h4, if_false]
        exact ⟨_, rfl⟩

/-! ## C6: ordering of `VerifyRealOsVersion` -/

theorem UINT_abs_of_nonneg (e : Int) (h0 : 0 ≤ e) (h1 : e ≤ INT_MAX) :
    UINT (abs e) = e.toNat := by
  unfold UINT abs INT_MAX at *
  rw [if_neg (by omega)]
  congr 1
  omega

theorem version_loop_spec (d0 d1 d2 e0 e1 e2 : Nat) :
    version_loop [d0, d1, d2] [e0, e1, e2] 3 0 =
      if lexLt (e0, e1, e2) (d0, d1, d2) then some "newer"
      else if lexLt (d0, d1, d2) (e0, e1, e2) then some "older"
      else none := by
  simp only [version_loop, lexLt, List.getD_cons_zero, List.getD_cons_succ, gt_iff_lt]
  split_ifs <;> first | rfl | omega

/-- C6: for every environment, every expected tuple `(e0, e1, e2)` of non-negative `int`
values (pushed as major, minor, service pack, so the service pack is on top) and fuel of
at least 1026, the detection returns some `out` and `VerifyRealOsVersion` replaces the three
arguments by one string: "error" exactly when the detection failed; and when it succeeded,
"newer" exactly when the detected tuple is lexicographically greater than the expected one,
"older" exactly when it is smaller, "ok" exactly when the two are equal. -/
theorem C6_verify_ordering (env : Env) (fuel : Nat) (e0 e1 e2 : Int) (rest : List StackItem)
    (h0 : 0 ≤ e0 ∧ e0 ≤ INT_MAX) (h1 : 0 ≤ e1 ∧ e1 ≤ INT_MAX) (h2 : 0 ≤ e2 ∧ e2 ≤ INT_MAX)
    (hfuel : 1026 ≤ fuel) :
    ∃ out s, get_real_os_version env fuel = some out ∧
      VerifyRealOsVersion env fuel
        (StackItem.int e2 :: StackItem.int e1 :: StackItem.int e0 :: rest) =
        some (StackItem.str s :: rest) ∧
      (s = "error" ↔ out.ret = false) ∧
      (out.ret = true →
        (s = "newer" ↔ lexLt (e0.toNat, e1.toNat, e2.toNat) (out.major, out.minor, out.spack)) ∧
        (s = "older" ↔ lexLt (out.major, out.minor, out.spack) (e0.toNat, e1.toNat, e2.toNat)) ∧
        (s = "ok" ↔ (out.major, out.minor, out.spack) = (e0.toNat, e1.toNat, e2.toNat))) := by
  obtain ⟨out, hout⟩ := legacy_get_real_os_version_terminates env fuel hfuel
  have hv : VerifyRealOsVersion env fuel
      (StackItem.int e2 :: StackItem.int e1 :: StackItem.int e0 :: rest) =
      if !out.ret then some (pushstring "error" rest)
      else
        match version_loop [out.major, out.minor, out.spack]
            [e0.toNat, e1.toNat, e2.toNat] 3 0 with
        | some s => some (pushstring s rest)
        | none => some (pushstring "ok" rest) := by
    unfold VerifyRealOsVersion
    simp only [popint, hout, UINT_abs_of_nonneg e0 h0.1 h0.2, UINT_abs_of_nonneg e1 h1.1 h1.2,
      UINT_abs_of_nonneg e2 h2.1 h2.2]
  rw [version_loop_spec] at hv
  cases hret : out.ret
  · refine ⟨out, "error", hout, ?_, ?_, ?_⟩
    · rw [hv, hret]; rfl
    · simp [hret]
    · intro h; rw [hret] at h; cases h
  · simp only [hret, Bool.not_true, Bool.false_eq_true, if_false] at hv
    by_cases hn : lexLt (e0.toNat, e1.toNat, e2.toNat) (out.major, out.minor, out.spack)
    · refine ⟨out, "newer", hout, ?_, ?_, ?_⟩
      · rw [hv, if_pos hn]; rfl
      · simp [hret]
      · intro _
        refine ⟨?_, ?_, ?_⟩
        · simp [hn]
        · simp only [lexLt] at hn ⊢
          constructor
          · intro h; exact absurd h (by decide)
          · intro h; omega
        · simp only [lexLt] at hn
          constructor
          · intro h; exact absurd h (by decide)
          · intro h
            simp only [Prod.mk.injEq] at h
            omega
    · by_cases ho : lexLt (out.major, out.minor, out.spack) (e0.toNat, e1.toNat, e2.toNat)
      · refine ⟨out, "older", hout, ?_, ?_, ?_⟩
        · rw [hv, if_neg hn, if_pos ho]; rfl
        · simp [hret]
        · intro _
          refine ⟨?_, ?_, ?_⟩
          · constructor
            · intro h; exact absurd h (by decide)
            · intro h; exact absurd h hn
          · simp [ho]
          · simp only [lexLt] at ho
            constructor
            · intro h; exact absurd h (by decide)
            · intro h
              simp only [Prod.mk.injEq] at h
              omega
      · refine ⟨out, "ok", hout, ?_, ?_, ?_⟩
        · rw [hv, if_neg hn, if_neg ho]; rfl
        · simp [hret]
        · intro _
          refine ⟨?_, ?_, ?_⟩
          · constructor
            · intro h; exact absurd h (by decide)
            · intro h; exact absurd h hn
          · constructor
            · intro h; exact absurd h (by decide)
            · intro h; exact absurd h ho
          · simp only [lexLt] at hn ho
            simp only [true_iff, Prod.mk.injEq]
            omega

/-- C6 at the inputs of the specification: detected (6,1,0) against expected (6,0,0), and
the three orderings evaluated: (6,1,0) against (6,0,0) is "newer", (6,1,0) against (6,1,0)
is "ok", (5,1,0) against (6,0,0) is "older". -/
theorem C6_verify_ordering_witness :
    (∃ out s, get_real_os_version (stub_env (some (nt_report (6, 0, 0) 7601)) (6, 1, 0) 7601)
        1026 = some out ∧
      VerifyRealOsVersion (stub_env (some (nt_report (6, 0, 0) 7601)) (6, 1, 0) 7601) 1026
        (StackItem.int 0 :: StackItem.int 0 :: StackItem.int 6 :: []) =
        some (StackItem.str s :: []) ∧
      (s = "error" ↔ out.ret = false) ∧
      (out.ret = true →
        (s = "newer" ↔ lexLt ((6 : Int).toNat, (0 : Int).toNat, (0 : Int).toNat)
          (out.major, out.minor, out.spack)) ∧
        (s = "older" ↔ lexLt (out.major, out.minor, out.spack)
          ((6 : Int).toNat, (0 : Int).toNat, (0 : Int).toNat)) ∧
        (s = "ok" ↔ (out.major, out.minor, out.spack) =
          ((6 : Int).toNat, (0 : Int).toNat, (0 : Int).toNat)))) ∧
    VerifyRealOsVersion (stub_env (some (nt_report (6, 0, 0) 7601)) (6, 1, 0) 7601) 1026
      [StackItem.int 0, StackItem.int 0, StackItem.int 6] = some [StackItem.str "newer"] ∧
    VerifyRealOsVersion (stub_env (some (nt_report (6, 0, 0) 7601)) (6, 1, 0) 7601) 1026
      [StackItem.int 0, StackItem.int 1, StackItem.int 6] = some [StackItem.str "ok"] ∧
    VerifyRealOsVersion (stub_env (some (nt_report (5, 1, 0) 2600)) (5, 1, 0) 2600) 1026
      [StackItem.int 0, StackItem.int 0, StackItem.int 6] = some [StackItem.str "older"] :=
  ⟨C6_verify_ordering (stub_env (some (nt_report (6, 0, 0) 7601)) (6, 1, 0) 7601) 1026 6 0 0 []
      (by decide) (by decide) (by decide) (by decide),
    by decide, by decide, by decide⟩

/-! ## C7: friendly-name lookup -/

theorem name_loop_hit (major minor : Nat) (name : String)
    (h : (major, minor, name) ∈ Src.s_names) :
    Src.name_loop major minor Src.NAME_COUNT 0 = some name := by
  simp only [Src.s_names, List.mem_cons, Prod.mk.injEq, List.mem_singleton, List.not_mem_nil,
    or_false] at h
  rcases h with h | h | h | h | h | h | h | h | h <;>
    (obtain ⟨rfl, rfl, rfl⟩ := h; decide)

theorem name_loop_miss (major minor : Nat)
    (h : ∀ name, (major, minor, name) ∉ Src.s_names) :
    Src.name_loop major minor Src.NAME_COUNT 0 = none := by
  have k1 : ¬(4 = major ∧ 0 = minor) :=
    fun ⟨a, b⟩ => h "Windows NT 4.0" (by subst a b; decide)
  have k2 : ¬(5 = major ∧ 0 = minor) :=
    fun ⟨a, b⟩ => h "Windows 2000" (by subst a b; decide)
  have k3 : ¬(5 = major ∧ 1 = minor) :=
    fun ⟨a, b⟩ => h "Windows XP" (by subst a b; decide)
  have k4 : ¬(5 = major ∧ 2 = minor) :=
    fun ⟨a, b⟩ => h "Windows XP (x64)" (by subst a b; decide)
  have k5 : ¬(6 = major ∧ 0 = minor) :=
    fun ⟨a, b⟩ => h "Windows Vista" (by subst a b; decide)
  have k6 : ¬(6 = major ∧ 1 = minor) :=
    fun ⟨a, b⟩ => h "Windows 7" (by subst a b; decide)
  have k7 : ¬(6 = major ∧ 2 = minor) :=
    fun ⟨a, b⟩ => h "Windows 8" (by subst a b; decide)
  have k8 : ¬(6 = major ∧ 3 = minor) :=
    fun ⟨a, b⟩ => h "Windows 8.1" (by subst a b; decide)
  have k9 : ¬(10 = major ∧ 0 = minor) :=
    fun ⟨a, b⟩ => h "Windows 10" (by subst a b; decide)
  simp only [Src.NAME_COUNT, Src.name_loop, Src.s_names, List.get?, zero_add, Nat.reduceAdd,
    k1, k2, k3, k4, k5, k6, k7, k8, k9, if_false]

/-- C7: `get_os_friendly_name` is a total function; for a pair that is the key of an entry of
the table `s_names` it returns the name of that entry, which is never "unknown"; for every
other pair it returns "unknown". The keys of the table are pairwise distinct, (6,1) gives
"Windows 7" and (99,99) gives "unknown". -/
theorem C7_friendly_name (env : Env) (major minor : Nat) :
    (∀ name, (major, minor, name) ∈ Src.s_names →
      (Src.get_os_friendly_name env major minor).1 = name ∧ name ≠ "unknown") ∧
    ((∀ name, (major, minor, name) ∉ Src.s_names) →
      (Src.get_os_friendly_name env major minor).1 = "unknown") ∧
    (Src.s_names.map (fun e => (e.1, e.2.1))).Nodup ∧
    (Src.get_os_friendly_name env 6 1).1 = "Windows 7" ∧
    (Src.get_os_friendly_name env 99 99).1 = "unknown" := by
  refine ⟨?_, ?_, by decide, ?_, ?_⟩
  · intro name h
    constructor
    · unfold Src.get_os_friendly_name
      rw [name_loop_hit major minor name h]
    · intro hu
      subst hu
      revert h
      simp [Src.s_names]
  · intro h
    unfold Src.get_os_friendly_name
    rw [name_loop_miss major minor h]
  · unfold Src.get_os_friendly_name
    rw [name_loop_hit 6 1 "Windows 7" (by decide)]
  · unfold Src.get_os_friendly_name
    rw [name_loop_miss 99 99 (by intro name; simp [Src.s_names])]

/-! ## C8: protocol of the guard -/

/-- C8: in any state of the guard `l`, `unlock` raises the fatal fault exactly when `l` is not
locked and `relock` raises it exactly when `l` is locked; when they do not raise they leave
the guard unlocked and locked, respectively. For a freshly constructed guard the first
`unlock` succeeds and a second `unlock` right after it raises the fault. -/
theorem C8_guard_protocol (l : Src.MutexLocker) (tr : List Event) :
    (l.unlock tr = Except.error Fault.ERROR_POSSIBLE_DEADLOCK ↔ l.m_locked = false) ∧
    (l.relock tr = Except.error Fault.ERROR_POSSIBLE_DEADLOCK ↔ l.m_locked = true) ∧
    (l.m_locked = true →
      l.unlock tr = Except.ok ({ m_locked := false }, tr ++ [Event.LeaveCriticalSection])) ∧
    (l.m_locked = false →
      l.relock tr = Except.ok ({ m_locked := true }, tr ++ [Event.EnterCriticalSection])) ∧
    (∃ l1 tr1, (Src.MutexLocker.ctor tr).1.unlock (Src.MutexLocker.ctor tr).2 =
        Except.ok (l1, tr1) ∧
      l1.unlock tr1 = Except.error Fault.ERROR_POSSIBLE_DEADLOCK) := by
  refine ⟨?_, ?_, ?_, ?_, ?_⟩
  · cases l with
    | mk b => cases b <;> simp [Src.MutexLocker.unlock]
  · cases l with
    | mk b => cases b <;> simp [Src.MutexLocker.relock]
  · intro h
    simp [Src.MutexLocker.unlock, h]
  · intro h
    simp [Src.MutexLocker.relock, h]
  · exact ⟨_, _, rfl, rfl⟩

/-! ## C9: cache hit -/

/-- C9: whenever the cached tuple is non-zero at the time of the call, `get_real_os_version`
returns success with exactly the cached tuple and the cached override flag and leaves the
cache as it is; its only events are entering and leaving the critical section (no info
query, no probe), for every environment, every fuel (even none) and whatever other callers
do to the cache. -/
theorem C9_cache_hit (env : Env) (fuel : Nat) (g gLater : Src.Cache)
    (h : g.g_os_version_major ≠ 0 ∨ g.g_os_version_minor ≠ 0 ∨ g.g_os_version_spack ≠ 0) :
    Src.get_real_os_version env fuel g =
      Outcome.returned
        ({ ret := true, major := g.g_os_version_major, minor := g.g_os_version_minor,
           spack := g.g_os_version_spack, pbOverride := g.g_os_version_bOverride },
         g, [Event.EnterCriticalSection, Event.LeaveCriticalSection]) ∧
    Src.get_real_os_version_at env fuel g gLater =
      Outcome.returned
        ({ ret := true, major := g.g_os_version_major, minor := g.g_os_version_minor,
           spack := g.g_os_version_spack, pbOverride := g.g_os_version_bOverride },
         g, [Event.EnterCriticalSection, Event.LeaveCriticalSection]) :=
  ⟨get_real_os_version_at_hit env fuel g g h, get_real_os_version_at_hit env fuel g gLater h⟩

/-- C9 at a concrete input: the cache holds (6,1,0) with the override flag set, the
environment would report (5,1,3), there is no fuel at all. -/
theorem C9_cache_hit_witness :
    Src.get_real_os_version (stub_env (some (nt_report (5, 1, 3) 2600)) (10, 0, 0) 7601) 0
        { g_os_version_major := 6, g_os_version_minor := 1, g_os_version_spack := 0,
          g_os_version_build := 0, g_os_version_bOverride := true } =
      Outcome.returned
        ({ ret := true, major := 6, minor := 1, spack := 0, pbOverride := true },
         { g_os_version_major := 6, g_os_version_minor := 1, g_os_version_spack := 0,
           g_os_version_build := 0, g_os_version_bOverride := true },
         [Event.EnterCriticalSection, Event.LeaveCriticalSection]) ∧
    Src.get_real_os_version_at (stub_env (some (nt_report (5, 1, 3) 2600)) (10, 0, 0) 7601) 0
        { g_os_version_major := 6, g_os_version_minor := 1, g_os_version_spack := 0,
          g_os_version_build := 0, g_os_version_bOverride := true } Src.Cache.zero =
      Outcome.returned
        ({ ret := true, major := 6, minor := 1, spack := 0, pbOverride := true },
         { g_os_version_major := 6, g_os_version_minor := 1, g_os_version_spack := 0,
           g_os_version_build := 0, g_os_version_bOverride := true },
         [Event.EnterCriticalSection, Event.LeaveCriticalSection]) :=
  C9_cache_hit (stub_env (some (nt_report (5, 1, 3) 2600)) (10, 0, 0) 7601) 0
    { g_os_version_major := 6, g_os_version_minor := 1, g_os_version_spack := 0,
      g_os_version_build := 0, g_os_version_bOverride := true } Src.Cache.zero
    (Or.inl (by decide))

/-! ## C10: first-writer-wins commit -/

/-- C10: a run of `get_real_os_version` that started on a cache `g` with an all-zero tuple and
whose detection reached the commit step with the out-parameters `v`: if the cache found at
the commit step, `gLater`, holds a non-zero tuple, the run returns the tuple and the override
flag of `gLater` and leaves `gLater` unchanged in every field; if the tuple of `gLater` is
still all zero, the run stores its own tuple (leaving the build number as it is and or-ing
its override flag into the cached one) and returns its own tuple and override flag. -/
theorem C10_first_writer_wins (env : Env) (fuel : Nat) (g gLater : Src.Cache) (v : Src.VerState)
    (hg : g.g_os_version_major = 0 ∧ g.g_os_version_minor = 0 ∧ g.g_os_version_spack = 0)
    (hd : Src.get_real_os_version_detect env fuel
      [Event.EnterCriticalSection, Event.LeaveCriticalSection] = some (true, v)) :
    ((gLater.g_os_version_major ≠ 0 ∨ gLater.g_os_version_minor ≠ 0 ∨
        gLater.g_os_version_spack ≠ 0) →
      Src.get_real_os_version_at env fuel g gLater =
        Outcome.returned
          ({ ret := true, major := gLater.g_os_version_major,
             minor := gLater.g_os_version_minor, spack := gLater.g_os_version_spack,
             pbOverride := gLater.g_os_version_bOverride },
           gLater, v.trace ++ [Event.EnterCriticalSection, Event.LeaveCriticalSection])) ∧
    ((gLater.g_os_version_major = 0 ∧ gLater.g_os_version_minor = 0 ∧
        gLater.g_os_version_spack = 0) →
      Src.get_real_os_version_at env fuel g gLater =
        Outcome.returned
          ({ ret := true, major := v.major, minor := v.minor, spack := v.spack,
             pbOverride := v.bOverride },
           { g_os_version_major := v.major, g_os_version_minor := v.minor,
             g_os_version_spack := v.spack, g_os_version_build := gLater.g_os_version_build,
             g_os_version_bOverride := gLater.g_os_version_bOverride || v.bOverride },
           v.trace ++ [Event.EnterCriticalSection, Event.LeaveCriticalSection])) := by
  rw [get_real_os_version_at_miss env fuel g gLater hg, hd]
  constructor
  · intro h
    simp only [Src.get_real_os_version_commit]
    rw [if_neg (by omega)]
  · intro h
    simp only [Src.get_real_os_version_commit]
    rw [if_pos h]

/-- C10 at a concrete input: the run detects (6,1,0) from the report (5,1,3); the cache found
at the commit step holds (10,0,0), written by another caller. -/
theorem C10_first_writer_wins_witness :
    Src.get_real_os_version_at (stub_env (some (nt_report (5, 1, 3) 2600)) (6, 1, 0) 7601) 20
        Src.Cache.zero
        { g_os_version_major := 10, g_os_version_minor := 0, g_os_version_spack := 0,
          g_os_version_build := 0, g_os_version_bOverride := false } =
      Outcome.returned
        ({ ret := true, major := 10, minor := 0, spack := 0, pbOverride := false },
         { g_os_version_major := 10, g_os_version_minor := 0, g_os_version_spack := 0,
           g_os_version_build := 0, g_os_version_bOverride := false },
         [Event.EnterCriticalSection, Event.LeaveCriticalSection, Event.get_os_info,
          Event.verify_os_version 6 0 0, Event.verify_os_version 7 0 0,
          Event.verify_os_version 6 1 0, Event.verify_os_version 6 2 0,
          Event.verify_os_version 6 1 1] ++
          [Event.EnterCriticalSection, Event.LeaveCriticalSection]) :=
  (C10_first_writer_wins (stub_env (some (nt_report (5, 1, 3) 2600)) (6, 1, 0) 7601) 20
    Src.Cache.zero
    { g_os_version_major := 10, g_os_version_minor := 0, g_os_version_spack := 0,
      g_os_version_build := 0, g_os_version_bOverride := false }
    { major := 6, minor := 1, spack := 0, bOverride := true,
      trace := [Event.EnterCriticalSection, Event.LeaveCriticalSection, Event.get_os_info,
        Event.verify_os_version 6 0 0, Event.verify_os_version 7 0 0,
        Event.verify_os_version 6 1 0, Event.verify_os_version 6 2 0,
        Event.verify_os_version 6 1 1] }
    ⟨rfl, rfl, rfl⟩ (by decide)).1 (Or.inl (by decide))

/-! ## What a climb returns, for an arbitrary probe -/

theorem major_loop_char (env : Env) :
    ∀ (fuel next : Nat) (v w : Src.VerState), Src.major_loop env fuel next v = some w →
      ∃ j, (∀ i, i < j →
            next + i ≤ Src.MAX_VALUE ∧ env.verify_os_version (next + i) 0 0 = true) ∧
        ((next + j ≤ Src.MAX_VALUE ∧ env.verify_os_version (next + j) 0 0 = false ∧
            w.trace = v.trace ++ major_probes next (j + 1)) ∨
          (Src.MAX_VALUE < next + j ∧ w.trace = v.trace ++ major_probes next j)) ∧
        (j = 0 → w.major = v.major ∧ w.minor = v.minor ∧ w.spack = v.spack ∧
          w.bOverride = v.bOverride) ∧
        (0 < j → w.major = next + j - 1 ∧ w.minor = 0 ∧ w.spack = 0 ∧ w.bOverride = true) := by
  intro fuel
  induction fuel with
  | zero => intro next v w h; simp [Src.major_loop] at h
  | succ n ih =>
    intro next v w h
    rw [Src.major_loop] at h
    by_cases hc : next ≤ Src.MAX_VALUE
    · rw [if_pos hc] at h
      by_cases hp : env.verify_os_version next 0 0 = true
      · simp only [hp, if_true] at h
        have hw : DWORD (next + 1) = next + 1 :=
          DWORD_of_lt (by unfold Src.MAX_VALUE at hc; omega)
        rw [hw] at h
        obtain ⟨j, hall, hstop, h0, hpos⟩ := ih _ _ _ h
        refine ⟨j + 1, ?_, ?_, ?_, ?_⟩
        · intro i hi
          rcases Nat.eq_zero_or_pos i with rfl | hi0
          · exact ⟨hc, hp⟩
          · have := hall (i - 1) (by omega)
            have e : next + 1 + (i - 1) = next + i := by omega
            rw [e] at this
            exact this
        · have e : next + 1 + j = next + (j + 1) := by omega
          rcases hstop with ⟨a, b, c⟩ | ⟨a, c⟩
          · left
            refine ⟨by omega, by rw [← e]; exact b, ?_⟩
            rw [c]
            simp [major_probes]
          · right
            refine ⟨by omega, ?_⟩
            rw [c]
            simp [major_probes]
        · intro hj; omega
        · intro _
          rcases Nat.eq_zero_or_pos j with hj | hj
          · obtain ⟨a, b, c, d⟩ := h0 hj
            simp only at a b c d
            subst hj
            exact ⟨by omega, b, c, d⟩
          · obtain ⟨a, b, c, d⟩ := hpos hj
            exact ⟨by omega, b, c, d⟩
      · simp only [hp] at h
        simp only [Bool.false_eq_true, if_false, Option.some.injEq] at h
        subst h
        refine ⟨0, ?_, ?_, ?_, ?_⟩
        · intro i hi; omega
        · left
          exact ⟨hc, by simpa using hp, by simp [major_probes]⟩
        · intro _; exact ⟨rfl, rfl, rfl, rfl⟩
        · intro hj; omega
    · rw [if_neg hc] at h
      simp only [Option.some.injEq] at h
      subst h
      refine ⟨0, ?_, ?_, ?_, ?_⟩
      · intro i hi; omega
      · right
        exact ⟨by omega, by simp [major_probes]⟩
      · intro _; exact ⟨rfl, rfl, rfl, rfl⟩
      · intro hj; omega

theorem minor_loop_char (env : Env) :
    ∀ (fuel next : Nat) (v w : Src.VerState), Src.minor_loop env fuel next v = some w →
      ∃ j, (∀ i, i < j →
            next + i ≤ Src.MAX_VALUE ∧ env.verify_os_version v.major (next + i) 0 = true) ∧
        ((next + j ≤ Src.MAX_VALUE ∧ env.verify_os_version v.major (next + j) 0 = false ∧
            Event.verify_os_version v.major (next + j) 0 ∈ w.trace) ∨
          Src.MAX_VALUE < next + j) ∧
        (∃ extra, w.trace = v.trace ++ extra) ∧
        w.major = v.major ∧
        (j = 0 → w.minor = v.minor ∧ w.spack = v.spack ∧ w.bOverride = v.bOverride) ∧
        (0 < j → w.minor = next + j - 1 ∧ w.spack = 0 ∧ w.bOverride = true) := by
  intro fuel
  induction fuel with
  | zero => intro next v w h; simp [Src.minor_loop] at h
  | succ n ih =>
    intro next v w h
    rw [Src.minor_loop] at h
    by_cases hc : next ≤ Src.MAX_VALUE
    · rw [if_pos hc] at h
      by_cases hp : env.verify_os_version v.major next 0 = true
      · simp only [hp, if_true] at h
        have hw : DWORD (next + 1) = next + 1 :=
          DWORD_of_lt (by unfold Src.MAX_VALUE at hc; omega)
        rw [hw] at h
        obtain ⟨j, hall, hstop, ⟨extra, hext⟩, hmaj, h0, hpos⟩ := ih _ _ _ h
        simp only at hall hstop hext hmaj h0
        refine ⟨j + 1, ?_, ?_, ?_, hmaj, ?_, ?_⟩
        · intro i hi
          rcases Nat.eq_zero_or_pos i with rfl | hi0
          · exact ⟨hc, hp⟩
          · have := hall (i - 1) (by omega)
            have e : next + 1 + (i - 1) = next + i := by omega
            rw [e] at this
            exact this
        · have e : next + 1 + j = next + (j + 1) := by omega
          rcases hstop with ⟨a, b, c⟩ | a
          · left
            exact ⟨by omega, by rw [← e]; exact b, by rw [← e]; exact c⟩
          · right
            omega
        · exact ⟨_, by rw [hext, List.append_assoc]⟩
        · intro hj; omega
        · intro _
          rcases Nat.eq_zero_or_pos j with hj | hj
          · obtain ⟨b, c, d⟩ := h0 hj
            subst hj
            exact ⟨by omega, c, d⟩
          · obtain ⟨b, c, d⟩ := hpos hj
            exact ⟨by omega, c, d⟩
      · simp only [hp] at h
        simp only [Bool.false_eq_true, if_false, Option.some.injEq] at h
        subst h
        refine ⟨0, ?_, ?_, ⟨_, rfl⟩, rfl, ?_, ?_⟩
        · intro i hi; omega
        · left
          exact ⟨hc, by simpa using hp, by simp⟩
        · intro _; exact ⟨rfl, rfl, rfl⟩
        · intro hj; omega
    · rw [if_neg hc] at h
      simp only [Option.some.injEq] at h
      subst h
      refine ⟨0, ?_, ?_, ⟨[], by simp⟩, rfl, ?_, ?_⟩
      · intro i hi; omega
      · right
        omega
      · intro _; exact ⟨rfl, rfl, rfl⟩
      · intro hj; omega

theorem WORD_add_WORD (a b : Nat) : WORD (WORD a + b) = WORD (a + b) := by
  unfold WORD
  omega

theorem spack_loop_char0 (env : Env) :
    ∀ (fuel next : Nat) (v w : Src.VerState), next ≤ Src.MAX_VALUE →
      Src.spack_loop env fuel next v = some w →
      ∃ j, (∀ i, i < j → env.verify_os_version v.major v.minor (WORD (next + i)) = true) ∧
        env.verify_os_version v.major v.minor (WORD (next + j)) = false ∧
        Event.verify_os_version v.major v.minor (WORD (next + j)) ∈ w.trace ∧
        (∃ extra, w.trace = v.trace ++ extra) ∧
        w.major = v.major ∧ w.minor = v.minor ∧
        (j = 0 → w.spack = v.spack ∧ w.bOverride = v.bOverride) ∧
        (0 < j → w.spack = WORD (next + j - 1) ∧ w.bOverride = true) := by
  intro fuel
  induction fuel with
  | zero => intro next v w _ h; simp [Src.spack_loop] at h
  | succ n ih =>
    intro next v w hc h
    have hnext : WORD next = next := WORD_of_lt (by unfold Src.MAX_VALUE at hc; omega)
    rw [Src.spack_loop, if_pos hc] at h
    by_cases hp : env.verify_os_version v.major v.minor next = true
    · simp only [hp, if_true] at h
      obtain ⟨j, hall, hstop, hmem, ⟨extra, hext⟩, hmaj, hmin, h0, hpos⟩ :=
        ih _ _ _ (WORD_le_MAX_VALUE _) h
      simp only [WORD_add_WORD] at hall hstop hmem hext hmaj hmin h0 hpos
      refine ⟨j + 1, ?_, ?_, ?_, ?_, hmaj, hmin, ?_, ?_⟩
      · intro i hi
        rcases Nat.eq_zero_or_pos i with rfl | hi0
        · rw [Nat.add_zero, hnext]; exact hp
        · have := hall (i - 1) (by omega)
          have e : next + 1 + (i - 1) = next + i := by omega
          rw [e] at this
          exact this
      · have e : next + 1 + j = next + (j + 1) := by omega
        rw [← e]; exact hstop
      · have e : next + 1 + j = next + (j + 1) := by omega
        rw [← e]; exact hmem
      · exact ⟨_, by rw [hext, List.append_assoc]⟩
      · intro hj; omega
      · intro _
        rcases Nat.eq_zero_or_pos j with hj | hj
        · obtain ⟨c, d⟩ := h0 hj
          subst hj
          refine ⟨?_, d⟩
          rw [c]
          simp only [Nat.zero_add, Nat.add_sub_cancel]
          exact hnext.symm
        · obtain ⟨c, d⟩ := hpos hj
          refine ⟨?_, d⟩
          rw [c]
          unfold WORD
          omega
    · simp only [hp] at h
      simp only [Bool.false_eq_true, if_false, Option.some.injEq] at h
      subst h
      refine ⟨0, ?_, ?_, ?_, ⟨_, rfl⟩, rfl, rfl, ?_, ?_⟩
      · intro i hi; omega
      · rw [Nat.add_zero, hnext]; simpa using hp
      · rw [Nat.add_zero, hnext]; simp
      · intro _; exact ⟨rfl, rfl⟩
      · intro hj; omega

theorem spack_loop_char (env : Env) (fuel next : Nat) (v w : Src.VerState)
    (hc : next ≤ Src.MAX_VALUE) (h : Src.spack_loop env fuel next v = some w) :
    ∃ j, j < 65536 ∧
      (∀ i, i < j → env.verify_os_version v.major v.minor (WORD (next + i)) = true) ∧
      env.verify_os_version v.major v.minor (WORD (next + j)) = false ∧
      Event.verify_os_version v.major v.minor (WORD (next + j)) ∈ w.trace ∧
      (∃ extra, w.trace = v.trace ++ extra) ∧
      w.major = v.major ∧ w.minor = v.minor ∧
      (j = 0 → w.spack = v.spack ∧ w.bOverride = v.bOverride) ∧
      (0 < j → w.spack = WORD (next + j - 1) ∧ w.bOverride = true) := by
  obtain ⟨j, hall, hstop, rest⟩ := spack_loop_char0 env fuel next v w hc h
  refine ⟨j, ?_, hall, hstop, rest⟩
  by_contra hj
  have h1 := hall (j - 65536) (by omega)
  have e : WORD (next + (j - 65536)) = WORD (next + j) := by
    unfold WORD
    omega
  rw [e, hstop] at h1
  cases h1

/-! ## The paths through the unlocked part of `get_real_os_version` -/

theorem detect_cases (env : Env) (fuel : Nat) (tr : List Event) (b : Bool) (v : Src.VerState)
    (h : Src.get_real_os_version_detect env fuel tr = some (b, v)) :
    (env.get_os_info = none ∧ b = false ∧
      v = { major := 0, minor := 0, spack := 0, bOverride := false,
            trace := Src.verbose_box env (tr ++ [Event.get_os_info]) }) ∨
    (∃ osvi, env.get_os_info = some osvi ∧ osvi.dwPlatformId ≠ VER_PLATFORM_WIN32_NT ∧
      env.verify_os_version 4 0 0 = false ∧ b = false ∧
      v = { major := 0, minor := 0, spack := 0, bOverride := false,
            trace := tr ++ [Event.get_os_info] ++ [Event.verify_os_version 4 0 0] }) ∨
    (∃ osvi v0 w1 w2, env.get_os_info = some osvi ∧
      ((osvi.dwPlatformId = VER_PLATFORM_WIN32_NT ∧
          v0 = { major := DWORD osvi.dwMajorVersion, minor := DWORD osvi.dwMinorVersion,
                 spack := WORD osvi.wServicePackMajor, bOverride := false,
                 trace := tr ++ [Event.get_os_info] }) ∨
        (osvi.dwPlatformId ≠ VER_PLATFORM_WIN32_NT ∧ env.verify_os_version 4 0 0 = true ∧
          v0 = { major := 4, minor := 0, spack := 0, bOverride := true,
                 trace := tr ++ [Event.get_os_info] ++ [Event.verify_os_version 4 0 0] })) ∧
      Src.major_loop env fuel (DWORD (v0.major + 1)) v0 = some w1 ∧
      Src.minor_loop env fuel (DWORD (w1.minor + 1)) w1 = some w2 ∧
      Src.spack_loop env fuel (WORD (DWORD (w2.spack + 1))) w2 = some v ∧
      (b = true ↔ (v.major < Src.MAX_VALUE ∧ v.minor < Src.MAX_VALUE ∧
        v.spack < Src.MAX_VALUE))) := by
  unfold Src.get_real_os_version_detect at h
  rcases hinfo : env.get_os_info with _ | osvi
  · left
    rw [hinfo] at h
    simp only [Option.some.injEq, Prod.mk.injEq] at h
    exact ⟨rfl, h.1.symm, h.2.symm⟩
  · right
    rw [hinfo] at h
    simp only at h
    have loops : ∀ v0 : Src.VerState,
        (match Src.major_loop env fuel (DWORD (v0.major + 1)) v0 with
          | none => none
          | some v1 =>
            match Src.minor_loop env fuel (DWORD (v1.minor + 1)) v1 with
            | none => none
            | some v2 =>
              match Src.spack_loop env fuel (WORD (DWORD (v2.spack + 1))) v2 with
              | none => none
              | some v3 =>
                if v3.major ≥ Src.MAX_VALUE ∨ v3.minor ≥ Src.MAX_VALUE
                    ∨ v3.spack ≥ Src.MAX_VALUE then
                  some (false, v3)
                else some (true, v3)) = some (b, v) →
        ∃ w1 w2, Src.major_loop env fuel (DWORD (v0.major + 1)) v0 = some w1 ∧
          Src.minor_loop env fuel (DWORD (w1.minor + 1)) w1 = some w2 ∧
          Src.spack_loop env fuel (WORD (DWORD (w2.spack + 1))) w2 = some v ∧
          (b = true ↔ (v.major < Src.MAX_VALUE ∧ v.minor < Src.MAX_VALUE ∧
            v.spack < Src.MAX_VALUE)) := by
      intro v0 hl
      rcases e1 : Src.major_loop env fuel (DWORD (v0.major + 1)) v0 with _ | w1
      · rw [e1] at hl; cases hl
      · rw [e1] at hl
        simp only at hl
        rcases e2 : Src.minor_loop env fuel (DWORD (w1.minor + 1)) w1 with _ | w2
        · rw [e2] at hl; cases hl
        · rw [e2] at hl
          simp only at hl
          rcases e3 : Src.spack_loop env fuel (WORD (DWORD (w2.spack + 1))) w2 with _ | w3
          · rw [e3] at hl; cases hl
          · rw [e3] at hl
            simp only at hl
            by_cases hov : w3.major ≥ Src.MAX_VALUE ∨ w3.minor ≥ Src.MAX_VALUE
                ∨ w3.spack ≥ Src.MAX_VALUE
            · rw [if_pos hov] at hl
              simp only [Option.some.injEq, Prod.mk.injEq] at hl
              obtain ⟨hb, hv⟩ := hl
              subst hb hv
              refine ⟨w1, w2, rfl, e2, e3, ?_⟩
              constructor
              · intro hf; cases hf
              · intro hlt; omega
            · rw [if_neg hov] at hl
              simp only [Option.some.injEq, Prod.mk.injEq] at hl
              obtain ⟨hb, hv⟩ := hl
              subst hb hv
              refine ⟨w1, w2, rfl, e2, e3, ?_⟩
              constructor
              · intro _; omega
              · intro _; rfl
    by_cases hnt : osvi.dwPlatformId = VER_PLATFORM_WIN32_NT
    · right
      simp only [hnt, if_true] at h
      obtain ⟨w1, w2, e1, e2, e3, hb⟩ := loops
        { major := DWORD osvi.dwMajorVersion, minor := DWORD osvi.dwMinorVersion,
          spack := WORD osvi.wServicePackMajor, bOverride := false,
          trace := tr ++ [Event.get_os_info] } h
      exact ⟨osvi, _, w1, w2, rfl, Or.inl ⟨hnt, rfl⟩, e1, e2, e3, hb⟩
    · by_cases h4 : env.verify_os_version 4 0 0 = true
      · right
        simp only [hnt, h4, if_false, if_true] at h
        obtain ⟨w1, w2, e1, e2, e3, hb⟩ := loops
          { major := 4, minor := 0, spack := 0, bOverride := true,
            trace := tr ++ [Event.get_os_info] ++ [Event.verify_os_version 4 0 0] } h
        exact ⟨osvi, _, w1, w2, rfl, Or.inr ⟨hnt, h4, rfl⟩, e1, e2, e3, hb⟩
      · left
        simp only [hnt, h4, if_false, Bool.false_eq_true, Option.some.injEq,
          Prod.mk.injEq] at h
        exact ⟨osvi, rfl, hnt, by simpa using h4, h.1.symm, h.2.symm⟩

theorem get_real_os_version_at_cases (env : Env) (fuel : Nat) (g gLater g1 : Src.Cache)
    (out : VersionOut) (tr : List Event)
    (h : Src.get_real_os_version_at env fuel g gLater = Outcome.returned (out, g1, tr)) :
    ((g.g_os_version_major ≠ 0 ∨ g.g_os_version_minor ≠ 0 ∨ g.g_os_version_spack ≠ 0) ∧
      out = { ret := true, major := g.g_os_version_major, minor := g.g_os_version_minor,
              spack := g.g_os_version_spack, pbOverride := g.g_os_version_bOverride } ∧
      g1 = g ∧ tr = [Event.EnterCriticalSection, Event.LeaveCriticalSection]) ∨
    ((g.g_os_version_major = 0 ∧ g.g_os_version_minor = 0 ∧ g.g_os_version_spack = 0) ∧
      ∃ v, Src.get_real_os_version_detect env fuel
          [Event.EnterCriticalSection, Event.LeaveCriticalSection] = some (false, v) ∧
        out = { ret := false, major := v.major, minor := v.minor, spack := v.spack,
                pbOverride := v.bOverride } ∧
        g1 = gLater ∧ tr = v.trace) ∨
    ((g.g_os_version_major = 0 ∧ g.g_os_version_minor = 0 ∧ g.g_os_version_spack = 0) ∧
      ∃ v, Src.get_real_os_version_detect env fuel
          [Event.EnterCriticalSection, Event.LeaveCriticalSection] = some (true, v) ∧
        out = (Src.get_real_os_version_commit v gLater).1 ∧
        g1 = (Src.get_real_os_version_commit v gLater).2 ∧
        tr = v.trace ++ [Event.EnterCriticalSection, Event.LeaveCriticalSection]) := by
  by_cases hz : g.g_os_version_major = 0 ∧ g.g_os_version_minor = 0 ∧ g.g_os_version_spack = 0
  · right
    rw [get_real_os_version_at_miss env fuel g gLater hz] at h
    rcases hd : Src.get_real_os_version_detect env fuel
        [Event.EnterCriticalSection, Event.LeaveCriticalSection] with _ | ⟨b, v⟩
    · rw [hd] at h; cases h
    · rw [hd] at h
      cases b
      · left
        simp only [Outcome.returned.injEq, Prod.mk.injEq] at h
        exact ⟨hz, v, rfl, h.1.symm, h.2.1.symm, h.2.2.symm⟩
      · right
        simp only [Outcome.returned.injEq, Prod.mk.injEq] at h
        exact ⟨hz, v, rfl, h.1.symm, h.2.1.symm, h.2.2.symm⟩
  · left
    have hnz : g.g_os_version_major ≠ 0 ∨ g.g_os_version_minor ≠ 0 ∨
        g.g_os_version_spack ≠ 0 := by omega
    rw [get_real_os_version_at_hit env fuel g gLater hnz] at h
    simp only [Outcome.returned.injEq, Prod.mk.injEq] at h
    exact ⟨hnz, h.1.symm, h.2.1.symm, h.2.2.symm⟩

theorem get_real_os_buildNo_at_hit (s : Nat) (env : Env) (fuel : Nat) (g gLater : Src.Cache)
    (h : g.g_os_version_build ≠ 0) :
    Src.get_real_os_buildNo_at s env fuel g gLater =
      Outcome.returned
        ({ ret := true, buildNo := g.g_os_version_build,
           pbOverride := g.g_os_version_bOverride },
         g, [Event.EnterCriticalSection, Event.LeaveCriticalSection]) := by
  unfold Src.get_real_os_buildNo_at
  simp only [Src.MutexLocker.ctor, Src.MutexLocker.dtor]
  rw [if_pos h]
  rfl

theorem build_detect_cases (s : Nat) (env : Env) (fuel : Nat) (tr : List Event) (b : Bool)
    (w : Src.BuildState)
    (h : Src.get_real_os_buildNo_detect s env fuel tr = some (b, w)) :
    (env.get_os_info = none ∧ b = false ∧
      w = { buildNo := 0, bOverride := false,
            trace := Src.verbose_box env (tr ++ [Event.get_os_info]) }) ∨
    (∃ osvi, env.get_os_info = some osvi ∧ osvi.dwPlatformId ≠ VER_PLATFORM_WIN32_NT ∧
      env.verify_os_version 4 0 0 = false ∧ b = false ∧
      w = { buildNo := 0, bOverride := false,
            trace := tr ++ [Event.get_os_info] ++ [Event.verify_os_version 4 0 0] }) ∨
    (∃ osvi b0, env.get_os_info = some osvi ∧
      ((osvi.dwPlatformId = VER_PLATFORM_WIN32_NT ∧
          b0 = { buildNo := DWORD osvi.dwBuildNumber, bOverride := false,
                 trace := tr ++ [Event.get_os_info] }) ∨
        (osvi.dwPlatformId ≠ VER_PLATFORM_WIN32_NT ∧ env.verify_os_version 4 0 0 = true ∧
          b0 = { buildNo := 1381, bOverride := true,
                 trace := tr ++ [Event.get_os_info] ++ [Event.verify_os_version 4 0 0] })) ∧
      Src.build_loop env fuel (DWORD s) b0.buildNo b0 = some w ∧ b = true) := by
  unfold Src.get_real_os_buildNo_detect at h
  rcases hinfo : env.get_os_info with _ | osvi
  · left
    rw [hinfo] at h
    simp only [Option.some.injEq, Prod.mk.injEq] at h
    exact ⟨rfl, h.1.symm, h.2.symm⟩
  · right
    rw [hinfo] at h
    simp only at h
    have loops : ∀ b0 : Src.BuildState,
        (match Src.build_loop env fuel (DWORD s) b0.buildNo b0 with
          | none => none
          | some b1 => some (true, b1)) = some (b, w) →
        Src.build_loop env fuel (DWORD s) b0.buildNo b0 = some w ∧ b = true := by
      intro b0 hl
      rcases e1 : Src.build_loop env fuel (DWORD s) b0.buildNo b0 with _ | w1
      · rw [e1] at hl; cases hl
      · rw [e1] at hl
        simp only [Option.some.injEq, Prod.mk.injEq] at hl
        exact ⟨by rw [hl.2], hl.1.symm⟩
    by_cases hnt : osvi.dwPlatformId = VER_PLATFORM_WIN32_NT
    · right
      simp only [hnt, if_true] at h
      obtain ⟨e1, hb⟩ := loops
        { buildNo := DWORD osvi.dwBuildNumber, bOverride := false,
          trace := tr ++ [Event.get_os_info] } h
      exact ⟨osvi, _, rfl, Or.inl ⟨hnt, rfl⟩, e1, hb⟩
    · by_cases h4 : env.verify_os_version 4 0 0 = true
      · right
        simp only [hnt, h4, if_false, if_true] at h
        obtain ⟨e1, hb⟩ := loops
          { buildNo := 1381, bOverride := true,
            trace := tr ++ [Event.get_os_info] ++ [Event.verify_os_version 4 0 0] } h
        exact ⟨osvi, _, rfl, Or.inr ⟨hnt, h4, rfl⟩, e1, hb⟩
      · left
        simp only [hnt, h4, if_false, Bool.false_eq_true, Option.some.injEq,
          Prod.mk.injEq] at h
        exact ⟨osvi, rfl, hnt, by simpa using h4, h.1.symm, h.2.symm⟩

theorem get_real_os_buildNo_at_cases (s : Nat) (env : Env) (fuel : Nat)
    (g gLater g1 : Src.Cache) (out : Src.BuildOut) (tr : List Event)
    (h : Src.get_real_os_buildNo_at s env fuel g gLater = Outcome.returned (out, g1, tr)) :
    (g.g_os_version_build ≠ 0 ∧
      out = { ret := true, buildNo := g.g_os_version_build,
              pbOverride := g.g_os_version_bOverride } ∧
      g1 = g ∧ tr = [Event.EnterCriticalSection, Event.LeaveCriticalSection]) ∨
    (g.g_os_version_build = 0 ∧
      ∃ b, Src.get_real_os_buildNo_detect s env fuel
          [Event.EnterCriticalSection, Event.LeaveCriticalSection] = some (false, b) ∧
        out = { ret := false, buildNo := b.buildNo, pbOverride := b.bOverride } ∧
        g1 = gLater ∧ tr = b.trace) ∨
    (g.g_os_version_build = 0 ∧
      ∃ b, Src.get_real_os_buildNo_detect s env fuel
          [Event.EnterCriticalSection, Event.LeaveCriticalSection] = some (true, b) ∧
        out = (Src.get_real_os_buildNo_commit b gLater).1 ∧
        g1 = (Src.get_real_os_buildNo_commit b gLater).2 ∧
        tr = b.trace ++ [Event.EnterCriticalSection, Event.LeaveCriticalSection]) := by
  by_cases hz : g.g_os_version_build = 0
  · right
    rw [get_real_os_buildNo_at_miss s env fuel g gLater hz] at h
    rcases hd : Src.get_real_os_buildNo_detect s env fuel
        [Event.EnterCriticalSection, Event.LeaveCriticalSection] with _ | ⟨b, v⟩
    · rw [hd] at h; cases h
    · rw [hd] at h
      cases b
      · left
        simp only [Outcome.returned.injEq, Prod.mk.injEq] at h
        exact ⟨hz, v, rfl, h.1.symm, h.2.1.symm, h.2.2.symm⟩
      · right
        simp only [Outcome.returned.injEq, Prod.mk.injEq] at h
        exact ⟨hz, v, rfl, h.1.symm, h.2.1.symm, h.2.2.symm⟩
  · left
    rw [get_real_os_buildNo_at_hit s env fuel g gLater hz] at h
    simp only [Outcome.returned.injEq, Prod.mk.injEq] at h
    exact ⟨hz, h.1.symm, h.2.1.symm, h.2.2.symm⟩

/-! ## Events of the unlocked part -/

theorem verbose_box_prefix (env : Env) (tr : List Event) :
    ∃ extra, Src.verbose_box env tr = tr ++ extra := by
  unfold Src.verbose_box
  split
  · exact ⟨_, rfl⟩
  · exact ⟨[], by simp⟩

theorem detect_trace_prefix (env : Env) (fuel : Nat) (tr : List Event) (b : Bool)
    (v : Src.VerState) (h : Src.get_real_os_version_detect env fuel tr = some (b, v)) :
    ∃ extra, v.trace = tr ++ Event.get_os_info :: extra := by
  rcases detect_cases env fuel tr b v h with ⟨_, _, hv⟩ | ⟨osvi, _, _, _, _, hv⟩ |
    ⟨osvi, v0, w1, w2, _, hstart, e1, e2, e3, _⟩
  · obtain ⟨extra, he⟩ := verbose_box_prefix env (tr ++ [Event.get_os_info])
    exact ⟨extra, by rw [hv]; simp only [he, List.append_assoc, List.singleton_append]⟩
  · exact ⟨[Event.verify_os_version 4 0 0], by rw [hv]; simp⟩
  · have h0 : ∃ x0, v0.trace = tr ++ Event.get_os_info :: x0 := by
      rcases hstart with ⟨_, hv0⟩ | ⟨_, _, hv0⟩
      · exact ⟨[], by rw [hv0]⟩
      · exact ⟨[Event.verify_os_version 4 0 0], by rw [hv0]; simp⟩
    obtain ⟨x0, hx0⟩ := h0
    obtain ⟨j1, _, hstop1, _, _⟩ := major_loop_char env fuel _ v0 w1 e1
    have h1 : ∃ x1, w1.trace = v0.trace ++ x1 := by
      rcases hstop1 with ⟨_, _, c⟩ | ⟨_, c⟩
      · exact ⟨_, c⟩
      · exact ⟨_, c⟩
    obtain ⟨x1, hx1⟩ := h1
    obtain ⟨j2, _, _, ⟨x2, hx2⟩, _⟩ := minor_loop_char env fuel _ w1 w2 e2
    obtain ⟨j3, _, _, _, _, ⟨x3, hx3⟩, _⟩ :=
      spack_loop_char env fuel _ w2 v (WORD_le_MAX_VALUE _) e3
    exact ⟨x0 ++ x1 ++ x2 ++ x3, by
      rw [hx3, hx2, hx1, hx0]; simp only [List.append_assoc, List.cons_append]⟩

theorem build_loop_char (env : Env) :
    ∀ (fuel step next : Nat) (b w : Src.BuildState),
      Src.build_loop env fuel step next b = some w →
      (∃ extra, w.trace = b.trace ++ extra) ∧
      (b.bOverride = true → w.bOverride = true) ∧
      ((w.buildNo = b.buildNo ∧ w.bOverride = b.bOverride) ∨ w.bOverride = true) := by
  intro fuel
  induction fuel with
  | zero => intro step next b w h; simp [Src.build_loop] at h
  | succ n ih =>
    intro step next b w h
    rw [Src.build_loop] at h
    by_cases hc : next < INT_MAX
    · rw [if_pos hc] at h
      by_cases hp : env.verify_os_buildNo next = true
      · simp only [hp, if_true] at h
        obtain ⟨⟨extra, hext⟩, hov, _⟩ := ih _ _ _ _ h
        exact ⟨⟨_, by rw [hext, List.append_assoc]⟩, fun _ => hov rfl, Or.inr (hov rfl)⟩
      · simp only [hp, Bool.false_eq_true, if_false] at h
        by_cases hs : step > 1
        · rw [if_pos hs] at h
          obtain ⟨⟨extra, hext⟩, hov, hsame⟩ := ih _ _ _ _ h
          exact ⟨⟨_, by rw [hext, List.append_assoc]⟩, hov, hsame⟩
        · rw [if_neg hs] at h
          simp only [Option.some.injEq] at h
          subst h
          exact ⟨⟨_, rfl⟩, fun hb => hb, Or.inl ⟨rfl, rfl⟩⟩
    · rw [if_neg hc] at h
      simp only [Option.some.injEq] at h
      subst h
      exact ⟨⟨[], by simp⟩, fun hb => hb, Or.inl ⟨rfl, rfl⟩⟩

theorem build_detect_trace_prefix (s : Nat) (env : Env) (fuel : Nat) (tr : List Event)
    (b : Bool) (w : Src.BuildState)
    (h : Src.get_real_os_buildNo_detect s env fuel tr = some (b, w)) :
    ∃ extra, w.trace = tr ++ Event.get_os_info :: extra := by
  rcases build_detect_cases s env fuel tr b w h with ⟨_, _, hv⟩ | ⟨osvi, _, _, _, _, hv⟩ |
    ⟨osvi, b0, _, hstart, e1, _⟩
  · obtain ⟨extra, he⟩ := verbose_box_prefix env (tr ++ [Event.get_os_info])
    exact ⟨extra, by rw [hv]; simp only [he, List.append_assoc, List.singleton_append]⟩
  · exact ⟨[Event.verify_os_version 4 0 0], by rw [hv]; simp⟩
  · have h0 : ∃ x0, b0.trace = tr ++ Event.get_os_info :: x0 := by
      rcases hstart with ⟨_, hv0⟩ | ⟨_, _, hv0⟩
      · exact ⟨[], by rw [hv0]⟩
      · exact ⟨[Event.verify_os_version 4 0 0], by rw [hv0]; simp⟩
    obtain ⟨x0, hx0⟩ := h0
    obtain ⟨⟨x1, hx1⟩, _, _⟩ := build_loop_char env fuel _ _ b0 w e1
    exact ⟨x0 ++ x1, by rw [hx1, hx0]; simp only [List.append_assoc, List.cons_append]⟩

/-! ## C11: a failed detection leaves the cache as it was -/

/-- C11: whenever `get_real_os_version` or `get_real_os_buildNo` returns failure, the cache
after the call is, in every field, the cache before the call (with other callers writing
meanwhile: the cache they left, the call itself writes nothing); the cached tuple,
respectively the cached build number, is still zero, and the failed call did issue the info
query, so that the next call on the cache it leaves runs the detection again: it returns the
same failure with the same events. -/
theorem C11_failure_atomic (env : Env) (fuel : Nat) (g gLater : Src.Cache) :
    (∀ out g1 tr, Src.get_real_os_version env fuel g = Outcome.returned (out, g1, tr) →
      out.ret = false →
      g1 = g ∧
      (g1.g_os_version_major = 0 ∧ g1.g_os_version_minor = 0 ∧ g1.g_os_version_spack = 0) ∧
      Event.get_os_info ∈ tr ∧
      Src.get_real_os_version env fuel g1 = Outcome.returned (out, g1, tr)) ∧
    (∀ out g1 tr, Src.get_real_os_buildNo env fuel g = Outcome.returned (out, g1, tr) →
      out.ret = false →
      g1 = g ∧ g1.g_os_version_build = 0 ∧ Event.get_os_info ∈ tr ∧
      Src.get_real_os_buildNo env fuel g1 = Outcome.returned (out, g1, tr)) ∧
    (∀ out g1 tr, Src.get_real_os_version_at env fuel g gLater =
        Outcome.returned (out, g1, tr) → out.ret = false → g1 = gLater) ∧
    (∀ s out g1 tr, Src.get_real_os_buildNo_at s env fuel g gLater =
        Outcome.returned (out, g1, tr) → out.ret = false → g1 = gLater) := by
  refine ⟨?_, ?_, ?_, ?_⟩
  · intro out g1 tr h hret
    have h' := h
    unfold Src.get_real_os_version at h'
    rcases get_real_os_version_at_cases env fuel g g g1 out tr h' with
      ⟨_, ho, _, _⟩ | ⟨hz, v, hd, ho, hg, htr⟩ | ⟨_, v, _, ho, _, _⟩
    · rw [ho] at hret; cases hret
    · subst hg
      obtain ⟨extra, he⟩ := detect_trace_prefix env fuel _ false v hd
      refine ⟨rfl, hz, ?_, h⟩
      rw [htr, he]
      simp
    · rw [ho] at hret
      simp only [Src.get_real_os_version_commit] at hret
      split at hret <;> cases hret
  · intro out g1 tr h hret
    have h' := h
    unfold Src.get_real_os_buildNo at h'
    rcases get_real_os_buildNo_at_cases 4096 env fuel g g g1 out tr h' with
      ⟨_, ho, _, _⟩ | ⟨hz, v, hd, ho, hg, htr⟩ | ⟨_, v, _, ho, _, _⟩
    · rw [ho] at hret; cases hret
    · subst hg
      obtain ⟨extra, he⟩ := build_detect_trace_prefix 4096 env fuel _ false v hd
      refine ⟨rfl, hz, ?_, h⟩
      rw [htr, he]
      simp
    · rw [ho] at hret
      simp only [Src.get_real_os_buildNo_commit] at hret
      split at hret <;> cases hret
  · intro out g1 tr h hret
    rcases get_real_os_version_at_cases env fuel g gLater g1 out tr h with
      ⟨_, ho, _, _⟩ | ⟨_, v, _, _, hg, _⟩ | ⟨_, v, _, ho, _, _⟩
    · rw [ho] at hret; cases hret
    · exact hg
    · rw [ho] at hret
      simp only [Src.get_real_os_version_commit] at hret
      split at hret <;> cases hret
  · intro s out g1 tr h hret
    rcases get_real_os_buildNo_at_cases s env fuel g gLater g1 out tr h with
      ⟨_, ho, _, _⟩ | ⟨_, v, _, _, hg, _⟩ | ⟨_, v, _, ho, _, _⟩
    · rw [ho] at hret; cases hret
    · exact hg
    · rw [ho] at hret
      simp only [Src.get_real_os_buildNo_commit] at hret
      split at hret <;> cases hret

/-- C11 at a concrete input: the info query fails, the cache is empty. -/
theorem C11_failure_atomic_witness :
    (Src.Cache.zero = Src.Cache.zero ∧
      (Src.Cache.zero.g_os_version_major = 0 ∧ Src.Cache.zero.g_os_version_minor = 0 ∧
        Src.Cache.zero.g_os_version_spack = 0) ∧
      Event.get_os_info ∈
        [Event.EnterCriticalSection, Event.LeaveCriticalSection, Event.get_os_info] ∧
      Src.get_real_os_version (stub_env none (6, 1, 0) 7601) 5 Src.Cache.zero =
        Outcome.returned
          ({ ret := false, major := 0, minor := 0, spack := 0, pbOverride := false },
           Src.Cache.zero,
           [Event.EnterCriticalSection, Event.LeaveCriticalSection, Event.get_os_info])) :=
  (C11_failure_atomic (stub_env none (6, 1, 0) 7601) 5 Src.Cache.zero Src.Cache.zero).1
    { ret := false, major := 0, minor := 0, spack := 0, pbOverride := false } Src.Cache.zero
    [Event.EnterCriticalSection, Event.LeaveCriticalSection, Event.get_os_info] rfl rfl

/-! ## C13: server-edition classifier -/

/-- C13 (as the code behaves): `get_os_server_edition` makes one info query; it returns success
with `bIsServer = true` when the query succeeds with product type server or
domain-controller, success with `bIsServer = false` when it is workstation, and failure for
every other product type and when the query fails. On failure the caller's variable does
not keep its value: the function assigns `false` to it on entry, so after a failed call it
is `false` whatever it held before. -/
theorem C13_server_edition (env : Env) (before : Bool) :
    (∀ osvi, env.get_os_info = some osvi →
      (BYTE osvi.wProductType = VER_NT_SERVER ∨
        BYTE osvi.wProductType = VER_NT_DOMAIN_CONTROLLER) →
      Src.get_os_server_edition env before = (true, true, [Event.get_os_info])) ∧
    (∀ osvi, env.get_os_info = some osvi → BYTE osvi.wProductType = VER_NT_WORKSTATION →
      Src.get_os_server_edition env before = (true, false, [Event.get_os_info])) ∧
    (∀ osvi, env.get_os_info = some osvi → BYTE osvi.wProductType ≠ VER_NT_SERVER →
      BYTE osvi.wProductType ≠ VER_NT_DOMAIN_CONTROLLER →
      BYTE osvi.wProductType ≠ VER_NT_WORKSTATION →
      Src.get_os_server_edition env before = (false, false, [Event.get_os_info])) ∧
    (env.get_os_info = none →
      Src.get_os_server_edition env before = (false, false, [Event.get_os_info])) := by
  refine ⟨?_, ?_, ?_, ?_⟩
  · intro osvi hinfo h
    unfold Src.get_os_server_edition
    simp only [hinfo]
    rw [if_pos h]
  · intro osvi hinfo h
    unfold Src.get_os_server_edition
    simp only [hinfo]
    rw [if_neg (by rw [h]; decide), if_pos h]
  · intro osvi hinfo h1 h2 h3
    unfold Src.get_os_server_edition
    simp only [hinfo]
    rw [if_neg (by tauto), if_neg h3]
  · intro hinfo
    unfold Src.get_os_server_edition
    simp only [hinfo]

/-- C13 as stated fails when the info query fails and the caller's variable holds `true`
before the call: the call returns failure and the variable holds `false` afterwards. -/
theorem C13_counterexample :
    (Src.get_os_server_edition (stub_env none (6, 1, 0) 7601) true).1 = false ∧
    (Src.get_os_server_edition (stub_env none (6, 1, 0) 7601) true).2.1 ≠ true := by
  decide

/-! ## C17: cached values are written once -/

theorem run_call_keeps (c : Call) (g g1 : Src.Cache) (h : run_call c g = some g1) :
    ((g.g_os_version_major ≠ 0 ∨ g.g_os_version_minor ≠ 0 ∨ g.g_os_version_spack ≠ 0) →
      g1.g_os_version_major = g.g_os_version_major ∧
      g1.g_os_version_minor = g.g_os_version_minor ∧
      g1.g_os_version_spack = g.g_os_version_spack) ∧
    (g.g_os_version_build ≠ 0 → g1.g_os_version_build = g.g_os_version_build) := by
  cases c with
  | version env fuel =>
    simp only [run_call] at h
    rcases hc : Src.get_real_os_version env fuel g with ⟨out, g2, tr⟩ | f | _
    · rw [hc] at h
      simp only [Option.some.injEq] at h
      subst h
      unfold Src.get_real_os_version at hc
      rcases get_real_os_version_at_cases env fuel g g g2 out tr hc with
        ⟨_, _, hg, _⟩ | ⟨_, v, _, _, hg, _⟩ | ⟨hz, v, _, _, hg, _⟩
      · subst hg; exact ⟨fun _ => ⟨rfl, rfl, rfl⟩, fun _ => rfl⟩
      · subst hg; exact ⟨fun _ => ⟨rfl, rfl, rfl⟩, fun _ => rfl⟩
      · refine ⟨fun hnz => by omega, fun _ => ?_⟩
        rw [hg]
        simp only [Src.get_real_os_version_commit]
        split <;> rfl
    · rw [hc] at h; cases h
    · rw [hc] at h; cases h
  | buildNo env fuel =>
    simp only [run_call] at h
    rcases hc : Src.get_real_os_buildNo env fuel g with ⟨out, g2, tr⟩ | f | _
    · rw [hc] at h
      simp only [Option.some.injEq] at h
      subst h
      unfold Src.get_real_os_buildNo at hc
      rcases get_real_os_buildNo_at_cases 4096 env fuel g g g2 out tr hc with
        ⟨_, _, hg, _⟩ | ⟨_, v, _, _, hg, _⟩ | ⟨hz, v, _, _, hg, _⟩
      · subst hg; exact ⟨fun _ => ⟨rfl, rfl, rfl⟩, fun _ => rfl⟩
      · subst hg; exact ⟨fun _ => ⟨rfl, rfl, rfl⟩, fun _ => rfl⟩
      · refine ⟨fun _ => ?_, fun hnz => absurd hz hnz⟩
        rw [hg]
        simp only [Src.get_real_os_buildNo_commit]
        split <;> exact ⟨rfl, rfl, rfl⟩
    · rw [hc] at h; cases h
    · rw [hc] at h; cases h

theorem run_calls_keep : ∀ (calls : List Call) (g g1 : Src.Cache),
    run_calls calls g = some g1 →
    ((g.g_os_version_major ≠ 0 ∨ g.g_os_version_minor ≠ 0 ∨ g.g_os_version_spack ≠ 0) →
      g1.g_os_version_major = g.g_os_version_major ∧
      g1.g_os_version_minor = g.g_os_version_minor ∧
      g1.g_os_version_spack = g.g_os_version_spack) ∧
    (g.g_os_version_build ≠ 0 → g1.g_os_version_build = g.g_os_version_build) := by
  intro calls
  induction calls with
  | nil =>
    intro g g1 h
    simp only [run_calls, Option.some.injEq] at h
    subst h
    exact ⟨fun _ => ⟨rfl, rfl, rfl⟩, fun _ => rfl⟩
  | cons c rest ih =>
    intro g g1 h
    simp only [run_calls] at h
    rcases hc : run_call c g with _ | g2
    · rw [hc] at h; cases h
    · rw [hc] at h
      simp only at h
      obtain ⟨k1, k2⟩ := run_call_keeps c g g2 hc
      obtain ⟨r1, r2⟩ := ih g2 g1 h
      constructor
      · intro hnz
        obtain ⟨a, b, d⟩ := k1 hnz
        obtain ⟨a1, b1, d1⟩ := r1 (by rw [a, b, d]; exact hnz)
        exact ⟨by rw [a1, a], by rw [b1, b], by rw [d1, d]⟩
      · intro hnz
        have a := k2 hnz
        rw [r2 (by rw [a]; exact hnz), a]

/-- C17: for every list of calls of `get_real_os_version` and `get_real_os_buildNo`, each under
any environment and whether it succeeds or fails, made one after the other on a cache `g`:
if the cached version tuple of `g` is non-zero, the cache after the calls has the same
major, minor and service pack; and if the cached build number of `g` is non-zero, the cache
after the calls has the same build number. -/
theorem C17_written_once (calls : List Call) (g g1 : Src.Cache)
    (h : run_calls calls g = some g1) :
    ((g.g_os_version_major ≠ 0 ∨ g.g_os_version_minor ≠ 0 ∨ g.g_os_version_spack ≠ 0) →
      g1.g_os_version_major = g.g_os_version_major ∧
      g1.g_os_version_minor = g.g_os_version_minor ∧
      g1.g_os_version_spack = g.g_os_version_spack) ∧
    (g.g_os_version_build ≠ 0 → g1.g_os_version_build = g.g_os_version_build) :=
  run_calls_keep calls g g1 h

/-- C17 at a concrete input: the cache holds the tuple (6,1,0) and no build number; a build
detection that commits 7601 and a version detection in another environment follow, and the
cache then still holds (6,1,0). -/
theorem C17_written_once_witness :
    run_calls
        [Call.buildNo (stub_env (some (nt_report (5, 1, 3) 2600)) (6, 1, 0) 7601) 40,
         Call.version (always_true_env none) 0]
        { g_os_version_major := 6, g_os_version_minor := 1, g_os_version_spack := 0,
          g_os_version_build := 0, g_os_version_bOverride := false } =
      some { g_os_version_major := 6, g_os_version_minor := 1, g_os_version_spack := 0,
             g_os_version_build := 7601, g_os_version_bOverride := true } ∧
    ((((6 : Nat) ≠ 0 ∨ (1 : Nat) ≠ 0 ∨ (0 : Nat) ≠ 0) →
        (6 : Nat) = 6 ∧ (1 : Nat) = 1 ∧ (0 : Nat) = 0) ∧
      ((0 : Nat) ≠ 0 → (7601 : Nat) = 0)) :=
  ⟨rfl, C17_written_once
    [Call.buildNo (stub_env (some (nt_report (5, 1, 3) 2600)) (6, 1, 0) 7601) 40,
     Call.version (always_true_env none) 0]
    { g_os_version_major := 6, g_os_version_minor := 1, g_os_version_spack := 0,
      g_os_version_build := 0, g_os_version_bOverride := false }
    { g_os_version_major := 6, g_os_version_minor := 1, g_os_version_spack := 0,
      g_os_version_build := 7601, g_os_version_bOverride := true }
    rfl⟩

/-! ## C16: ceiling bound on results -/

theorem detect_bounded (env : Env) (fuel : Nat) (tr : List Event) (v : Src.VerState)
    (h : Src.get_real_os_version_detect env fuel tr = some (true, v)) :
    v.major < 0xFFFF ∧ v.minor < 0xFFFF ∧ v.spack < 0xFFFF := by
  rcases detect_cases env fuel tr true v h with ⟨_, hb, _⟩ | ⟨_, _, _, _, hb, _⟩ |
    ⟨_, _, _, _, _, _, _, _, _, hb⟩
  · cases hb
  · cases hb
  · exact hb.1 rfl

theorem get_real_os_version_bounded (env : Env) (fuel : Nat) (g g1 : Src.Cache)
    (out : VersionOut) (tr : List Event)
    (hg : g.g_os_version_major < 0xFFFF ∧ g.g_os_version_minor < 0xFFFF ∧
      g.g_os_version_spack < 0xFFFF)
    (h : Src.get_real_os_version env fuel g = Outcome.returned (out, g1, tr)) :
    (g1.g_os_version_major < 0xFFFF ∧ g1.g_os_version_minor < 0xFFFF ∧
      g1.g_os_version_spack < 0xFFFF) ∧
    (out.ret = true → out.major < 0xFFFF ∧ out.minor < 0xFFFF ∧ out.spack < 0xFFFF) := by
  unfold Src.get_real_os_version at h
  rcases get_real_os_version_at_cases env fuel g g g1 out tr h with
    ⟨_, ho, hg1, _⟩ | ⟨_, v, _, ho, hg1, _⟩ | ⟨hz, v, hd, ho, hg1, _⟩
  · subst hg1 ho
    exact ⟨hg, fun _ => hg⟩
  · subst hg1 ho
    exact ⟨hg, fun hr => by cases hr⟩
  · have hb := detect_bounded env fuel _ v hd
    rw [hg1, ho]
    simp only [Src.get_real_os_version_commit]
    rw [if_pos hz]
    exact ⟨hb, fun _ => hb⟩

theorem run_call_bounded (c : Call) (g g1 : Src.Cache)
    (hg : g.g_os_version_major < 0xFFFF ∧ g.g_os_version_minor < 0xFFFF ∧
      g.g_os_version_spack < 0xFFFF)
    (h : run_call c g = some g1) :
    g1.g_os_version_major < 0xFFFF ∧ g1.g_os_version_minor < 0xFFFF ∧
      g1.g_os_version_spack < 0xFFFF := by
  cases c with
  | version env fuel =>
    simp only [run_call] at h
    rcases hc : Src.get_real_os_version env fuel g with ⟨out, g2, tr⟩ | f | _
    · rw [hc] at h
      simp only [Option.some.injEq] at h
      subst h
      exact (get_real_os_version_bounded env fuel g g2 out tr hg hc).1
    · rw [hc] at h; cases h
    · rw [hc] at h; cases h
  | buildNo env fuel =>
    simp only [run_call] at h
    rcases hc : Src.get_real_os_buildNo env fuel g with ⟨out, g2, tr⟩ | f | _
    · rw [hc] at h
      simp only [Option.some.injEq] at h
      subst h
      unfold Src.get_real_os_buildNo at hc
      rcases get_real_os_buildNo_at_cases 4096 env fuel g g g2 out tr hc with
        ⟨_, _, hg1, _⟩ | ⟨_, v, _, _, hg1, _⟩ | ⟨hz, v, _, _, hg1, _⟩
      · subst hg1; exact hg
      · subst hg1; exact hg
      · rw [hg1]
        simp only [Src.get_real_os_buildNo_commit]
        split <;> exact hg
    · rw [hc] at h; cases h
    · rw [hc] at h; cases h

theorem run_calls_bounded : ∀ (calls : List Call) (g g1 : Src.Cache),
    (g.g_os_version_major < 0xFFFF ∧ g.g_os_version_minor < 0xFFFF ∧
      g.g_os_version_spack < 0xFFFF) →
    run_calls calls g = some g1 →
    g1.g_os_version_major < 0xFFFF ∧ g1.g_os_version_minor < 0xFFFF ∧
      g1.g_os_version_spack < 0xFFFF := by
  intro calls
  induction calls with
  | nil =>
    intro g g1 hg h
    simp only [run_calls, Option.some.injEq] at h
    subst h
    exact hg
  | cons c rest ih =>
    intro g g1 hg h
    simp only [run_calls] at h
    rcases hc : run_call c g with _ | g2
    · rw [hc] at h; cases h
    · rw [hc] at h
      exact ih g2 g1 (run_call_bounded c g g2 hg hc) h

/-- C16: for every cache `g` reached from the zero-initialised cache by any list of calls of
`get_real_os_version` and `get_real_os_buildNo` (each under any environment), the tuple stored
in `g` has all components below 0xFFFF; and whenever a call of `get_real_os_version` on `g`,
under any environment, returns success, the returned major, minor and service pack are below
0xFFFF, and so is the tuple in the cache it leaves. -/
theorem C16_ceiling_bound (calls : List Call) (g : Src.Cache)
    (hreach : run_calls calls Src.Cache.zero = some g)
    (env : Env) (fuel : Nat) (out : VersionOut) (g1 : Src.Cache) (tr : List Event)
    (h : Src.get_real_os_version env fuel g = Outcome.returned (out, g1, tr))
    (hret : out.ret = true) :
    (out.major < 0xFFFF ∧ out.minor < 0xFFFF ∧ out.spack < 0xFFFF) ∧
    (g.g_os_version_major < 0xFFFF ∧ g.g_os_version_minor < 0xFFFF ∧
      g.g_os_version_spack < 0xFFFF) ∧
    (g1.g_os_version_major < 0xFFFF ∧ g1.g_os_version_minor < 0xFFFF ∧
      g1.g_os_version_spack < 0xFFFF) := by
  have hg := run_calls_bounded calls Src.Cache.zero g (by decide) hreach
  have hb := get_real_os_version_bounded env fuel g g1 out tr hg h
  exact ⟨hb.2 hret, hg, hb.1⟩

/-- C16 at a concrete input: after a build detection on the empty cache, a version detection
that climbs from (5,1,3) to (6,1,0). -/
theorem C16_ceiling_bound_witness :
    run_calls [Call.buildNo (stub_env (some (nt_report (5, 1, 3) 2600)) (6, 1, 0) 7601) 40]
        Src.Cache.zero =
      some { g_os_version_major := 0, g_os_version_minor := 0, g_os_version_spack := 0,
             g_os_version_build := 7601, g_os_version_bOverride := true } ∧
    Src.get_real_os_version (stub_env (some (nt_report (5, 1, 3) 2600)) (6, 1, 0) 7601) 20
        { g_os_version_major := 0, g_os_version_minor := 0, g_os_version_spack := 0,
          g_os_version_build := 7601, g_os_version_bOverride := true } =
      Outcome.returned
        ({ ret := true, major := 6, minor := 1, spack := 0, pbOverride := true },
         { g_os_version_major := 6, g_os_version_minor := 1, g_os_version_spack := 0,
           g_os_version_build := 7601, g_os_version_bOverride := true },
         [Event.EnterCriticalSection, Event.LeaveCriticalSection, Event.get_os_info,
          Event.verify_os_version 6 0 0, Event.verify_os_version 7 0 0,
          Event.verify_os_version 6 1 0, Event.verify_os_version 6 2 0,
          Event.verify_os_version 6 1 1, Event.EnterCriticalSection,
          Event.LeaveCriticalSection]) ∧
    (((6 : Nat) < 0xFFFF ∧ (1 : Nat) < 0xFFFF ∧ (0 : Nat) < 0xFFFF) ∧
      ((0 : Nat) < 0xFFFF ∧ (0 : Nat) < 0xFFFF ∧ (0 : Nat) < 0xFFFF) ∧
      ((6 : Nat) < 0xFFFF ∧ (1 : Nat) < 0xFFFF ∧ (0 : Nat) < 0xFFFF)) :=
  ⟨rfl, rfl, C16_ceiling_bound
    [Call.buildNo (stub_env (some (nt_report (5, 1, 3) 2600)) (6, 1, 0) 7601) 40]
    { g_os_version_major := 0, g_os_version_minor := 0, g_os_version_spack := 0,
      g_os_version_build := 7601, g_os_version_bOverride := true }
    rfl
    (stub_env (some (nt_report (5, 1, 3) 2600)) (6, 1, 0) 7601) 20
    { ret := true, major := 6, minor := 1, spack := 0, pbOverride := true }
    { g_os_version_major := 6, g_os_version_minor := 1, g_os_version_spack := 0,
      g_os_version_build := 7601, g_os_version_bOverride := true }
    [Event.EnterCriticalSection, Event.LeaveCriticalSection, Event.get_os_info,
     Event.verify_os_version 6 0 0, Event.verify_os_version 7 0 0,
     Event.verify_os_version 6 1 0, Event.verify_os_version 6 2 0,
     Event.verify_os_version 6 1 1, Event.EnterCriticalSection, Event.LeaveCriticalSection]
    rfl rfl⟩

/-! ## C18: from detecting to cached -/

/-- C18 (as the code behaves): after a call of `get_real_os_version` that returns success with
a tuple that is not (0,0,0), every later call of `get_real_os_version`, after any calls of the
two operations in between and under any environment and fuel, returns from the cache check:
it returns that tuple and its only events are entering and leaving the critical section.
(The all-zero tuple is the code's mark for "not yet detected".) -/
theorem C18_cached_after_success (env : Env) (fuel : Nat) (g g1 : Src.Cache)
    (out : VersionOut) (tr : List Event) (calls : List Call) (g2 : Src.Cache)
    (env2 : Env) (fuel2 : Nat)
    (h : Src.get_real_os_version env fuel g = Outcome.returned (out, g1, tr))
    (hret : out.ret = true)
    (hnz : out.major ≠ 0 ∨ out.minor ≠ 0 ∨ out.spack ≠ 0)
    (hcalls : run_calls calls g1 = some g2) :
    Src.get_real_os_version env2 fuel2 g2 =
      Outcome.returned
        ({ ret := true, major := out.major, minor := out.minor, spack := out.spack,
           pbOverride := g2.g_os_version_bOverride },
         g2, [Event.EnterCriticalSection, Event.LeaveCriticalSection]) := by
  have hg1 : g1.g_os_version_major = out.major ∧ g1.g_os_version_minor = out.minor ∧
      g1.g_os_version_spack = out.spack := by
    unfold Src.get_real_os_version at h
    rcases get_real_os_version_at_cases env fuel g g g1 out tr h with
      ⟨_, ho, hg, _⟩ | ⟨_, v, _, ho, _, _⟩ | ⟨hz, v, _, ho, hg, _⟩
    · subst hg ho
      exact ⟨rfl, rfl, rfl⟩
    · rw [ho] at hret; cases hret
    · rw [hg, ho]
      simp only [Src.get_real_os_version_commit]
      rw [if_pos hz]
      exact ⟨rfl, rfl, rfl⟩
  obtain ⟨a, b, c⟩ := hg1
  obtain ⟨k, _⟩ := run_calls_keep calls g1 g2 hcalls
  obtain ⟨a2, b2, c2⟩ := k (by rw [a, b, c]; exact hnz)
  unfold Src.get_real_os_version
  rw [get_real_os_version_at_hit env2 fuel2 g2 g2 (by rw [a2, b2, c2, a, b, c]; exact hnz)]
  rw [a2, b2, c2, a, b, c]

/-- C18 at a concrete input: the first call climbs from (5,1,3) to (6,1,0); a build detection
follows; a later call in an environment whose info query fails, with no fuel, returns
(6,1,0) from the cache. -/
theorem C18_cached_after_success_witness :
    Src.get_real_os_version (stub_env none (0, 0, 0) 0) 0
        { g_os_version_major := 6, g_os_version_minor := 1, g_os_version_spack := 0,
          g_os_version_build := 7601, g_os_version_bOverride := true } =
      Outcome.returned
        ({ ret := true, major := 6, minor := 1, spack := 0, pbOverride := true },
         { g_os_version_major := 6, g_os_version_minor := 1, g_os_version_spack := 0,
           g_os_version_build := 7601, g_os_version_bOverride := true },
         [Event.EnterCriticalSection, Event.LeaveCriticalSection]) :=
  C18_cached_after_success (stub_env (some (nt_report (5, 1, 3) 2600)) (6, 1, 0) 7601) 20
    Src.Cache.zero
    { g_os_version_major := 6, g_os_version_minor := 1, g_os_version_spack := 0,
      g_os_version_build := 0, g_os_version_bOverride := true }
    { ret := true, major := 6, minor := 1, spack := 0, pbOverride := true }
    [Event.EnterCriticalSection, Event.LeaveCriticalSection, Event.get_os_info,
     Event.verify_os_version 6 0 0, Event.verify_os_version 7 0 0,
     Event.verify_os_version 6 1 0, Event.verify_os_version 6 2 0,
     Event.verify_os_version 6 1 1, Event.EnterCriticalSection, Event.LeaveCriticalSection]
    [Call.buildNo (stub_env (some (nt_report (5, 1, 3) 2600)) (6, 1, 0) 7601) 40]
    { g_os_version_major := 6, g_os_version_minor := 1, g_os_version_spack := 0,
      g_os_version_build := 7601, g_os_version_bOverride := true }
    (stub_env none (0, 0, 0) 0) 0 rfl rfl (Or.inl (by decide)) rfl

/-- C18 as stated fails for the detected tuple (0,0,0): with a native-family report (0,0,0)
and a probe that is false for every higher tuple, the first call returns success with
(0,0,0) and the cached tuple stays all zero, so the second call issues the info query and
the probes again. -/
theorem C18_counterexample :
    ∃ out g1 tr out2 g2 tr2,
      Src.get_real_os_version (stub_env (some (nt_report (0, 0, 0) 0)) (0, 0, 0) 0) 10
        Src.Cache.zero = Outcome.returned (out, g1, tr) ∧
      out.ret = true ∧
      Src.get_real_os_version (stub_env (some (nt_report (0, 0, 0) 0)) (0, 0, 0) 0) 10 g1 =
        Outcome.returned (out2, g2, tr2) ∧
      Event.get_os_info ∈ tr2 ∧ Event.verify_os_version 1 0 0 ∈ tr2 :=
  ⟨_, _, _, _, _, _, rfl, rfl, rfl, by decide, by decide⟩

/-! ## C14: override flag of the version detection -/

/-- C14: for every call of `get_real_os_version` on the zero-initialised cache that returns
success, with a native-family report `r` (major and minor 32-bit values, service pack a
16-bit value) and any probe function, the returned override flag is true if and only if the
returned tuple differs from `r`. -/
theorem C14_override_flag (env : Env) (osvi : OSVERSIONINFOEXW) (fuel : Nat)
    (out : VersionOut) (g1 : Src.Cache) (tr : List Event)
    (hinfo : env.get_os_info = some osvi)
    (hnt : osvi.dwPlatformId = VER_PLATFORM_WIN32_NT)
    (hwf : osvi.dwMajorVersion < 2 ^ 32 ∧ osvi.dwMinorVersion < 2 ^ 32 ∧
      osvi.wServicePackMajor < 2 ^ 16)
    (h : Src.get_real_os_version env fuel Src.Cache.zero = Outcome.returned (out, g1, tr))
    (hret : out.ret = true) :
    (out.pbOverride = true ↔
      (out.major, out.minor, out.spack) ≠
        (osvi.dwMajorVersion, osvi.dwMinorVersion, osvi.wServicePackMajor)) := by
  unfold Src.get_real_os_version at h
  rcases get_real_os_version_at_cases env fuel _ _ g1 out tr h with
    ⟨hnz, _, _, _⟩ | ⟨_, v, _, ho, _, _⟩ | ⟨hz, v, hd, ho, _, _⟩
  · simp [Src.Cache.zero] at hnz
  · rw [ho] at hret; cases hret
  · have hout : out =
        { ret := true, major := v.major, minor := v.minor, spack := v.spack,
          pbOverride := v.bOverride } := by
      rw [ho]
      simp only [Src.get_real_os_version_commit]
      rw [if_pos hz]
    rcases detect_cases env fuel _ true v hd with ⟨hn, _, _⟩ | ⟨_, _, _, _, hb, _⟩ |
      ⟨osvi2, v0, w1, w2, hinfo2, hstart, e1, e2, e3, hb⟩
    · rw [hinfo] at hn; cases hn
    · cases hb
    · rw [hinfo] at hinfo2
      simp only [Option.some.injEq] at hinfo2
      subst hinfo2
      rcases hstart with ⟨_, hv0⟩ | ⟨hne, _, _⟩
      swap
      · exact absurd hnt hne
      obtain ⟨hM, hm, hs⟩ := hwf
      have dM : DWORD osvi.dwMajorVersion = osvi.dwMajorVersion := DWORD_of_lt hM
      have dm : DWORD osvi.dwMinorVersion = osvi.dwMinorVersion := DWORD_of_lt hm
      have ds : WORD osvi.wServicePackMajor = osvi.wServicePackMajor := WORD_of_lt hs
      rw [dM, dm, ds] at hv0
      obtain ⟨hb1, hb2, hb3⟩ := hb.1 rfl
      obtain ⟨j1, hall1, _, h10, h1p⟩ := major_loop_char env fuel _ v0 w1 e1
      obtain ⟨j2, hall2, _, _, hmaj2, h20, h2p⟩ := minor_loop_char env fuel _ w1 w2 e2
      obtain ⟨j3, hj3, _, _, _, _, hmaj3, hmin3, h30, h3p⟩ :=
        spack_loop_char env fuel _ w2 v (WORD_le_MAX_VALUE _) e3
      have hv0M : v0.major = osvi.dwMajorVersion := by rw [hv0]
      have hv0m : v0.minor = osvi.dwMinorVersion := by rw [hv0]
      have hv0s : v0.spack = osvi.wServicePackMajor := by rw [hv0]
      have hv0o : v0.bOverride = false := by rw [hv0]
      rw [hout]
      simp only [ne_eq, Prod.mk.injEq, not_and]
      unfold Src.MAX_VALUE at *
      unfold DWORD at *
      unfold WORD at *
      rcases Nat.eq_zero_or_pos j1 with z1 | p1
      · obtain ⟨a1, b1, c1, d1⟩ := h10 z1
        rcases Nat.eq_zero_or_pos j2 with z2 | p2
        · obtain ⟨b2, c2, d2⟩ := h20 z2
          rcases Nat.eq_zero_or_pos j3 with z3 | p3
          · obtain ⟨c3, d3⟩ := h30 z3
            constructor
            · intro hov
              rw [d3, d2, d1, hv0o] at hov
              cases hov
            · intro hne
              exact absurd (by rw [c3, c2, c1, hv0s]) (hne (by rw [hmaj3, hmaj2, a1, hv0M])
                (by rw [hmin3, b2, b1, hv0m]))
          · obtain ⟨c3, d3⟩ := h3p p3
            constructor
            · intro _ _ _ hsp
              rw [c3, c2 , c1, hv0s] at hsp
              omega
            · intro _; exact d3
        · obtain ⟨b2, c2, d2⟩ := h2p p2
          have hov : v.bOverride = true := by
            rcases Nat.eq_zero_or_pos j3 with z3 | p3
            · rw [(h30 z3).2, d2]
            · exact (h3p p3).2
          have hle := (hall2 (j2 - 1) (by omega)).1
          constructor
          · intro _ _ hmn
            rw [hmin3, b2, b1, hv0m] at hmn
            omega
          · intro _; exact hov
      · obtain ⟨a1, b1, c1, d1⟩ := h1p p1
        have hov2 : w2.bOverride = true := by
          rcases Nat.eq_zero_or_pos j2 with z2 | p2
          · rw [(h20 z2).2.2, d1]
          · exact (h2p p2).2.2
        have hov : v.bOverride = true := by
          rcases Nat.eq_zero_or_pos j3 with z3 | p3
          · rw [(h30 z3).2, hov2]
          · exact (h3p p3).2
        have hle := (hall1 (j1 - 1) (by omega)).1
        constructor
        · intro _ hmj
          rw [hmaj3, hmaj2, a1, hv0M] at hmj
          omega
        · intro _; exact hov

/-- C14 at a concrete input: the report is (5,1,3), the probe threshold (6,1,0); the call
returns (6,1,0) with the override flag set. -/
theorem C14_override_flag_witness :
    Src.get_real_os_version (stub_env (some (nt_report (5, 1, 3) 2600)) (6, 1, 0) 7601) 20
        Src.Cache.zero =
      Outcome.returned
        ({ ret := true, major := 6, minor := 1, spack := 0, pbOverride := true },
         { g_os_version_major := 6, g_os_version_minor := 1, g_os_version_spack := 0,
           g_os_version_build := 0, g_os_version_bOverride := true },
         [Event.EnterCriticalSection, Event.LeaveCriticalSection, Event.get_os_info,
          Event.verify_os_version 6 0 0, Event.verify_os_version 7 0 0,
          Event.verify_os_version 6 1 0, Event.verify_os_version 6 2 0,
          Event.verify_os_version 6 1 1, Event.EnterCriticalSection,
          Event.LeaveCriticalSection]) ∧
    (true = true ↔ ((6 : Nat), (1 : Nat), (0 : Nat)) ≠ ((5 : Nat), (1 : Nat), (3 : Nat))) :=
  ⟨rfl, C14_override_flag (stub_env (some (nt_report (5, 1, 3) 2600)) (6, 1, 0) 7601)
    (nt_report (5, 1, 3) 2600) 20
    { ret := true, major := 6, minor := 1, spack := 0, pbOverride := true }
    { g_os_version_major := 6, g_os_version_minor := 1, g_os_version_spack := 0,
      g_os_version_build := 0, g_os_version_bOverride := true }
    [Event.EnterCriticalSection, Event.LeaveCriticalSection, Event.get_os_info,
     Event.verify_os_version 6 0 0, Event.verify_os_version 7 0 0,
     Event.verify_os_version 6 1 0, Event.verify_os_version 6 2 0,
     Event.verify_os_version 6 1 1, Event.EnterCriticalSection, Event.LeaveCriticalSection]
    rfl rfl (by decide) rfl rfl⟩

/-! ## C12: legacy-baseline fallback -/

theorem major_loop_congr (env env2 : Env)
    (hp : env2.verify_os_version = env.verify_os_version) :
    ∀ (fuel next : Nat) (v : Src.VerState),
      Src.major_loop env2 fuel next v = Src.major_loop env fuel next v := by
  intro fuel
  induction fuel with
  | zero => intro next v; rfl
  | succ n ih =>
    intro next v
    rw [Src.major_loop, Src.major_loop, hp]
    simp only [ih]

theorem minor_loop_congr (env env2 : Env)
    (hp : env2.verify_os_version = env.verify_os_version) :
    ∀ (fuel next : Nat) (v : Src.VerState),
      Src.minor_loop env2 fuel next v = Src.minor_loop env fuel next v := by
  intro fuel
  induction fuel with
  | zero => intro next v; rfl
  | succ n ih =>
    intro next v
    rw [Src.minor_loop, Src.minor_loop, hp]
    simp only [ih]

theorem spack_loop_congr (env env2 : Env)
    (hp : env2.verify_os_version = env.verify_os_version) :
    ∀ (fuel next : Nat) (v : Src.VerState),
      Src.spack_loop env2 fuel next v = Src.spack_loop env fuel next v := by
  intro fuel
  induction fuel with
  | zero => intro next v; rfl
  | succ n ih =>
    intro next v
    rw [Src.spack_loop, Src.spack_loop, hp]
    simp only [ih]

theorem detect_fallback_congr (env env2 : Env) (osvi osvi2 : OSVERSIONINFOEXW)
    (hinfo : env.get_os_info = some osvi)
    (hplat : osvi.dwPlatformId ≠ VER_PLATFORM_WIN32_NT)
    (hinfo2 : env2.get_os_info = some osvi2)
    (hplat2 : osvi2.dwPlatformId ≠ VER_PLATFORM_WIN32_NT)
    (hp : env2.verify_os_version = env.verify_os_version)
    (fuel : Nat) (tr : List Event) :
    Src.get_real_os_version_detect env2 fuel tr = Src.get_real_os_version_detect env fuel tr := by
  unfold Src.get_real_os_version_detect
  simp only [hinfo, hinfo2, hplat, hplat2, if_false, hp, major_loop_congr env env2 hp,
    minor_loop_congr env env2 hp, spack_loop_congr env env2 hp]

theorem major_probes_head (next k : Nat) (hk : 0 < k) :
    ∃ rest, major_probes next k = Event.verify_os_version next 0 0 :: rest := by
  cases k with
  | zero => omega
  | succ k => exact ⟨_, rfl⟩

/-- C12: on an empty cache, when the info query succeeds with a platform family other than
the native one, `get_real_os_version` issues the fallback probe at (4,0,0) right after the
info query. If that probe is false the call returns failure without any further probe,
whatever the other probe answers are. If it is true, the next probe is the first one of the
major climb, at (5,0,0), and every successful result has the override flag set and a major
of at least 4. In both cases the outcome does not depend on the reported major, minor and
service pack: any other non-native report gives the same outcome. -/
theorem C12_legacy_fallback (env : Env) (osvi : OSVERSIONINFOEXW)
    (hinfo : env.get_os_info = some osvi)
    (hplat : osvi.dwPlatformId ≠ VER_PLATFORM_WIN32_NT) :
    (env.verify_os_version 4 0 0 = false →
      ∀ fuel, Src.get_real_os_version env fuel Src.Cache.zero =
        Outcome.returned
          ({ ret := false, major := 0, minor := 0, spack := 0, pbOverride := false },
           Src.Cache.zero,
           [Event.EnterCriticalSection, Event.LeaveCriticalSection, Event.get_os_info,
            Event.verify_os_version 4 0 0])) ∧
    (env.verify_os_version 4 0 0 = true →
      ∀ fuel out g1 tr,
        Src.get_real_os_version env fuel Src.Cache.zero = Outcome.returned (out, g1, tr) →
        (∃ rest, tr = [Event.EnterCriticalSection, Event.LeaveCriticalSection,
            Event.get_os_info, Event.verify_os_version 4 0 0,
            Event.verify_os_version 5 0 0] ++ rest) ∧
        (out.ret = true → out.pbOverride = true ∧ 4 ≤ out.major)) ∧
    (∀ env2 osvi2, env2.get_os_info = some osvi2 →
      osvi2.dwPlatformId ≠ VER_PLATFORM_WIN32_NT →
      env2.verify_os_version = env.verify_os_version →
      ∀ fuel, Src.get_real_os_version env2 fuel Src.Cache.zero =
        Src.get_real_os_version env fuel Src.Cache.zero) := by
  refine ⟨?_, ?_, ?_⟩
  · intro h4 fuel
    unfold Src.get_real_os_version
    rw [get_real_os_version_at_miss env fuel _ _ ⟨rfl, rfl, rfl⟩]
    have hd : Src.get_real_os_version_detect env fuel
        [Event.EnterCriticalSection, Event.LeaveCriticalSection] =
        some (false,
          { major := 0, minor := 0, spack := 0, bOverride := false,
            trace := [Event.EnterCriticalSection, Event.LeaveCriticalSection] ++
              [Event.get_os_info] ++ [Event.verify_os_version 4 0 0] }) := by
      unfold Src.get_real_os_version_detect
      simp only [hinfo, hplat, h4, if_false, Bool.false_eq_true]
    rw [hd]
    rfl
  · intro h4 fuel out g1 tr h
    unfold Src.get_real_os_version at h
    rcases get_real_os_version_at_cases env fuel _ _ g1 out tr h with
      ⟨hnz, _, _, _⟩ | ⟨_, v, hd, ho, _, htr⟩ | ⟨hz, v, hd, ho, _, htr⟩
    · simp [Src.Cache.zero] at hnz
    all_goals
      rcases detect_cases env fuel _ _ v hd with ⟨hn, _, _⟩ | ⟨_, _, _, h4f, _, _⟩ |
        ⟨osvi2, v0, w1, w2, hinfo2, hstart, e1, e2, e3, hb⟩
      · rw [hinfo] at hn; cases hn
      · rw [h4] at h4f; cases h4f
      rw [hinfo] at hinfo2
      simp only [Option.some.injEq] at hinfo2
      subst hinfo2
      rcases hstart with ⟨hnt, _⟩ | ⟨_, _, hv0⟩
      · exact absurd hnt hplat
      have hv0M : v0.major = 4 := by rw [hv0]
      have hv0o : v0.bOverride = true := by rw [hv0]
      have hv0t : v0.trace = [Event.EnterCriticalSection, Event.LeaveCriticalSection,
          Event.get_os_info, Event.verify_os_version 4 0 0] := by rw [hv0]; rfl
      rw [hv0M, show DWORD (4 + 1) = 5 from rfl] at e1
      obtain ⟨j1, hall1, hstop1, h10, h1p⟩ := major_loop_char env fuel _ v0 w1 e1
      obtain ⟨j2, _, _, ⟨x2, hx2⟩, hmaj2, h20, h2p⟩ := minor_loop_char env fuel _ w1 w2 e2
      obtain ⟨j3, _, _, _, _, ⟨x3, hx3⟩, hmaj3, _, h30, h3p⟩ :=
        spack_loop_char env fuel _ w2 v (WORD_le_MAX_VALUE _) e3
      have htr1 : ∃ x1, w1.trace = v0.trace ++ Event.verify_os_version 5 0 0 :: x1 := by
        rcases hstop1 with ⟨_, _, c⟩ | ⟨hgt, c⟩
        · obtain ⟨rest, hr⟩ := major_probes_head 5 (j1 + 1) (by omega)
          exact ⟨rest, by rw [c, hr]⟩
        · obtain ⟨rest, hr⟩ := major_probes_head 5 j1
            (by unfold Src.MAX_VALUE at hgt; omega)
          exact ⟨rest, by rw [c, hr]⟩
      obtain ⟨x1, hx1⟩ := htr1
      have hov1 : w1.bOverride = true := by
        rcases Nat.eq_zero_or_pos j1 with z | p
        · rw [(h10 z).2.2.2, hv0o]
        · exact (h1p p).2.2.2
      have hov2 : w2.bOverride = true := by
        rcases Nat.eq_zero_or_pos j2 with z | p
        · rw [(h20 z).2.2, hov1]
        · exact (h2p p).2.2
      have hov3 : v.bOverride = true := by
        rcases Nat.eq_zero_or_pos j3 with z | p
        · rw [(h30 z).2, hov2]
        · exact (h3p p).2
      have hM1 : 4 ≤ w1.major := by
        rcases Nat.eq_zero_or_pos j1 with z | p
        · rw [(h10 z).1, hv0M]
        · rw [(h1p p).1]; omega
      have hMv : 4 ≤ v.major := by rw [hmaj3, hmaj2]; exact hM1
      have hvt : v.trace = [Event.EnterCriticalSection, Event.LeaveCriticalSection,
          Event.get_os_info, Event.verify_os_version 4 0 0, Event.verify_os_version 5 0 0] ++
          (x1 ++ x2 ++ x3) := by
        rw [hx3, hx2, hx1, hv0t]
        simp only [List.append_assoc, List.cons_append, List.nil_append]
    · refine ⟨⟨x1 ++ x2 ++ x3, by rw [htr, hvt]⟩, ?_⟩
      intro hr
      rw [ho] at hr
      cases hr
    · refine ⟨⟨x1 ++ x2 ++ x3 ++ [Event.EnterCriticalSection, Event.LeaveCriticalSection],
        by rw [htr, hvt]; simp only [List.append_assoc]⟩, ?_⟩
      intro _
      rw [ho]
      simp only [Src.get_real_os_version_commit]
      rw [if_pos hz]
      exact ⟨hov3, hMv⟩
  · intro env2 osvi2 hinfo2 hplat2 hp fuel
    unfold Src.get_real_os_version
    rw [get_real_os_version_at_miss env2 fuel _ _ ⟨rfl, rfl, rfl⟩,
      get_real_os_version_at_miss env fuel _ _ ⟨rfl, rfl, rfl⟩,
      detect_fallback_congr env env2 osvi osvi2 hinfo hplat hinfo2 hplat2 hp]

/-- C12 at a concrete input: a report (4,10,0) of the Windows 95/98 family, the fallback probe
and all probes up to (5,1,0) are true; the call returns (5,1,0) with the override flag set. -/
theorem C12_legacy_fallback_witness :
    Src.get_real_os_version (stub_env (some (legacy_report (4, 10, 0))) (5, 1, 0) 2600) 20
        Src.Cache.zero =
      Outcome.returned
        ({ ret := true, major := 5, minor := 1, spack := 0, pbOverride := true },
         { g_os_version_major := 5, g_os_version_minor := 1, g_os_version_spack := 0,
           g_os_version_build := 0, g_os_version_bOverride := true },
         [Event.EnterCriticalSection, Event.LeaveCriticalSection, Event.get_os_info,
          Event.verify_os_version 4 0 0, Event.verify_os_version 5 0 0,
          Event.verify_os_version 6 0 0, Event.verify_os_version 5 1 0,
          Event.verify_os_version 5 2 0, Event.verify_os_version 5 1 1,
          Event.EnterCriticalSection, Event.LeaveCriticalSection]) ∧
    ((∃ rest,
        [Event.EnterCriticalSection, Event.LeaveCriticalSection, Event.get_os_info,
          Event.verify_os_version 4 0 0, Event.verify_os_version 5 0 0,
          Event.verify_os_version 6 0 0, Event.verify_os_version 5 1 0,
          Event.verify_os_version 5 2 0, Event.verify_os_version 5 1 1,
          Event.EnterCriticalSection, Event.LeaveCriticalSection] =
        [Event.EnterCriticalSection, Event.LeaveCriticalSection, Event.get_os_info,
          Event.verify_os_version 4 0 0, Event.verify_os_version 5 0 0] ++ rest) ∧
      (true = true → true = true ∧ 4 ≤ 5)) :=
  ⟨rfl, (C12_legacy_fallback (stub_env (some (legacy_report (4, 10, 0))) (5, 1, 0) 2600)
    (legacy_report (4, 10, 0)) rfl (by decide)).2.1 rfl 20
    { ret := true, major := 5, minor := 1, spack := 0, pbOverride := true }
    { g_os_version_major := 5, g_os_version_minor := 1, g_os_version_spack := 0,
      g_os_version_build := 0, g_os_version_bOverride := true }
    [Event.EnterCriticalSection, Event.LeaveCriticalSection, Event.get_os_info,
     Event.verify_os_version 4 0 0, Event.verify_os_version 5 0 0,
     Event.verify_os_version 6 0 0, Event.verify_os_version 5 1 0,
     Event.verify_os_version 5 2 0, Event.verify_os_version 5 1 1,
     Event.EnterCriticalSection, Event.LeaveCriticalSection] rfl⟩

/-! ## C15: override flag of the build detection -/

/-- C15 (what the code does): with a native-family reported build `r` below `INT_MAX` that the
build probe confirms (`verify_os_buildNo r` is true, as on a system whose report is not
falsified), every call of `get_real_os_buildNo` on the zero-initialised cache that returns,
returns success with the override flag set, because the first probe of the climb is at `r`
itself; this holds also when the returned build number is `r`. -/
theorem C15_override_set_by_first_probe (env : Env) (osvi : OSVERSIONINFOEXW) (fuel : Nat)
    (out : Src.BuildOut) (g1 : Src.Cache) (tr : List Event)
    (hinfo : env.get_os_info = some osvi)
    (hnt : osvi.dwPlatformId = VER_PLATFORM_WIN32_NT)
    (hr : osvi.dwBuildNumber < INT_MAX)
    (hp : env.verify_os_buildNo osvi.dwBuildNumber = true)
    (h : Src.get_real_os_buildNo env fuel Src.Cache.zero = Outcome.returned (out, g1, tr)) :
    out.ret = true ∧ out.pbOverride = true := by
  have hd : DWORD osvi.dwBuildNumber = osvi.dwBuildNumber :=
    DWORD_of_lt (by unfold INT_MAX at hr; omega)
  unfold Src.get_real_os_buildNo at h
  rcases get_real_os_buildNo_at_cases 4096 env fuel _ _ g1 out tr h with
    ⟨hnz, _, _, _⟩ | ⟨_, b, hdet, _, _, _⟩ | ⟨hz, b, hdet, ho, _, _⟩
  · exact absurd rfl hnz
  · rcases build_detect_cases 4096 env fuel _ false b hdet with ⟨hn, _, _⟩ |
      ⟨osvi2, hinfo2, hne, _, _, _⟩ | ⟨_, _, _, _, _, hb⟩
    · rw [hinfo] at hn; cases hn
    · rw [hinfo] at hinfo2
      simp only [Option.some.injEq] at hinfo2
      subst hinfo2
      exact absurd hnt hne
    · cases hb
  · rcases build_detect_cases 4096 env fuel _ true b hdet with ⟨_, hb, _⟩ |
      ⟨_, _, _, _, hb, _⟩ | ⟨osvi2, b0, hinfo2, hstart, e1, _⟩
    · cases hb
    · cases hb
    · rw [hinfo] at hinfo2
      simp only [Option.some.injEq] at hinfo2
      subst hinfo2
      rcases hstart with ⟨_, hb0⟩ | ⟨hne, _, _⟩
      swap
      · exact absurd hnt hne
      rw [hd] at hb0
      have hb0n : b0.buildNo = osvi.dwBuildNumber := by rw [hb0]
      rw [hb0n] at e1
      have hov : b.bOverride = true := by
        cases fuel with
        | zero => simp [Src.build_loop] at e1
        | succ n =>
          rw [Src.build_loop, if_pos hr] at e1
          simp only [hp, if_true] at e1
          exact (build_loop_char env n _ _ _ b e1).2.1 rfl
      rw [ho]
      simp only [Src.get_real_os_buildNo_commit]
      rw [if_pos hz]
      exact ⟨rfl, hov⟩

/-- C15 at the failing input: the reported build is 7601 and the build probe is true exactly
up to 7601 (the report is not falsified). The call returns the build number 7601, equal to
the reported one, with the override flag set. -/
theorem C15_override_set_by_first_probe_witness :
    (∃ g1 tr, Src.get_real_os_buildNo
        (stub_env (some (nt_report (6, 1, 0) 7601)) (6, 1, 0) 7601) 40 Src.Cache.zero =
      Outcome.returned ({ ret := true, buildNo := 7601, pbOverride := true }, g1, tr)) ∧
    (true = true ∧ true = true) :=
  ⟨⟨_, _, rfl⟩,
    C15_override_set_by_first_probe (stub_env (some (nt_report (6, 1, 0) 7601)) (6, 1, 0) 7601)
      (nt_report (6, 1, 0) 7601) 40 { ret := true, buildNo := 7601, pbOverride := true }
      _ _ rfl rfl (by decide) rfl rfl⟩

/-! ## C20: maximality of the climbed tuple -/

theorem major_probes_last : ∀ (k next : Nat),
    Event.verify_os_version (next + k) 0 0 ∈ major_probes next (k + 1) := by
  intro k
  induction k with
  | zero => intro next; simp [major_probes]
  | succ k ih =>
    intro next
    rw [major_probes]
    have e : next + (k + 1) = next + 1 + k := by omega
    rw [e]
    exact List.mem_cons_of_mem _ (ih (next + 1))

theorem major_probes_ne (a b : Nat) (hab : a ≠ b) :
    ¬ ∃ k, [Event.verify_os_version a 0 0] = major_probes b k := by
  rintro ⟨k, hk⟩
  cases k with
  | zero => simp [major_probes] at hk
  | succ k =>
    simp only [major_probes, List.cons.injEq, Event.verify_os_version.injEq] at hk
    exact hab hk.1.1

/-- C20 (as the code behaves): whenever a run of `get_real_os_version` on a cache whose tuple is
all zero returns success with the tuple (M, n, s), each climb stopped at a failing probe one
unit above the adopted value: the probes at (M+1, 0, 0), (M, n+1, 0) and (M, n, s+1) were
issued and answered false. The probes issued by the major climb all have minor and service
pack 0 and their majors are b+1, b+2, ... in consecutive steps of exactly 1, where the
base b is the reported major when the report is of the native family and the baseline 4
when the fallback probe was taken, and b+1 is computed in 32 bits. -/
theorem C20_maximality (env : Env) (osvi : OSVERSIONINFOEXW) (fuel : Nat) (g g1 : Src.Cache)
    (out : VersionOut) (tr : List Event)
    (hinfo : env.get_os_info = some osvi)
    (hz : g.g_os_version_major = 0 ∧ g.g_os_version_minor = 0 ∧ g.g_os_version_spack = 0)
    (h : Src.get_real_os_version env fuel g = Outcome.returned (out, g1, tr))
    (hret : out.ret = true) :
    (env.verify_os_version (out.major + 1) 0 0 = false ∧
      Event.verify_os_version (out.major + 1) 0 0 ∈ tr) ∧
    (env.verify_os_version out.major (out.minor + 1) 0 = false ∧
      Event.verify_os_version out.major (out.minor + 1) 0 ∈ tr) ∧
    (env.verify_os_version out.major out.minor (out.spack + 1) = false ∧
      Event.verify_os_version out.major out.minor (out.spack + 1) ∈ tr) ∧
    (∃ v0 w1 k rest,
      v0.major = (if osvi.dwPlatformId = VER_PLATFORM_WIN32_NT
        then DWORD osvi.dwMajorVersion else 4) ∧
      Src.major_loop env fuel (DWORD (v0.major + 1)) v0 = some w1 ∧
      w1.trace = v0.trace ++ major_probes (DWORD (v0.major + 1)) k ∧
      tr = w1.trace ++ rest ∧ w1.major = out.major) := by
  unfold Src.get_real_os_version at h
  rcases get_real_os_version_at_cases env fuel g g g1 out tr h with
    ⟨hnz, _, _, _⟩ | ⟨_, v, _, ho, _, _⟩ | ⟨_, v, hd, ho, _, htr⟩
  · omega
  · rw [ho] at hret; cases hret
  · have hout : out =
        { ret := true, major := v.major, minor := v.minor, spack := v.spack,
          pbOverride := v.bOverride } := by
      rw [ho]
      simp only [Src.get_real_os_version_commit]
      rw [if_pos hz]
    rcases detect_cases env fuel _ true v hd with ⟨_, hb, _⟩ | ⟨_, _, _, _, hb, _⟩ |
      ⟨osvi2, v0, w1, w2, hinfo2, hstart, e1, e2, e3, hb⟩
    · cases hb
    · cases hb
    · rw [hinfo] at hinfo2
      simp only [Option.some.injEq] at hinfo2
      subst hinfo2
      obtain ⟨hb1, hb2, hb3⟩ := hb.1 rfl
      obtain ⟨j1, hall1, hstop1, h10, h1p⟩ := major_loop_char env fuel _ v0 w1 e1
      obtain ⟨j2, hall2, hstop2, ⟨x2, hx2⟩, hmaj2, h20, h2p⟩ :=
        minor_loop_char env fuel _ w1 w2 e2
      obtain ⟨j3, hj3, hall3, hstop3, hmem3, ⟨x3, hx3⟩, hmaj3, hmin3, h30, h3p⟩ :=
        spack_loop_char env fuel _ w2 v (WORD_le_MAX_VALUE _) e3
      have hM : w1.major < Src.MAX_VALUE := by rw [← hmaj2, ← hmaj3]; exact hb1
      have hm : w2.minor < Src.MAX_VALUE := by rw [← hmin3]; exact hb2
      have hv0 : v0.major = (if osvi.dwPlatformId = VER_PLATFORM_WIN32_NT
          then DWORD osvi.dwMajorVersion else 4) := by
        rcases hstart with ⟨hnt, hv0⟩ | ⟨hne, _, hv0⟩
        · rw [hv0, if_pos hnt]
        · rw [hv0, if_neg hne]
      -- the major climb stopped at a failing probe
      have hmajor : env.verify_os_version (w1.major + 1) 0 0 = false ∧
          w1.trace = v0.trace ++ major_probes (DWORD (v0.major + 1)) (j1 + 1) ∧
          Event.verify_os_version (w1.major + 1) 0 0 ∈ w1.trace := by
        have hnext : DWORD (v0.major + 1) + j1 = w1.major + 1 := by
          rcases Nat.eq_zero_or_pos j1 with z | p
          · have a := (h10 z).1
            have hlt : v0.major + 1 < 2 ^ 32 := by
              unfold Src.MAX_VALUE at hM; omega
            rw [z, DWORD_of_lt hlt, a]
          · have a := (h1p p).1
            have := (hall1 (j1 - 1) (by omega)).1
            omega
        rcases hstop1 with ⟨_, b, c⟩ | ⟨hgt, _⟩
        · refine ⟨by rw [← hnext]; exact b, c, ?_⟩
          rw [c, ← hnext]
          exact List.mem_append_right _ (major_probes_last j1 _)
        · omega
      -- the minor climb stopped at a failing probe
      have hminor : env.verify_os_version w1.major (w2.minor + 1) 0 = false ∧
          Event.verify_os_version w1.major (w2.minor + 1) 0 ∈ w2.trace := by
        have hnext : DWORD (w1.minor + 1) + j2 = w2.minor + 1 := by
          rcases Nat.eq_zero_or_pos j2 with z | p
          · have a := (h20 z).1
            have hlt : w1.minor + 1 < 2 ^ 32 := by
              unfold Src.MAX_VALUE at hm; omega
            rw [z, DWORD_of_lt hlt, a]
          · have a := (h2p p).1
            have := (hall2 (j2 - 1) (by omega)).1
            omega
        rcases hstop2 with ⟨_, b, c⟩ | hgt
        · exact ⟨by rw [← hnext]; exact b, by rw [← hnext]; exact c⟩
        · omega
      -- the service-pack climb stopped at a failing probe
      have hspack : WORD (WORD (DWORD (w2.spack + 1)) + j3) = v.spack + 1 := by
        unfold Src.MAX_VALUE at hb3
        rcases Nat.eq_zero_or_pos j3 with z | p
        · have a := (h30 z).1
          rw [z, a]
          unfold WORD DWORD
          omega
        · have a := (h3p p).1
          rw [a] at hb3 ⊢
          unfold WORD DWORD at *
          omega
      rw [hspack] at hstop3 hmem3
      rw [hout]
      simp only
      rw [htr, hmaj3, hmin3, hmaj2]
      refine ⟨⟨hmajor.1, ?_⟩, ⟨hminor.1, ?_⟩, ⟨?_, ?_⟩, ?_⟩
      · rw [hx3, hx2]
        simp only [List.mem_append]
        exact Or.inl (Or.inl (Or.inl hmajor.2.2))
      · rw [hx3]
        simp only [List.mem_append]
        exact Or.inl (Or.inl hminor.2)
      · rw [← hmaj2]; exact hstop3
      · simp only [List.mem_append]
        rw [← hmaj2]
        exact Or.inl hmem3
      · exact ⟨v0, w1, j1 + 1,
          x2 ++ x3 ++ [Event.EnterCriticalSection, Event.LeaveCriticalSection],
          hv0, e1, hmajor.2.1, by rw [hx3, hx2]; simp only [List.append_assoc], rfl⟩

/-- C20 at a concrete input: the native-family report is (5,1,3), the probe threshold (6,1,0);
the run returns (6,1,0), the major climb issued the probes (6,0,0) and (7,0,0). -/
theorem C20_maximality_witness :
    (stub_env (some (nt_report (5, 1, 3) 2600)) (6, 1, 0) 7601).verify_os_version (6 + 1) 0 0 =
      false ∧
    ∃ rest v0 w1 k,
      Src.get_real_os_version (stub_env (some (nt_report (5, 1, 3) 2600)) (6, 1, 0) 7601) 20
        Src.Cache.zero =
        Outcome.returned
          ({ ret := true, major := 6, minor := 1, spack := 0, pbOverride := true },
           { g_os_version_major := 6, g_os_version_minor := 1, g_os_version_spack := 0,
             g_os_version_build := 0, g_os_version_bOverride := true },
           w1.trace ++ rest) ∧
      Src.major_loop (stub_env (some (nt_report (5, 1, 3) 2600)) (6, 1, 0) 7601) 20
        (DWORD (v0.major + 1)) v0 = some w1 ∧
      w1.trace = v0.trace ++ major_probes (DWORD (v0.major + 1)) k := by
  have h := C20_maximality (stub_env (some (nt_report (5, 1, 3) 2600)) (6, 1, 0) 7601)
    (nt_report (5, 1, 3) 2600) 20 Src.Cache.zero
    { g_os_version_major := 6, g_os_version_minor := 1, g_os_version_spack := 0,
      g_os_version_build := 0, g_os_version_bOverride := true }
    { ret := true, major := 6, minor := 1, spack := 0, pbOverride := true }
    [Event.EnterCriticalSection, Event.LeaveCriticalSection, Event.get_os_info,
     Event.verify_os_version 6 0 0, Event.verify_os_version 7 0 0,
     Event.verify_os_version 6 1 0, Event.verify_os_version 6 2 0,
     Event.verify_os_version 6 1 1, Event.EnterCriticalSection, Event.LeaveCriticalSection]
    rfl ⟨rfl, rfl, rfl⟩ rfl rfl
  obtain ⟨⟨h1, _⟩, _, _, v0, w1, k, rest, _, hloop, htr, hsplit, _⟩ := h
  exact ⟨h1, rest, v0, w1, k, by rw [← hsplit]; rfl, hloop, htr⟩

/-- C20 as stated fails for a report that is not of the native family: with the reported
tuple (5,0,0), platform identifier 1, and a probe that is true exactly up to (4,0,0), the
run returns success with (4,0,0); its major climb starts from the baseline 4 and issues the
one probe (5,0,0), whose major is the reported major itself and not reported + 1 = 6. -/
theorem C20_counterexample :
    ∃ out g1 tr w1,
      Src.get_real_os_version (stub_env (some (legacy_report (5, 0, 0))) (4, 0, 0) 0) 20
        Src.Cache.zero = Outcome.returned (out, g1, tr) ∧
      out.ret = true ∧
      Src.major_loop (stub_env (some (legacy_report (5, 0, 0))) (4, 0, 0) 0) 20 5
        { major := 4, minor := 0, spack := 0, bOverride := true,
          trace := [Event.EnterCriticalSection, Event.LeaveCriticalSection,
            Event.get_os_info, Event.verify_os_version 4 0 0] } = some w1 ∧
      w1.trace = [Event.EnterCriticalSection, Event.LeaveCriticalSection,
        Event.get_os_info, Event.verify_os_version 4 0 0] ++ [Event.verify_os_version 5 0 0] ∧
      (∃ rest, tr = w1.trace ++ rest) ∧
      ¬ ∃ k, [Event.verify_os_version 5 0 0] =
        major_probes ((legacy_report (5, 0, 0)).dwMajorVersion + 1) k :=
  ⟨_, _, _, _, rfl, rfl, rfl, rfl, ⟨_, rfl⟩, major_probes_ne 5 6 (by decide)⟩

/-! ## C19: callers racing on an empty cache -/

theorem monotone_climb_in_range (env : Env) (osvi : OSVERSIONINFOEXW) (fuel : Nat)
    (g g1 : Src.Cache) (out : VersionOut) (tr : List Event)
    (hinfo : env.get_os_info = some osvi)
    (hnt : osvi.dwPlatformId = VER_PLATFORM_WIN32_NT)
    (hM : DWORD osvi.dwMajorVersion ≠ 0xFFFFFFFF)
    (hg : g.g_os_version_major = 0 ∧ g.g_os_version_minor = 0 ∧ g.g_os_version_spack = 0)
    (h : Src.get_real_os_version env fuel g = Outcome.returned (out, g1, tr))
    (hret : out.ret = true) :
    DWORD osvi.dwMajorVersion ≤ out.major ∧
    (DWORD osvi.dwMinorVersion ≠ 0xFFFFFFFF → WORD osvi.wServicePackMajor ≠ 0xFFFF →
      (∀ a b, env.verify_os_version a b 0xFFFF = false) →
      lexLe (DWORD osvi.dwMajorVersion, DWORD osvi.dwMinorVersion, WORD osvi.wServicePackMajor)
        (out.major, out.minor, out.spack)) := by
  unfold Src.get_real_os_version at h
  rcases get_real_os_version_at_cases env fuel g g g1 out tr h with
    ⟨hnz, _, _, _⟩ | ⟨_, v, _, ho, _, _⟩ | ⟨_, v, hdet, ho, _, _⟩
  · omega
  · rw [ho] at hret; cases hret
  · have hout : out.major = v.major ∧ out.minor = v.minor ∧ out.spack = v.spack := by
      rw [ho]
      simp only [Src.get_real_os_version_commit]
      rw [if_pos hg]
      exact ⟨rfl, rfl, rfl⟩
    rcases detect_cases env fuel _ true v hdet with ⟨_, hb, _⟩ | ⟨_, _, _, _, hb, _⟩ |
      ⟨osvi2, v0, w1, w2, hinfo2, hstart, e1, e2, e3, _⟩
    · cases hb
    · cases hb
    · rw [hinfo] at hinfo2
      simp only [Option.some.injEq] at hinfo2
      subst hinfo2
      rcases hstart with ⟨_, hv0⟩ | ⟨hne, _, _⟩
      swap
      · exact absurd hnt hne
      have hv0M : v0.major = DWORD osvi.dwMajorVersion := by rw [hv0]
      have hv0m : v0.minor = DWORD osvi.dwMinorVersion := by rw [hv0]
      have hv0s : v0.spack = WORD osvi.wServicePackMajor := by rw [hv0]
      have hMlt : DWORD osvi.dwMajorVersion < 2 ^ 32 := Nat.mod_lt _ (by norm_num)
      have hmlt : DWORD osvi.dwMinorVersion < 2 ^ 32 := Nat.mod_lt _ (by norm_num)
      have hslt : WORD osvi.wServicePackMajor < 2 ^ 16 := Nat.mod_lt _ (by norm_num)
      have hn1 : DWORD (v0.major + 1) = DWORD osvi.dwMajorVersion + 1 := by
        rw [hv0M]
        exact DWORD_of_lt (by omega)
      rw [hn1] at e1
      obtain ⟨j1, _, _, h10, h1p⟩ := major_loop_char env fuel _ v0 w1 e1
      obtain ⟨j2, _, _, _, h2M, h20, h2p⟩ := minor_loop_char env fuel _ w1 w2 e2
      obtain ⟨j3, hj3, h3all, _, _, _, h3M, h3m, h30, h3p⟩ :=
        spack_loop_char env fuel _ w2 v (WORD_le_MAX_VALUE _) e3
      rw [hout.1, hout.2.1, hout.2.2, h3M, h2M]
      constructor
      · rcases Nat.eq_zero_or_pos j1 with hj | hj
        · rw [(h10 hj).1, hv0M]
        · rw [(h1p hj).1]; omega
      · intro hm hs hprobe
        unfold lexLe
        simp only
        rcases Nat.eq_zero_or_pos j1 with hj | hj
        swap
        · left; rw [(h1p hj).1]; omega
        obtain ⟨a1, a2, a3, _⟩ := h10 hj
        right
        refine ⟨by rw [a1, hv0M], ?_⟩
        rw [h3m]
        have hn2 : DWORD (w1.minor + 1) = DWORD osvi.dwMinorVersion + 1 := by
          rw [a2, hv0m]
          exact DWORD_of_lt (by omega)
        rw [hn2] at h2p
        rcases Nat.eq_zero_or_pos j2 with hj2 | hj2
        swap
        · left; rw [(h2p hj2).1]; omega
        obtain ⟨b2, b3, _⟩ := h20 hj2
        right
        refine ⟨by rw [b2, a2, hv0m], ?_⟩
        have hn3 : WORD (DWORD (w2.spack + 1)) = WORD osvi.wServicePackMajor + 1 := by
          rw [b3, a3, hv0s]
          unfold WORD DWORD
          unfold WORD at hs hslt
          omega
        rw [hn3] at h3all h3p
        rcases Nat.eq_zero_or_pos j3 with hj3z | hj3p
        · rw [(h30 hj3z).1, b3, a3, hv0s]
        · rw [(h3p hj3p).1]
          have hnw : WORD osvi.wServicePackMajor + 1 + j3 ≤ 65536 := by
            by_contra hc
            have hi := h3all (65534 - WORD osvi.wServicePackMajor) (by omega)
            have e : WORD (WORD osvi.wServicePackMajor + 1 +
                (65534 - WORD osvi.wServicePackMajor)) = 0xFFFF := by
              have : WORD osvi.wServicePackMajor + 1 +
                (65534 - WORD osvi.wServicePackMajor) = 65535 := by omega
              rw [this]
              rfl
            rw [e, hprobe] at hi
            cases hi
          have : WORD (WORD osvi.wServicePackMajor + 1 + j3 - 1) =
              WORD osvi.wServicePackMajor + j3 := by
            have e2 : WORD osvi.wServicePackMajor + 1 + j3 - 1 =
                WORD osvi.wServicePackMajor + j3 := by omega
            rw [e2]
            exact WORD_of_lt (by omega)
          rw [this]
          omega

/-- C21 (what the code does): the start value of a climb is the reported value plus one in
the width of the counter, so a reported value at the top of its range wraps to 0 and the
climb restarts from the bottom. With the reported tuple (6, 1, 0xFFFF) of the native family and
a probe that is true exactly up to (6, 1, 3), `get_real_os_version` on the empty cache returns
success with the tuple (6, 1, 3), which is lexicographically smaller than the reported one
(`get_real_os_version` of `DetectOsVersion.cpp`, whose service-pack counter is a `DWORD`,
returns failure on the same input); with the reported tuple (0xFFFFFFFF, 0, 0) and a probe
that is true exactly up to (6, 1, 0) it returns success with (6, 1, 0), whose major 6 is
smaller than the reported major. -/
theorem C21_wrapped_climb_returns_lower_version :
    (∃ g1 tr, Src.get_real_os_version
        (stub_env (some (nt_report (6, 1, 0xFFFF) 7601)) (6, 1, 3) 7601) 10 Src.Cache.zero =
      Outcome.returned
        ({ ret := true, major := 6, minor := 1, spack := 3, pbOverride := true }, g1, tr)) ∧
    lexLt (6, 1, 3) (6, 1, 0xFFFF) ∧
    get_real_os_version (stub_env (some (nt_report (6, 1, 0xFFFF) 7601)) (6, 1, 3) 7601) 10 =
      some { ret := false, major := 6, minor := 1, spack := 0xFFFF, pbOverride := false } ∧
    (∃ g1 tr, Src.get_real_os_version
        (stub_env (some (nt_report (0xFFFFFFFF, 0, 0) 7601)) (6, 1, 0) 7601) 10 Src.Cache.zero =
      Outcome.returned
        ({ ret := true, major := 6, minor := 1, spack := 0, pbOverride := true }, g1, tr)) ∧
    lexLt (6, 1, 0) (0xFFFFFFFF, 0, 0) ∧ 6 < DWORD 0xFFFFFFFF :=
  ⟨⟨_, _, rfl⟩, by decide, rfl, ⟨_, _, rfl⟩, by decide, by decide⟩

/-! ## Termination of the build climb -/

theorem build_loop_exit_state (env : Env) :
    ∀ (fuel step next : Nat) (b : Src.BuildState),
      Src.build_loop env fuel step next b =
        (Src.build_loop_exit env fuel step next b).map (fun r => r.2.2) := by
  intro fuel
  induction fuel with
  | zero => intro step next b; rfl
  | succ n ih =>
    intro step next b
    rw [Src.build_loop, Src.build_loop_exit]
    by_cases hc : next < INT_MAX
    · rw [if_pos hc, if_pos hc]
      by_cases hp : env.verify_os_buildNo next = true
      · simp only [hp, if_true]
        exact ih _ _ _
      · simp only [hp, Bool.false_eq_true, if_false]
        by_cases hs : step > 1
        · rw [if_pos hs, if_pos hs]
          exact ih _ _ _
        · rw [if_neg hs, if_neg hs]
          rfl
    · rw [if_neg hc, if_neg hc]
      rfl

theorem log_two_half (step : Nat) (hs : step > 1) :
    Nat.log 2 (step / 2) + 1 = Nat.log 2 step := by
  have h1 := Nat.log_div_base 2 step
  have h2 : 0 < Nat.log 2 step := Nat.log_pos (by norm_num) (by omega)
  omega

theorem build_loop_exit_halving (env : Env) :
    ∀ (fuel step : Nat) (b : Src.BuildState), 1 ≤ step → step ≤ 4096 →
      b.buildNo < INT_MAX →
      (INT_MAX - 1 - b.buildNo) + Nat.log 2 step + 2 ≤ fuel →
      ∃ s n w, Src.build_loop_exit env fuel step (b.buildNo + step) b = some (s, n, w) ∧
        (INT_MAX ≤ n ∨ (s = 1 ∧ n < INT_MAX ∧ env.verify_os_buildNo n = false)) ∧
        build_probes w.trace ≤
          build_probes b.trace + ((INT_MAX - 1 - b.buildNo) + Nat.log 2 step + 1) := by
  intro fuel
  induction fuel with
  | zero => intro step b _ _ _ hf; omega
  | succ f ih =>
    intro step b h1 h2 hb hf
    rw [Src.build_loop_exit]
    by_cases hc : b.buildNo + step < INT_MAX
    · rw [if_pos hc]
      by_cases hp : env.verify_os_buildNo (b.buildNo + step) = true
      · simp only [hp, if_true]
        have hw : DWORD (b.buildNo + step + step) = b.buildNo + step + step :=
          DWORD_of_lt (by unfold INT_MAX at hc; omega)
        rw [hw]
        obtain ⟨s, n, w, e, hex, hpr⟩ := ih step
          { buildNo := b.buildNo + step, bOverride := true,
            trace := b.trace ++ [Event.verify_os_buildNo (b.buildNo + step)] }
          h1 h2 hc (by simp only; omega)
        refine ⟨s, n, w, e, hex, ?_⟩
        simp only [build_probes_append_probe] at hpr
        omega
      · simp only [hp, Bool.false_eq_true, if_false]
        by_cases hs : step > 1
        · rw [if_pos hs]
          have hlog := log_two_half step hs
          have hw : DWORD (b.buildNo + step / 2) = b.buildNo + step / 2 :=
            DWORD_of_lt (by unfold INT_MAX at hb; omega)
          rw [hw]
          obtain ⟨s, n, w, e, hex, hpr⟩ := ih (step / 2)
            { buildNo := b.buildNo, bOverride := b.bOverride,
              trace := b.trace ++ [Event.verify_os_buildNo (b.buildNo + step)] }
            (by omega) (by omega) hb (by simp only; omega)
          refine ⟨s, n, w, e, hex, ?_⟩
          simp only [build_probes_append_probe] at hpr
          omega
        · rw [if_neg hs]
          refine ⟨step, b.buildNo + step, _, rfl, Or.inr ⟨by omega, hc, by simpa using hp⟩, ?_⟩
          simp only [build_probes_append_probe]
          omega
    · rw [if_neg hc]
      exact ⟨step, b.buildNo + step, b, rfl, Or.inl (by omega), by omega⟩

theorem log_two_4096 : Nat.log 2 4096 = 12 := by
  have h : (4096 : Nat) = 2 ^ 12 := by norm_num
  rw [h]
  exact Nat.log_pow (by norm_num) 12

theorem log_two_2048 : Nat.log 2 2048 = 11 := by
  have h : (2048 : Nat) = 2 ^ 11 := by norm_num
  rw [h]
  exact Nat.log_pow (by norm_num) 11

theorem build_loop_exit_terminates (env : Env) (fuel : Nat) (b0 : Src.BuildState)
    (hfuel : INT_MAX - b0.buildNo + 14 ≤ fuel) :
    ∃ s n w, Src.build_loop_exit env fuel 4096 b0.buildNo b0 = some (s, n, w) ∧
      Src.build_loop env fuel 4096 b0.buildNo b0 = some w ∧
      (INT_MAX ≤ n ∨ (s = 1 ∧ n < INT_MAX ∧ env.verify_os_buildNo n = false)) ∧
      build_probes w.trace ≤ build_probes b0.trace + (INT_MAX - b0.buildNo + 13) := by
  have key : ∃ s n w, Src.build_loop_exit env fuel 4096 b0.buildNo b0 = some (s, n, w) ∧
      (INT_MAX ≤ n ∨ (s = 1 ∧ n < INT_MAX ∧ env.verify_os_buildNo n = false)) ∧
      build_probes w.trace ≤ build_probes b0.trace + (INT_MAX - b0.buildNo + 13) := by
    cases fuel with
    | zero => omega
    | succ f =>
      rw [Src.build_loop_exit]
      by_cases hc : b0.buildNo < INT_MAX
      · rw [if_pos hc]
        by_cases hp : env.verify_os_buildNo b0.buildNo = true
        · simp only [hp, if_true]
          have hw : DWORD (b0.buildNo + 4096) = b0.buildNo + 4096 :=
            DWORD_of_lt (by unfold INT_MAX at hc; omega)
          rw [hw]
          obtain ⟨s, n, w, e, hex, hpr⟩ := build_loop_exit_halving env f 4096
            { buildNo := b0.buildNo, bOverride := true,
              trace := b0.trace ++ [Event.verify_os_buildNo b0.buildNo] }
            (by omega) (by omega) hc (by simp only; rw [log_two_4096]; omega)
          refine ⟨s, n, w, e, hex, ?_⟩
          simp only [build_probes_append_probe, log_two_4096] at hpr
          omega
        · simp only [hp, Bool.false_eq_true, if_false]
          rw [if_pos (by omega)]
          have hw : DWORD (b0.buildNo + 4096 / 2) = b0.buildNo + 2048 :=
            DWORD_of_lt (by unfold INT_MAX at hc; omega)
          rw [hw]
          obtain ⟨s, n, w, e, hex, hpr⟩ := build_loop_exit_halving env f 2048
            { buildNo := b0.buildNo, bOverride := b0.bOverride,
              trace := b0.trace ++ [Event.verify_os_buildNo b0.buildNo] }
            (by omega) (by omega) hc (by simp only; rw [log_two_2048]; omega)
          refine ⟨s, n, w, e, hex, ?_⟩
          simp only [build_probes_append_probe, log_two_2048] at hpr
          omega
      · rw [if_neg hc]
        exact ⟨4096, b0.buildNo, b0, rfl, Or.inl (by omega), by omega⟩
  obtain ⟨s, n, w, e, hex, hpr⟩ := key
  refine ⟨s, n, w, e, ?_, hex, hpr⟩
  rw [build_loop_exit_state, e]
  rfl

/-! ## C22: termination of the build climb -/

/-- C22: for every environment (every build probe, also one that always answers true) and
every native-family report, `get_real_os_buildNo` returns as soon as the fuel exceeds
`INT_MAX - r + 13`, where `r` is the reported build number as a 32-bit value: the halving
loop is left either with the next candidate at or above `INT_MAX`, or with step 1 after a
failing probe at a candidate below `INT_MAX`; and it makes at most `INT_MAX - r + 13`
calls of the build probe, a bound that depends on the reported build and the ceiling only. -/
theorem C22_build_climb_terminates (env : Env) (osvi : OSVERSIONINFOEXW) (fuel : Nat)
    (g : Src.Cache)
    (hinfo : env.get_os_info = some osvi)
    (hnt : osvi.dwPlatformId = VER_PLATFORM_WIN32_NT)
    (hfuel : INT_MAX - DWORD osvi.dwBuildNumber + 14 ≤ fuel) :
    (∃ s n w,
      Src.build_loop_exit env fuel 4096 (DWORD osvi.dwBuildNumber)
          { buildNo := DWORD osvi.dwBuildNumber, bOverride := false,
            trace := [Event.EnterCriticalSection, Event.LeaveCriticalSection,
              Event.get_os_info] } = some (s, n, w) ∧
        Src.get_real_os_buildNo_detect 4096 env fuel
          [Event.EnterCriticalSection, Event.LeaveCriticalSection] = some (true, w) ∧
        (INT_MAX ≤ n ∨ (s = 1 ∧ n < INT_MAX ∧ env.verify_os_buildNo n = false)) ∧
        build_probes w.trace ≤ INT_MAX - DWORD osvi.dwBuildNumber + 13) ∧
    (∃ out g1 tr, Src.get_real_os_buildNo env fuel g = Outcome.returned (out, g1, tr) ∧
      out.ret = true ∧ build_probes tr ≤ INT_MAX - DWORD osvi.dwBuildNumber + 13) := by
  obtain ⟨s, n, w, e, el, hex, hpr⟩ := build_loop_exit_terminates env fuel
    { buildNo := DWORD osvi.dwBuildNumber, bOverride := false,
      trace := [Event.EnterCriticalSection, Event.LeaveCriticalSection, Event.get_os_info] }
    hfuel
  have hpr2 : build_probes w.trace ≤ INT_MAX - DWORD osvi.dwBuildNumber + 13 := by
    have h0 : build_probes [Event.EnterCriticalSection, Event.LeaveCriticalSection,
        Event.get_os_info] = 0 := by decide
    rw [h0] at hpr
    simp only at hpr
    omega
  have hdet : Src.get_real_os_buildNo_detect 4096 env fuel
      [Event.EnterCriticalSection, Event.LeaveCriticalSection] = some (true, w) := by
    unfold Src.get_real_os_buildNo_detect
    rw [hinfo]
    simp only [hnt, if_true]
    have h4 : DWORD 4096 = 4096 := by decide
    rw [h4]
    simp only [List.cons_append, List.nil_append]
    simp only at el
    rw [el]
  refine ⟨⟨s, n, w, e, hdet, hex, hpr2⟩, ?_⟩
  by_cases hz : g.g_os_version_build = 0
  · unfold Src.get_real_os_buildNo
    rw [get_real_os_buildNo_at_miss 4096 env fuel g g hz, hdet]
    refine ⟨_, _, _, rfl, ?_, ?_⟩
    · simp only [Src.get_real_os_buildNo_commit]
      rw [if_pos hz]
    · have : build_probes (w.trace ++ [Event.EnterCriticalSection,
          Event.LeaveCriticalSection]) = build_probes w.trace := by
        simp [build_probes, List.countP_append, Event.is_build_probe]
      rw [this]
      exact hpr2
  · unfold Src.get_real_os_buildNo
    rw [get_real_os_buildNo_at_hit 4096 env fuel g g hz]
    refine ⟨_, _, _, rfl, rfl, ?_⟩
    have : build_probes [Event.EnterCriticalSection, Event.LeaveCriticalSection] = 0 := by
      decide
    rw [this]
    omega

/-- C22 at a concrete input: the reported build is `INT_MAX - 7` and the build probe answers
true for every argument. With fuel 21 the call returns after one probe: the next candidate,
`INT_MAX - 7 + 4096`, is above the ceiling. -/
theorem C22_build_climb_terminates_witness :
    (INT_MAX - DWORD 2147483640 + 14 ≤ 21 ∧
      Src.get_real_os_buildNo (always_true_env (some (nt_report (6, 1, 0) 2147483640))) 21
          Src.Cache.zero =
        Outcome.returned
          ({ ret := true, buildNo := 2147483640, pbOverride := true },
           { g_os_version_major := 0, g_os_version_minor := 0, g_os_version_spack := 0,
             g_os_version_build := 2147483640, g_os_version_bOverride := true },
           [Event.EnterCriticalSection, Event.LeaveCriticalSection, Event.get_os_info,
            Event.verify_os_buildNo 2147483640, Event.EnterCriticalSection,
            Event.LeaveCriticalSection])) ∧
    ((∃ s n w,
      Src.build_loop_exit (always_true_env (some (nt_report (6, 1, 0) 2147483640))) 21 4096
          (DWORD 2147483640)
          { buildNo := DWORD 2147483640, bOverride := false,
            trace := [Event.EnterCriticalSection, Event.LeaveCriticalSection,
              Event.get_os_info] } = some (s, n, w) ∧
        Src.get_real_os_buildNo_detect 4096
          (always_true_env (some (nt_report (6, 1, 0) 2147483640))) 21
          [Event.EnterCriticalSection, Event.LeaveCriticalSection] = some (true, w) ∧
        (INT_MAX ≤ n ∨ (s = 1 ∧ n < INT_MAX ∧
          (always_true_env (some (nt_report (6, 1, 0) 2147483640))).verify_os_buildNo n =
            false)) ∧
        build_probes w.trace ≤ INT_MAX - DWORD 2147483640 + 13) ∧
    (∃ out g1 tr, Src.get_real_os_buildNo
        (always_true_env (some (nt_report (6, 1, 0) 2147483640))) 21 Src.Cache.zero =
          Outcome.returned (out, g1, tr) ∧
      out.ret = true ∧ build_probes tr ≤ INT_MAX - DWORD 2147483640 + 13)) :=
  ⟨⟨by decide, rfl⟩,
    C22_build_climb_terminates (always_true_env (some (nt_report (6, 1, 0) 2147483640)))
      (nt_report (6, 1, 0) 2147483640) 21 Src.Cache.zero rfl rfl (by decide)⟩

/-! ## Events of the climbs are calls of the operating system -/

theorem major_loop_events (env : Env) :
    ∀ (fuel next : Nat) (v w : Src.VerState), Src.major_loop env fuel next v = some w →
      ∃ extra, w.trace = v.trace ++ extra ∧ ∀ e ∈ extra, e.is_guard = false := by
  intro fuel
  induction fuel with
  | zero => intro next v w h; simp [Src.major_loop] at h
  | succ n ih =>
    intro next v w h
    rw [Src.major_loop] at h
    by_cases hc : next ≤ Src.MAX_VALUE
    · rw [if_pos hc] at h
      by_cases hp : env.verify_os_version next 0 0 = true
      · simp only [hp, if_true] at h
        obtain ⟨extra, he, hg⟩ := ih _ _ _ h
        refine ⟨Event.verify_os_version next 0 0 :: extra, by rw [he]; simp, ?_⟩
        intro e hm
        rcases List.mem_cons.1 hm with rfl | hm
        · rfl
        · exact hg e hm
      · simp only [hp, Bool.false_eq_true, if_false, Option.some.injEq] at h
        subst h
        refine ⟨[Event.verify_os_version next 0 0], rfl, ?_⟩
        intro e hm
        rw [List.mem_singleton.1 hm]
        rfl
    · rw [if_neg hc] at h
      simp only [Option.some.injEq] at h
      subst h
      exact ⟨[], by simp, by simp⟩

theorem minor_loop_events (env : Env) :
    ∀ (fuel next : Nat) (v w : Src.VerState), Src.minor_loop env fuel next v = some w →
      ∃ extra, w.trace = v.trace ++ extra ∧ ∀ e ∈ extra, e.is_guard = false := by
  intro fuel
  induction fuel with
  | zero => intro next v w h; simp [Src.minor_loop] at h
  | succ n ih =>
    intro next v w h
    rw [Src.minor_loop] at h
    by_cases hc : next ≤ Src.MAX_VALUE
    · rw [if_pos hc] at h
      by_cases hp : env.verify_os_version v.major next 0 = true
      · simp only [hp, if_true] at h
        obtain ⟨extra, he, hg⟩ := ih _ _ _ h
        refine ⟨Event.verify_os_version v.major next 0 :: extra, by rw [he]; simp, ?_⟩
        intro e hm
        rcases List.mem_cons.1 hm with rfl | hm
        · rfl
        · exact hg e hm
      · simp only [hp, Bool.false_eq_true, if_false, Option.some.injEq] at h
        subst h
        refine ⟨[Event.verify_os_version v.major next 0], rfl, ?_⟩
        intro e hm
        rw [List.mem_singleton.1 hm]
        rfl
    · rw [if_neg hc] at h
      simp only [Option.some.injEq] at h
      subst h
      exact ⟨[], by simp, by simp⟩

theorem spack_loop_events (env : Env) :
    ∀ (fuel next : Nat) (v w : Src.VerState), Src.spack_loop env fuel next v = some w →
      ∃ extra, w.trace = v.trace ++ extra ∧ ∀ e ∈ extra, e.is_guard = false := by
  intro fuel
  induction fuel with
  | zero => intro next v w h; simp [Src.spack_loop] at h
  | succ n ih =>
    intro next v w h
    rw [Src.spack_loop] at h
    by_cases hc : next ≤ Src.MAX_VALUE
    · rw [if_pos hc] at h
      by_cases hp : env.verify_os_version v.major v.minor next = true
      · simp only [hp, if_true] at h
        obtain ⟨extra, he, hg⟩ := ih _ _ _ h
        refine ⟨Event.verify_os_version v.major v.minor next :: extra, by rw [he]; simp, ?_⟩
        intro e hm
        rcases List.mem_cons.1 hm with rfl | hm
        · rfl
        · exact hg e hm
      · simp only [hp, Bool.false_eq_true, if_false, Option.some.injEq] at h
        subst h
        refine ⟨[Event.verify_os_version v.major v.minor next], rfl, ?_⟩
        intro e hm
        rw [List.mem_singleton.1 hm]
        rfl
    · rw [if_neg hc] at h
      simp only [Option.some.injEq] at h
      subst h
      exact ⟨[], by simp, by simp⟩

theorem build_loop_events (env : Env) :
    ∀ (fuel step next : Nat) (b w : Src.BuildState),
      Src.build_loop env fuel step next b = some w →
      ∃ extra, w.trace = b.trace ++ extra ∧ ∀ e ∈ extra, e.is_guard = false := by
  intro fuel
  induction fuel with
  | zero => intro step next b w h; simp [Src.build_loop] at h
  | succ n ih =>
    intro step next b w h
    rw [Src.build_loop] at h
    by_cases hc : next < INT_MAX
    · rw [if_pos hc] at h
      have cons : ∀ b1 : Src.BuildState,
          b1.trace = b.trace ++ [Event.verify_os_buildNo next] →
          (∃ extra, w.trace = b1.trace ++ extra ∧ ∀ e ∈ extra, e.is_guard = false) →
          ∃ extra, w.trace = b.trace ++ extra ∧ ∀ e ∈ extra, e.is_guard = false := by
        intro b1 hb1 ⟨extra, he, hg⟩
        refine ⟨Event.verify_os_buildNo next :: extra, by rw [he, hb1]; simp, ?_⟩
        intro e hm
        rcases List.mem_cons.1 hm with rfl | hm
        · rfl
        · exact hg e hm
      by_cases hp : env.verify_os_buildNo next = true
      · simp only [hp, if_true] at h
        exact cons _ rfl (ih _ _ _ _ h)
      · simp only [hp, Bool.false_eq_true, if_false] at h
        by_cases hs : step > 1
        · rw [if_pos hs] at h
          exact cons _ rfl (ih _ _ _ _ h)
        · rw [if_neg hs] at h
          simp only [Option.some.injEq] at h
          subst h
          refine ⟨[Event.verify_os_buildNo next], rfl, ?_⟩
          intro e hm
          rw [List.mem_singleton.1 hm]
          rfl
    · rw [if_neg hc] at h
      simp only [Option.some.injEq] at h
      subst h
      exact ⟨[], by simp, by simp⟩

theorem verbose_box_events (env : Env) (tr : List Event) :
    ∃ extra, Src.verbose_box env tr = tr ++ extra ∧ ∀ e ∈ extra, e.is_guard = false := by
  unfold Src.verbose_box
  split
  · refine ⟨[Event.MessageBox], rfl, ?_⟩
    intro e hm
    rw [List.mem_singleton.1 hm]
    rfl
  · exact ⟨[], by simp, by simp⟩

theorem detect_events (env : Env) (fuel : Nat) (tr : List Event) (b : Bool)
    (v : Src.VerState) (h : Src.get_real_os_version_detect env fuel tr = some (b, v)) :
    ∃ mid, v.trace = tr ++ mid ∧ ∀ e ∈ mid, e.is_guard = false := by
  rcases detect_cases env fuel tr b v h with ⟨_, _, hv⟩ | ⟨osvi, _, _, _, _, hv⟩ |
    ⟨osvi, v0, w1, w2, _, hstart, e1, e2, e3, _⟩
  · obtain ⟨extra, he, hg⟩ := verbose_box_events env (tr ++ [Event.get_os_info])
    refine ⟨Event.get_os_info :: extra, by rw [hv]; simp only [he, List.append_assoc,
      List.singleton_append], ?_⟩
    intro e hm
    rcases List.mem_cons.1 hm with rfl | hm
    · rfl
    · exact hg e hm
  · refine ⟨[Event.get_os_info, Event.verify_os_version 4 0 0], by rw [hv]; simp, ?_⟩
    intro e hm
    simp only [List.mem_cons, List.mem_singleton, List.not_mem_nil, or_false] at hm
    rcases hm with rfl | rfl <;> rfl
  · have h0 : ∃ x0, v0.trace = tr ++ x0 ∧ ∀ e ∈ x0, e.is_guard = false := by
      rcases hstart with ⟨_, hv0⟩ | ⟨_, _, hv0⟩
      · refine ⟨[Event.get_os_info], by rw [hv0], ?_⟩
        intro e hm
        rw [List.mem_singleton.1 hm]
        rfl
      · refine ⟨[Event.get_os_info, Event.verify_os_version 4 0 0], by rw [hv0]; simp, ?_⟩
        intro e hm
        simp only [List.mem_cons, List.mem_singleton, List.not_mem_nil, or_false] at hm
        rcases hm with rfl | rfl <;> rfl
    obtain ⟨x0, hx0, g0⟩ := h0
    obtain ⟨x1, hx1, g1⟩ := major_loop_events env fuel _ v0 w1 e1
    obtain ⟨x2, hx2, g2⟩ := minor_loop_events env fuel _ w1 w2 e2
    obtain ⟨x3, hx3, g3⟩ := spack_loop_events env fuel _ w2 v e3
    refine ⟨x0 ++ x1 ++ x2 ++ x3, by rw [hx3, hx2, hx1, hx0]; simp only [List.append_assoc], ?_⟩
    intro e hm
    simp only [List.mem_append] at hm
    rcases hm with ((hm | hm) | hm) | hm
    · exact g0 e hm
    · exact g1 e hm
    · exact g2 e hm
    · exact g3 e hm

theorem build_detect_events (s : Nat) (env : Env) (fuel : Nat) (tr : List Event) (b : Bool)
    (w : Src.BuildState) (h : Src.get_real_os_buildNo_detect s env fuel tr = some (b, w)) :
    ∃ mid, w.trace = tr ++ mid ∧ ∀ e ∈ mid, e.is_guard = false := by
  rcases build_detect_cases s env fuel tr b w h with ⟨_, _, hv⟩ | ⟨osvi, _, _, _, _, hv⟩ |
    ⟨osvi, b0, _, hstart, e1, _⟩
  · obtain ⟨extra, he, hg⟩ := verbose_box_events env (tr ++ [Event.get_os_info])
    refine ⟨Event.get_os_info :: extra, by rw [hv]; simp only [he, List.append_assoc,
      List.singleton_append], ?_⟩
    intro e hm
    rcases List.mem_cons.1 hm with rfl | hm
    · rfl
    · exact hg e hm
  · refine ⟨[Event.get_os_info, Event.verify_os_version 4 0 0], by rw [hv]; simp, ?_⟩
    intro e hm
    simp only [List.mem_cons, List.mem_singleton, List.not_mem_nil, or_false] at hm
    rcases hm with rfl | rfl <;> rfl
  · have h0 : ∃ x0, b0.trace = tr ++ x0 ∧ ∀ e ∈ x0, e.is_guard = false := by
      rcases hstart with ⟨_, hv0⟩ | ⟨_, _, hv0⟩
      · refine ⟨[Event.get_os_info], by rw [hv0], ?_⟩
        intro e hm
        rw [List.mem_singleton.1 hm]
        rfl
      · refine ⟨[Event.get_os_info, Event.verify_os_version 4 0 0], by rw [hv0]; simp, ?_⟩
        intro e hm
        simp only [List.mem_cons, List.mem_singleton, List.not_mem_nil, or_false] at hm
        rcases hm with rfl | rfl <;> rfl
    obtain ⟨x0, hx0, g0⟩ := h0
    obtain ⟨x1, hx1, g1⟩ := build_loop_events env fuel _ _ b0 w e1
    refine ⟨x0 ++ x1, by rw [hx1, hx0]; simp only [List.append_assoc], ?_⟩
    intro e hm
    simp only [List.mem_append] at hm
    rcases hm with hm | hm
    · exact g0 e hm
    · exact g1 e hm

/-! ## Shape of the events of a call -/

theorem call_outcome_shape (c : Call) (g gLater : Src.Cache) (tr : List Event)
    (h : call_outcome c g gLater = Outcome.returned tr) :
    ∃ mid, (∀ e ∈ mid, e.is_guard = false) ∧
      (tr = [Event.EnterCriticalSection, Event.LeaveCriticalSection] ++ mid ∨
        tr = [Event.EnterCriticalSection, Event.LeaveCriticalSection] ++ mid ++
          [Event.EnterCriticalSection, Event.LeaveCriticalSection]) := by
  cases c with
  | version env fuel =>
    simp only [call_outcome] at h
    rcases ho : Src.get_real_os_version_at env fuel g gLater with ⟨out, g1, tr1⟩ | f | _
    · rw [ho] at h
      simp only [Outcome.returned.injEq] at h
      subst h
      rcases get_real_os_version_at_cases env fuel g gLater g1 out tr1 ho with
        ⟨_, _, _, htr⟩ | ⟨_, v, hdet, _, _, htr⟩ | ⟨_, v, hdet, _, _, htr⟩
      · exact ⟨[], by simp, Or.inl (by rw [htr]; rfl)⟩
      · obtain ⟨mid, hm, hg⟩ := detect_events env fuel _ false v hdet
        exact ⟨mid, hg, Or.inl (by rw [htr, hm])⟩
      · obtain ⟨mid, hm, hg⟩ := detect_events env fuel _ true v hdet
        exact ⟨mid, hg, Or.inr (by rw [htr, hm])⟩
    · rw [ho] at h; cases h
    · rw [ho] at h; cases h
  | buildNo env fuel =>
    simp only [call_outcome] at h
    rcases ho : Src.get_real_os_buildNo_at 4096 env fuel g gLater with ⟨out, g1, tr1⟩ | f | _
    · rw [ho] at h
      simp only [Outcome.returned.injEq] at h
      subst h
      rcases get_real_os_buildNo_at_cases 4096 env fuel g gLater g1 out tr1 ho with
        ⟨_, _, _, htr⟩ | ⟨_, v, hdet, _, _, htr⟩ | ⟨_, v, hdet, _, _, htr⟩
      · exact ⟨[], by simp, Or.inl (by rw [htr]; rfl)⟩
      · obtain ⟨mid, hm, hg⟩ := build_detect_events 4096 env fuel _ false v hdet
        exact ⟨mid, hg, Or.inl (by rw [htr, hm])⟩
      · obtain ⟨mid, hm, hg⟩ := build_detect_events 4096 env fuel _ true v hdet
        exact ⟨mid, hg, Or.inr (by rw [htr, hm])⟩
    · rw [ho] at h; cases h
    · rw [ho] at h; cases h

theorem calls_unlocked_append (mid rest : List Event) (hg : ∀ e ∈ mid, e.is_guard = false) :
    calls_unlocked false (mid ++ rest) = calls_unlocked false rest := by
  induction mid with
  | nil => rfl
  | cons e mid ih =>
    have he := hg e (List.mem_cons_self _ _)
    have ih2 := ih (fun x hx => hg x (List.mem_cons_of_mem _ hx))
    cases e <;> simp_all [calls_unlocked, Event.is_guard]

theorem guard_balanced_append (held : Bool) (mid rest : List Event)
    (hg : ∀ e ∈ mid, e.is_guard = false) :
    guard_balanced held (mid ++ rest) = guard_balanced held rest := by
  induction mid with
  | nil => rfl
  | cons e mid ih =>
    have he := hg e (List.mem_cons_self _ _)
    have ih2 := ih (fun x hx => hg x (List.mem_cons_of_mem _ hx))
    cases e <;> simp_all [guard_balanced, Event.is_guard]

theorem count_guard_zero (mid : List Event) (hg : ∀ e ∈ mid, e.is_guard = false) :
    mid.count Event.EnterCriticalSection = 0 ∧ mid.count Event.LeaveCriticalSection = 0 := by
  constructor
  · rw [List.count_eq_zero]
    intro hm
    have := hg _ hm
    cases this
  · rw [List.count_eq_zero]
    intro hm
    have := hg _ hm
    cases this

/-! ## Runs that have not ended: the loops -/

theorem major_loop_prefix_spec (env : Env) :
    ∀ (fuel next : Nat) (v : Src.VerState),
      (Src.major_loop env fuel next v =
          if (Src.major_loop_prefix env fuel next v).1 then
            some (Src.major_loop_prefix env fuel next v).2 else none) ∧
      (∃ extra, (Src.major_loop_prefix env fuel next v).2.trace = v.trace ++ extra ∧
          (∀ e ∈ extra, e.is_guard = false) ∧
          ((Src.major_loop_prefix env fuel next v).1 = false → extra.length = fuel)) := by
  intro fuel
  induction fuel with
  | zero =>
    intro next v
    exact ⟨rfl, [], by simp [Src.major_loop_prefix], by simp, fun _ => rfl⟩
  | succ n ih =>
    intro next v
    rw [Src.major_loop, Src.major_loop_prefix]
    by_cases hc : next ≤ Src.MAX_VALUE
    · simp only [if_pos hc]
      by_cases hp : env.verify_os_version next 0 0 = true
      · simp only [hp, if_true]
        obtain ⟨h1, extra, he, hg, hl⟩ := ih (DWORD (next + 1))
          { major := next, minor := 0, spack := 0, bOverride := true,
            trace := v.trace ++ [Event.verify_os_version next 0 0] }
        refine ⟨h1, Event.verify_os_version next 0 0 :: extra, ?_, ?_, ?_⟩
        · rw [he]; simp
        · intro e hm
          rcases List.mem_cons.1 hm with rfl | hm
          · rfl
          · exact hg e hm
        · intro hf
          rw [List.length_cons, hl hf]
      · simp only [hp, Bool.false_eq_true, if_false, if_true]
        refine ⟨trivial, [Event.verify_os_version next 0 0], rfl, ?_, ?_⟩
        · intro e hm
          rw [List.mem_singleton.1 hm]
          rfl
        · intro hf; cases hf
    · simp only [if_neg hc, if_true]
      exact ⟨trivial, [], by simp, by simp, fun hf => by cases hf⟩

theorem minor_loop_prefix_spec (env : Env) :
    ∀ (fuel next : Nat) (v : Src.VerState),
      (Src.minor_loop env fuel next v =
          if (Src.minor_loop_prefix env fuel next v).1 then
            some (Src.minor_loop_prefix env fuel next v).2 else none) ∧
      (∃ extra, (Src.minor_loop_prefix env fuel next v).2.trace = v.trace ++ extra ∧
          (∀ e ∈ extra, e.is_guard = false) ∧
          ((Src.minor_loop_prefix env fuel next v).1 = false → extra.length = fuel)) := by
  intro fuel
  induction fuel with
  | zero =>
    intro next v
    exact ⟨rfl, [], by simp [Src.minor_loop_prefix], by simp, fun _ => rfl⟩
  | succ n ih =>
    intro next v
    rw [Src.minor_loop, Src.minor_loop_prefix]
    by_cases hc : next ≤ Src.MAX_VALUE
    · simp only [if_pos hc]
      by_cases hp : env.verify_os_version v.major next 0 = true
      · simp only [hp, if_true]
        obtain ⟨h1, extra, he, hg, hl⟩ := ih (DWORD (next + 1))
          { major := v.major, minor := next, spack := 0, bOverride := true,
            trace := v.trace ++ [Event.verify_os_version v.major next 0] }
        refine ⟨h1, Event.verify_os_version v.major next 0 :: extra, ?_, ?_, ?_⟩
        · rw [he]; simp
        · intro e hm
          rcases List.mem_cons.1 hm with rfl | hm
          · rfl
          · exact hg e hm
        · intro hf
          rw [List.length_cons, hl hf]
      · simp only [hp, Bool.false_eq_true, if_false, if_true]
        refine ⟨trivial, [Event.verify_os_version v.major next 0], rfl, ?_, ?_⟩
        · intro e hm
          rw [List.mem_singleton.1 hm]
          rfl
        · intro hf; cases hf
    · simp only [if_neg hc, if_true]
      exact ⟨trivial, [], by simp, by simp, fun hf => by cases hf⟩

theorem spack_loop_prefix_spec (env : Env) :
    ∀ (fuel next : Nat) (v : Src.VerState),
      (Src.spack_loop env fuel next v =
          if (Src.spack_loop_prefix env fuel next v).1 then
            some (Src.spack_loop_prefix env fuel next v).2 else none) ∧
      (∃ extra, (Src.spack_loop_prefix env fuel next v).2.trace = v.trace ++ extra ∧
          (∀ e ∈ extra, e.is_guard = false) ∧
          ((Src.spack_loop_prefix env fuel next v).1 = false → extra.length = fuel)) := by
  intro fuel
  induction fuel with
  | zero =>
    intro next v
    exact ⟨rfl, [], by simp [Src.spack_loop_prefix], by simp, fun _ => rfl⟩
  | succ n ih =>
    intro next v
    rw [Src.spack_loop, Src.spack_loop_prefix]
    by_cases hc : next ≤ Src.MAX_VALUE
    · simp only [if_pos hc]
      by_cases hp : env.verify_os_version v.major v.minor next = true
      · simp only [hp, if_true]
        obtain ⟨h1, extra, he, hg, hl⟩ := ih (WORD (next + 1))
          { major := v.major, minor := v.minor, spack := next, bOverride := true,
            trace := v.trace ++ [Event.verify_os_version v.major v.minor next] }
        refine ⟨h1, Event.verify_os_version v.major v.minor next :: extra, ?_, ?_, ?_⟩
        · rw [he]; simp
        · intro e hm
          rcases List.mem_cons.1 hm with rfl | hm
          · rfl
          · exact hg e hm
        · intro hf
          rw [List.length_cons, hl hf]
      · simp only [hp, Bool.false_eq_true, if_false, if_true]
        refine ⟨trivial, [Event.verify_os_version v.major v.minor next], rfl, ?_, ?_⟩
        · intro e hm
          rw [List.mem_singleton.1 hm]
          rfl
        · intro hf; cases hf
    · simp only [if_neg hc, if_true]
      exact ⟨trivial, [], by simp, by simp, fun hf => by cases hf⟩

theorem build_loop_prefix_spec (env : Env) :
    ∀ (fuel step next : Nat) (b : Src.BuildState),
      (Src.build_loop env fuel step next b =
          if (Src.build_loop_prefix env fuel step next b).1 then
            some (Src.build_loop_prefix env fuel step next b).2 else none) ∧
      (∃ extra, (Src.build_loop_prefix env fuel step next b).2.trace = b.trace ++ extra ∧
          (∀ e ∈ extra, e.is_guard = false) ∧
          ((Src.build_loop_prefix env fuel step next b).1 = false → extra.length = fuel)) := by
  intro fuel
  induction fuel with
  | zero =>
    intro step next b
    exact ⟨rfl, [], by simp [Src.build_loop_prefix], by simp, fun _ => rfl⟩
  | succ n ih =>
    intro step next b
    rw [Src.build_loop, Src.build_loop_prefix]
    by_cases hc : next < INT_MAX
    · simp only [if_pos hc]
      by_cases hp : env.verify_os_buildNo next = true
      · simp only [hp, if_true]
        obtain ⟨h1, extra, he, hg, hl⟩ := ih step (DWORD (next + step))
          { buildNo := next, bOverride := true,
            trace := b.trace ++ [Event.verify_os_buildNo next] }
        refine ⟨h1, Event.verify_os_buildNo next :: extra, ?_, ?_, ?_⟩
        · rw [he]; simp
        · intro e hm
          rcases List.mem_cons.1 hm with rfl | hm
          · rfl
          · exact hg e hm
        · intro hf
          rw [List.length_cons, hl hf]
      · simp only [hp, Bool.false_eq_true, if_false]
        by_cases hs : step > 1
        · simp only [if_pos hs]
          obtain ⟨h1, extra, he, hg, hl⟩ := ih (step / 2) (DWORD (b.buildNo + step / 2))
            { b with trace := b.trace ++ [Event.verify_os_buildNo next] }
          refine ⟨h1, Event.verify_os_buildNo next :: extra, ?_, ?_, ?_⟩
          · rw [he]; simp
          · intro e hm
            rcases List.mem_cons.1 hm with rfl | hm
            · rfl
            · exact hg e hm
          · intro hf
            rw [List.length_cons, hl hf]
        · simp only [if_neg hs, if_true]
          refine ⟨trivial, [Event.verify_os_buildNo next], rfl, ?_, ?_⟩
          · intro e hm
            rw [List.mem_singleton.1 hm]
            rfl
          · intro hf; cases hf
    · simp only [if_neg hc, if_true]
      exact ⟨trivial, [], by simp, by simp, fun hf => by cases hf⟩

/-! ## Runs that have not ended: more iterations extend the events -/

theorem major_loop_prefix_mono (env : Env) :
    ∀ (n m next : Nat) (v : Src.VerState), n ≤ m →
      ((Src.major_loop_prefix env n next v).1 = true →
          Src.major_loop_prefix env m next v = Src.major_loop_prefix env n next v) ∧
      (Src.major_loop_prefix env n next v).2.trace <+:
        (Src.major_loop_prefix env m next v).2.trace := by
  intro n
  induction n with
  | zero =>
    intro m next v _
    refine ⟨fun h => by simp [Src.major_loop_prefix] at h, ?_⟩
    obtain ⟨_, extra, he, _, _⟩ := major_loop_prefix_spec env m next v
    rw [he]
    exact List.prefix_append _ _
  | succ n ih =>
    intro m next v hle
    obtain ⟨m, rfl⟩ : ∃ k, m = k + 1 := ⟨m - 1, by omega⟩
    rw [Src.major_loop_prefix, Src.major_loop_prefix]
    by_cases hc : next ≤ Src.MAX_VALUE
    · simp only [if_pos hc]
      by_cases hp : env.verify_os_version next 0 0 = true
      · simp only [hp, if_true]
        exact ih m _ _ (by omega)
      · simp only [hp, Bool.false_eq_true, if_false]
        exact ⟨fun _ => trivial, List.prefix_refl _⟩
    · simp only [if_neg hc]
      exact ⟨fun _ => trivial, List.prefix_refl _⟩

theorem minor_loop_prefix_mono (env : Env) :
    ∀ (n m next : Nat) (v : Src.VerState), n ≤ m →
      ((Src.minor_loop_prefix env n next v).1 = true →
          Src.minor_loop_prefix env m next v = Src.minor_loop_prefix env n next v) ∧
      (Src.minor_loop_prefix env n next v).2.trace <+:
        (Src.minor_loop_prefix env m next v).2.trace := by
  intro n
  induction n with
  | zero =>
    intro m next v _
    refine ⟨fun h => by simp [Src.minor_loop_prefix] at h, ?_⟩
    obtain ⟨_, extra, he, _, _⟩ := minor_loop_prefix_spec env m next v
    rw [he]
    exact List.prefix_append _ _
  | succ n ih =>
    intro m next v hle
    obtain ⟨m, rfl⟩ : ∃ k, m = k + 1 := ⟨m - 1, by omega⟩
    rw [Src.minor_loop_prefix, Src.minor_loop_prefix]
    by_cases hc : next ≤ Src.MAX_VALUE
    · simp only [if_pos hc]
      by_cases hp : env.verify_os_version v.major next 0 = true
      · simp only [hp, if_true]
        exact ih m _ _ (by omega)
      · simp only [hp, Bool.false_eq_true, if_false]
        exact ⟨fun _ => trivial, List.prefix_refl _⟩
    · simp only [if_neg hc]
      exact ⟨fun _ => trivial, List.prefix_refl _⟩

theorem spack_loop_prefix_mono (env : Env) :
    ∀ (n m next : Nat) (v : Src.VerState), n ≤ m →
      ((Src.spack_loop_prefix env n next v).1 = true →
          Src.spack_loop_prefix env m next v = Src.spack_loop_prefix env n next v) ∧
      (Src.spack_loop_prefix env n next v).2.trace <+:
        (Src.spack_loop_prefix env m next v).2.trace := by
  intro n
  induction n with
  | zero =>
    intro m next v _
    refine ⟨fun h => by simp [Src.spack_loop_prefix] at h, ?_⟩
    obtain ⟨_, extra, he, _, _⟩ := spack_loop_prefix_spec env m next v
    rw [he]
    exact List.prefix_append _ _
  | succ n ih =>
    intro m next v hle
    obtain ⟨m, rfl⟩ : ∃ k, m = k + 1 := ⟨m - 1, by omega⟩
    rw [Src.spack_loop_prefix, Src.spack_loop_prefix]
    by_cases hc : next ≤ Src.MAX_VALUE
    · simp only [if_pos hc]
      by_cases hp : env.verify_os_version v.major v.minor next = true
      · simp only [hp, if_true]
        exact ih m _ _ (by omega)
      · simp only [hp, Bool.false_eq_true, if_false]
        exact ⟨fun _ => trivial, List.prefix_refl _⟩
    · simp only [if_neg hc]
      exact ⟨fun _ => trivial, List.prefix_refl _⟩

theorem build_loop_prefix_mono (env : Env) :
    ∀ (n m step next : Nat) (b : Src.BuildState), n ≤ m →
      ((Src.build_loop_prefix env n step next b).1 = true →
          Src.build_loop_prefix env m step next b = Src.build_loop_prefix env n step next b) ∧
      (Src.build_loop_prefix env n step next b).2.trace <+:
        (Src.build_loop_prefix env m step next b).2.trace := by
  intro n
  induction n with
  | zero =>
    intro m step next b _
    refine ⟨fun h => by simp [Src.build_loop_prefix] at h, ?_⟩
    obtain ⟨_, extra, he, _, _⟩ := build_loop_prefix_spec env m step next b
    rw [he]
    exact List.prefix_append _ _
  | succ n ih =>
    intro m step next b hle
    obtain ⟨m, rfl⟩ : ∃ k, m = k + 1 := ⟨m - 1, by omega⟩
    rw [Src.build_loop_prefix, Src.build_loop_prefix]
    by_cases hc : next < INT_MAX
    · simp only [if_pos hc]
      by_cases hp : env.verify_os_buildNo next = true
      · simp only [hp, if_true]
        exact ih m _ _ _ (by omega)
      · simp only [hp, Bool.false_eq_true, if_false]
        by_cases hs : step > 1
        · simp only [if_pos hs]
          exact ih m _ _ _ (by omega)
        · simp only [if_neg hs]
          exact ⟨fun _ => trivial, List.prefix_refl _⟩
    · simp only [if_neg hc]
      exact ⟨fun _ => trivial, List.prefix_refl _⟩

/-! ## Runs that have not ended: the unlocked part -/

/-- The three climbs of `Src.get_real_os_version_detect`, as they stand in that function. -/
theorem climb_prefix_spec (env : Env) (fuel : Nat) (v : Src.VerState) :
    ((match Src.major_loop env fuel (DWORD (v.major + 1)) v with
        | none => none
        | some v1 =>
          match Src.minor_loop env fuel (DWORD (v1.minor + 1)) v1 with
          | none => none
          | some v2 =>
            match Src.spack_loop env fuel (WORD (DWORD (v2.spack + 1))) v2 with
            | none => none
            | some v3 =>
              if v3.major ≥ Src.MAX_VALUE ∨ v3.minor ≥ Src.MAX_VALUE ∨
                  v3.spack ≥ Src.MAX_VALUE then
                some (false, v3)
              else some (true, v3)) =
        (Src.climb_prefix env fuel v).1.map (fun b => (b, (Src.climb_prefix env fuel v).2))) ∧
    (∃ extra, (Src.climb_prefix env fuel v).2.trace = v.trace ++ extra ∧
        (∀ e ∈ extra, e.is_guard = false) ∧
        ((Src.climb_prefix env fuel v).1 = none → fuel ≤ extra.length)) := by
  obtain ⟨c1, x1, t1, g1, l1⟩ := major_loop_prefix_spec env fuel (DWORD (v.major + 1)) v
  rw [c1]
  unfold Src.climb_prefix
  rcases h1 : Src.major_loop_prefix env fuel (DWORD (v.major + 1)) v with ⟨b1, v1⟩
  rw [h1] at t1 l1
  simp only at t1 l1
  cases b1
  · simp only [Bool.false_eq_true, if_false]
    exact ⟨rfl, x1, t1, g1, fun _ => le_of_eq (l1 rfl).symm⟩
  · simp only [if_true]
    obtain ⟨c2, x2, t2, g2, l2⟩ := minor_loop_prefix_spec env fuel (DWORD (v1.minor + 1)) v1
    rw [c2]
    rcases h2 : Src.minor_loop_prefix env fuel (DWORD (v1.minor + 1)) v1 with ⟨b2, v2⟩
    rw [h2] at t2 l2
    simp only at t2 l2
    have hmem12 : ∀ e ∈ x1 ++ x2, e.is_guard = false := by
      intro e hm
      rcases List.mem_append.1 hm with hm | hm
      · exact g1 e hm
      · exact g2 e hm
    cases b2
    · simp only [Bool.false_eq_true, if_false]
      refine ⟨rfl, x1 ++ x2, by rw [t2, t1, List.append_assoc], hmem12, fun _ => ?_⟩
      rw [List.length_append, l2 rfl]
      omega
    · simp only [if_true]
      obtain ⟨c3, x3, t3, g3, l3⟩ :=
        spack_loop_prefix_spec env fuel (WORD (DWORD (v2.spack + 1))) v2
      rw [c3]
      rcases h3 : Src.spack_loop_prefix env fuel (WORD (DWORD (v2.spack + 1))) v2 with ⟨b3, v3⟩
      rw [h3] at t3 l3
      simp only at t3 l3
      have hmem123 : ∀ e ∈ x1 ++ x2 ++ x3, e.is_guard = false := by
        intro e hm
        rcases List.mem_append.1 hm with hm | hm
        · exact hmem12 e hm
        · exact g3 e hm
      have htr : v3.trace = v.trace ++ (x1 ++ x2 ++ x3) := by
        rw [t3, t2, t1]
        simp only [List.append_assoc]
      cases b3
      · simp only [Bool.false_eq_true, if_false]
        refine ⟨rfl, x1 ++ x2 ++ x3, htr, hmem123, fun _ => ?_⟩
        rw [List.length_append, l3 rfl]
        omega
      · simp only [if_true]
        by_cases ho : v3.major ≥ Src.MAX_VALUE ∨ v3.minor ≥ Src.MAX_VALUE ∨
            v3.spack ≥ Src.MAX_VALUE
        · simp only [if_pos ho]
          exact ⟨rfl, x1 ++ x2 ++ x3, htr, hmem123, fun h => by cases h⟩
        · simp only [if_neg ho]
          exact ⟨rfl, x1 ++ x2 ++ x3, htr, hmem123, fun h => by cases h⟩

theorem climb_prefix_mono (env : Env) (n m : Nat) (v : Src.VerState) (hle : n ≤ m) :
    ((Src.climb_prefix env n v).1 ≠ none →
        Src.climb_prefix env m v = Src.climb_prefix env n v) ∧
    (Src.climb_prefix env n v).2.trace <+: (Src.climb_prefix env m v).2.trace := by
  obtain ⟨e1, p1⟩ := major_loop_prefix_mono env n m (DWORD (v.major + 1)) v hle
  have key : ∀ k, ∃ extra, (Src.climb_prefix env k v).2.trace =
      (Src.major_loop_prefix env k (DWORD (v.major + 1)) v).2.trace ++ extra := by
    intro k
    unfold Src.climb_prefix
    rcases h1 : Src.major_loop_prefix env k (DWORD (v.major + 1)) v with ⟨b1, v1⟩
    cases b1
    · exact ⟨[], by simp⟩
    · simp only
      obtain ⟨_, x2, t2, _, _⟩ := minor_loop_prefix_spec env k (DWORD (v1.minor + 1)) v1
      rcases h2 : Src.minor_loop_prefix env k (DWORD (v1.minor + 1)) v1 with ⟨b2, v2⟩
      rw [h2] at t2
      cases b2
      · exact ⟨x2, t2⟩
      · simp only
        obtain ⟨_, x3, t3, _, _⟩ :=
          spack_loop_prefix_spec env k (WORD (DWORD (v2.spack + 1))) v2
        rcases h3 : Src.spack_loop_prefix env k (WORD (DWORD (v2.spack + 1))) v2 with ⟨b3, v3⟩
        rw [h3] at t3
        have : v3.trace = v1.trace ++ (x2 ++ x3) := by rw [t3, t2, List.append_assoc]
        cases b3
        · exact ⟨x2 ++ x3, this⟩
        · simp only
          split <;> exact ⟨x2 ++ x3, this⟩
  rcases h1 : Src.major_loop_prefix env n (DWORD (v.major + 1)) v with ⟨b1, v1⟩
  rw [h1] at e1 p1
  cases b1
  · -- the major loop has not been left after `n` iterations
    have hn : Src.climb_prefix env n v = (none, v1) := by
      unfold Src.climb_prefix
      rw [h1]
    rw [hn]
    refine ⟨fun h => absurd rfl h, ?_⟩
    obtain ⟨extra, he⟩ := key m
    rw [he]
    exact List.IsPrefix.trans p1 (List.prefix_append _ _)
  · have e1m := e1 rfl
    obtain ⟨e2, p2⟩ := minor_loop_prefix_mono env n m (DWORD (v1.minor + 1)) v1 hle
    rcases h2 : Src.minor_loop_prefix env n (DWORD (v1.minor + 1)) v1 with ⟨b2, v2⟩
    rw [h2] at e2 p2
    cases b2
    · have hn : Src.climb_prefix env n v = (none, v2) := by
        unfold Src.climb_prefix
        rw [h1]
        simp only
        rw [h2]
      rw [hn]
      refine ⟨fun h => absurd rfl h, ?_⟩
      have hm : ∃ extra, (Src.climb_prefix env m v).2.trace =
          (Src.minor_loop_prefix env m (DWORD (v1.minor + 1)) v1).2.trace ++ extra := by
        unfold Src.climb_prefix
        rw [e1m]
        simp only
        rcases h2m : Src.minor_loop_prefix env m (DWORD (v1.minor + 1)) v1 with ⟨b2m, v2m⟩
        cases b2m
        · exact ⟨[], by simp⟩
        · simp only
          obtain ⟨_, x3, t3, _, _⟩ :=
            spack_loop_prefix_spec env m (WORD (DWORD (v2m.spack + 1))) v2m
          rcases h3 : Src.spack_loop_prefix env m (WORD (DWORD (v2m.spack + 1))) v2m with
            ⟨b3, v3⟩
          rw [h3] at t3
          cases b3
          · exact ⟨x3, t3⟩
          · simp only
            split <;> exact ⟨x3, t3⟩
      obtain ⟨extra, he⟩ := hm
      rw [he]
      exact List.IsPrefix.trans p2 (List.prefix_append _ _)
    · have e2m := e2 rfl
      obtain ⟨e3, p3⟩ := spack_loop_prefix_mono env n m (WORD (DWORD (v2.spack + 1))) v2 hle
      rcases h3 : Src.spack_loop_prefix env n (WORD (DWORD (v2.spack + 1))) v2 with ⟨b3, v3⟩
      rw [h3] at e3 p3
      cases b3
      · have hn : Src.climb_prefix env n v = (none, v3) := by
          unfold Src.climb_prefix
          rw [h1]
          simp only
          rw [h2]
          simp only
          rw [h3]
        rw [hn]
        refine ⟨fun h => absurd rfl h, ?_⟩
        have hm : (Src.climb_prefix env m v).2.trace =
            (Src.spack_loop_prefix env m (WORD (DWORD (v2.spack + 1))) v2).2.trace := by
          unfold Src.climb_prefix
          rw [e1m]
          simp only
          rw [e2m]
          simp only
          rcases h3m : Src.spack_loop_prefix env m (WORD (DWORD (v2.spack + 1))) v2 with
            ⟨b3m, v3m⟩
          cases b3m
          · rfl
          · simp only
            split <;> rfl
        rw [hm]
        exact p3
      · have e3m := e3 rfl
        have hmn : Src.climb_prefix env m v = Src.climb_prefix env n v := by
          unfold Src.climb_prefix
          rw [e1m, h1]
          simp only
          rw [e2m, h2]
          simp only
          rw [e3m, h3]
        rw [hmn]
        exact ⟨fun _ => rfl, List.prefix_refl _⟩

theorem detect_prefix_cases (env : Env) (tr : List Event) :
    (∃ v mid, v.trace = tr ++ mid ∧ (∀ e ∈ mid, e.is_guard = false) ∧
      ∀ fuel, Src.get_real_os_version_detect_prefix env fuel tr = (some false, v) ∧
        Src.get_real_os_version_detect env fuel tr = some (false, v)) ∨
    (∃ v0 x0, v0.trace = tr ++ x0 ∧ (∀ e ∈ x0, e.is_guard = false) ∧ 1 ≤ x0.length ∧
      ∀ fuel, Src.get_real_os_version_detect_prefix env fuel tr = Src.climb_prefix env fuel v0 ∧
        Src.get_real_os_version_detect env fuel tr =
          (Src.climb_prefix env fuel v0).1.map
            (fun b => (b, (Src.climb_prefix env fuel v0).2))) := by
  cases hinfo : env.get_os_info with
  | none =>
    left
    obtain ⟨extra, he, hg⟩ := verbose_box_events env (tr ++ [Event.get_os_info])
    refine ⟨{ major := 0, minor := 0, spack := 0, bOverride := false,
              trace := Src.verbose_box env (tr ++ [Event.get_os_info]) },
      Event.get_os_info :: extra, ?_, ?_, ?_⟩
    · simp only [he, List.append_assoc, List.singleton_append]
    · intro e hm
      rcases List.mem_cons.1 hm with rfl | hm
      · rfl
      · exact hg e hm
    · intro fuel
      constructor
      · simp only [Src.get_real_os_version_detect_prefix, hinfo]
      · simp only [Src.get_real_os_version_detect, hinfo]
  | some osvi =>
    by_cases hnt : osvi.dwPlatformId = VER_PLATFORM_WIN32_NT
    · right
      refine ⟨{ major := DWORD osvi.dwMajorVersion, minor := DWORD osvi.dwMinorVersion,
                spack := WORD osvi.wServicePackMajor, bOverride := false,
                trace := tr ++ [Event.get_os_info] },
        [Event.get_os_info], rfl, ?_, by simp, ?_⟩
      · intro e hm
        rw [List.mem_singleton.1 hm]
        rfl
      · intro fuel
        constructor
        · simp only [Src.get_real_os_version_detect_prefix, hinfo, hnt, if_true]
        · simp only [Src.get_real_os_version_detect, hinfo, hnt, if_true]
          exact (climb_prefix_spec env fuel
            { major := DWORD osvi.dwMajorVersion, minor := DWORD osvi.dwMinorVersion,
              spack := WORD osvi.wServicePackMajor, bOverride := false,
              trace := tr ++ [Event.get_os_info] }).1
    · by_cases hp : env.verify_os_version 4 0 0 = true
      · right
        refine ⟨{ major := 4, minor := 0, spack := 0, bOverride := true,
                  trace := tr ++ [Event.get_os_info] ++ [Event.verify_os_version 4 0 0] },
          [Event.get_os_info, Event.verify_os_version 4 0 0], by simp, ?_, by simp, ?_⟩
        · intro e hm
          simp only [List.mem_cons, List.mem_singleton, List.not_mem_nil, or_false] at hm
          rcases hm with rfl | rfl <;> rfl
        · intro fuel
          constructor
          · simp only [Src.get_real_os_version_detect_prefix, hinfo, hnt, hp, if_true, if_false]
          · simp only [Src.get_real_os_version_detect, hinfo, hnt, hp, if_true, if_false]
            exact (climb_prefix_spec env fuel
              { major := 4, minor := 0, spack := 0, bOverride := true,
                trace := tr ++ [Event.get_os_info] ++ [Event.verify_os_version 4 0 0] }).1
      · left
        refine ⟨{ major := 0, minor := 0, spack := 0, bOverride := false,
                  trace := tr ++ [Event.get_os_info] ++ [Event.verify_os_version 4 0 0] },
          [Event.get_os_info, Event.verify_os_version 4 0 0], by simp, ?_, ?_⟩
        · intro e hm
          simp only [List.mem_cons, List.mem_singleton, List.not_mem_nil, or_false] at hm
          rcases hm with rfl | rfl <;> rfl
        · intro fuel
          constructor
          · simp only [Src.get_real_os_version_detect_prefix, hinfo, hnt, hp, if_false,
              Bool.false_eq_true]
          · simp only [Src.get_real_os_version_detect, hinfo, hnt, hp, if_false,
              Bool.false_eq_true]

theorem build_detect_prefix_cases (s : Nat) (env : Env) (tr : List Event) :
    (∃ b mid, b.trace = tr ++ mid ∧ (∀ e ∈ mid, e.is_guard = false) ∧
      ∀ fuel, Src.get_real_os_buildNo_detect_prefix s env fuel tr = (some false, b) ∧
        Src.get_real_os_buildNo_detect s env fuel tr = some (false, b)) ∨
    (∃ b0 x0, b0.trace = tr ++ x0 ∧ (∀ e ∈ x0, e.is_guard = false) ∧ 1 ≤ x0.length ∧
      ∀ fuel, Src.get_real_os_buildNo_detect_prefix s env fuel tr =
          ((if (Src.build_loop_prefix env fuel (DWORD s) b0.buildNo b0).1 then some true
              else none),
            (Src.build_loop_prefix env fuel (DWORD s) b0.buildNo b0).2) ∧
        Src.get_real_os_buildNo_detect s env fuel tr =
          if (Src.build_loop_prefix env fuel (DWORD s) b0.buildNo b0).1 then
            some (true, (Src.build_loop_prefix env fuel (DWORD s) b0.buildNo b0).2)
          else none) := by
  have hloop : ∀ (fuel : Nat) (b0 : Src.BuildState),
      ((match Src.build_loop_prefix env fuel (DWORD s) b0.buildNo b0 with
          | (false, b) => ((none : Option Bool), b)
          | (true, b) => (some true, b)) =
        ((if (Src.build_loop_prefix env fuel (DWORD s) b0.buildNo b0).1 then some true
            else none),
          (Src.build_loop_prefix env fuel (DWORD s) b0.buildNo b0).2)) ∧
      ((match Src.build_loop env fuel (DWORD s) b0.buildNo b0 with
          | none => none
          | some b => some (true, b)) =
        if (Src.build_loop_prefix env fuel (DWORD s) b0.buildNo b0).1 then
          some (true, (Src.build_loop_prefix env fuel (DWORD s) b0.buildNo b0).2)
        else none) := by
    intro fuel b0
    rw [(build_loop_prefix_spec env fuel (DWORD s) b0.buildNo b0).1]
    rcases Src.build_loop_prefix env fuel (DWORD s) b0.buildNo b0 with ⟨b1, w⟩
    cases b1 <;> exact ⟨rfl, rfl⟩
  cases hinfo : env.get_os_info with
  | none =>
    left
    obtain ⟨extra, he, hg⟩ := verbose_box_events env (tr ++ [Event.get_os_info])
    refine ⟨{ buildNo := 0, bOverride := false,
              trace := Src.verbose_box env (tr ++ [Event.get_os_info]) },
      Event.get_os_info :: extra, ?_, ?_, ?_⟩
    · simp only [he, List.append_assoc, List.singleton_append]
    · intro e hm
      rcases List.mem_cons.1 hm with rfl | hm
      · rfl
      · exact hg e hm
    · intro fuel
      constructor
      · simp only [Src.get_real_os_buildNo_detect_prefix, hinfo]
      · simp only [Src.get_real_os_buildNo_detect, hinfo]
  | some osvi =>
    by_cases hnt : osvi.dwPlatformId = VER_PLATFORM_WIN32_NT
    · right
      refine ⟨{ buildNo := DWORD osvi.dwBuildNumber, bOverride := false,
                trace := tr ++ [Event.get_os_info] },
        [Event.get_os_info], rfl, ?_, by simp, ?_⟩
      · intro e hm
        rw [List.mem_singleton.1 hm]
        rfl
      · intro fuel
        constructor
        · simp only [Src.get_real_os_buildNo_detect_prefix, hinfo, hnt, if_true]
          exact (hloop fuel ⟨DWORD osvi.dwBuildNumber, false, tr ++ [Event.get_os_info]⟩).1
        · simp only [Src.get_real_os_buildNo_detect, hinfo, hnt, if_true]
          exact (hloop fuel ⟨DWORD osvi.dwBuildNumber, false, tr ++ [Event.get_os_info]⟩).2
    · by_cases hp : env.verify_os_version 4 0 0 = true
      · right
        refine ⟨{ buildNo := 1381, bOverride := true,
                  trace := tr ++ [Event.get_os_info] ++ [Event.verify_os_version 4 0 0] },
          [Event.get_os_info, Event.verify_os_version 4 0 0], by simp, ?_, by simp, ?_⟩
        · intro e hm
          simp only [List.mem_cons, List.mem_singleton, List.not_mem_nil, or_false] at hm
          rcases hm with rfl | rfl <;> rfl
        · intro fuel
          constructor
          · simp only [Src.get_real_os_buildNo_detect_prefix, hinfo, hnt, hp, if_true, if_false]
            exact (hloop fuel
              ⟨1381, true, tr ++ [Event.get_os_info] ++ [Event.verify_os_version 4 0 0]⟩).1
          · simp only [Src.get_real_os_buildNo_detect, hinfo, hnt, hp, if_true, if_false]
            exact (hloop fuel
              ⟨1381, true, tr ++ [Event.get_os_info] ++ [Event.verify_os_version 4 0 0]⟩).2
      · left
        refine ⟨{ buildNo := 0, bOverride := false,
                  trace := tr ++ [Event.get_os_info] ++ [Event.verify_os_version 4 0 0] },
          [Event.get_os_info, Event.verify_os_version 4 0 0], by simp, ?_, ?_⟩
        · intro e hm
          simp only [List.mem_cons, List.mem_singleton, List.not_mem_nil, or_false] at hm
          rcases hm with rfl | rfl <;> rfl
        · intro fuel
          constructor
          · simp only [Src.get_real_os_buildNo_detect_prefix, hinfo, hnt, hp, if_false,
              Bool.false_eq_true]
          · simp only [Src.get_real_os_buildNo_detect, hinfo, hnt, hp, if_false,
              Bool.false_eq_true]

theorem detect_prefix_summary (env : Env) (tr : List Event) :
    (∀ k, ∃ mid, (Src.get_real_os_version_detect_prefix env k tr).2.trace = tr ++ mid ∧
        (∀ e ∈ mid, e.is_guard = false) ∧
        ((Src.get_real_os_version_detect_prefix env k tr).1 = none → k + 1 ≤ mid.length)) ∧
    (∀ n m, n ≤ m →
        ((Src.get_real_os_version_detect_prefix env n tr).1 ≠ none →
          Src.get_real_os_version_detect_prefix env m tr =
            Src.get_real_os_version_detect_prefix env n tr) ∧
        (Src.get_real_os_version_detect_prefix env n tr).2.trace <+:
          (Src.get_real_os_version_detect_prefix env m tr).2.trace) ∧
    (∀ k, Src.get_real_os_version_detect env k tr =
        (Src.get_real_os_version_detect_prefix env k tr).1.map
          (fun b => (b, (Src.get_real_os_version_detect_prefix env k tr).2))) := by
  rcases detect_prefix_cases env tr with ⟨v, mid, hv, hg, hall⟩ | ⟨v0, x0, hv0, hg0, hl0, hall⟩
  · refine ⟨?_, ?_, ?_⟩
    · intro k
      rw [(hall k).1]
      exact ⟨mid, hv, hg, fun h => by cases h⟩
    · intro n m _
      rw [(hall n).1, (hall m).1]
      exact ⟨fun _ => rfl, List.prefix_refl _⟩
    · intro k
      rw [(hall k).1, (hall k).2]
      rfl
  · refine ⟨?_, ?_, ?_⟩
    · intro k
      rw [(hall k).1]
      obtain ⟨_, extra, he, hge, hle⟩ := climb_prefix_spec env k v0
      refine ⟨x0 ++ extra, by rw [he, hv0, List.append_assoc], ?_, ?_⟩
      · intro e hm
        rcases List.mem_append.1 hm with hm | hm
        · exact hg0 e hm
        · exact hge e hm
      · intro hn
        have := hle hn
        rw [List.length_append]
        omega
    · intro n m hnm
      rw [(hall n).1, (hall m).1]
      exact climb_prefix_mono env n m v0 hnm
    · intro k
      rw [(hall k).1, (hall k).2]

theorem build_detect_prefix_summary (s : Nat) (env : Env) (tr : List Event) :
    (∀ k, ∃ mid, (Src.get_real_os_buildNo_detect_prefix s env k tr).2.trace = tr ++ mid ∧
        (∀ e ∈ mid, e.is_guard = false) ∧
        ((Src.get_real_os_buildNo_detect_prefix s env k tr).1 = none → k + 1 ≤ mid.length)) ∧
    (∀ n m, n ≤ m →
        ((Src.get_real_os_buildNo_detect_prefix s env n tr).1 ≠ none →
          Src.get_real_os_buildNo_detect_prefix s env m tr =
            Src.get_real_os_buildNo_detect_prefix s env n tr) ∧
        (Src.get_real_os_buildNo_detect_prefix s env n tr).2.trace <+:
          (Src.get_real_os_buildNo_detect_prefix s env m tr).2.trace) ∧
    (∀ k, Src.get_real_os_buildNo_detect s env k tr =
        (Src.get_real_os_buildNo_detect_prefix s env k tr).1.map
          (fun b => (b, (Src.get_real_os_buildNo_detect_prefix s env k tr).2))) := by
  rcases build_detect_prefix_cases s env tr with
    ⟨v, mid, hv, hg, hall⟩ | ⟨b0, x0, hv0, hg0, hl0, hall⟩
  · refine ⟨?_, ?_, ?_⟩
    · intro k
      rw [(hall k).1]
      exact ⟨mid, hv, hg, fun h => by cases h⟩
    · intro n m _
      rw [(hall n).1, (hall m).1]
      exact ⟨fun _ => rfl, List.prefix_refl _⟩
    · intro k
      rw [(hall k).1, (hall k).2]
      rfl
  · refine ⟨?_, ?_, ?_⟩
    · intro k
      rw [(hall k).1]
      obtain ⟨_, extra, he, hge, hle⟩ := build_loop_prefix_spec env k (DWORD s) b0.buildNo b0
      refine ⟨x0 ++ extra, by simp only [he, hv0, List.append_assoc], ?_, ?_⟩
      · intro e hm
        rcases List.mem_append.1 hm with hm | hm
        · exact hg0 e hm
        · exact hge e hm
      · intro hn
        have hf : (Src.build_loop_prefix env k (DWORD s) b0.buildNo b0).1 = false := by
          cases hb : (Src.build_loop_prefix env k (DWORD s) b0.buildNo b0).1
          · rfl
          · rw [hb] at hn
            simp at hn
        have := hle hf
        rw [List.length_append]
        omega
    · intro n m hnm
      rw [(hall n).1, (hall m).1]
      obtain ⟨e1, p1⟩ := build_loop_prefix_mono env n m (DWORD s) b0.buildNo b0 hnm
      refine ⟨?_, p1⟩
      intro hn
      have ht : (Src.build_loop_prefix env n (DWORD s) b0.buildNo b0).1 = true := by
        cases hb : (Src.build_loop_prefix env n (DWORD s) b0.buildNo b0).1
        · rw [hb] at hn
          simp at hn
        · rfl
      rw [e1 ht]
    · intro k
      rw [(hall k).1, (hall k).2]
      cases (Src.build_loop_prefix env k (DWORD s) b0.buildNo b0).1 <;> rfl

/-- What follows for the events of a call from the unlocked part: `st k` says whether the
unlocked part has ended after `k` iterations and how, `trc k` are the events up to there. -/
theorem events_of_prefix (st : Nat → Option Bool) (trc : Nat → List Event)
    (h1 : ∀ k, ∃ mid,
      trc k = [Event.EnterCriticalSection, Event.LeaveCriticalSection] ++ mid ∧
      (∀ e ∈ mid, e.is_guard = false) ∧ (st k = none → k + 1 ≤ mid.length))
    (h2 : ∀ n m, n ≤ m → (st n ≠ none → st m = st n ∧ trc m = trc n) ∧ trc n <+: trc m)
    (k : Nat) :
    calls_unlocked false
        (trc k ++ if st k = some true then
          [Event.EnterCriticalSection, Event.LeaveCriticalSection] else []) = true ∧
    (∃ mid, (∀ e ∈ mid, e.is_guard = false) ∧
      ((trc k ++ if st k = some true then
            [Event.EnterCriticalSection, Event.LeaveCriticalSection] else []) =
          [Event.EnterCriticalSection, Event.LeaveCriticalSection] ++ mid ∨
        (trc k ++ if st k = some true then
            [Event.EnterCriticalSection, Event.LeaveCriticalSection] else []) =
          [Event.EnterCriticalSection, Event.LeaveCriticalSection] ++ mid ++
            [Event.EnterCriticalSection, Event.LeaveCriticalSection])) ∧
    (st k = none →
      k + 3 ≤ (trc k ++ if st k = some true then
        [Event.EnterCriticalSection, Event.LeaveCriticalSection] else []).length) ∧
    (∀ n, k ≤ n →
      (trc k ++ if st k = some true then
          [Event.EnterCriticalSection, Event.LeaveCriticalSection] else []) <+:
        (trc n ++ if st n = some true then
          [Event.EnterCriticalSection, Event.LeaveCriticalSection] else [])) := by
  obtain ⟨mid, hm, hg, hl⟩ := h1 k
  have hu : ∀ rest, calls_unlocked false
      ([Event.EnterCriticalSection, Event.LeaveCriticalSection] ++ mid ++ rest) =
      calls_unlocked false rest := by
    intro rest
    have e : calls_unlocked false
        ([Event.EnterCriticalSection, Event.LeaveCriticalSection] ++ mid ++ rest) =
        calls_unlocked false (mid ++ rest) := by
      simp [calls_unlocked]
    rw [e, calls_unlocked_append mid rest hg]
  refine ⟨?_, ?_, ?_, ?_⟩
  · rw [hm, hu]
    split <;> rfl
  · refine ⟨mid, hg, ?_⟩
    rw [hm]
    by_cases hs : st k = some true
    · rw [if_pos hs]
      exact Or.inr rfl
    · rw [if_neg hs, List.append_nil]
      exact Or.inl rfl
  · intro hn
    have := hl hn
    rw [hm, List.length_append, List.length_append]
    simp only [List.length_cons, List.length_nil]
    omega
  · intro n hkn
    obtain ⟨heq, hp⟩ := h2 k n hkn
    by_cases hn : st k = none
    · rw [hn]
      simp only [reduceCtorEq, if_false, List.append_nil]
      exact List.IsPrefix.trans hp (List.prefix_append _ _)
    · obtain ⟨e1, e2⟩ := heq hn
      rw [e1, e2]

/-! ## Events of a call that may not have ended -/

theorem version_events_form (env : Env) (fuel : Nat) (g : Src.Cache) :
    ((g.g_os_version_major ≠ 0 ∨ g.g_os_version_minor ≠ 0 ∨ g.g_os_version_spack ≠ 0) ∧
      Src.get_real_os_version_events env fuel g =
        [Event.EnterCriticalSection, Event.LeaveCriticalSection]) ∨
    ((g.g_os_version_major = 0 ∧ g.g_os_version_minor = 0 ∧ g.g_os_version_spack = 0) ∧
      Src.get_real_os_version_events env fuel g =
        (Src.get_real_os_version_detect_prefix env fuel
            [Event.EnterCriticalSection, Event.LeaveCriticalSection]).2.trace ++
          if (Src.get_real_os_version_detect_prefix env fuel
              [Event.EnterCriticalSection, Event.LeaveCriticalSection]).1 = some true then
            [Event.EnterCriticalSection, Event.LeaveCriticalSection] else []) := by
  by_cases hit : g.g_os_version_major ≠ 0 ∨ g.g_os_version_minor ≠ 0 ∨ g.g_os_version_spack ≠ 0
  · left
    refine ⟨hit, ?_⟩
    simp only [Src.get_real_os_version_events, Src.MutexLocker.ctor, if_pos hit]
    rfl
  · right
    refine ⟨by omega, ?_⟩
    simp only [Src.get_real_os_version_events, Src.MutexLocker.ctor, if_neg hit,
      Src.MutexLocker.unlock, Bool.not_true, Bool.false_eq_true, if_false, List.nil_append,
      List.singleton_append]
    rcases Src.get_real_os_version_detect_prefix env fuel
        [Event.EnterCriticalSection, Event.LeaveCriticalSection] with ⟨o, v⟩
    rcases o with _ | b
    · simp
    · cases b <;> simp [Src.MutexLocker.dtor, Src.MutexLocker.relock]

theorem buildNo_events_form (s : Nat) (env : Env) (fuel : Nat) (g : Src.Cache) :
    (g.g_os_version_build ≠ 0 ∧
      Src.get_real_os_buildNo_events s env fuel g =
        [Event.EnterCriticalSection, Event.LeaveCriticalSection]) ∨
    (g.g_os_version_build = 0 ∧
      Src.get_real_os_buildNo_events s env fuel g =
        (Src.get_real_os_buildNo_detect_prefix s env fuel
            [Event.EnterCriticalSection, Event.LeaveCriticalSection]).2.trace ++
          if (Src.get_real_os_buildNo_detect_prefix s env fuel
              [Event.EnterCriticalSection, Event.LeaveCriticalSection]).1 = some true then
            [Event.EnterCriticalSection, Event.LeaveCriticalSection] else []) := by
  by_cases hit : g.g_os_version_build ≠ 0
  · left
    refine ⟨hit, ?_⟩
    simp only [Src.get_real_os_buildNo_events, Src.MutexLocker.ctor, if_pos hit]
    rfl
  · right
    refine ⟨by omega, ?_⟩
    simp only [Src.get_real_os_buildNo_events, Src.MutexLocker.ctor, if_neg hit,
      Src.MutexLocker.unlock, Bool.not_true, Bool.false_eq_true, if_false, List.nil_append,
      List.singleton_append]
    rcases Src.get_real_os_buildNo_detect_prefix s env fuel
        [Event.EnterCriticalSection, Event.LeaveCriticalSection] with ⟨o, v⟩
    rcases o with _ | b
    · simp
    · cases b <;> simp [Src.MutexLocker.dtor, Src.MutexLocker.relock]

theorem version_events_spec (env : Env) (fuel : Nat) (g gLater : Src.Cache) :
    calls_unlocked false (Src.get_real_os_version_events env fuel g) = true ∧
    (∃ mid, (∀ e ∈ mid, e.is_guard = false) ∧
      (Src.get_real_os_version_events env fuel g =
          [Event.EnterCriticalSection, Event.LeaveCriticalSection] ++ mid ∨
        Src.get_real_os_version_events env fuel g =
          [Event.EnterCriticalSection, Event.LeaveCriticalSection] ++ mid ++
            [Event.EnterCriticalSection, Event.LeaveCriticalSection])) ∧
    (∀ out g1 tr, Src.get_real_os_version_at env fuel g gLater = Outcome.returned (out, g1, tr) →
      Src.get_real_os_version_events env fuel g = tr) ∧
    (Src.get_real_os_version_at env fuel g gLater = Outcome.outOfFuel →
      fuel + 3 ≤ (Src.get_real_os_version_events env fuel g).length) ∧
    (∀ n, fuel ≤ n →
      Src.get_real_os_version_events env fuel g <+: Src.get_real_os_version_events env n g) := by
  have hform := fun k => version_events_form env k g
  rcases hform fuel with ⟨hit, he⟩ | ⟨hz, he⟩
  · have hat := get_real_os_version_at_hit env fuel g gLater hit
    refine ⟨by rw [he]; rfl, ⟨[], by simp, Or.inl (by rw [he]; rfl)⟩, ?_, ?_, ?_⟩
    · intro out g1 tr h
      rw [hat] at h
      simp only [Outcome.returned.injEq, Prod.mk.injEq] at h
      rw [he]
      exact h.2.2
    · intro h
      rw [hat] at h
      cases h
    · intro n _
      rcases hform n with ⟨_, hn⟩ | ⟨hz, _⟩
      · rw [he, hn]
      · exact absurd hz (by omega)
  · obtain ⟨s1, s2, s3⟩ := detect_prefix_summary env
      [Event.EnterCriticalSection, Event.LeaveCriticalSection]
    have hmiss : ∀ n, Src.get_real_os_version_events env n g =
        (Src.get_real_os_version_detect_prefix env n
            [Event.EnterCriticalSection, Event.LeaveCriticalSection]).2.trace ++
          if (Src.get_real_os_version_detect_prefix env n
              [Event.EnterCriticalSection, Event.LeaveCriticalSection]).1 = some true then
            [Event.EnterCriticalSection, Event.LeaveCriticalSection] else [] := by
      intro n
      rcases hform n with ⟨hit, _⟩ | ⟨_, hn⟩
      · exact absurd hit (by omega)
      · exact hn
    obtain ⟨p1, p2, p3, p4⟩ := events_of_prefix
      (fun k => (Src.get_real_os_version_detect_prefix env k
        [Event.EnterCriticalSection, Event.LeaveCriticalSection]).1)
      (fun k => (Src.get_real_os_version_detect_prefix env k
        [Event.EnterCriticalSection, Event.LeaveCriticalSection]).2.trace)
      s1
      (fun n m hnm =>
        ⟨fun hn => by have e := (s2 n m hnm).1 hn; simp only [e, and_self], (s2 n m hnm).2⟩)
      fuel
    have hat := get_real_os_version_at_miss env fuel g gLater hz
    have hdet := s3 fuel
    refine ⟨by rw [he]; exact p1, by rw [he]; exact p2, ?_, ?_, ?_⟩
    · intro out g1 tr h
      rw [he]
      rcases get_real_os_version_at_cases env fuel g gLater g1 out tr h with
        ⟨hit, _⟩ | ⟨_, v, hd, _, _, htr⟩ | ⟨_, v, hd, _, _, htr⟩
      · exact absurd hit (by omega)
      · rw [hd] at hdet
        rcases hp : Src.get_real_os_version_detect_prefix env fuel
            [Event.EnterCriticalSection, Event.LeaveCriticalSection] with ⟨o, w⟩
        rw [hp] at hdet
        rcases o with _ | b
        · cases hdet
        · simp only [Option.map_some', Option.some.injEq, Prod.mk.injEq] at hdet
          obtain ⟨hb, hw⟩ := hdet
          subst hb hw
          simp [htr]
      · rw [hd] at hdet
        rcases hp : Src.get_real_os_version_detect_prefix env fuel
            [Event.EnterCriticalSection, Event.LeaveCriticalSection] with ⟨o, w⟩
        rw [hp] at hdet
        rcases o with _ | b
        · cases hdet
        · simp only [Option.map_some', Option.some.injEq, Prod.mk.injEq] at hdet
          obtain ⟨hb, hw⟩ := hdet
          subst hb hw
          simp [htr]
    · intro h
      rw [he]
      apply p3
      rw [hat] at h
      rcases hp : Src.get_real_os_version_detect_prefix env fuel
          [Event.EnterCriticalSection, Event.LeaveCriticalSection] with ⟨o, w⟩
      rw [hp] at hdet
      rcases o with _ | b
      · rfl
      · rw [hdet] at h
        cases b <;> cases h
    · intro n hn
      rw [hmiss fuel, hmiss n]
      exact p4 n hn

theorem buildNo_events_spec (s : Nat) (env : Env) (fuel : Nat) (g gLater : Src.Cache) :
    calls_unlocked false (Src.get_real_os_buildNo_events s env fuel g) = true ∧
    (∃ mid, (∀ e ∈ mid, e.is_guard = false) ∧
      (Src.get_real_os_buildNo_events s env fuel g =
          [Event.EnterCriticalSection, Event.LeaveCriticalSection] ++ mid ∨
        Src.get_real_os_buildNo_events s env fuel g =
          [Event.EnterCriticalSection, Event.LeaveCriticalSection] ++ mid ++
            [Event.EnterCriticalSection, Event.LeaveCriticalSection])) ∧
    (∀ out g1 tr,
      Src.get_real_os_buildNo_at s env fuel g gLater = Outcome.returned (out, g1, tr) →
      Src.get_real_os_buildNo_events s env fuel g = tr) ∧
    (Src.get_real_os_buildNo_at s env fuel g gLater = Outcome.outOfFuel →
      fuel + 3 ≤ (Src.get_real_os_buildNo_events s env fuel g).length) ∧
    (∀ n, fuel ≤ n →
      Src.get_real_os_buildNo_events s env fuel g <+:
        Src.get_real_os_buildNo_events s env n g) := by
  have hform := fun k => buildNo_events_form s env k g
  rcases hform fuel with ⟨hit, he⟩ | ⟨hz, he⟩
  · have hat := get_real_os_buildNo_at_hit s env fuel g gLater hit
    refine ⟨by rw [he]; rfl, ⟨[], by simp, Or.inl (by rw [he]; rfl)⟩, ?_, ?_, ?_⟩
    · intro out g1 tr h
      rw [hat] at h
      simp only [Outcome.returned.injEq, Prod.mk.injEq] at h
      rw [he]
      exact h.2.2
    · intro h
      rw [hat] at h
      cases h
    · intro n _
      rcases hform n with ⟨_, hn⟩ | ⟨hz, _⟩
      · rw [he, hn]
      · exact absurd hz hit
  · obtain ⟨s1, s2, s3⟩ := build_detect_prefix_summary s env
      [Event.EnterCriticalSection, Event.LeaveCriticalSection]
    have hmiss : ∀ n, Src.get_real_os_buildNo_events s env n g =
        (Src.get_real_os_buildNo_detect_prefix s env n
            [Event.EnterCriticalSection, Event.LeaveCriticalSection]).2.trace ++
          if (Src.get_real_os_buildNo_detect_prefix s env n
              [Event.EnterCriticalSection, Event.LeaveCriticalSection]).1 = some true then
            [Event.EnterCriticalSection, Event.LeaveCriticalSection] else [] := by
      intro n
      rcases hform n with ⟨hit, _⟩ | ⟨_, hn⟩
      · exact absurd hz hit
      · exact hn
    obtain ⟨p1, p2, p3, p4⟩ := events_of_prefix
      (fun k => (Src.get_real_os_buildNo_detect_prefix s env k
        [Event.EnterCriticalSection, Event.LeaveCriticalSection]).1)
      (fun k => (Src.get_real_os_buildNo_detect_prefix s env k
        [Event.EnterCriticalSection, Event.LeaveCriticalSection]).2.trace)
      s1
      (fun n m hnm =>
        ⟨fun hn => by have e := (s2 n m hnm).1 hn; simp only [e, and_self], (s2 n m hnm).2⟩)
      fuel
    have hat := get_real_os_buildNo_at_miss s env fuel g gLater hz
    have hdet := s3 fuel
    refine ⟨by rw [he]; exact p1, by rw [he]; exact p2, ?_, ?_, ?_⟩
    · intro out g1 tr h
      rw [he]
      rcases get_real_os_buildNo_at_cases s env fuel g gLater g1 out tr h with
        ⟨hit, _⟩ | ⟨_, v, hd, _, _, htr⟩ | ⟨_, v, hd, _, _, htr⟩
      · exact absurd hz hit
      · rw [hd] at hdet
        rcases hp : Src.get_real_os_buildNo_detect_prefix s env fuel
            [Event.EnterCriticalSection, Event.LeaveCriticalSection] with ⟨o, w⟩
        rw [hp] at hdet
        rcases o with _ | b
        · cases hdet
        · simp only [Option.map_some', Option.some.injEq, Prod.mk.injEq] at hdet
          obtain ⟨hb, hw⟩ := hdet
          subst hb hw
          simp [htr]
      · rw [hd] at hdet
        rcases hp : Src.get_real_os_buildNo_detect_prefix s env fuel
            [Event.EnterCriticalSection, Event.LeaveCriticalSection] with ⟨o, w⟩
        rw [hp] at hdet
        rcases o with _ | b
        · cases hdet
        · simp only [Option.map_some', Option.some.injEq, Prod.mk.injEq] at hdet
          obtain ⟨hb, hw⟩ := hdet
          subst hb hw
          simp [htr]
    · intro h
      rw [he]
      apply p3
      rw [hat] at h
      rcases hp : Src.get_real_os_buildNo_detect_prefix s env fuel
          [Event.EnterCriticalSection, Event.LeaveCriticalSection] with ⟨o, w⟩
      rw [hp] at hdet
      rcases o with _ | b
      · rfl
      · rw [hdet] at h
        cases b <;> cases h
    · intro n hn
      rw [hmiss fuel, hmiss n]
      exact p4 n hn

/-! ## C23: the guard is not held during a climb step -/

/-- C23: in every execution of `get_real_os_version` and `get_real_os_buildNo`, in every
environment and on every cache, whether the call returns or never leaves a loop, every info
query, every probe (and every message box) is issued while the critical section is not held.
An execution is taken by its events after each loop has run for at most `fuel` iterations,
for every number `fuel`: all events of the call if it has returned by then, otherwise the
events of the run so far (`call_events`). Replaying these events shows every event other
than enter and leave issued while the critical section is not held. The events are: enter
and leave for the cache check, then events that are no calls of the critical section, then,
only on the path that reaches the commit step, enter and leave once more. These events are
the events of the call when it returns; when the call has not returned within its
iterations, they comprise the cache check, the info query and at least one probe per
iteration granted; and with more iterations the events are extended, never changed. -/
theorem C23_guard_released_during_climb (c : Call) (g gLater : Src.Cache) :
    calls_unlocked false (call_events c g) = true ∧
    (∃ mid, (∀ e ∈ mid, e.is_guard = false) ∧
      (call_events c g = [Event.EnterCriticalSection, Event.LeaveCriticalSection] ++ mid ∨
        call_events c g = [Event.EnterCriticalSection, Event.LeaveCriticalSection] ++ mid ++
          [Event.EnterCriticalSection, Event.LeaveCriticalSection])) ∧
    (∀ tr, call_outcome c g gLater = Outcome.returned tr → call_events c g = tr) ∧
    (call_outcome c g gLater = Outcome.outOfFuel → c.fuel + 3 ≤ (call_events c g).length) ∧
    (∀ n, c.fuel ≤ n → call_events c g <+: call_events (c.with_fuel n) g) := by
  cases c with
  | version env fuel =>
    obtain ⟨p1, p2, p3, p4, p5⟩ := version_events_spec env fuel g gLater
    refine ⟨p1, p2, ?_, ?_, p5⟩
    · intro tr h
      simp only [call_outcome] at h
      rcases ho : Src.get_real_os_version_at env fuel g gLater with ⟨out, g1, tr1⟩ | f | _
      · rw [ho] at h
        simp only [Outcome.returned.injEq] at h
        subst h
        exact p3 out g1 tr1 ho
      · rw [ho] at h; cases h
      · rw [ho] at h; cases h
    · intro h
      simp only [call_outcome] at h
      rcases ho : Src.get_real_os_version_at env fuel g gLater with ⟨out, g1, tr1⟩ | f | _
      · rw [ho] at h; cases h
      · rw [ho] at h; cases h
      · exact p4 ho
  | buildNo env fuel =>
    obtain ⟨p1, p2, p3, p4, p5⟩ := buildNo_events_spec 4096 env fuel g gLater
    refine ⟨p1, p2, ?_, ?_, p5⟩
    · intro tr h
      simp only [call_outcome] at h
      rcases ho : Src.get_real_os_buildNo_at 4096 env fuel g gLater with ⟨out, g1, tr1⟩ | f | _
      · rw [ho] at h
        simp only [Outcome.returned.injEq] at h
        subst h
        exact p3 out g1 tr1 ho
      · rw [ho] at h; cases h
      · rw [ho] at h; cases h
    · intro h
      simp only [call_outcome] at h
      rcases ho : Src.get_real_os_buildNo_at 4096 env fuel g gLater with ⟨out, g1, tr1⟩ | f | _
      · rw [ho] at h; cases h
      · rw [ho] at h; cases h
      · exact p4 ho

/-- C23 at a concrete input, a call that never returns: reported (6,1,0), probes that answer
true for every argument, empty cache. After four iterations the major climb is still running:
the call has not returned, and its events so far are the cache check, the info query and
four probes, all issued while the critical section is not held. -/
theorem C23_guard_released_during_climb_witness :
    call_outcome (Call.version (always_true_env (some (nt_report (6, 1, 0) 7601))) 4)
        Src.Cache.zero Src.Cache.zero = Outcome.outOfFuel ∧
    call_events (Call.version (always_true_env (some (nt_report (6, 1, 0) 7601))) 4)
        Src.Cache.zero =
      [Event.EnterCriticalSection, Event.LeaveCriticalSection, Event.get_os_info,
       Event.verify_os_version 7 0 0, Event.verify_os_version 8 0 0,
       Event.verify_os_version 9 0 0, Event.verify_os_version 10 0 0] ∧
    calls_unlocked false
      (call_events (Call.version (always_true_env (some (nt_report (6, 1, 0) 7601))) 4)
        Src.Cache.zero) = true ∧
    calls_unlocked false
      [Event.EnterCriticalSection, Event.get_os_info, Event.LeaveCriticalSection] = false :=
  ⟨rfl, rfl,
    (C23_guard_released_during_climb
      (Call.version (always_true_env (some (nt_report (6, 1, 0) 7601))) 4)
      Src.Cache.zero Src.Cache.zero).1,
    rfl⟩

/-! ## C24: balanced guard on every exit path -/

/-- C24: no call of `get_real_os_version` or `get_real_os_buildNo` raises the fault of the
guard, whatever the environment, the fuel, the cache and the interference of other callers;
and in the events of every call that returns (cache hit, failed info query, unsupported
platform, overflow, commit) the critical section is entered only while not held, left only
while held, not held at the end, and entered as many times as it is left. -/
theorem C24_guard_balanced (c : Call) (g gLater : Src.Cache) :
    (∀ f, call_outcome c g gLater ≠ Outcome.raised f) ∧
    (∀ tr, call_outcome c g gLater = Outcome.returned tr →
      guard_balanced false tr = true ∧
      tr.count Event.EnterCriticalSection = tr.count Event.LeaveCriticalSection) := by
  constructor
  · intro f
    cases c with
    | version env fuel =>
      simp only [call_outcome]
      by_cases hz : g.g_os_version_major = 0 ∧ g.g_os_version_minor = 0 ∧
          g.g_os_version_spack = 0
      · rw [get_real_os_version_at_miss env fuel g gLater hz]
        rcases Src.get_real_os_version_detect env fuel
          [Event.EnterCriticalSection, Event.LeaveCriticalSection] with _ | ⟨b, v⟩
        · simp
        · cases b <;> simp
      · rw [get_real_os_version_at_hit env fuel g gLater (by omega)]
        simp
    | buildNo env fuel =>
      simp only [call_outcome]
      by_cases hz : g.g_os_version_build = 0
      · rw [get_real_os_buildNo_at_miss 4096 env fuel g gLater hz]
        rcases Src.get_real_os_buildNo_detect 4096 env fuel
          [Event.EnterCriticalSection, Event.LeaveCriticalSection] with _ | ⟨b, v⟩
        · simp
        · cases b <;> simp
      · rw [get_real_os_buildNo_at_hit 4096 env fuel g gLater hz]
        simp
  · intro tr h
    obtain ⟨mid, hg, hshape⟩ := call_outcome_shape c g gLater tr h
    obtain ⟨c1, c2⟩ := count_guard_zero mid hg
    rcases hshape with ht | ht
    · rw [ht]
      constructor
      · have e : guard_balanced false
            ([Event.EnterCriticalSection, Event.LeaveCriticalSection] ++ mid) =
            guard_balanced false (mid ++ []) := by
          simp [guard_balanced]
        rw [e, guard_balanced_append false mid [] hg]
        rfl
      · simp only [List.count_append, c1, c2]
        decide
    · rw [ht]
      constructor
      · have e : guard_balanced false
            ([Event.EnterCriticalSection, Event.LeaveCriticalSection] ++ mid ++
              [Event.EnterCriticalSection, Event.LeaveCriticalSection]) =
            guard_balanced false
              (mid ++ [Event.EnterCriticalSection, Event.LeaveCriticalSection]) := by
          simp [guard_balanced]
        rw [e, guard_balanced_append false mid _ hg]
        rfl
      · simp only [List.count_append, c1, c2]
        decide

/-- C24 at concrete inputs, one for each exit path of `get_real_os_version`: cache hit, failed
info query, unsupported platform, overflow, commit. -/
theorem C24_guard_balanced_witness :
    (call_outcome (Call.version (stub_env (some (nt_report (5, 1, 0) 7601)) (6, 1, 0) 7601) 10)
        { Src.Cache.zero with g_os_version_major := 6 } Src.Cache.zero =
      Outcome.returned [Event.EnterCriticalSection, Event.LeaveCriticalSection] ∧
     call_outcome (Call.version (stub_env none (6, 1, 0) 7601) 10) Src.Cache.zero
        Src.Cache.zero =
      Outcome.returned
        [Event.EnterCriticalSection, Event.LeaveCriticalSection, Event.get_os_info] ∧
     call_outcome (Call.version (stub_env (some (legacy_report (4, 10, 0))) (3, 0, 0) 7601) 10)
        Src.Cache.zero Src.Cache.zero =
      Outcome.returned
        [Event.EnterCriticalSection, Event.LeaveCriticalSection, Event.get_os_info,
         Event.verify_os_version 4 0 0] ∧
     call_outcome
        (Call.version (stub_env (some (nt_report (0xFFFF, 0, 0) 7601)) (6, 1, 0) 7601) 10)
        Src.Cache.zero Src.Cache.zero =
      Outcome.returned
        [Event.EnterCriticalSection, Event.LeaveCriticalSection, Event.get_os_info,
         Event.verify_os_version 65535 1 0, Event.verify_os_version 65535 0 1] ∧
     call_outcome (Call.version (stub_env (some (nt_report (5, 1, 0) 7601)) (6, 1, 0) 7601) 10)
        Src.Cache.zero Src.Cache.zero =
      Outcome.returned
        [Event.EnterCriticalSection, Event.LeaveCriticalSection, Event.get_os_info,
         Event.verify_os_version 6 0 0, Event.verify_os_version 7 0 0,
         Event.verify_os_version 6 1 0, Event.verify_os_version 6 2 0,
         Event.verify_os_version 6 1 1,
         Event.EnterCriticalSection, Event.LeaveCriticalSection]) ∧
    ((∀ f, call_outcome
        (Call.version (stub_env (some (nt_report (5, 1, 0) 7601)) (6, 1, 0) 7601) 10)
        Src.Cache.zero Src.Cache.zero ≠ Outcome.raised f) ∧
     (∀ tr, call_outcome
        (Call.version (stub_env (some (nt_report (5, 1, 0) 7601)) (6, 1, 0) 7601) 10)
        Src.Cache.zero Src.Cache.zero = Outcome.returned tr →
      guard_balanced false tr = true ∧
      tr.count Event.EnterCriticalSection = tr.count Event.LeaveCriticalSection)) ∧
    guard_balanced false [Event.EnterCriticalSection, Event.get_os_info] = false ∧
    guard_balanced false
      [Event.EnterCriticalSection, Event.LeaveCriticalSection, Event.LeaveCriticalSection] =
      false :=
  ⟨⟨rfl, rfl, rfl, rfl, rfl⟩,
    C24_guard_balanced
      (Call.version (stub_env (some (nt_report (5, 1, 0) 7601)) (6, 1, 0) 7601) 10)
      Src.Cache.zero Src.Cache.zero,
    rfl, rfl⟩

/-! ## C25: build-number detection and version detection share the override flag -/

theorem version_call_same_tuple (env : Env) (fuel : Nat) (gi gv gi1 : Src.Cache)
    (out : VersionOut) (tr : List Event) (hr : same_tuple gi gv)
    (h : Src.get_real_os_version env fuel gi = Outcome.returned (out, gi1, tr)) :
    ∃ out2 gv1 tr2, Src.get_real_os_version env fuel gv = Outcome.returned (out2, gv1, tr2) ∧
      same_version out out2 ∧ same_tuple gi1 gv1 ∧
      ((gi.g_os_version_major = 0 ∧ gi.g_os_version_minor = 0 ∧ gi.g_os_version_spack = 0) →
        out = out2) := by
  obtain ⟨r1, r2, r3, r4⟩ := hr
  unfold Src.get_real_os_version at h ⊢
  by_cases hz : gi.g_os_version_major = 0 ∧ gi.g_os_version_minor = 0 ∧
      gi.g_os_version_spack = 0
  · have hzv : gv.g_os_version_major = 0 ∧ gv.g_os_version_minor = 0 ∧
        gv.g_os_version_spack = 0 := by omega
    rw [get_real_os_version_at_miss env fuel gi gi hz] at h
    rw [get_real_os_version_at_miss env fuel gv gv hzv]
    rcases hd : Src.get_real_os_version_detect env fuel
        [Event.EnterCriticalSection, Event.LeaveCriticalSection] with _ | ⟨b, v⟩
    · rw [hd] at h; cases h
    · rw [hd] at h
      cases b
      · simp only [Outcome.returned.injEq, Prod.mk.injEq] at h
        obtain ⟨h1, h2, _⟩ := h
        subst h1 h2
        exact ⟨_, _, _, rfl, ⟨rfl, rfl, rfl, rfl, fun x => x⟩, ⟨r1, r2, r3, r4⟩, fun _ => rfl⟩
      · simp only [Outcome.returned.injEq, Prod.mk.injEq] at h
        obtain ⟨h1, h2, _⟩ := h
        subst h1 h2
        refine ⟨_, _, _, rfl, ?_, ?_, ?_⟩
        · simp only [Src.get_real_os_version_commit]
          rw [if_pos hz, if_pos hzv]
          exact ⟨rfl, rfl, rfl, rfl, fun x => x⟩
        · simp only [Src.get_real_os_version_commit]
          rw [if_pos hz, if_pos hzv]
          refine ⟨rfl, rfl, rfl, ?_⟩
          simp only [Bool.or_eq_true]
          intro hx
          rcases hx with hx | hx
          · exact Or.inl (r4 hx)
          · exact Or.inr hx
        · intro _
          simp only [Src.get_real_os_version_commit]
          rw [if_pos hz, if_pos hzv]
  · have hnz : gi.g_os_version_major ≠ 0 ∨ gi.g_os_version_minor ≠ 0 ∨
        gi.g_os_version_spack ≠ 0 := by omega
    have hnzv : gv.g_os_version_major ≠ 0 ∨ gv.g_os_version_minor ≠ 0 ∨
        gv.g_os_version_spack ≠ 0 := by omega
    rw [get_real_os_version_at_hit env fuel gi gi hnz] at h
    rw [get_real_os_version_at_hit env fuel gv gv hnzv]
    simp only [Outcome.returned.injEq, Prod.mk.injEq] at h
    obtain ⟨h1, h2, _⟩ := h
    subst h1 h2
    exact ⟨_, _, _, rfl, ⟨rfl, r1, r2, r3, r4⟩, ⟨r1, r2, r3, r4⟩, fun hc => absurd hc hz⟩

theorem buildNo_call_same_tuple (env : Env) (fuel : Nat) (gi gv gi1 : Src.Cache)
    (out : Src.BuildOut) (tr : List Event) (hr : same_tuple gi gv)
    (h : Src.get_real_os_buildNo env fuel gi = Outcome.returned (out, gi1, tr)) :
    same_tuple gi1 gv ∧
    ((gi.g_os_version_major = 0 ∧ gi.g_os_version_minor = 0 ∧ gi.g_os_version_spack = 0) →
      (gi1.g_os_version_major = 0 ∧ gi1.g_os_version_minor = 0 ∧
        gi1.g_os_version_spack = 0)) := by
  obtain ⟨r1, r2, r3, r4⟩ := hr
  unfold Src.get_real_os_buildNo at h
  rcases get_real_os_buildNo_at_cases 4096 env fuel gi gi gi1 out tr h with
    ⟨_, _, hg, _⟩ | ⟨_, b, _, _, hg, _⟩ | ⟨hz, b, _, _, hg, _⟩
  · subst hg; exact ⟨⟨r1, r2, r3, r4⟩, fun x => x⟩
  · subst hg; exact ⟨⟨r1, r2, r3, r4⟩, fun x => x⟩
  · subst hg
    simp only [Src.get_real_os_buildNo_commit]
    rw [if_pos hz]
    refine ⟨⟨r1, r2, r3, ?_⟩, fun x => x⟩
    intro hx
    simp only [Bool.or_eq_true]
    exact Or.inl (r4 hx)

theorem version_results_same_tuple (env : Env) (fuel fuelB : Nat) :
    ∀ (ops : List Op) (gi gv : Src.Cache) (outs : List VersionOut), same_tuple gi gv →
      version_results env fuel fuelB ops gi = some outs →
      ∃ outs2, version_results env fuel fuelB (ops.filter Op.is_version) gv = some outs2 ∧
        List.Forall₂ same_version outs outs2 ∧
        ((gi.g_os_version_major = 0 ∧ gi.g_os_version_minor = 0 ∧
            gi.g_os_version_spack = 0) → outs.head? = outs2.head?) := by
  intro ops
  induction ops with
  | nil =>
    intro gi gv outs _ h
    simp only [version_results, Option.some.injEq] at h
    subst h
    exact ⟨[], rfl, List.Forall₂.nil, fun _ => rfl⟩
  | cons op rest ih =>
    intro gi gv outs hr h
    cases op with
    | version =>
      simp only [version_results] at h
      rcases ho : Src.get_real_os_version env fuel gi with ⟨out, gi1, tr⟩ | f | _
      · rw [ho] at h
        simp only at h
        rcases hrest : version_results env fuel fuelB rest gi1 with _ | outs1
        · rw [hrest] at h; cases h
        · rw [hrest] at h
          simp only [Option.some.injEq] at h
          subst h
          obtain ⟨out2, gv1, tr2, ho2, hs, hr1, hfirst⟩ :=
            version_call_same_tuple env fuel gi gv gi1 out tr hr ho
          obtain ⟨outs2, h2, hall, _⟩ := ih gi1 gv1 outs1 hr1 hrest
          refine ⟨out2 :: outs2, ?_, List.Forall₂.cons hs hall, ?_⟩
          · simp only [List.filter, Op.is_version, version_results, ho2, h2]
          · intro hz
            simp only [List.head?_cons, Option.some.injEq]
            exact hfirst hz
      · rw [ho] at h; cases h
      · rw [ho] at h; cases h
    | buildNo =>
      simp only [version_results] at h
      rcases ho : Src.get_real_os_buildNo env fuelB gi with ⟨out, gi1, tr⟩ | f | _
      · rw [ho] at h
        simp only at h
        obtain ⟨hr1, hz1⟩ := buildNo_call_same_tuple env fuelB gi gv gi1 out tr hr ho
        obtain ⟨outs2, h2, hall, hfirst⟩ := ih gi1 gv outs hr1 h
        refine ⟨outs2, ?_, hall, fun hz => hfirst (hz1 hz)⟩
        simp only [List.filter, Op.is_version]
        exact h2
      · rw [ho] at h; cases h
      · rw [ho] at h; cases h

theorem build_detect_returns (env : Env) (fuel : Nat) (tr : List Event)
    (hfuel : INT_MAX + 14 ≤ fuel) :
    ∃ b w, Src.get_real_os_buildNo_detect 4096 env fuel tr = some (b, w) := by
  have h4 : DWORD 4096 = 4096 := by decide
  unfold Src.get_real_os_buildNo_detect
  rcases env.get_os_info with _ | osvi
  · exact ⟨_, _, rfl⟩
  · simp only
    by_cases hnt : osvi.dwPlatformId = VER_PLATFORM_WIN32_NT
    · simp only [hnt, if_true, h4]
      obtain ⟨s, n, w, _, el, _, _⟩ := build_loop_exit_terminates env fuel
        { buildNo := DWORD osvi.dwBuildNumber, bOverride := false,
          trace := tr ++ [Event.get_os_info] } (by simp only; omega)
      simp only at el
      rw [el]
      exact ⟨_, _, rfl⟩
    · by_cases hp : env.verify_os_version 4 0 0 = true
      · simp only [hnt, hp, if_false, if_true, h4]
        obtain ⟨s, n, w, _, el, _, _⟩ := build_loop_exit_terminates env fuel
          { buildNo := 1381, bOverride := true,
            trace := tr ++ [Event.get_os_info] ++ [Event.verify_os_version 4 0 0] }
          (by simp only; omega)
        simp only at el
        rw [el]
        exact ⟨_, _, rfl⟩
      · simp only [hnt, hp, if_false, Bool.false_eq_true]
        exact ⟨_, _, rfl⟩

theorem get_real_os_buildNo_returns (env : Env) (fuel : Nat) (g : Src.Cache)
    (hfuel : INT_MAX + 14 ≤ fuel) :
    ∃ out g1 tr, Src.get_real_os_buildNo env fuel g = Outcome.returned (out, g1, tr) := by
  unfold Src.get_real_os_buildNo
  by_cases hz : g.g_os_version_build = 0
  · rw [get_real_os_buildNo_at_miss 4096 env fuel g g hz]
    obtain ⟨b, w, hd⟩ := build_detect_returns env fuel
      [Event.EnterCriticalSection, Event.LeaveCriticalSection] hfuel
    rw [hd]
    cases b
    · exact ⟨_, _, _, rfl⟩
    · exact ⟨_, _, _, rfl⟩
  · rw [get_real_os_buildNo_at_hit 4096 env fuel g g hz]
    exact ⟨_, _, _, rfl⟩

theorem version_call_returns_of_tuple (env : Env) (fuel : Nat) (gi gv gv1 : Src.Cache)
    (out2 : VersionOut) (tr2 : List Event)
    (ht : gi.g_os_version_major = gv.g_os_version_major ∧
      gi.g_os_version_minor = gv.g_os_version_minor ∧
      gi.g_os_version_spack = gv.g_os_version_spack)
    (h : Src.get_real_os_version env fuel gv = Outcome.returned (out2, gv1, tr2)) :
    ∃ out gi1 tr, Src.get_real_os_version env fuel gi = Outcome.returned (out, gi1, tr) ∧
      gi1.g_os_version_major = gv1.g_os_version_major ∧
      gi1.g_os_version_minor = gv1.g_os_version_minor ∧
      gi1.g_os_version_spack = gv1.g_os_version_spack := by
  obtain ⟨r1, r2, r3⟩ := ht
  unfold Src.get_real_os_version at h ⊢
  by_cases hz : gi.g_os_version_major = 0 ∧ gi.g_os_version_minor = 0 ∧
      gi.g_os_version_spack = 0
  · have hzv : gv.g_os_version_major = 0 ∧ gv.g_os_version_minor = 0 ∧
        gv.g_os_version_spack = 0 := by omega
    rw [get_real_os_version_at_miss env fuel gv gv hzv] at h
    rw [get_real_os_version_at_miss env fuel gi gi hz]
    rcases hd : Src.get_real_os_version_detect env fuel
        [Event.EnterCriticalSection, Event.LeaveCriticalSection] with _ | ⟨b, v⟩
    · rw [hd] at h; cases h
    · rw [hd] at h
      cases b
      · simp only [Outcome.returned.injEq, Prod.mk.injEq] at h
        obtain ⟨_, h2, _⟩ := h
        subst h2
        exact ⟨_, _, _, rfl, r1, r2, r3⟩
      · simp only [Outcome.returned.injEq, Prod.mk.injEq] at h
        obtain ⟨_, h2, _⟩ := h
        subst h2
        refine ⟨_, _, _, rfl, ?_⟩
        simp only [Src.get_real_os_version_commit]
        rw [if_pos hz, if_pos hzv]
        exact ⟨rfl, rfl, rfl⟩
  · have hnz : gi.g_os_version_major ≠ 0 ∨ gi.g_os_version_minor ≠ 0 ∨
        gi.g_os_version_spack ≠ 0 := by omega
    have hnzv : gv.g_os_version_major ≠ 0 ∨ gv.g_os_version_minor ≠ 0 ∨
        gv.g_os_version_spack ≠ 0 := by omega
    rw [get_real_os_version_at_hit env fuel gv gv hnzv] at h
    rw [get_real_os_version_at_hit env fuel gi gi hnz]
    simp only [Outcome.returned.injEq, Prod.mk.injEq] at h
    obtain ⟨_, h2, _⟩ := h
    subst h2
    exact ⟨_, _, _, rfl, r1, r2, r3⟩

theorem version_results_returns (env : Env) (fuel fuelB : Nat) (hB : INT_MAX + 14 ≤ fuelB) :
    ∀ (ops : List Op) (gi gv : Src.Cache) (outs2 : List VersionOut),
      (gi.g_os_version_major = gv.g_os_version_major ∧
        gi.g_os_version_minor = gv.g_os_version_minor ∧
        gi.g_os_version_spack = gv.g_os_version_spack) →
      version_results env fuel fuelB (ops.filter Op.is_version) gv = some outs2 →
      ∃ outs, version_results env fuel fuelB ops gi = some outs := by
  intro ops
  induction ops with
  | nil => intro gi gv outs2 _ _; exact ⟨[], rfl⟩
  | cons op rest ih =>
    intro gi gv outs2 ht h
    cases op with
    | version =>
      simp only [List.filter, Op.is_version, version_results] at h
      rcases ho : Src.get_real_os_version env fuel gv with ⟨out2, gv1, tr2⟩ | f | _
      · rw [ho] at h
        simp only at h
        rcases hrest : version_results env fuel fuelB (rest.filter Op.is_version) gv1 with
          _ | outs1
        · rw [hrest] at h; cases h
        · obtain ⟨out, gi1, tr, hc, ht1⟩ :=
            version_call_returns_of_tuple env fuel gi gv gv1 out2 tr2 ht ho
          obtain ⟨outs, hr⟩ := ih gi1 gv1 outs1 ht1 hrest
          exact ⟨out :: outs, by simp only [version_results, hc, hr]⟩
      · rw [ho] at h; cases h
      · rw [ho] at h; cases h
    | buildNo =>
      simp only [List.filter, Op.is_version] at h
      obtain ⟨out, gi1, tr, hc⟩ := get_real_os_buildNo_returns env fuelB gi hB
      have hs := (buildNo_call_same_tuple env fuelB gi gi gi1 out tr
        ⟨rfl, rfl, rfl, fun x => x⟩ hc).1
      obtain ⟨outs, hr⟩ := ih gi1 gv outs2
        ⟨hs.1.trans ht.1, hs.2.1.trans ht.2.1, hs.2.2.1.trans ht.2.2⟩ h
      exact ⟨outs, by simp only [version_results, hc, hr]⟩

/-- C25 (amended): in a fixed environment, when a list of calls of `get_real_os_version` with
calls of `get_real_os_buildNo` before or between them returns, the same version calls without
the build-number calls return as well, with the same returned flag and the same tuple in
every position; the override flag is set in the run with the build-number calls wherever it is
set in the run without them, and the first version call on a cache with an all-zero tuple
returns the identical result in both runs. The caches of the two runs stay related by
`same_tuple`: a build-number call keeps the relation, and a version call that finds the tuple
all zero (and so runs its own detection) returns the identical result on related caches. -/
theorem C25_tuple_unaffected_flag_shared (env : Env) (fuel fuelB : Nat) (ops : List Op)
    (g : Src.Cache) (outs : List VersionOut)
    (h : version_results env fuel fuelB ops g = some outs) :
    (∃ outs2, version_results env fuel fuelB (ops.filter Op.is_version) g = some outs2 ∧
      List.Forall₂ same_version outs outs2 ∧
      ((g.g_os_version_major = 0 ∧ g.g_os_version_minor = 0 ∧ g.g_os_version_spack = 0) →
        outs.head? = outs2.head?)) ∧
    (∀ gi gv out gi1 tr, same_tuple gi gv →
      (gi.g_os_version_major = 0 ∧ gi.g_os_version_minor = 0 ∧ gi.g_os_version_spack = 0) →
      Src.get_real_os_version env fuel gi = Outcome.returned (out, gi1, tr) →
      ∃ gv1 tr2, Src.get_real_os_version env fuel gv = Outcome.returned (out, gv1, tr2) ∧
        same_tuple gi1 gv1) ∧
    (∀ gi gv out gi1 tr, same_tuple gi gv →
      Src.get_real_os_buildNo env fuelB gi = Outcome.returned (out, gi1, tr) →
      same_tuple gi1 gv) := by
  refine ⟨version_results_same_tuple env fuel fuelB ops g g outs ⟨rfl, rfl, rfl, fun x => x⟩ h,
    ?_, ?_⟩
  · intro gi gv out gi1 tr hr hz hc
    obtain ⟨out2, gv1, tr2, h2, _, hr1, he⟩ :=
      version_call_same_tuple env fuel gi gv gi1 out tr hr hc
    rw [← he hz] at h2
    exact ⟨gv1, tr2, h2, hr1⟩
  · intro gi gv out gi1 tr hr hc
    exact (buildNo_call_same_tuple env fuelB gi gv gi1 out tr hr hc).1

/-- C25 (amended) at a concrete input: the report (6,1,0) with build 7600 is right about the
version and low by one about the build (the probes are true up to (6,1,0) and 7601); the calls
are build number, version, version on the empty cache. -/
theorem C25_tuple_unaffected_flag_shared_witness :
    version_results (stub_env (some (nt_report (6, 1, 0) 7600)) (6, 1, 0) 7601) 10 40
        [Op.buildNo, Op.version, Op.version] Src.Cache.zero =
      some [{ ret := true, major := 6, minor := 1, spack := 0, pbOverride := false },
            { ret := true, major := 6, minor := 1, spack := 0, pbOverride := true }] ∧
    ∃ outs2, version_results (stub_env (some (nt_report (6, 1, 0) 7600)) (6, 1, 0) 7601) 10 40
        ([Op.buildNo, Op.version, Op.version].filter Op.is_version) Src.Cache.zero =
          some outs2 ∧
      List.Forall₂ same_version
        [{ ret := true, major := 6, minor := 1, spack := 0, pbOverride := false },
         { ret := true, major := 6, minor := 1, spack := 0, pbOverride := true }] outs2 ∧
      ((Src.Cache.zero.g_os_version_major = 0 ∧ Src.Cache.zero.g_os_version_minor = 0 ∧
          Src.Cache.zero.g_os_version_spack = 0) →
        [{ ret := true, major := 6, minor := 1, spack := 0, pbOverride := false },
         ({ ret := true, major := 6, minor := 1, spack := 0, pbOverride := true } :
           VersionOut)].head? = outs2.head?) :=
  ⟨rfl,
    (C25_tuple_unaffected_flag_shared (stub_env (some (nt_report (6, 1, 0) 7600)) (6, 1, 0) 7601)
      10 40 [Op.buildNo, Op.version, Op.version] Src.Cache.zero _ rfl).1⟩

/-- C25 as stated fails: with the report (6,1,0), build 7600, probes true up to (6,1,0) and
7601, two version calls on the empty cache both return the override flag false; with a
build-number call before them the second version call returns the override flag true, because
the build-number call has set the shared flag `g_os_version_bOverride` and a version call
answered from the cache returns that flag. -/
theorem C25_counterexample :
    version_results (stub_env (some (nt_report (6, 1, 0) 7600)) (6, 1, 0) 7601) 10 40
        [Op.version, Op.version] Src.Cache.zero =
      some [{ ret := true, major := 6, minor := 1, spack := 0, pbOverride := false },
            { ret := true, major := 6, minor := 1, spack := 0, pbOverride := false }] ∧
    version_results (stub_env (some (nt_report (6, 1, 0) 7600)) (6, 1, 0) 7601) 10 40
        [Op.buildNo, Op.version, Op.version] Src.Cache.zero =
      some [{ ret := true, major := 6, minor := 1, spack := 0, pbOverride := false },
            { ret := true, major := 6, minor := 1, spack := 0, pbOverride := true }] ∧
    version_results (stub_env (some (nt_report (6, 1, 0) 7600)) (6, 1, 0) 7601) 10 40
        [Op.buildNo, Op.version, Op.version] Src.Cache.zero ≠
      version_results (stub_env (some (nt_report (6, 1, 0) 7600)) (6, 1, 0) 7601) 10 40
        ([Op.buildNo, Op.version, Op.version].filter Op.is_version) Src.Cache.zero :=
  ⟨rfl, rfl, by decide⟩

/-! ## The climbs of `DetectOsVersion.cpp` simulated by the climbs of `src/DetectOsVersion.cpp` -/

theorem legacy_minor_loop_major (env : Env) :
    ∀ (fuel next : Nat) (p q : VerParams), minor_loop env fuel next p = some q →
      q.major = p.major := by
  intro fuel
  induction fuel with
  | zero => intro next p q h; simp [minor_loop] at h
  | succ n ih =>
    intro next p q h
    rw [minor_loop] at h
    split at h
    · split at h
      · have h2 := ih _ _ _ h
        exact h2
      · simp only [Option.some.injEq] at h
        rw [← h]
    · simp only [Option.some.injEq] at h
      rw [← h]

theorem legacy_spack_loop_major_minor (env : Env) :
    ∀ (fuel next : Nat) (p q : VerParams), spack_loop env fuel next p = some q →
      q.major = p.major ∧ q.minor = p.minor := by
  intro fuel
  induction fuel with
  | zero => intro next p q h; simp [spack_loop] at h
  | succ n ih =>
    intro next p q h
    rw [spack_loop] at h
    split at h
    · split at h
      · have h2 := ih _ _ _ h
        exact h2
      · simp only [Option.some.injEq] at h
        rw [← h]
        exact ⟨rfl, rfl⟩
    · simp only [Option.some.injEq] at h
      rw [← h]
      exact ⟨rfl, rfl⟩

theorem major_loop_simulates (env : Env) :
    ∀ (fuel next : Nat) (p q : VerParams) (v : Src.VerState),
      major_loop env fuel next p = some q → q.major < MAX_VALUE →
      (MAX_VALUE < next → MAX_VALUE ≤ p.major) →
      (v.major = p.major ∧ v.minor = p.minor ∧ v.spack = p.spack ∧ v.bOverride = p.bOverride) →
      ∃ w, Src.major_loop env fuel next v = some w ∧
        w.major = q.major ∧ w.minor = q.minor ∧ w.spack = q.spack ∧
        w.bOverride = q.bOverride := by
  intro fuel
  induction fuel with
  | zero => intro next p q v h; simp [major_loop] at h
  | succ n ih =>
    intro next p q v h hq hinv hrel
    rw [major_loop] at h
    by_cases hc : next ≤ MAX_VALUE
    · rw [if_pos hc] at h
      have hc2 : next ≤ Src.MAX_VALUE := by
        unfold MAX_VALUE at hc; unfold Src.MAX_VALUE; omega
      rw [Src.major_loop, if_pos hc2]
      by_cases hp : env.verify_os_version next 0 0 = true
      · simp only [hp, if_true] at h ⊢
        refine ih _ _ q _ h hq ?_ ⟨rfl, rfl, rfl, rfl⟩
        intro hn
        simp only
        unfold DWORD at hn
        unfold MAX_VALUE at hc hn ⊢
        omega
      · simp only [hp, Bool.false_eq_true, if_false, Option.some.injEq] at h ⊢
        subst h
        exact ⟨_, rfl, hrel.1, hrel.2.1, hrel.2.2.1, hrel.2.2.2⟩
    · rw [if_neg hc] at h
      simp only [Option.some.injEq] at h
      subst h
      have := hinv (by omega)
      omega

theorem minor_loop_simulates (env : Env) :
    ∀ (fuel next : Nat) (p q : VerParams) (v : Src.VerState),
      minor_loop env fuel next p = some q → q.minor < MAX_VALUE →
      (MAX_VALUE < next → MAX_VALUE ≤ p.minor) →
      (v.major = p.major ∧ v.minor = p.minor ∧ v.spack = p.spack ∧ v.bOverride = p.bOverride) →
      ∃ w, Src.minor_loop env fuel next v = some w ∧
        w.major = q.major ∧ w.minor = q.minor ∧ w.spack = q.spack ∧
        w.bOverride = q.bOverride := by
  intro fuel
  induction fuel with
  | zero => intro next p q v h; simp [minor_loop] at h
  | succ n ih =>
    intro next p q v h hq hinv hrel
    rw [minor_loop] at h
    by_cases hc : next ≤ MAX_VALUE
    · rw [if_pos hc] at h
      have hc2 : next ≤ Src.MAX_VALUE := by
        unfold MAX_VALUE at hc; unfold Src.MAX_VALUE; omega
      rw [Src.minor_loop, if_pos hc2, hrel.1]
      by_cases hp : env.verify_os_version p.major next 0 = true
      · simp only [hp, if_true] at h ⊢
        refine ih _ _ q _ h hq ?_ ⟨rfl, rfl, rfl, rfl⟩
        intro hn
        simp only
        unfold DWORD at hn
        unfold MAX_VALUE at hc hn ⊢
        omega
      · simp only [hp, Bool.false_eq_true, if_false, Option.some.injEq] at h ⊢
        subst h
        exact ⟨_, rfl, rfl, hrel.2.1, hrel.2.2.1, hrel.2.2.2⟩
    · rw [if_neg hc] at h
      simp only [Option.some.injEq] at h
      subst h
      have := hinv (by omega)
      omega

theorem spack_loop_simulates (env : Env) :
    ∀ (fuel next : Nat) (p q : VerParams) (v : Src.VerState),
      spack_loop env fuel next p = some q → q.spack < MAX_VALUE →
      (MAX_VALUE < next → MAX_VALUE ≤ p.spack) →
      (v.major = p.major ∧ v.minor = p.minor ∧ v.spack = p.spack ∧ v.bOverride = p.bOverride) →
      ∃ w, Src.spack_loop env fuel next v = some w ∧
        w.major = q.major ∧ w.minor = q.minor ∧ w.spack = q.spack ∧
        w.bOverride = q.bOverride := by
  intro fuel
  induction fuel with
  | zero => intro next p q v h; simp [spack_loop] at h
  | succ n ih =>
    intro next p q v h hq hinv hrel
    rw [spack_loop] at h
    by_cases hc : next ≤ MAX_VALUE
    · rw [if_pos hc] at h
      have hc2 : next ≤ Src.MAX_VALUE := by
        unfold MAX_VALUE at hc; unfold Src.MAX_VALUE; omega
      rw [Src.spack_loop, if_pos hc2, hrel.1, hrel.2.1]
      by_cases hp : env.verify_os_version p.major p.minor next = true
      · simp only [hp, if_true] at h ⊢
        have hw : WORD (next + 1) = DWORD (next + 1) := by
          unfold WORD DWORD
          unfold MAX_VALUE at hc
          omega
        rw [hw]
        refine ih _ _ q _ h hq ?_ ⟨rfl, rfl, rfl, rfl⟩
        intro hn
        simp only
        unfold DWORD at hn
        unfold MAX_VALUE at hc hn ⊢
        omega
      · simp only [hp, Bool.false_eq_true, if_false, Option.some.injEq] at h ⊢
        subst h
        exact ⟨_, rfl, rfl, rfl, hrel.2.2.1, hrel.2.2.2⟩
    · rw [if_neg hc] at h
      simp only [Option.some.injEq] at h
      subst h
      have := hinv (by omega)
      omega

theorem climbs_simulate (env : Env) (fuel : Nat) (p0 : VerParams) (v0 : Src.VerState)
    (out : VersionOut)
    (hrel : v0.major = p0.major ∧ v0.minor = p0.minor ∧ v0.spack = p0.spack ∧
      v0.bOverride = p0.bOverride)
    (h : (match major_loop env fuel (DWORD (p0.major + 1)) p0 with
      | none => none
      | some v1 =>
        match minor_loop env fuel (DWORD (v1.minor + 1)) v1 with
        | none => none
        | some v2 =>
          match spack_loop env fuel (DWORD (v2.spack + 1)) v2 with
          | none => none
          | some v3 =>
            some { ret := !(decide (v3.major ≥ MAX_VALUE ∨ v3.minor ≥ MAX_VALUE
                                    ∨ v3.spack ≥ MAX_VALUE)),
                   major := v3.major, minor := v3.minor, spack := v3.spack,
                   pbOverride := v3.bOverride }) = some out)
    (hret : out.ret = true) :
    ∃ w1 w2 w3, Src.major_loop env fuel (DWORD (v0.major + 1)) v0 = some w1 ∧
      Src.minor_loop env fuel (DWORD (w1.minor + 1)) w1 = some w2 ∧
      Src.spack_loop env fuel (WORD (DWORD (w2.spack + 1))) w2 = some w3 ∧
      w3.major < Src.MAX_VALUE ∧ w3.minor < Src.MAX_VALUE ∧ w3.spack < Src.MAX_VALUE ∧
      out = { ret := true, major := w3.major, minor := w3.minor, spack := w3.spack,
              pbOverride := w3.bOverride } := by
  rcases e1 : major_loop env fuel (DWORD (p0.major + 1)) p0 with _ | p1
  · rw [e1] at h; cases h
  rw [e1] at h
  simp only at h
  rcases e2 : minor_loop env fuel (DWORD (p1.minor + 1)) p1 with _ | p2
  · rw [e2] at h; cases h
  rw [e2] at h
  simp only at h
  rcases e3 : spack_loop env fuel (DWORD (p2.spack + 1)) p2 with _ | p3
  · rw [e3] at h; cases h
  rw [e3] at h
  simp only [Option.some.injEq] at h
  subst h
  simp only [Bool.not_eq_true', decide_eq_false_iff_not, not_or, not_le] at hret
  obtain ⟨hM, hm, hs⟩ := hret
  have m2 := legacy_minor_loop_major env fuel _ p1 p2 e2
  obtain ⟨m3, n3⟩ := legacy_spack_loop_major_minor env fuel _ p2 p3 e3
  obtain ⟨w1, f1, r1⟩ := major_loop_simulates env fuel _ p0 p1 v0
    e1 (by omega) (by intro hn; unfold DWORD at hn; omega) hrel
  rw [← hrel.1] at f1
  obtain ⟨w2, f2, r2⟩ := minor_loop_simulates env fuel _ p1 p2 w1
    e2 (by omega) (by intro hn; unfold DWORD at hn; omega) r1
  rw [← r1.2.1] at f2
  have hinv3 : MAX_VALUE < DWORD (p2.spack + 1) → MAX_VALUE ≤ p2.spack := by
    intro hn; unfold DWORD at hn; omega
  obtain ⟨w3, f3, r3⟩ := spack_loop_simulates env fuel _ p2 p3 w2 e3 hs hinv3 r2
  have hsmall : DWORD (p2.spack + 1) ≤ MAX_VALUE := by
    by_contra hc
    have hge := hinv3 (by omega)
    cases fuel with
    | zero => simp [spack_loop] at e3
    | succ n =>
      rw [spack_loop, if_neg hc] at e3
      simp only [Option.some.injEq] at e3
      subst e3
      omega
  have hw : WORD (DWORD (w2.spack + 1)) = DWORD (p2.spack + 1) := by
    rw [r2.2.2.1]
    unfold MAX_VALUE at hsmall
    unfold WORD
    omega
  rw [← hw] at f3
  refine ⟨w1, w2, w3, f1, f2, f3, ?_, ?_, ?_, ?_⟩
  · rw [r3.1]; unfold MAX_VALUE at hM; unfold Src.MAX_VALUE; omega
  · rw [r3.2.1]; unfold MAX_VALUE at hm; unfold Src.MAX_VALUE; omega
  · rw [r3.2.2.1]; unfold MAX_VALUE at hs; unfold Src.MAX_VALUE; omega
  · rw [r3.1, r3.2.1, r3.2.2.1, r3.2.2.2]
    simp only [VersionOut.mk.injEq, Bool.not_eq_true', decide_eq_false_iff_not, not_or, not_le,
      and_true]
    exact ⟨hM, hm, hs⟩

/-! ## C26: the cached implementation refines the uncached one -/

/-- C26: whenever `get_real_os_version` of `DetectOsVersion.cpp` (ceiling 1024, no cache)
returns success in an environment, `get_real_os_version` of `src/DetectOsVersion.cpp`
(ceiling 0xFFFF, 16-bit service-pack counter) called with the same fuel in the same
environment on the empty cache returns too, with the same returned flag, tuple and override
flag, and leaves that tuple in the cache. -/
theorem C26_cached_refines_uncached (env : Env) (fuel : Nat) (out : VersionOut)
    (h : get_real_os_version env fuel = some out) (hret : out.ret = true) :
    ∃ g1 tr, Src.get_real_os_version env fuel Src.Cache.zero = Outcome.returned (out, g1, tr) ∧
      g1.g_os_version_major = out.major ∧ g1.g_os_version_minor = out.minor ∧
      g1.g_os_version_spack = out.spack := by
  have key : ∃ w3, Src.get_real_os_version_detect env fuel
        [Event.EnterCriticalSection, Event.LeaveCriticalSection] = some (true, w3) ∧
      out = { ret := true, major := w3.major, minor := w3.minor, spack := w3.spack,
              pbOverride := w3.bOverride } := by
    unfold get_real_os_version at h
    unfold Src.get_real_os_version_detect
    rcases hinfo : env.get_os_info with _ | osvi
    · rw [hinfo] at h
      simp only [Option.some.injEq] at h
      subst h
      cases hret
    · rw [hinfo] at h
      simp only at h ⊢
      by_cases hnt : osvi.dwPlatformId = VER_PLATFORM_WIN32_NT
      · simp only [hnt, if_true] at h ⊢
        obtain ⟨w1, w2, w3, f1, f2, f3, hM, hm, hs, ho⟩ := climbs_simulate env fuel
          { major := DWORD osvi.dwMajorVersion, minor := DWORD osvi.dwMinorVersion,
            spack := WORD osvi.wServicePackMajor, bOverride := false }
          { major := DWORD osvi.dwMajorVersion, minor := DWORD osvi.dwMinorVersion,
            spack := WORD osvi.wServicePackMajor, bOverride := false,
            trace := [Event.EnterCriticalSection, Event.LeaveCriticalSection] ++
              [Event.get_os_info] }
          out ⟨rfl, rfl, rfl, rfl⟩ h hret
        simp only at f1
        rw [f1]
        simp only
        rw [f2]
        simp only
        rw [f3]
        simp only
        rw [if_neg (by omega)]
        exact ⟨w3, rfl, ho⟩
      · by_cases h4 : env.verify_os_version 4 0 0 = true
        · simp only [hnt, h4, if_false, if_true] at h ⊢
          obtain ⟨w1, w2, w3, f1, f2, f3, hM, hm, hs, ho⟩ := climbs_simulate env fuel
            { major := 4, minor := 0, spack := 0, bOverride := true }
            { major := 4, minor := 0, spack := 0, bOverride := true,
              trace := [Event.EnterCriticalSection, Event.LeaveCriticalSection] ++
                [Event.get_os_info] ++ [Event.verify_os_version 4 0 0] }
            out ⟨rfl, rfl, rfl, rfl⟩ h hret
          simp only at f1
          rw [f1]
          simp only
          rw [f2]
          simp only
          rw [f3]
          simp only
          rw [if_neg (by omega)]
          exact ⟨w3, rfl, ho⟩
        · simp only [hnt, h4, if_false, Bool.false_eq_true, Option.some.injEq] at h
          subst h
          cases hret
  obtain ⟨w3, hdet, ho⟩ := key
  unfold Src.get_real_os_version
  rw [get_real_os_version_at_miss env fuel _ _ ⟨rfl, rfl, rfl⟩, hdet]
  have hc : Src.get_real_os_version_commit w3 Src.Cache.zero =
      (out,
        { g_os_version_major := w3.major, g_os_version_minor := w3.minor,
          g_os_version_spack := w3.spack, g_os_version_build := 0,
          g_os_version_bOverride := false || w3.bOverride }) := by
    simp only [Src.get_real_os_version_commit]
    rw [if_pos ⟨rfl, rfl, rfl⟩, ho]
    rfl
  refine ⟨(Src.get_real_os_version_commit w3 Src.Cache.zero).2,
    w3.trace ++ [Event.EnterCriticalSection, Event.LeaveCriticalSection], ?_, ?_⟩
  · simp only
    rw [hc]
  · rw [hc, ho]
    exact ⟨rfl, rfl, rfl⟩

/-- C26 at a concrete input: reported (5,1,0) of the native family, probes true up to
(6,1,0), fuel 10: both implementations return success with (6,1,0) and the override flag. -/
theorem C26_cached_refines_uncached_witness :
    get_real_os_version (stub_env (some (nt_report (5, 1, 0) 7601)) (6, 1, 0) 7601) 10 =
      some { ret := true, major := 6, minor := 1, spack := 0, pbOverride := true } ∧
    ∃ g1 tr, Src.get_real_os_version (stub_env (some (nt_report (5, 1, 0) 7601)) (6, 1, 0) 7601)
        10 Src.Cache.zero =
        Outcome.returned
          ({ ret := true, major := 6, minor := 1, spack := 0, pbOverride := true }, g1, tr) ∧
      g1.g_os_version_major = 6 ∧ g1.g_os_version_minor = 1 ∧ g1.g_os_version_spack = 0 :=
  ⟨rfl,
    C26_cached_refines_uncached (stub_env (some (nt_report (5, 1, 0) 7601)) (6, 1, 0) 7601) 10
      { ret := true, major := 6, minor := 1, spack := 0, pbOverride := true } rfl rfl⟩

/-! ## C27: defaults of `ScanStr3` -/

/-- C27 (what the code does): with the scan returning the count `c` after converting the
first `max c 0` parsed values, `ScanStr3` pushes, for `c` = 0, 1, 2, 3, the parsed value of
every converted field and the caller's default of every other field, read back in the order
out1, out2, out3; but for `c = -1` (`EOF`) it pushes 0, 0 and the third default: the first two
defaults are not taken. `ScanStr2` pushes the parsed values of the converted fields and the
defaults of the others for `c` = -1, 0, 1, 2. -/
theorem C27_ScanStr3_defaults (def1 def2 def3 p1 p2 p3 : Int) (inp fmt : String)
    (rest : List StackItem) :
    ScanStr3 (fun _ _ => scan_count 3 [p1, p2, p3])
        (StackItem.int def3 :: StackItem.int def2 :: StackItem.int def1 ::
          StackItem.str inp :: StackItem.str fmt :: rest) =
      StackItem.int p1 :: StackItem.int p2 :: StackItem.int p3 :: rest ∧
    ScanStr3 (fun _ _ => scan_count 2 [p1, p2, p3])
        (StackItem.int def3 :: StackItem.int def2 :: StackItem.int def1 ::
          StackItem.str inp :: StackItem.str fmt :: rest) =
      StackItem.int p1 :: StackItem.int p2 :: StackItem.int def3 :: rest ∧
    ScanStr3 (fun _ _ => scan_count 1 [p1, p2, p3])
        (StackItem.int def3 :: StackItem.int def2 :: StackItem.int def1 ::
          StackItem.str inp :: StackItem.str fmt :: rest) =
      StackItem.int p1 :: StackItem.int def2 :: StackItem.int def3 :: rest ∧
    ScanStr3 (fun _ _ => scan_count 0 [p1, p2, p3])
        (StackItem.int def3 :: StackItem.int def2 :: StackItem.int def1 ::
          StackItem.str inp :: StackItem.str fmt :: rest) =
      StackItem.int def1 :: StackItem.int def2 :: StackItem.int def3 :: rest ∧
    ScanStr3 (fun _ _ => scan_count (-1) [p1, p2, p3])
        (StackItem.int def3 :: StackItem.int def2 :: StackItem.int def1 ::
          StackItem.str inp :: StackItem.str fmt :: rest) =
      StackItem.int 0 :: StackItem.int 0 :: StackItem.int def3 :: rest ∧
    ScanStr2 (fun _ _ => scan_count 2 [p1, p2])
        (StackItem.int def2 :: StackItem.int def1 ::
          StackItem.str inp :: StackItem.str fmt :: rest) =
      StackItem.int p1 :: StackItem.int p2 :: rest ∧
    ScanStr2 (fun _ _ => scan_count 1 [p1, p2])
        (StackItem.int def2 :: StackItem.int def1 ::
          StackItem.str inp :: StackItem.str fmt :: rest) =
      StackItem.int p1 :: StackItem.int def2 :: rest ∧
    ScanStr2 (fun _ _ => scan_count 0 [p1, p2])
        (StackItem.int def2 :: StackItem.int def1 ::
          StackItem.str inp :: StackItem.str fmt :: rest) =
      StackItem.int def1 :: StackItem.int def2 :: rest ∧
    ScanStr2 (fun _ _ => scan_count (-1) [p1, p2])
        (StackItem.int def2 :: StackItem.int def1 ::
          StackItem.str inp :: StackItem.str fmt :: rest) =
      StackItem.int def1 :: StackItem.int def2 :: rest := by
  refine ⟨?_, ?_, ?_, ?_, ?_, ?_, ?_, ?_, ?_⟩ <;> rfl

/-- C27 at the failing input: input string empty, format `%d.%d.%d`, defaults 7, 8, 9; the
scan returns `EOF` without converting anything. `ScanStr3` pushes 0, 0, 9; the claim asks for
7, 8, 9. With the input `5` (one field converted) it pushes 5, 8, 9. -/
theorem C27_ScanStr3_defaults_witness :
    ScanStr3 (fun inp _ => if inp = "" then scan_count (-1) [] else scan_count 1 [5])
        [StackItem.int 9, StackItem.int 8, StackItem.int 7, StackItem.str "",
          StackItem.str "%d.%d.%d"] =
      [StackItem.int 0, StackItem.int 0, StackItem.int 9] ∧
    ScanStr3 (fun inp _ => if inp = "" then scan_count (-1) [] else scan_count 1 [5])
        [StackItem.int 9, StackItem.int 8, StackItem.int 7, StackItem.str "5",
          StackItem.str "%d.%d.%d"] =
      [StackItem.int 5, StackItem.int 8, StackItem.int 9] ∧
    ScanStr3 (fun _ _ => scan_count (-1) [1, 2, 3])
        (StackItem.int 9 :: StackItem.int 8 :: StackItem.int 7 ::
          StackItem.str "" :: StackItem.str "%d.%d.%d" :: []) =
      StackItem.int 0 :: StackItem.int 0 :: StackItem.int 9 :: [] :=
  ⟨by decide, by decide,
    (C27_ScanStr3_defaults 7 8 9 1 2 3 "" "%d.%d.%d" []).2.2.2.2.1⟩

/-! ## C28: result of `RandMinMax` -/

theorem INT_of_range {x : Int} (h1 : -(2 ^ 31) ≤ x) (h2 : x < 2 ^ 31) : INT x = x := by
  unfold INT
  omega

theorem RandMinMax_in_range (min max : Int) (rnd : Nat) (rest : List StackItem)
    (hmin : -(2 ^ 31) ≤ min) (hmax : max < 2 ^ 31) (hle : min ≤ max)
    (hdiff : max - min < INT_MAX) :
    ∃ v, RandMinMax rnd (StackItem.int max :: StackItem.int min :: rest) =
        (StackItem.int v :: rest, []) ∧
      v = min + ((DWORD rnd % (max - min + 1).toNat : Nat) : Int) ∧ min ≤ v ∧ v ≤ max := by
  have e1 : INT max = max := INT_of_range (by omega) hmax
  have e2 : INT min = min := INT_of_range hmin (by omega)
  have hd : (max - min : Int) < 2147483647 := by
    unfold INT_MAX at hdiff
    exact_mod_cast hdiff
  have e3 : INT (max - min) = max - min := INT_of_range (by omega) (by omega)
  have e4 : abs (max - min) = max - min := by
    unfold abs
    rw [if_neg (by omega)]
  have e5 : INT (max - min) = max - min := e3
  have e6 : INT (max - min + 1) = max - min + 1 := INT_of_range (by omega) (by omega)
  have e7 : UINT (max - min + 1) = (max - min + 1).toNat := by
    unfold UINT
    congr 1
    omega
  have hpos : 0 < (max - min + 1).toNat := by omega
  have hr : DWORD rnd % (max - min + 1).toNat < (max - min + 1).toNat := Nat.mod_lt _ hpos
  have e8 : INT (((DWORD rnd % (max - min + 1).toNat : Nat) : Int) + min) =
      ((DWORD rnd % (max - min + 1).toNat : Nat) : Int) + min :=
    INT_of_range (by omega) (by omega)
  refine ⟨min + ((DWORD rnd % (max - min + 1).toNat : Nat) : Int), ?_, rfl, by omega, by omega⟩
  simp only [RandMinMax, popint, pushint, e1, e2, e3, e4, e5, e6, e7]
  rw [if_neg (by omega), e8, add_comm]

/-- C28 (what the code does): when the popped arguments are `min > max` (32-bit `int`
values), `RandMinMax` shows the message box, pushes 0 and then goes on to push a second
value: the stack holds two new entries, a random value on top and the 0 below it. -/
theorem C28_RandMinMax_pushes_twice (min max : Int) (rnd : Nat) (rest : List StackItem)
    (hmin : -(2 ^ 31) ≤ min ∧ min < 2 ^ 31) (hmax : -(2 ^ 31) ≤ max ∧ max < 2 ^ 31)
    (hbad : min > max) :
    ∃ v, RandMinMax rnd (StackItem.int max :: StackItem.int min :: rest) =
      (StackItem.int v :: StackItem.int 0 :: rest, [Event.MessageBox]) := by
  have e1 : INT max = max := INT_of_range hmax.1 hmax.2
  have e2 : INT min = min := INT_of_range hmin.1 hmin.2
  refine ⟨INT (((DWORD rnd % UINT (INT (INT (abs (INT (max - min))) + 1)) : Nat) : Int) + min),
    ?_⟩
  simp only [RandMinMax, popint, pushint, e1, e2]
  rw [if_pos hbad]

/-- C28 at the failing input: min = 5, max = 3, random word 1000. The stack holds 6 on top of
0 afterwards; the claim asks for the single value 0. With min = 5, max = 10 a single value
between 5 and 10 is pushed. -/
theorem C28_RandMinMax_pushes_twice_witness :
    RandMinMax 1000 [StackItem.int 3, StackItem.int 5] =
      ([StackItem.int 6, StackItem.int 0], [Event.MessageBox]) ∧
    RandMinMax 1000 [StackItem.int 10, StackItem.int 5] = ([StackItem.int 9], []) ∧
    ∃ v, RandMinMax 1000 (StackItem.int 3 :: StackItem.int 5 :: []) =
      (StackItem.int v :: StackItem.int 0 :: [], [Event.MessageBox]) :=
  ⟨by decide, by decide,
    C28_RandMinMax_pushes_twice 5 3 1000 [] (by decide) (by decide) (by decide)⟩

/-! ## What `strtrim` computes -/

theorem takeWhile_not_NUL (s junk : List Char) (hs : NUL ∉ s) :
    (s ++ NUL :: junk).takeWhile (fun c => c != NUL) = s := by
  induction s with
  | nil => simp [List.takeWhile]
  | cons a s ih =>
    have ha : a ≠ NUL := fun h => hs (by rw [h]; exact List.mem_cons_self _ _)
    have hs2 : NUL ∉ s := fun h => hs (List.mem_cons_of_mem _ h)
    have hb : (a != NUL) = true := by simpa using ha
    rw [List.cons_append, List.takeWhile_cons, hb, if_pos rfl, ih hs2]

theorem is_whitespace_NUL : is_whitespace NUL = false := by decide

theorem trim_right_loop_spec (x0 : Char) (tail : List Char) :
    ∀ rest : List Char,
      trim_right_loop (x0 :: (tail ++ rest)) tail.length =
        (x0 :: (tail.rdropWhile is_whitespace ++
            (List.replicate (tail.length - (tail.rdropWhile is_whitespace).length) NUL ++ rest)),
          (tail.rdropWhile is_whitespace).length) := by
  induction tail using List.reverseRecOn with
  | nil => intro rest; simp [trim_right_loop, List.rdropWhile_nil]
  | append_singleton init c ih =>
    intro rest
    have hlen : (init ++ [c]).length = init.length + 1 := by simp
    have hget : (x0 :: (init ++ [c] ++ rest)).getD (init.length + 1) NUL = c := by
      rw [List.getD_cons_succ, List.append_assoc, List.getD_append_right _ _ _ _ (le_refl _)]
      simp
    rw [hlen, trim_right_loop, hget]
    by_cases hc : is_whitespace c = true
    · rw [if_pos hc]
      have hset : (x0 :: (init ++ [c] ++ rest)).set (init.length + 1) NUL =
          x0 :: (init ++ NUL :: rest) := by
        simp [List.set_cons_succ, List.set_append_right]
      rw [hset, ih (NUL :: rest), List.rdropWhile_concat_pos _ _ _ hc]
      have hle : (init.rdropWhile is_whitespace).length ≤ init.length :=
        (List.rdropWhile_prefix is_whitespace init).length_le
      have e : init.length + 1 - (init.rdropWhile is_whitespace).length =
          (init.length - (init.rdropWhile is_whitespace).length) + 1 := by omega
      rw [e, List.replicate_succ']
      simp
    · rw [if_neg hc, List.rdropWhile_concat_neg _ _ _ hc]
      simp

theorem rdropWhile_cons (p : Char → Bool) (a : Char) (l : List Char) :
    (a :: l).rdropWhile p =
      if l.rdropWhile p = [] then (if p a then [] else [a]) else a :: l.rdropWhile p := by
  induction l using List.reverseRecOn with
  | nil => simp [List.rdropWhile_singleton, List.rdropWhile_nil]
  | append_singleton init c ih =>
    by_cases hc : p c = true
    · have e : a :: (init ++ [c]) = (a :: init) ++ [c] := rfl
      rw [e, List.rdropWhile_concat_pos _ _ _ hc, List.rdropWhile_concat_pos _ _ _ hc, ih]
    · have e : a :: (init ++ [c]) = (a :: init) ++ [c] := rfl
      rw [e, List.rdropWhile_concat_neg _ _ _ hc, List.rdropWhile_concat_neg _ _ _ hc]
      simp

theorem replicate_NUL_cons (k : Nat) (junk : List Char) :
    List.replicate k NUL ++ NUL :: junk = NUL :: (List.replicate k NUL ++ junk) := by
  induction k with
  | zero => rfl
  | succ k ih => rw [List.replicate_succ, List.cons_append, ih, List.cons_append]

theorem strtrim_buffer_right (s junk : List Char) (trim_left : Bool) (hs : NUL ∉ s) :
    ∃ junk2, (strtrim (s ++ NUL :: junk) trim_left true).1 =
      s.rdropWhile is_whitespace ++ NUL :: junk2 := by
  cases s with
  | nil => exact ⟨junk, by simp [strtrim, List.rdropWhile_nil]⟩
  | cons x0 tail =>
    have hx0 : x0 ≠ NUL := fun h => hs (by rw [h]; exact List.mem_cons_self _ _)
    have hlen : strlen (x0 :: tail ++ NUL :: junk) = tail.length + 1 := by
      unfold strlen
      rw [takeWhile_not_NUL _ _ hs]
      rfl
    have hloop := trim_right_loop_spec x0 tail (NUL :: junk)
    have hb : (strtrim (x0 :: tail ++ NUL :: junk) trim_left true).1 =
        if is_whitespace ((trim_right_loop (x0 :: (tail ++ NUL :: junk)) tail.length).1.getD
            (trim_right_loop (x0 :: (tail ++ NUL :: junk)) tail.length).2 NUL) then
          (trim_right_loop (x0 :: (tail ++ NUL :: junk)) tail.length).1.set
            (trim_right_loop (x0 :: (tail ++ NUL :: junk)) tail.length).2 NUL
        else (trim_right_loop (x0 :: (tail ++ NUL :: junk)) tail.length).1 := by
      simp only [strtrim, hlen]
      simp [hx0]
    rw [hb, hloop, rdropWhile_cons, replicate_NUL_cons]
    simp only
    by_cases hT : tail.rdropWhile is_whitespace = []
    · rw [hT]
      simp only [List.length_nil, List.nil_append, List.getD_cons_zero, List.set_cons_zero,
        if_true]
      by_cases hw : is_whitespace x0 = true
      · simp only [hw, if_true]
        exact ⟨_, rfl⟩
      · simp only [hw, if_false, Bool.false_eq_true]
        exact ⟨_, rfl⟩
    · rw [if_neg hT]
      have hlast := List.rdropWhile_last_not is_whitespace tail hT
      have hget : (x0 :: (tail.rdropWhile is_whitespace ++
          NUL :: (List.replicate (tail.length - (tail.rdropWhile is_whitespace).length) NUL ++
            junk))).getD (tail.rdropWhile is_whitespace).length NUL =
          (tail.rdropWhile is_whitespace).getLast hT := by
        obtain ⟨init, c, hic⟩ : ∃ init c, tail.rdropWhile is_whitespace = init ++ [c] :=
          ⟨_, _, (List.dropLast_append_getLast hT).symm⟩
        simp only [hic, List.getLast_append_singleton, List.length_append, List.length_singleton,
          List.getD_cons_succ, List.append_assoc]
        rw [List.getD_append_right _ _ _ _ (le_refl _)]
        simp
      rw [hget, if_neg hlast]
      exact ⟨_, rfl⟩

theorem strtrim_buffer_noright (input : List Char) (trim_left : Bool) :
    (strtrim input trim_left false).1 = input := by
  simp [strtrim]

theorem trim_left_loop_spec (u junk : List Char) :
    ∀ n, trim_left_loop (u ++ NUL :: junk) n = n + (u.takeWhile is_whitespace).length := by
  induction u with
  | nil => intro n; simp [trim_left_loop, is_whitespace_NUL]
  | cons a u ih =>
    intro n
    rw [List.cons_append, trim_left_loop]
    by_cases ha : is_whitespace a = true
    · rw [if_pos ha, ih, List.takeWhile_cons, if_pos ha]
      simp only [List.length_cons]
      omega
    · rw [if_neg ha, List.takeWhile_cons, if_neg ha]
      rfl

theorem c_str_dropWhile (u junk : List Char) (hu : NUL ∉ u) :
    c_str (u ++ NUL :: junk) (u.takeWhile is_whitespace).length =
      u.dropWhile is_whitespace := by
  unfold c_str
  have hle : (u.takeWhile is_whitespace).length ≤ u.length :=
    (List.takeWhile_prefix is_whitespace).length_le
  rw [List.drop_append_of_le_length hle]
  have hd : u.drop (u.takeWhile is_whitespace).length = u.dropWhile is_whitespace := by
    have h := List.drop_left (u.takeWhile is_whitespace) (u.dropWhile is_whitespace)
    rw [List.takeWhile_append_dropWhile] at h
    exact h
  rw [hd]
  exact takeWhile_not_NUL _ _ (fun h => hu ((List.dropWhile_suffix _).subset h))

theorem strtrim_left_phase (input u junk : List Char) (trim_left trim_right : Bool)
    (hu : NUL ∉ u) (hb : (strtrim input trim_left trim_right).1 = u ++ NUL :: junk) :
    c_str (strtrim input trim_left trim_right).1 (strtrim input trim_left trim_right).2 =
      if trim_left then u.dropWhile is_whitespace else u := by
  have h2 : (strtrim input trim_left trim_right).2 =
      if (trim_left && ((strtrim input trim_left trim_right).1.getD 0 NUL != NUL)) = true then
        trim_left_loop ((strtrim input trim_left trim_right).1.drop 0) 0
      else 0 := rfl
  rw [h2, hb]
  cases trim_left with
  | false =>
    simp only [Bool.false_and, Bool.false_eq_true, if_false]
    unfold c_str
    rw [List.drop_zero]
    exact takeWhile_not_NUL _ _ hu
  | true =>
    simp only [Bool.true_and, if_true]
    cases u with
    | nil => simp [c_str, List.takeWhile]
    | cons a u =>
      have ha : a ≠ NUL := fun h => hu (by rw [h]; exact List.mem_cons_self _ _)
      have hg : ((a :: u ++ NUL :: junk).getD 0 NUL != NUL) = true := by simpa using ha
      rw [hg, if_pos rfl, List.drop_zero, trim_left_loop_spec, Nat.zero_add]
      exact c_str_dropWhile _ _ hu

theorem strtrim_result_spec (s junk : List Char) (trim_left trim_right : Bool) (hs : NUL ∉ s) :
    strtrim_result s junk trim_left trim_right =
      if trim_left then
        (if trim_right then s.rdropWhile is_whitespace else s).dropWhile is_whitespace
      else (if trim_right then s.rdropWhile is_whitespace else s) := by
  unfold strtrim_result
  cases trim_right with
  | true =>
    obtain ⟨junk2, hb⟩ := strtrim_buffer_right s junk trim_left hs
    have hu : NUL ∉ s.rdropWhile is_whitespace :=
      fun h => hs ((List.rdropWhile_prefix is_whitespace s).subset h)
    rw [strtrim_left_phase _ _ junk2 trim_left true hu hb]
    rfl
  | false =>
    have hb := strtrim_buffer_noright (s ++ NUL :: junk) trim_left
    rw [strtrim_left_phase _ s junk trim_left false hs hb]
    rfl

theorem rdropWhile_decomp (p : Char → Bool) (l : List Char) :
    ∃ trail, l = l.rdropWhile p ++ trail ∧ ∀ c ∈ trail, p c = true := by
  induction l using List.reverseRecOn with
  | nil => exact ⟨[], by simp [List.rdropWhile_nil], by simp⟩
  | append_singleton init c ih =>
    by_cases hc : p c = true
    · obtain ⟨trail, h1, h2⟩ := ih
      refine ⟨trail ++ [c], ?_, ?_⟩
      · rw [List.rdropWhile_concat_pos _ _ _ hc, ← List.append_assoc, ← h1]
      · intro x hx
        rcases List.mem_append.1 hx with hx | hx
        · exact h2 x hx
        · rw [List.mem_singleton.1 hx]; exact hc
    · exact ⟨[], by rw [List.rdropWhile_concat_neg _ _ _ hc]; simp, by simp⟩

theorem trimmed_ends (s : List Char) :
    (∀ c, ((s.rdropWhile is_whitespace).dropWhile is_whitespace).head? = some c →
      is_whitespace c = false) ∧
    (∀ c, ((s.rdropWhile is_whitespace).dropWhile is_whitespace).getLast? = some c →
      is_whitespace c = false) := by
  constructor
  · intro c hc
    have h := List.head?_dropWhile_not is_whitespace (s.rdropWhile is_whitespace)
    rw [hc] at h
    exact h
  · intro c hc
    have hne : (s.rdropWhile is_whitespace).dropWhile is_whitespace ≠ [] := by
      intro h
      rw [h] at hc
      cases hc
    have hdec := List.takeWhile_append_dropWhile is_whitespace (s.rdropWhile is_whitespace)
    have hne2 : s.rdropWhile is_whitespace ≠ [] := by
      intro h
      rw [h] at hne
      exact hne rfl
    have hlast := List.rdropWhile_last_not is_whitespace s hne2
    have e : (s.rdropWhile is_whitespace).getLast hne2 =
        ((s.rdropWhile is_whitespace).dropWhile is_whitespace).getLast hne := by
      have h3 := List.getLast_append_right
        (l := (s.rdropWhile is_whitespace).takeWhile is_whitespace) hne
      simp only [hdec] at h3
      exact h3
    rw [List.getLast?_eq_getLast _ hne] at hc
    simp only [Option.some.injEq] at hc
    rw [← hc, ← e]
    simpa using hlast

/-! ## C30: `strtrim` -/

/-- C30: for every string `s` without `NUL`, stored in an array with its terminating `NUL` and
anything behind it, `strtrim(s, true, true)` returns a string `r` with `s = lead ++ r ++ trail`
where `lead` and `trail` consist of whitespace only (space, tab, LF, CR) and `r` neither starts
nor ends with whitespace, so the leading and trailing runs removed are the maximal ones and the
interior is untouched; `r` is empty when `s` is empty or all whitespace; trimming `r` again
returns `r`. With `trim_left = false` the result is `s` without its maximal trailing run of
whitespace, with `trim_right = false` it is `s` without its maximal leading run, with both
false it is `s`. `wcstrim` is the same function. -/
theorem C30_strtrim (s junk : List Char) (hs : NUL ∉ s) :
    (∃ lead trail, s = lead ++ strtrim_result s junk true true ++ trail ∧
      (∀ c ∈ lead, is_whitespace c = true) ∧ (∀ c ∈ trail, is_whitespace c = true) ∧
      (∀ c, (strtrim_result s junk true true).head? = some c → is_whitespace c = false) ∧
      (∀ c, (strtrim_result s junk true true).getLast? = some c → is_whitespace c = false)) ∧
    ((∀ c ∈ s, is_whitespace c = true) → strtrim_result s junk true true = []) ∧
    (∀ junk2, strtrim_result (strtrim_result s junk true true) junk2 true true =
      strtrim_result s junk true true) ∧
    strtrim_result s junk false true = s.rdropWhile is_whitespace ∧
    (∃ trail, s = strtrim_result s junk false true ++ trail ∧
      (∀ c ∈ trail, is_whitespace c = true) ∧
      (∀ c, (strtrim_result s junk false true).getLast? = some c → is_whitespace c = false)) ∧
    strtrim_result s junk true false = s.dropWhile is_whitespace ∧
    (∃ lead, s = lead ++ strtrim_result s junk true false ∧
      (∀ c ∈ lead, is_whitespace c = true) ∧
      (∀ c, (strtrim_result s junk true false).head? = some c → is_whitespace c = false)) ∧
    strtrim_result s junk false false = s ∧
    (∀ input trim_left trim_right,
      wcstrim input trim_left trim_right = strtrim input trim_left trim_right) := by
  have hres : strtrim_result s junk true true =
      (s.rdropWhile is_whitespace).dropWhile is_whitespace := by
    rw [strtrim_result_spec s junk true true hs]
    rfl
  have hr : strtrim_result s junk false true = s.rdropWhile is_whitespace := by
    rw [strtrim_result_spec s junk false true hs]
    rfl
  have hl : strtrim_result s junk true false = s.dropWhile is_whitespace := by
    rw [strtrim_result_spec s junk true false hs]
    rfl
  obtain ⟨hhead, hlast⟩ := trimmed_ends s
  obtain ⟨trail, ht1, ht2⟩ := rdropWhile_decomp is_whitespace s
  refine ⟨?_, ?_, ?_, hr, ?_, hl, ?_, ?_, fun _ _ _ => rfl⟩
  · rw [hres]
    refine ⟨(s.rdropWhile is_whitespace).takeWhile is_whitespace, trail, ?_, ?_, ht2, hhead,
      hlast⟩
    · rw [List.takeWhile_append_dropWhile]
      exact ht1
    · intro c hc
      exact List.mem_takeWhile_imp hc
  · intro hall
    rw [hres, List.rdropWhile_eq_nil_iff.2 hall]
    rfl
  · intro junk2
    rw [hres]
    have hn : NUL ∉ (s.rdropWhile is_whitespace).dropWhile is_whitespace := fun h =>
      hs ((List.rdropWhile_prefix is_whitespace s).subset ((List.dropWhile_suffix _).subset h))
    rw [strtrim_result_spec _ junk2 true true hn]
    simp only [if_true]
    have e : ((s.rdropWhile is_whitespace).dropWhile is_whitespace).rdropWhile is_whitespace =
        (s.rdropWhile is_whitespace).dropWhile is_whitespace := by
      rw [List.rdropWhile_eq_self_iff]
      intro hne
      have h := hlast _ (List.getLast?_eq_getLast _ hne)
      simp [h]
    rw [e, List.dropWhile_idempotent]
  · rw [hr]
    refine ⟨trail, ht1, ht2, ?_⟩
    intro c hc
    have hne : s.rdropWhile is_whitespace ≠ [] := by
      intro h
      rw [h] at hc
      cases hc
    have h := List.rdropWhile_last_not is_whitespace s hne
    rw [List.getLast?_eq_getLast _ hne] at hc
    simp only [Option.some.injEq] at hc
    rw [← hc]
    simpa using h
  · rw [hl]
    refine ⟨s.takeWhile is_whitespace, (List.takeWhile_append_dropWhile _ _).symm, ?_, ?_⟩
    · intro c hc
      exact List.mem_takeWhile_imp hc
    · intro c hc
      have h := List.head?_dropWhile_not is_whitespace s
      rw [hc] at h
      exact h
  · rw [strtrim_result_spec s junk false false hs]
    rfl

/-- C30 at a concrete input: the string of two spaces, `a b`, a space, a tab and a line feed,
stored with `xyz` behind the terminating `NUL`. -/
theorem C30_strtrim_witness :
    strtrim_result [' ', ' ', 'a', ' ', 'b', ' ', '\t', '\n'] ['x', 'y', 'z'] true true =
      ['a', ' ', 'b'] ∧
    strtrim_result [' ', ' ', 'a', ' ', 'b', ' ', '\t', '\n'] ['x', 'y', 'z'] false true =
      [' ', ' ', 'a', ' ', 'b'] ∧
    strtrim_result [' ', ' ', 'a', ' ', 'b', ' ', '\t', '\n'] ['x', 'y', 'z'] true false =
      ['a', ' ', 'b', ' ', '\t', '\n'] ∧
    strtrim_result [' ', '\r', ' '] [] true true = [] ∧
    strtrim_result [' ', ' ', 'a', ' ', 'b', ' ', '\t', '\n'] ['x', 'y', 'z'] false true =
      List.rdropWhile is_whitespace [' ', ' ', 'a', ' ', 'b', ' ', '\t', '\n'] :=
  ⟨by decide, by decide, by decide, by decide,
    (C30_strtrim [' ', ' ', 'a', ' ', 'b', ' ', '\t', '\n'] ['x', 'y', 'z']
      (by decide)).2.2.2.1⟩

/-! ## `parse_parameter` and the value of a token -/

theorem takeWhile_ne_indexOf (c : Char) (s : List Char) :
    (s.takeWhile (fun x => x != c)).length = s.indexOf c ∧
    s.take (s.indexOf c) = s.takeWhile (fun x => x != c) := by
  induction s with
  | nil => simp
  | cons a s ih =>
    by_cases ha : a = c
    · subst ha
      simp [List.takeWhile]
    · have hb : (a != c) = true := by simpa using ha
      have hi : (a :: s).indexOf c = s.indexOf c + 1 := by
        rw [List.indexOf_cons_ne _ ha]
      rw [List.takeWhile_cons, hb, if_pos rfl, hi, List.take_succ_cons, List.length_cons,
        ih.1, ih.2]
      exact ⟨rfl, rfl⟩

theorem takeWhile_ne_of_not_mem (c : Char) (s : List Char) (h : c ∉ s) :
    s.takeWhile (fun x => x != c) = s := by
  rw [List.takeWhile_eq_self_iff]
  intro x hx
  have : x ≠ c := fun e => h (e ▸ hx)
  simpa using this

theorem parse_parameter_spec (str arg_name dest : List Char) (dest_size len : Nat)
    (hlen : len ≤ str.length) :
    parse_parameter str len arg_name { first := false, dest_buff := dest } dest_size =
      match token_value arg_name (str.take len) with
      | some value => (true, { first := false, dest_buff := value.take (dest_size - 1) })
      | none => (false, { first := false, dest_buff := dest }) := by
  cases str with
  | nil =>
    have h0 : len = 0 := by simpa using hlen
    subst h0
    simp [parse_parameter, token_value]
  | cons c more =>
    cases len with
    | zero => simp [parse_parameter, token_value]
    | succ n =>
      have hn : n ≤ more.length := by simpa using hlen
      rw [List.take_succ_cons]
      simp only [parse_parameter, Bool.false_eq_true, if_false, List.getD_cons_zero,
        List.drop_succ_cons, List.drop_zero, Nat.add_sub_cancel, token_value]
      have hbl : (more.take n).length = n := by rw [List.length_take]; omega
      generalize more.take n = body at hbl ⊢
      by_cases hg : c = '/' ∧ body ≠ []
      · have hg1 : n + 1 > 1 ∧ c = '/' := by
          refine ⟨?_, hg.1⟩
          rcases Nat.eq_zero_or_pos n with h0 | h0
          · exfalso
            apply hg.2
            rw [h0] at hbl
            exact List.length_eq_zero.1 hbl
          · omega
        rw [if_pos hg1, if_pos hg]
        obtain ⟨hidx, htake⟩ := takeWhile_ne_indexOf '=' body
        by_cases hm : '=' ∈ body
        · simp only [STRCHR, if_pos hm, STRICMP, htake, hidx]
          by_cases he : (body.takeWhile (fun x => x != '=')).map tolower =
              arg_name.map tolower
          · rw [if_pos he, if_pos he]
            simp
          · rw [if_neg he, if_neg he]
            simp
        · simp only [STRCHR, if_neg hm, STRICMP, takeWhile_ne_of_not_mem _ _ hm]
          by_cases he : body.map tolower = arg_name.map tolower
          · simp [he]
          · simp [he]
      · have hg1 : ¬(n + 1 > 1 ∧ c = '/') := by
          intro ⟨h1, h2⟩
          apply hg
          refine ⟨h2, ?_⟩
          intro he
          rw [he] at hbl
          simp only [List.length_nil] at hbl
          omega
        rw [if_neg hg1, if_neg hg]

/-! ## The loop of `parse_commandline` and the tokens of the line -/

theorem parse_token_spec (cmd arg_name : List Char) (dest_size : Nat) (v : CmdVars)
    (cur : List Char) (i : Nat)
    (hinv : (v.tok_pos = none ∧ v.tok_len = 0 ∧ cur = []) ∨
      (∃ p, v.tok_pos = some p ∧ 0 < v.tok_len ∧ p + v.tok_len = i ∧ i ≤ cmd.length ∧
        cur = (cmd.drop p).take v.tok_len)) :
    parse_token cmd arg_name dest_size v =
      if cur = [] then v
      else if v.first = true then { v with first := false }
      else
        match token_value arg_name cur with
        | some value => { v with bSuccess := true, dest_buff := value.take (dest_size - 1) }
        | none => v := by
  obtain ⟨b, f, tl, tp, fl, d⟩ := v
  rcases hinv with ⟨h1, _, h3⟩ | ⟨p, h1, h2, h3, h4, h5⟩
  · simp only at h1 h3
    subst h1 h3
    simp [parse_token]
  · simp only at h1 h2 h3 h5
    subst h1
    have hlen : tl ≤ (cmd.drop p).length := by rw [List.length_drop]; omega
    have hne : cur ≠ [] := by
      intro he
      have := congrArg List.length h5
      rw [he, List.length_take] at this
      simp only [List.length_nil] at this
      omega
    rw [if_neg hne]
    simp only [parse_token]
    cases f with
    | true => simp [parse_parameter]
    | false =>
      rw [parse_parameter_spec _ _ _ _ _ hlen, ← h5]
      rcases token_value arg_name cur with _ | value
      · simp
      · simp

theorem emit_step (cmd arg_name : List Char) (dest_size : Nat) (v : CmdVars)
    (cur : List Char) (i : Nat) (S : List (List Char))
    (hinv : (v.tok_pos = none ∧ v.tok_len = 0 ∧ cur = []) ∨
      (∃ p, v.tok_pos = some p ∧ 0 < v.tok_len ∧ p + v.tok_len = i ∧ i ≤ cmd.length ∧
        cur = (cmd.drop p).take v.tok_len)) :
    lookup arg_name dest_size
        (if v.first = true then ((if cur = [] then [] else [cur]) ++ S).tail
          else (if cur = [] then [] else [cur]) ++ S)
        (v.bSuccess, v.dest_buff) =
      lookup arg_name dest_size
        (if (parse_token cmd arg_name dest_size v).first = true then S.tail else S)
        ((parse_token cmd arg_name dest_size v).bSuccess,
          (parse_token cmd arg_name dest_size v).dest_buff) ∧
    (parse_token cmd arg_name dest_size v).flag = v.flag := by
  rw [parse_token_spec cmd arg_name dest_size v cur i hinv]
  by_cases hc : cur = []
  · simp [hc]
  · simp only [if_neg hc, List.singleton_append]
    by_cases hf : v.first = true
    · simp [hf]
    · simp only [if_neg hf]
      rcases htv : token_value arg_name cur with _ | value
      · simp [lookup, htv, hf]
      · simp [lookup, htv, hf]

theorem take_succ_drop (cmd : List Char) (p n : Nat) (h : p + n < cmd.length) :
    (cmd.drop p).take (n + 1) = (cmd.drop p).take n ++ [cmd.getD (p + n) NUL] := by
  rw [List.take_succ, List.getElem?_drop]
  have e : cmd[p + n]? = some (cmd.getD (p + n) NUL) := by
    rw [List.getD_eq_getElem?_getD, List.getElem?_eq_getElem h]
    rfl
  rw [e]
  rfl

theorem drop_eq_getD_cons (cmd : List Char) (i : Nat) (h : i < cmd.length) :
    cmd.drop i = cmd.getD i NUL :: cmd.drop (i + 1) := by
  rw [List.drop_eq_getElem_cons h, List.getD_eq_getElem?_getD, List.getElem?_eq_getElem h]
  rfl

theorem commandline_loop_spec (cmd arg_name : List Char) (dest_size : Nat) :
    ∀ (todo i : Nat) (v : CmdVars) (cur : List Char), i + todo = cmd.length →
      ((v.tok_pos = none ∧ v.tok_len = 0 ∧ cur = []) ∨
        (∃ p, v.tok_pos = some p ∧ 0 < v.tok_len ∧ p + v.tok_len = i ∧ i ≤ cmd.length ∧
          cur = (cmd.drop p).take v.tok_len)) →
      ((parse_token cmd arg_name dest_size
          (commandline_loop cmd arg_name dest_size todo i v)).bSuccess,
        (parse_token cmd arg_name dest_size
          (commandline_loop cmd arg_name dest_size todo i v)).dest_buff) =
      lookup arg_name dest_size
        (if v.first = true then (split_tokens v.flag cur (cmd.drop i)).tail
          else split_tokens v.flag cur (cmd.drop i))
        (v.bSuccess, v.dest_buff) := by
  intro todo
  induction todo with
  | zero =>
    intro i v cur hi hinv
    have hd : cmd.drop i = [] := List.drop_eq_nil_of_le (by omega)
    rw [hd, commandline_loop, split_tokens]
    have h := (emit_step cmd arg_name dest_size v cur i [] hinv).1
    rw [List.append_nil] at h
    rw [h]
    split <;> rfl
  | succ n ih =>
    intro i v cur hi hinv
    have hlt : i < cmd.length := by omega
    rw [drop_eq_getD_cons cmd i hlt, commandline_loop, split_tokens]
    by_cases hq : cmd.getD i NUL = QUOTE
    · rw [if_pos hq, if_pos hq]
      obtain ⟨h1, h2⟩ := emit_step cmd arg_name dest_size v cur i
        (split_tokens (!v.flag) [] (cmd.drop (i + 1))) hinv
      rw [h1]
      have := ih (i + 1)
        { parse_token cmd arg_name dest_size v with
          tok_len := 0, tok_pos := none,
          flag := !(parse_token cmd arg_name dest_size v).flag } []
        (by omega) (Or.inl ⟨rfl, rfl, rfl⟩)
      simp only [h2] at this
      simp only [h2]
      exact this
    · rw [if_neg hq, if_neg hq]
      by_cases hs : cmd.getD i NUL = ' ' ∧ v.flag = false
      · rw [if_pos hs, if_pos hs]
        obtain ⟨h1, h2⟩ := emit_step cmd arg_name dest_size v cur i
          (split_tokens v.flag [] (cmd.drop (i + 1))) hinv
        rw [h1]
        have := ih (i + 1)
          { parse_token cmd arg_name dest_size v with tok_len := 0, tok_pos := none } []
          (by omega) (Or.inl ⟨rfl, rfl, rfl⟩)
        simp only [h2] at this
        simp only [h2]
        exact this
      · rw [if_neg hs, if_neg hs]
        rcases hinv with ⟨h1, h2, h3⟩ | ⟨p, h1, h2, h3, h4, h5⟩
        · have := ih (i + 1)
            { v with tok_pos := some i, tok_len := v.tok_len + 1 } (cur ++ [cmd.getD i NUL])
            (by omega)
            (Or.inr ⟨i, rfl, by simp, by simp only; omega, by omega, by
              simp only
              rw [h2, h3, drop_eq_getD_cons cmd i hlt]
              rfl⟩)
          simp only [h1, if_true]
          exact this
        · have hne : ¬(v.tok_pos = none) := by rw [h1]; simp
          have := ih (i + 1)
            { v with tok_len := v.tok_len + 1 } (cur ++ [cmd.getD i NUL])
            (by omega)
            (Or.inr ⟨p, h1, by simp, by simp only; omega, by omega, by
              simp only
              rw [take_succ_drop cmd p v.tok_len (by omega), h3, ← h5]⟩)
          simp only [if_neg hne]
          exact this

theorem parse_commandline_spec (cmd arg_name dest_buff : List Char) (dest_size : Nat) :
    parse_commandline (some cmd) arg_name dest_buff dest_size =
      lookup arg_name dest_size (tokens cmd).tail (false, dest_buff) := by
  have h := commandline_loop_spec cmd arg_name dest_size cmd.length 0
    { bSuccess := false, first := true, tok_len := 0, tok_pos := none, flag := false,
      dest_buff := dest_buff } [] (by omega) (Or.inl ⟨rfl, rfl, rfl⟩)
  simp only [List.drop_zero, if_true] at h
  unfold parse_commandline tokens
  exact h

/-! ## Tokens that carry a value, in the words of the specification -/

theorem tolower_eq_sign (c : Char) : tolower c = '=' → c = '=' := by
  unfold tolower
  by_cases h : 65 ≤ c.toNat ∧ c.toNat ≤ 90
  · rw [if_pos h]
    obtain ⟨h1, h2⟩ := h
    generalize c.toNat = n at h1 h2
    intro he
    exfalso
    interval_cases n <;> revert he <;> decide
  · rw [if_neg h]
    exact fun x => x

theorem not_mem_of_same_name (name arg_name : List Char)
    (h : name.map tolower = arg_name.map tolower) (heq : '=' ∉ arg_name) : '=' ∉ name := by
  intro hm
  have h1 : tolower '=' ∈ name.map tolower := List.mem_map_of_mem _ hm
  rw [h] at h1
  obtain ⟨x, hx, hxe⟩ := List.mem_map.1 h1
  have h2 : tolower '=' = '=' := by decide
  rw [h2] at hxe
  rw [tolower_eq_sign x hxe] at hx
  exact heq hx

theorem takeWhile_until (c : Char) (s rest : List Char) (hs : c ∉ s) :
    (s ++ c :: rest).takeWhile (fun x => x != c) = s := by
  induction s with
  | nil => simp [List.takeWhile]
  | cons a s ih =>
    have ha : a ≠ c := fun h => hs (by rw [h]; exact List.mem_cons_self _ _)
    have hs2 : c ∉ s := fun h => hs (List.mem_cons_of_mem _ h)
    have hb : (a != c) = true := by simpa using ha
    rw [List.cons_append, List.takeWhile_cons, hb, if_pos rfl, ih hs2]

theorem is_parameter_of_token_value (arg_name tok value : List Char)
    (h : token_value arg_name tok = some value) : is_parameter arg_name tok value := by
  cases tok with
  | nil => simp [token_value] at h
  | cons c body =>
    simp only [token_value] at h
    by_cases hg : c = '/' ∧ body ≠ []
    · rw [if_pos hg] at h
      by_cases he : (body.takeWhile (fun x => x != '=')).map tolower = arg_name.map tolower
      · rw [if_pos he] at h
        simp only [Option.some.injEq] at h
        refine ⟨body.takeWhile (fun x => x != '='), he, ?_⟩
        rw [hg.1]
        by_cases hm : '=' ∈ body
        · right
          have hdec := List.takeWhile_append_dropWhile (fun x => x != '=') body
          have hidx := (takeWhile_ne_indexOf '=' body).1
          have hdrop : body.dropWhile (fun x => x != '=') = '=' :: value := by
            rw [← h]
            have hd : body.drop (body.takeWhile (fun x => x != '=')).length =
                body.dropWhile (fun x => x != '=') := by
              have h3 := List.drop_left (body.takeWhile (fun x => x != '='))
                (body.dropWhile (fun x => x != '='))
              rw [hdec] at h3
              exact h3
            have hne : body.dropWhile (fun x => x != '=') ≠ [] := by
              intro hnil
              rw [hnil, List.append_nil] at hdec
              have := takeWhile_ne_indexOf '=' body
              rw [hdec] at this
              have hlt := List.indexOf_lt_length.2 hm
              omega
            have hhead := List.head_dropWhile_not (fun x => x != '=') body hne
            rcases hdw : body.dropWhile (fun x => x != '=') with _ | ⟨x, xs⟩
            · exact absurd hdw hne
            · simp only [hdw, List.head_cons] at hhead
              have hx : x = '=' := by simpa using hhead
              rw [← List.drop_drop, hd, hdw, hx]
              rfl
          rw [← hdrop, hdec]
        · left
          rw [takeWhile_ne_of_not_mem _ _ hm] at h ⊢
          refine ⟨rfl, ?_⟩
          rw [← h]
          exact List.drop_eq_nil_of_le (by omega)
      · rw [if_neg he] at h
        cases h
    · rw [if_neg hg] at h
      cases h

theorem token_value_of_is_parameter (arg_name tok value : List Char)
    (hne : arg_name ≠ []) (heq : '=' ∉ arg_name)
    (h : is_parameter arg_name tok value) : token_value arg_name tok = some value := by
  obtain ⟨name, hn, hcase⟩ := h
  have hnm := not_mem_of_same_name name arg_name hn heq
  have hnn : name ≠ [] := by
    intro he
    rw [he] at hn
    have := congrArg List.length hn
    simp only [List.map_nil, List.length_nil, List.length_map] at this
    exact hne (List.length_eq_zero.1 this.symm)
  rcases hcase with ⟨ht, hv⟩ | ht
  · subst ht hv
    simp only [token_value]
    rw [if_pos ⟨trivial, hnn⟩, takeWhile_ne_of_not_mem _ _ hnm, if_pos hn]
    congr 1
    exact List.drop_eq_nil_of_le (by omega)
  · subst ht
    simp only [token_value]
    rw [if_pos ⟨trivial, by simp⟩, takeWhile_until _ _ _ hnm, if_pos hn]
    congr 1
    have e : name ++ '=' :: value = (name ++ ['=']) ++ value := by simp
    rw [e]
    exact List.drop_left' (by simp)

theorem lookup_cases (arg_name : List Char) (dest_size : Nat) :
    ∀ (toks : List (List Char)) (r0 : Bool × List Char),
      ((∀ tok ∈ toks, token_value arg_name tok = none) ∧
        lookup arg_name dest_size toks r0 = r0) ∨
      (∃ before tok after value, toks = before ++ tok :: after ∧
        token_value arg_name tok = some value ∧
        (∀ t ∈ after, token_value arg_name t = none) ∧
        lookup arg_name dest_size toks r0 = (true, value.take (dest_size - 1))) := by
  intro toks
  induction toks with
  | nil => intro r0; left; exact ⟨by simp, rfl⟩
  | cons t rest ih =>
    intro r0
    rcases htv : token_value arg_name t with _ | value
    · rcases ih r0 with ⟨h1, h2⟩ | ⟨before, tok, after, v, h1, h2, h3, h4⟩
      · left
        refine ⟨?_, by rw [lookup, htv]; exact h2⟩
        intro tok hm
        rcases List.mem_cons.1 hm with rfl | hm
        · exact htv
        · exact h1 tok hm
      · right
        exact ⟨t :: before, tok, after, v, by rw [h1]; rfl, h2, h3, by rw [lookup, htv]; exact h4⟩
    · rcases ih (true, value.take (dest_size - 1)) with ⟨h1, h2⟩ |
        ⟨before, tok, after, v, h1, h2, h3, h4⟩
      · right
        exact ⟨[], t, rest, value, rfl, htv, h1, by rw [lookup, htv]; exact h2⟩
      · right
        exact ⟨t :: before, tok, after, v, by rw [h1]; rfl, h2, h3, by rw [lookup, htv]; exact h4⟩

/-! ## C29: command-line parameter lookup -/

/-- C29 (amended): for every command line, every parameter name that is not empty and
contains no `=`, and every destination size above 0, `parse_commandline` works on the tokens
of the line (split at spaces outside quotes and at every double quote) behind the first one:
it returns false exactly when none of them is `/NAME` or `/NAME=value` with `NAME` equal to
the name ignoring case, and then leaves the destination as it was, so that `GetParameter`
pushes the caller's default; otherwise it returns true and the destination holds the value of
the last such token, cut to `dest_size - 1` characters (the empty string for `/NAME`). -/
theorem C29_parameter_lookup (cmd arg_name dest_buff : List Char) (dest_size : Nat)
    (rest : List StackItem)
    (hne : arg_name ≠ []) (heq : '=' ∉ arg_name) (_hsize : 0 < dest_size) :
    ((parse_commandline (some cmd) arg_name dest_buff dest_size).1 = false ↔
      ∀ tok ∈ (tokens cmd).tail, ∀ value, ¬is_parameter arg_name tok value) ∧
    ((parse_commandline (some cmd) arg_name dest_buff dest_size).1 = false →
      (parse_commandline (some cmd) arg_name dest_buff dest_size).2 = dest_buff ∧
      GetParameter (some cmd) dest_size
          (StackItem.str (String.mk dest_buff) :: StackItem.str (String.mk arg_name) :: rest) =
        StackItem.str (String.mk dest_buff) :: rest) ∧
    ((parse_commandline (some cmd) arg_name dest_buff dest_size).1 = true →
      ∃ before tok after value, (tokens cmd).tail = before ++ tok :: after ∧
        is_parameter arg_name tok value ∧
        (∀ t ∈ after, ∀ w, ¬is_parameter arg_name t w) ∧
        (parse_commandline (some cmd) arg_name dest_buff dest_size).2 =
          value.take (dest_size - 1) ∧
        GetParameter (some cmd) dest_size
            (StackItem.str (String.mk dest_buff) :: StackItem.str (String.mk arg_name) ::
              rest) =
          StackItem.str (String.mk (value.take (dest_size - 1))) :: rest) := by
  have hnone : ∀ tok, token_value arg_name tok = none ↔
      ∀ value, ¬is_parameter arg_name tok value := by
    intro tok
    constructor
    · intro h value hp
      rw [token_value_of_is_parameter arg_name tok value hne heq hp] at h
      cases h
    · intro h
      rcases htv : token_value arg_name tok with _ | value
      · rfl
      · exact absurd (is_parameter_of_token_value arg_name tok value htv) (h value)
  have hget : GetParameter (some cmd) dest_size
      (StackItem.str (String.mk dest_buff) :: StackItem.str (String.mk arg_name) :: rest) =
      StackItem.str (String.mk (parse_commandline (some cmd) arg_name dest_buff dest_size).2) ::
        rest := rfl
  rw [hget, parse_commandline_spec]
  rcases lookup_cases arg_name dest_size (tokens cmd).tail (false, dest_buff) with
    ⟨h1, h2⟩ | ⟨before, tok, after, value, h1, h2, h3, h4⟩
  · rw [h2]
    refine ⟨⟨fun _ tok hm => (hnone tok).1 (h1 tok hm), fun _ => rfl⟩, fun _ => ⟨rfl, rfl⟩, ?_⟩
    intro h
    cases h
  · rw [h4]
    refine ⟨⟨?_, ?_⟩, ?_, ?_⟩
    · intro h
      cases h
    · intro h
      exfalso
      have hm : tok ∈ (tokens cmd).tail := by rw [h1]; simp
      exact h tok hm value (is_parameter_of_token_value arg_name tok value h2)
    · intro h
      cases h
    · intro _
      exact ⟨before, tok, after, value, h1, is_parameter_of_token_value arg_name tok value h2,
        fun t hm => (hnone t).1 (h3 t hm), rfl, rfl⟩

/-- C29 (amended) at a concrete input: a quoted program name with a space, the parameter `D`
given twice, looked up as `d` with a destination of 5 characters. -/
theorem C29_parameter_lookup_witness :
    tokens [QUOTE, 'C', ':', ' ', 'x', QUOTE, ' ', '/', 'S', ' ', '/', 'D', '=', 'a', 'b',
        ' ', '/', 'd', '=', 'x', 'y', 'z', '1', '2'] =
      [['C', ':', ' ', 'x'], ['/', 'S'], ['/', 'D', '=', 'a', 'b'],
       ['/', 'd', '=', 'x', 'y', 'z', '1', '2']] ∧
    parse_commandline
        (some [QUOTE, 'C', ':', ' ', 'x', QUOTE, ' ', '/', 'S', ' ', '/', 'D', '=', 'a', 'b',
          ' ', '/', 'd', '=', 'x', 'y', 'z', '1', '2']) ['d'] ['n', 'o'] 5 =
      (true, ['x', 'y', 'z', '1']) ∧
    ((parse_commandline
        (some [QUOTE, 'C', ':', ' ', 'x', QUOTE, ' ', '/', 'S', ' ', '/', 'D', '=', 'a', 'b',
          ' ', '/', 'd', '=', 'x', 'y', 'z', '1', '2']) ['d'] ['n', 'o'] 5).1 = false ↔
      ∀ tok ∈ (tokens [QUOTE, 'C', ':', ' ', 'x', QUOTE, ' ', '/', 'S', ' ', '/', 'D', '=',
          'a', 'b', ' ', '/', 'd', '=', 'x', 'y', 'z', '1', '2']).tail,
        ∀ value, ¬is_parameter ['d'] tok value) :=
  ⟨by decide, by decide,
    (C29_parameter_lookup
      [QUOTE, 'C', ':', ' ', 'x', QUOTE, ' ', '/', 'S', ' ', '/', 'D', '=', 'a', 'b',
        ' ', '/', 'd', '=', 'x', 'y', 'z', '1', '2'] ['d'] ['n', 'o'] 5 []
      (by decide) (by decide) (by decide)).1⟩

/-- C29 as stated fails for a parameter name that contains `=` and for the empty name: with
the command line `p /a=b` the token `/a=b` is `/NAME` for the name `a=b`, and with `p /` the
token `/` is `/NAME` for the empty name, but `parse_commandline` returns false in both cases
and leaves the destination unchanged. -/
theorem C29_counterexample :
    (parse_commandline (some ['p', ' ', '/', 'a', '=', 'b']) ['a', '=', 'b'] ['n', 'o'] 1024 =
        (false, ['n', 'o']) ∧
      ['/', 'a', '=', 'b'] ∈ (tokens ['p', ' ', '/', 'a', '=', 'b']).tail ∧
      is_parameter ['a', '=', 'b'] ['/', 'a', '=', 'b'] []) ∧
    (parse_commandline (some ['p', ' ', '/']) [] ['n', 'o'] 1024 = (false, ['n', 'o']) ∧
      ['/'] ∈ (tokens ['p', ' ', '/']).tail ∧
      is_parameter [] ['/'] []) :=
  ⟨⟨by decide, by decide, ⟨['a', '=', 'b'], rfl, Or.inl ⟨rfl, rfl⟩⟩⟩,
    ⟨by decide, by decide, ⟨[], rfl, Or.inl ⟨rfl, rfl⟩⟩⟩⟩

end StdUtils
